import Mathlib

/-!
# qas: a shallow embedding of the QPU assembler's resolution and encoding passes

The definitions below follow the C sources function by function
(`instr.h`, `bits.h`, `main.c`, `alu.c`, `lisem.c`, `branch.c`).

Conventions of the embedding:

* a C function that mutates `struct instr *` and returns an `enum error` becomes a
  function returning `Option (error × instr)`: `none` is a failed `assert`
  (the process aborts), `some (e, i)` is a return of `e` with the record left as `i`
  (the record is returned on the error paths too, since the C code mutates in place);
* `int` fields that only ever hold table numbers or 0/1 flags are `Nat`; `pc` and the
  token cursor are `Int`; `unsigned int` and `uint64_t` arithmetic is `Nat` arithmetic
  reduced `% 2 ^ 32` resp. `% 2 ^ 64`;
* the tagged union `struct src` is an inductive type with one constructor per tag.
-/

namespace Qas

/-! ## Data model (`err.h`, `instr.h`) -/

/-- The `enum error` of `err.h`. -/
inductive error where
  | ERR_SUCCESS
  | ERR_PARAM
  | ERR_SYNTAX
  | ERR_NOT_FOUND
  deriving DecidableEq, Repr

/-- Numeric value of an `enum error` constant (its position in the enum). -/
def error.toNat : error → Nat
  | .ERR_SUCCESS => 0
  | .ERR_PARAM => 1
  | .ERR_SYNTAX => 2
  | .ERR_NOT_FOUND => 3

/-- The `enum reg_file` of `instr.h`. -/
inductive reg_file where
  | RF_A
  | RF_B
  | RF_AB
  | RF_R
  | RF_SIMM
  deriving DecidableEq, Repr

/-- The `struct reg` of `instr.h`. -/
structure reg where
  rf : reg_file
  num : Nat
  deriving DecidableEq, Repr

/-- The `struct src` of `instr.h`: the tag `type` (`ST_IMM32`, `ST_LABEL`, `ST_REG`)
together with the live member of the union `u`. -/
inductive src where
  | ST_IMM32 (imm32 : Nat)
  | ST_LABEL (label : String)
  | ST_REG (r : reg)
  deriving DecidableEq, Repr

/-- The `enum cond_code` of `instr.h` is stored as a number, because the branch parser
stores the values 0..11 and 15 in the same field. -/
abbrev cond_code := Nat

def CC_NEVER : cond_code := 0
def CC_ALWAYS : cond_code := 1
def CC_Z : cond_code := 2
def CC_NZ : cond_code := 3
def CC_N : cond_code := 4
def CC_NN : cond_code := 5
def CC_C : cond_code := 6
def CC_NC : cond_code := 7
def CC_DEFAULT : cond_code := 8

/-- The `enum op_code_type` of `instr.h`. -/
inductive op_code_type where
  | OP_TYPE_ADD
  | OP_TYPE_MUL
  | OP_TYPE_LI
  | OP_TYPE_SEM
  | OP_TYPE_BRANCH
  deriving DecidableEq, Repr

def OP_LI : Nat := 0
def OP_LIS : Nat := 1
def OP_LIU : Nat := 2
def OP_SEMUP : Nat := 0
def OP_SEMDN : Nat := 1
def OP_B : Nat := 0
def OP_BZ : Nat := 1
def OP_BNZ : Nat := 2
def OP_BN : Nat := 3
def OP_BNN : Nat := 4
def OP_BC : Nat := 5
def OP_BNC : Nat := 6

/-- The `struct op` of `instr.h`; `src[0]`, `src[1]` are `src0`, `src1`. -/
structure op where
  type : op_code_type
  code : Nat
  cond_code : cond_code
  dst : reg
  src0 : src
  src1 : src
  deriving DecidableEq, Repr

/-- The `struct instr` of `instr.h`; `op[0]`, `op[1]` are `op0`, `op1`, the two
`encoding` words are `encoding0` (low) and `encoding1` (high), and `labels` holds the
`num_labels` label names. -/
structure instr where
  labels : List String
  pc : Int
  op0 : op
  op1 : op
  signal : Nat
  set_flag : Nat
  write_swap : Nat
  branch_rel : Nat
  branch_reg : Nat
  encoding0 : Nat
  encoding1 : Nat
  token_start : List Nat
  token_end : List Nat
  num_tokens : Int
  curr_token : Int
  unpack : Nat
  deriving DecidableEq, Repr

/-- The outcome of a C function of type `int f(struct instr *)`. -/
abbrev outcome := Option (error × instr)

/-! ## Operand tables (`instr.h`) -/

/-- The `struct reg_info` of `instr.h`: a name and a number. -/
abbrev reg_info := String × Nat

def g_src_regs_r : List reg_info :=
  [("r0", 0), ("r1", 1), ("r2", 2), ("r3", 3), ("r4", 4), ("r5", 5)]

def g_src_regs_a : List reg_info :=
  [("a0", 0), ("a1", 1), ("a2", 2), ("a3", 3), ("a4", 4), ("a5", 5), ("a6", 6), ("a7", 7),
   ("a8", 8), ("a9", 9), ("a10", 10), ("a11", 11), ("a12", 12), ("a13", 13), ("a14", 14),
   ("a15", 15), ("a16", 16), ("a17", 17), ("a18", 18), ("a19", 19), ("a20", 20),
   ("a21", 21), ("a22", 22), ("a23", 23), ("a24", 24), ("a25", 25), ("a26", 26),
   ("a27", 27), ("a28", 28), ("a29", 29), ("a30", 30), ("a31", 31),
   ("ele", 38), ("x", 41), ("msf", 42), ("ldbusy", 49), ("ldwait", 50)]

def g_src_regs_b : List reg_info :=
  [("b0", 0), ("b1", 1), ("b2", 2), ("b3", 3), ("b4", 4), ("b5", 5), ("b6", 6), ("b7", 7),
   ("b8", 8), ("b9", 9), ("b10", 10), ("b11", 11), ("b12", 12), ("b13", 13), ("b14", 14),
   ("b15", 15), ("b16", 16), ("b17", 17), ("b18", 18), ("b19", 19), ("b20", 20),
   ("b21", 21), ("b22", 22), ("b23", 23), ("b24", 24), ("b25", 25), ("b26", 26),
   ("b27", 27), ("b28", 28), ("b29", 29), ("b30", 30), ("b31", 31),
   ("qpu", 38), ("y", 41), ("revf", 42), ("stbusy", 49), ("stwait", 50)]

def g_src_regs_ab : List reg_info :=
  [("unif", 32), ("vary", 35), ("-", 39), ("vpm", 48), ("mtxacq", 51)]

def g_src_regs_simm : List reg_info :=
  [("0", 0), ("1", 1), ("2", 2), ("3", 3), ("4", 4), ("5", 5), ("6", 6), ("7", 7),
   ("8", 8), ("9", 9), ("10", 10), ("11", 11), ("12", 12), ("13", 13), ("14", 14),
   ("15", 15),
   ("-16", 16), ("-15", 17), ("-14", 18), ("-13", 19), ("-12", 20), ("-11", 21),
   ("-10", 22), ("-9", 23), ("-8", 24), ("-7", 25), ("-6", 26), ("-5", 27), ("-4", 28),
   ("-3", 29), ("-2", 30), ("-1", 31),
   ("1f", 32), ("2f", 33), ("4f", 34), ("8f", 35), ("16f", 36), ("32f", 37), ("64f", 38),
   ("128f", 39),
   ("i256f", 40), ("i128f", 41), ("i64f", 42), ("i32f", 43), ("i16f", 44), ("i8f", 45),
   ("i4f", 46), ("i2f", 47),
   ("rotr5", 48), ("rot1", 49), ("rot2", 50), ("rot3", 51), ("rot4", 52), ("rot5", 53),
   ("rot6", 54), ("rot7", 55), ("rot8", 56), ("rot9", 57), ("rot10", 58), ("rot11", 59),
   ("rot12", 60), ("rot13", 61), ("rot14", 62), ("rot15", 63)]

def g_dst_regs_a : List reg_info :=
  [("a0", 0), ("a1", 1), ("a2", 2), ("a3", 3), ("a4", 4), ("a5", 5), ("a6", 6), ("a7", 7),
   ("a8", 8), ("a9", 9), ("a10", 10), ("a11", 11), ("a12", 12), ("a13", 13), ("a14", 14),
   ("a15", 15), ("a16", 16), ("a17", 17), ("a18", 18), ("a19", 19), ("a20", 20),
   ("a21", 21), ("a22", 22), ("a23", 23), ("a24", 24), ("a25", 25), ("a26", 26),
   ("a27", 27), ("a28", 28), ("a29", 29), ("a30", 30), ("a31", 31),
   ("qx", 41), ("msf", 42), ("vpmrds", 49), ("ldaddr", 50)]

def g_dst_regs_b : List reg_info :=
  [("b0", 0), ("b1", 1), ("b2", 2), ("b3", 3), ("b4", 4), ("b5", 5), ("b6", 6), ("b7", 7),
   ("b8", 8), ("b9", 9), ("b10", 10), ("b11", 11), ("b12", 12), ("b13", 13), ("b14", 14),
   ("b15", 15), ("b16", 16), ("b17", 17), ("b18", 18), ("b19", 19), ("b20", 20),
   ("b21", 21), ("b22", 22), ("b23", 23), ("b24", 24), ("b25", 25), ("b26", 26),
   ("b27", 27), ("b28", 28), ("b29", 29), ("b30", 30), ("b31", 31),
   ("qy", 41), ("revf", 42), ("vpmwrs", 49), ("staddr", 50)]

def g_dst_regs_ab : List reg_info :=
  [("r0", 32), ("r1", 33), ("r2", 34), ("r3", 35), ("tmunswp", 36), ("r5", 37),
   ("hostint", 38), ("-", 39), ("unif", 40), ("tlbss", 43), ("tlbz", 44), ("tlbcms", 45),
   ("tlbcall", 46), ("tlbalpha", 47), ("vpm", 48), ("mtxrel", 51), ("rcp", 52),
   ("rcpsqrt", 53), ("exp", 54), ("log", 55), ("tmu0s", 56), ("tmu0t", 57), ("tmu0r", 58),
   ("tmu0b", 59), ("tmu1s", 60), ("tmu1t", 61), ("tmu1r", 62), ("tmu1b", 63)]

/-- The inner loop shared by the table lookups: the first entry of `ri` whose name
equals `str` (the index `j` at which `for (j = 0; j < len; ++j) if (!strcmp(...)) break;`
stops), or `none` when `j == len`. -/
def find_name : List reg_info → String → Option reg_info
  | [], _ => none
  | e :: t, str => if e.1 = str then some e else find_name t str

/-- `parse_dst_reg` (main.c): the tables `g_dst_regs_a`, `g_dst_regs_b`,
`g_dst_regs_ab` are searched in this order; the table index is the register file. -/
def parse_dst_reg (str : String) : Option reg :=
  match find_name g_dst_regs_a str with
  | some e => some { rf := .RF_A, num := e.2 }
  | none =>
    match find_name g_dst_regs_b str with
    | some e => some { rf := .RF_B, num := e.2 }
    | none =>
      match find_name g_dst_regs_ab str with
      | some e => some { rf := .RF_AB, num := e.2 }
      | none => none

/-- `alu_parse_src` (alu.c): the register tables a, b, ab, r are searched in this
order, then the small-immediate table; `none` is the `ERR_SYNTAX` return (the output
operand is then not written). -/
def alu_parse_src (str : String) : Option src :=
  match find_name g_src_regs_a str with
  | some e => some (.ST_REG { rf := .RF_A, num := e.2 })
  | none =>
    match find_name g_src_regs_b str with
    | some e => some (.ST_REG { rf := .RF_B, num := e.2 })
    | none =>
      match find_name g_src_regs_ab str with
      | some e => some (.ST_REG { rf := .RF_AB, num := e.2 })
      | none =>
        match find_name g_src_regs_r str with
        | some e => some (.ST_REG { rf := .RF_R, num := e.2 })
        | none =>
          match find_name g_src_regs_simm str with
          | some e => some (.ST_REG { rf := .RF_SIMM, num := e.2 })
          | none => none

/-! ## Destination register files (`main.c`) -/

/-- `resolve_dst_regfiles` (main.c). -/
def resolve_dst_regfiles (i : instr) : outcome :=
  let rf0 := i.op0.dst.rf
  let rf1 := i.op1.dst.rf
  -- Add and Mul units both cannot write to the a (or b) simultaneously.
  if rf0 = rf1 ∧ rf0 ≠ .RF_AB then some (.ERR_SYNTAX, i)
  else
    let ws : Nat := if rf0 = .RF_B ∨ rf1 = .RF_A then 1 else 0
    let rf0' : reg_file :=
      if ws ≠ 0 then (if rf0 = .RF_AB then .RF_B else rf0)
      else (if rf0 = .RF_AB then .RF_A else rf0)
    let rf1' : reg_file :=
      if ws ≠ 0 then (if rf1 = .RF_AB then .RF_A else rf1)
      else (if rf1 = .RF_AB then .RF_B else rf1)
    -- assert(rf[0] != rf[1]);
    if rf0' = rf1' then none
    else
      some (.ERR_SUCCESS,
        { i with
          op0 := { i.op0 with dst := { i.op0.dst with rf := rf0' } }
          op1 := { i.op1 with dst := { i.op1.dst with rf := rf1' } }
          write_swap := ws })

/-- A destination register file that `parse_dst_reg` can produce (table index 0..2). -/
def is_dst_rf (rf : reg_file) : Prop :=
  rf = .RF_A ∨ rf = .RF_B ∨ rf = .RF_AB

instance (rf : reg_file) : Decidable (is_dst_rf rf) := by
  unfold is_dst_rf; infer_instance

/-! ## Read operands of the ALU family (`alu.c`) -/

/-- The C expression `1ull << num` on a `uint64_t`. -/
def mask_of (num : Nat) : Nat := (1 <<< num) % 2 ^ 64

/-- The `uint64_t masks[5]` array of `alu_resolve_src_regfiles`, indexed by register
file. -/
abbrev masks_t := reg_file → Nat

/-- Body of the first loop of `alu_resolve_src_regfiles` for one source:
`assert(src[i]->type == ST_REG)` (`none` when it fails), accumulators are skipped,
otherwise `masks[rf] |= 1ull << num`. -/
def add_src_mask (masks : masks_t) (s : src) : Option masks_t :=
  match s with
  | .ST_REG r =>
    if r.rf = .RF_R then some masks
    else some (Function.update masks r.rf (masks r.rf ||| mask_of r.num))
  | _ => none

/-- The first loop of `alu_resolve_src_regfiles` over `src[0..3]`, starting from the
zeroed `masks`. -/
def alu_src_masks (i : instr) : Option masks_t :=
  (add_src_mask (fun _ => 0) i.op0.src0).bind fun m0 =>
  (add_src_mask m0 i.op0.src1).bind fun m1 =>
  (add_src_mask m1 i.op1.src0).bind fun m2 =>
  add_src_mask m2 i.op1.src1

/-- The bit-counting loop `while (mask) { if (mask & 1) ++n; mask >>= 1; }`, with the
iteration count as fuel (a `uint64_t` is zero after 64 right shifts). -/
def count_mask_bits_loop : Nat → Nat → Nat → Nat
  | 0, _, n => n
  | fuel + 1, mask, n =>
    if mask = 0 then n
    else count_mask_bits_loop fuel (mask >>> 1) (if mask &&& 1 ≠ 0 then n + 1 else n)

/-- The value `n[i]` computed from `masks[i]` by the second loop of
`alu_resolve_src_regfiles`. -/
def count_mask_bits (mask : Nat) : Nat := count_mask_bits_loop 64 mask 0

/-- Body of the last loop of `alu_resolve_src_regfiles` for one source; `none` is the
`return ERR_SYNTAX` of the loop, otherwise the updated `masks` and source. -/
def resolve_ab_src (masks : masks_t) (s : src) : Option (masks_t × src) :=
  match s with
  | .ST_REG r =>
    if r.rf ≠ .RF_AB then some (masks, s)
    else
      let mask := mask_of r.num
      if masks .RF_A = 0 ∨ masks .RF_A = mask then
        some (Function.update masks .RF_A mask, .ST_REG { r with rf := .RF_A })
      else if masks .RF_B = 0 ∨ masks .RF_B = mask then
        some (Function.update masks .RF_B mask, .ST_REG { r with rf := .RF_B })
      else none
  | _ => some (masks, s)

/-- The last loop of `alu_resolve_src_regfiles` over `src[0..3]`; the sources resolved
before a failing one stay rewritten in the record. -/
def resolve_ab_srcs (masks : masks_t) (i : instr) : outcome :=
  match resolve_ab_src masks i.op0.src0 with
  | none => some (.ERR_SYNTAX, i)
  | some (m1, s0) =>
    let i1 := { i with op0 := { i.op0 with src0 := s0 } }
    match resolve_ab_src m1 i1.op0.src1 with
    | none => some (.ERR_SYNTAX, i1)
    | some (m2, s1) =>
      let i2 := { i1 with op0 := { i1.op0 with src1 := s1 } }
      match resolve_ab_src m2 i2.op1.src0 with
      | none => some (.ERR_SYNTAX, i2)
      | some (m3, s2) =>
        let i3 := { i2 with op1 := { i2.op1 with src0 := s2 } }
        match resolve_ab_src m3 i3.op1.src1 with
        | none => some (.ERR_SYNTAX, i3)
        | some (_, s3) =>
          some (.ERR_SUCCESS, { i3 with op1 := { i3.op1 with src1 := s3 } })

/-- `alu_resolve_src_regfiles` (alu.c). -/
def alu_resolve_src_regfiles (i : instr) : outcome :=
  match alu_src_masks i with
  | none => none
  | some masks =>
    let n : reg_file → Nat := fun f => count_mask_bits (masks f)
    -- There can't be more than one simm.
    if n .RF_SIMM ≥ 2 then some (.ERR_SYNTAX, i)
    else if n .RF_SIMM ≠ 0 ∧ i.signal ≠ 1 then some (.ERR_SYNTAX, i)
    else
      let i1 := if n .RF_SIMM ≠ 0 then { i with signal := 13 } else i
      -- No common among a,ab and among b,ab.
      if masks .RF_A &&& masks .RF_AB ≠ 0 then none
      else if masks .RF_B &&& masks .RF_AB ≠ 0 then none
      else
        let na := n .RF_A
        let nb := n .RF_B
        -- Single a port and single b port only.
        if na ≥ 2 ∨ nb ≥ 2 then some (.ERR_SYNTAX, i1)
        -- No RF_AB registers to resolve.
        else if masks .RF_AB = 0 then some (.ERR_SUCCESS, i1)
        -- Since both a and b are full, any from nab can't be fulfilled.
        else if na ≠ 0 ∧ nb ≠ 0 then some (.ERR_SYNTAX, i1)
        else resolve_ab_srcs masks i1

/-- `alu_op_nop` (alu.c). -/
def alu_op_nop (o : op) : op :=
  { o with
    code := 0
    cond_code := CC_NEVER
    dst := { rf := .RF_AB, num := 39 }
    src0 := .ST_REG { rf := .RF_R, num := 0 }
    src1 := .ST_REG { rf := .RF_R, num := 0 } }

/-- Body of the loop of `alu_reduce_op` for one source: the source as rewritten, and
the increments of `n_nops` and `n_ios`. -/
def reduce_src (s : src) : src × Nat × Nat :=
  match s with
  | .ST_REG r =>
    if r.rf ≠ .RF_A ∧ r.rf ≠ .RF_B then (s, 0, 0)
    else if r.num = 39 then (.ST_REG { rf := .RF_R, num := 0 }, 1, 0)
    else if r.num ≥ 32 then (s, 0, 1)
    else (s, 0, 0)
  | _ => (s, 0, 0)

/-- `alu_reduce_op` (alu.c); it always returns `ERR_SUCCESS`. -/
def alu_reduce_op (o : op) : error × op :=
  let r0 := reduce_src o.src0
  let r1 := reduce_src o.src1
  let n_nops := r0.2.1 + r1.2.1
  let n_ios := r0.2.2 + r1.2.2
  let o1 := { o with src0 := r0.1, src1 := r1.1 }
  -- If both the srcs are NOPs, change the op to NOP.
  let o2 := if n_nops = 2 then { o1 with cond_code := CC_NEVER } else o1
  -- If the dst is a NOP, and no src is an IO register, change the op to NOP.
  let o3 := if o2.dst.num = 39 ∧ n_ios = 0 then { o2 with cond_code := CC_NEVER } else o2
  if o3.cond_code = CC_NEVER then (.ERR_SUCCESS, alu_op_nop o3)
  else if o3.cond_code = CC_DEFAULT then (.ERR_SUCCESS, { o3 with cond_code := CC_ALWAYS })
  else (.ERR_SUCCESS, o3)

/-- The tail of `alu_resolve_instr` and of `lisem_resolve_instr`:
`if (op[k].cond_code == CC_NEVER) op[k].dst.num = 0;` for both slots. -/
def zero_never_dsts (i : instr) : instr :=
  let i1 :=
    if i.op0.cond_code = CC_NEVER then
      { i with op0 := { i.op0 with dst := { i.op0.dst with num := 0 } } }
    else i
  if i1.op1.cond_code = CC_NEVER then
    { i1 with op1 := { i1.op1 with dst := { i1.op1.dst with num := 0 } } }
  else i1

/-- `alu_resolve_instr` (alu.c). -/
def alu_resolve_instr (i : instr) : outcome :=
  match alu_resolve_src_regfiles i with
  | none => none
  | some (.ERR_SUCCESS, i1) =>
    let r0 := alu_reduce_op i1.op0
    let i2 := { i1 with op0 := r0.2 }
    if r0.1 ≠ .ERR_SUCCESS then some (r0.1, i2)
    else
      let r1 := alu_reduce_op i2.op1
      let i3 := { i2 with op1 := r1.2 }
      if r1.1 ≠ .ERR_SUCCESS then some (r1.1, i3)
      else
        match resolve_dst_regfiles i3 with
        | none => none
        | some (.ERR_SUCCESS, i4) => some (.ERR_SUCCESS, zero_never_dsts i4)
        | some (e, i4) => some (e, i4)
  | some (e, i1) => some (e, i1)

/-! ## Tokens and immediates (`main.c`) -/

/-- `get_next_token` (main.c). The token text is returned next to the record; it is
the empty string on the `ERR_SYNTAX` returns, where the C function leaves the caller's
buffer untouched and every caller returns at once. `none` is the failed
`assert(tlen < 512)`. The span arrays are read with default 0 where the list records
no entry (in C, a stale or out-of-bounds element), and the copied text ends at the first
NUL character, as the callers read it with `strcmp`. -/
def get_next_token (i : instr) (buf : List Char) : Option (error × instr × String) :=
  if i.num_tokens ≤ 0 then some (.ERR_SYNTAX, i, "")
  else
    let i1 := { i with curr_token := i.curr_token + 1 }
    if i1.curr_token = i1.num_tokens then some (.ERR_SYNTAX, i1, "")
    else
      let tnum := i1.curr_token.toNat
      let ts := i1.token_start.getD tnum 0
      let te := i1.token_end.getD tnum 0
      if te < ts ∨ te - ts ≥ 512 then none
      else
        let tlen := te - ts
        some (.ERR_SUCCESS, i1,
          String.mk (((buf.drop ts).take tlen).takeWhile fun c => c ≠ Char.ofNat 0))

/-- The `isdigit` of `ctype.h` in the C locale. -/
def isdigit (c : Char) : Bool := 48 ≤ c.toNat && c.toNat ≤ 57

/-- `ishexdigit` (main.c). -/
def ishexdigit (c : Char) : Bool :=
  (48 ≤ c.toNat && c.toNat ≤ 57) || (97 ≤ c.toNat && c.toNat ≤ 102) ||
    (65 ≤ c.toNat && c.toNat ≤ 70)

/-- The digit loop of `parse_imm32` over the characters from `pos` on, with the
`unsigned int imm` accumulator; `none` is the `ERR_SYNTAX` return. In the hexadecimal
branch a character that is not `0`..`9` contributes `10 + str[i] - 'a'`, an `int`
converted to `unsigned int`. -/
def parse_imm32_loop (hex : Bool) : List Char → Nat → Option Nat
  | [], imm => some imm
  | c :: cs, imm =>
    if !hex && !isdigit c then none
    else if hex && !ishexdigit c then none
    else if !hex then
      parse_imm32_loop hex cs ((imm * 10 % 2 ^ 32 + (c.toNat - 48)) % 2 ^ 32)
    else
      let imm1 := (imm <<< 4) % 2 ^ 32
      if 48 ≤ c.toNat ∧ c.toNat ≤ 57 then
        parse_imm32_loop hex cs (imm1 ||| (c.toNat - 48))
      else
        parse_imm32_loop hex cs
          (imm1 ||| ((10 + (c.toNat : Int) - 97) % 2 ^ 32).toNat)

/-- `parse_imm32` (main.c): the value as the `unsigned int` that is stored, or `none`
for `ERR_SYNTAX`. -/
def parse_imm32 (str : String) : Option Nat :=
  match str.data with
  | [] => none
  | c0 :: rest =>
    -- First needs to be a digit.
    if !isdigit c0 then none
    else
      let imm := c0.toNat - 48
      match rest with
      | [] => some imm
      | c1 :: rest1 =>
        if c1 = Char.ofNat 120 then
          if imm ≠ 0 then none
          else
            match rest1 with
            | [] => none
            | _ :: _ => parse_imm32_loop true rest1 imm
        else parse_imm32_loop false rest imm

/-! ## Load-immediate and semaphore family (`lisem.c`) -/

/-- `li_reduce_alu_nop` (lisem.c). -/
def li_reduce_alu_nop (o : op) : op :=
  { o with
    type := .OP_TYPE_ADD
    code := 0
    cond_code := CC_NEVER
    src0 := .ST_REG { rf := .RF_R, num := 0 }
    src1 := .ST_REG { rf := .RF_R, num := 0 } }

/-- The statements `if (op[k].cond_code == CC_DEFAULT) op[k].cond_code = CC_ALWAYS;` of
`lisem_resolve_instr`, for both slots. -/
def default_conds_always (i : instr) : instr :=
  let i1 :=
    if i.op0.cond_code = CC_DEFAULT then
      { i with op0 := { i.op0 with cond_code := CC_ALWAYS } }
    else i
  if i1.op1.cond_code = CC_DEFAULT then
    { i1 with op1 := { i1.op1 with cond_code := CC_ALWAYS } }
  else i1

/-- `lisem_resolve_instr` (lisem.c). -/
def lisem_resolve_instr (i : instr) : outcome :=
  if i.op0.type = .OP_TYPE_SEM then some (.ERR_SUCCESS, i)
  else
    match resolve_dst_regfiles i with
    | none => none
    | some (.ERR_SUCCESS, i1) =>
      let i4 := zero_never_dsts (default_conds_always i1)
      -- If both cc are CC_NEVER, change the instruction into a nop.
      if i4.op0.cond_code = CC_NEVER ∧ i4.op1.cond_code = CC_NEVER then
        let o0 := li_reduce_alu_nop i4.op0
        let o1 := li_reduce_alu_nop i4.op1
        some (.ERR_SUCCESS,
          { i4 with
            op0 := { o0 with dst := { o0.dst with rf := .RF_A } }
            op1 := { o1 with dst := { o1.dst with rf := .RF_B } }
            signal := 1
            write_swap := 0 })
      else some (.ERR_SUCCESS, i4)
    | some (e, i1) => some (e, i1)

/-- `sem_parse_instr` (lisem.c). -/
def sem_parse_instr (i : instr) (buf : List Char) : outcome :=
  let i0 := { i with unpack := 4 }
  match get_next_token i0 buf with
  | none => none
  | some (.ERR_SUCCESS, i1, token) =>
    -- If the token isn't a , then error.
    if token ≠ "," then some (.ERR_SYNTAX, i1)
    else
      match get_next_token i1 buf with
      | none => none
      | some (.ERR_SUCCESS, i2, token2) =>
        -- Parse the imm32 source.
        match parse_imm32 token2 with
        | none => some (.ERR_SYNTAX, i2)
        | some imm32 =>
          some (.ERR_SUCCESS,
            { i2 with
              op0 :=
                { i2.op0 with
                  src0 := .ST_IMM32 imm32
                  cond_code := CC_ALWAYS
                  dst := { rf := .RF_A, num := 39 } }
              op1 :=
                { i2.op1 with
                  cond_code := CC_NEVER
                  dst := { rf := .RF_B, num := 0 } }
              write_swap := 0 })
      | some (e, i2, _) => some (e, i2)
  | some (e, i1, _) => some (e, i1)

/-! ## Bit fields (`bits.h`, `instr.h`) -/

/-- A field `f` of `bits.h`: the pair `f##_POS`, `f##_BITS`. -/
structure bitfield where
  pos : Nat
  bits : Nat
  deriving DecidableEq, Repr

def bits_size (f : bitfield) : Nat := 1 <<< f.bits
def bits_mask (f : bitfield) : Nat := bits_size f - 1
def bits_set (f : bitfield) (v : Nat) : Nat := (v &&& bits_mask f) <<< f.pos
def bits_get (v : Nat) (f : bitfield) : Nat := (v >>> f.pos) &&& bits_mask f
def bits_on (f : bitfield) : Nat := bits_mask f <<< f.pos

def MUL_B : bitfield := ⟨0, 3⟩
def MUL_A : bitfield := ⟨3, 3⟩
def ADD_B : bitfield := ⟨6, 3⟩
def ADD_A : bitfield := ⟨9, 3⟩
def RADDR_B : bitfield := ⟨12, 6⟩
def RADDR_A : bitfield := ⟨18, 6⟩
def ADD_OP : bitfield := ⟨24, 5⟩
def MUL_OP : bitfield := ⟨29, 3⟩

def MUL_DST : bitfield := ⟨0, 6⟩
def ADD_DST : bitfield := ⟨6, 6⟩
def WS : bitfield := ⟨12, 1⟩
def SF : bitfield := ⟨13, 1⟩
def MUL_COND : bitfield := ⟨14, 3⟩
def ADD_COND : bitfield := ⟨17, 3⟩
def PACK : bitfield := ⟨20, 4⟩
def PM : bitfield := ⟨24, 1⟩
def UNPACK : bitfield := ⟨25, 3⟩
def SIG : bitfield := ⟨28, 4⟩

def BR_RADDR_A : bitfield := ⟨13, 5⟩
def BR_REG : bitfield := ⟨18, 1⟩
def BR_REL : bitfield := ⟨19, 1⟩

/-- An assignment to an `unsigned int`. -/
def u32 (v : Nat) : Nat := v % 2 ^ 32

/-! ## Branch family (`branch.c`) -/

/-- The inner loop of `branch_resolve_instr`: whether some `ti->labels[j]` equals
`label` (`j < ti->num_labels` after the loop). -/
def has_label (label : String) : List String → Bool
  | [] => false
  | l :: ls => if label = l then true else has_label label ls

/-- The outer loop of `branch_resolve_instr`: the first instruction, in program
order, one of whose labels is `label`; `none` when `i == num_instrs`. -/
def find_target (label : String) : List instr → Option instr
  | [] => none
  | ti :: rest => if has_label label ti.labels then some ti else find_target label rest

/-- `branch_resolve_instr` (branch.c). `instrs` is the whole program; the instruction
being resolved is an element of it, and the only fields read from a target (`labels`,
`pc`) are not written by this function. The displacement is computed in `int` and
stored in the `uint32_t` member `imm32`. -/
def branch_resolve_instr (instrs : List instr) (i : instr) : outcome :=
  match resolve_dst_regfiles i with
  | none => none
  | some (.ERR_SUCCESS, i1) =>
    match i1.op0.src0 with
    | .ST_LABEL label =>
      match find_target label instrs with
      | none => some (.ERR_SYNTAX, i1)
      | some ti =>
        -- Convert from label to imm32.
        some (.ERR_SUCCESS,
          { i1 with
            op0 :=
              { i1.op0 with
                src0 := .ST_IMM32 ((ti.pc - (i1.pc + 4 * 8)) % 2 ^ 32).toNat } })
    -- If it isn't a relative branch, no need to process.
    | _ => some (.ERR_SUCCESS, i1)
  | some (e, i1) => some (e, i1)

/-- `branch_gen_code` (branch.c); `none` is a failed `assert`. -/
def branch_gen_code (i : instr) : Option instr :=
  let v0 :=
    bits_set SIG i.signal ||| bits_set PACK i.op0.cond_code |||
      bits_set ADD_DST i.op0.dst.num ||| bits_set MUL_DST i.op1.dst.num
  let v1 := if i.write_swap ≠ 0 then v0 ||| bits_on WS else v0
  if i.branch_rel ≠ 0 then
    let v2 := v1 ||| bits_on BR_REL
    match i.op0.src0 with
    | .ST_IMM32 imm32 => some { i with encoding0 := imm32, encoding1 := u32 v2 }
    | _ => none
  else if i.branch_reg ≠ 0 then
    let v2 := v1 ||| bits_on BR_REG
    match i.op0.src0 with
    | .ST_REG r =>
      if r.rf ≠ .RF_A then none
      else
        let v3 := v2 ||| bits_set BR_RADDR_A r.num
        match i.op0.src1 with
        | .ST_IMM32 imm32 => some { i with encoding0 := imm32, encoding1 := u32 v3 }
        | _ => none
    | _ => none
  else none

/-! ## Encoders of the ALU and load-immediate families (`alu.c`, `lisem.c`) -/

/-- The macro `FILL_SLOT(slot)` of `alu_gen_code` applied to the register `r` (`rf`,
`num`), on the state `(v, raddr_a, raddr_b)`; `none` is the `assert(0)`. -/
def FILL_SLOT (slot : bitfield) (r : reg) (st : Nat × Nat × Nat) : Option (Nat × Nat × Nat) :=
  if r.rf = .RF_R then some (st.1 ||| bits_set slot r.num, st.2.1, st.2.2)
  else if r.rf = .RF_A then some (st.1 ||| bits_set slot 6, r.num, st.2.2)
  else if r.rf = .RF_B ∨ r.rf = .RF_SIMM then some (st.1 ||| bits_set slot 7, st.2.1, r.num)
  else none

/-- `alu_gen_code` (alu.c); `none` is a failed `assert`. -/
def alu_gen_code (i : instr) : Option instr :=
  let v0 := bits_set ADD_DST i.op0.dst.num ||| bits_set MUL_DST i.op1.dst.num
  let v1 := if i.write_swap ≠ 0 then v0 ||| bits_on WS else v0
  let v2 := if i.set_flag ≠ 0 then v1 ||| bits_on SF else v1
  -- assert(instr->op[k].cond_code != CC_DEFAULT);
  if i.op0.cond_code = CC_DEFAULT ∨ i.op1.cond_code = CC_DEFAULT then none
  else
    let hi :=
      v2 ||| bits_set ADD_COND i.op0.cond_code ||| bits_set MUL_COND i.op1.cond_code |||
        bits_set SIG i.signal
    -- assert(src[k]->type == ST_REG);
    match i.op0.src0, i.op0.src1, i.op1.src0, i.op1.src1 with
    | .ST_REG r0, .ST_REG r1, .ST_REG r2, .ST_REG r3 =>
      (FILL_SLOT ADD_A r0 (0, 0, 0)).bind fun st0 =>
      (FILL_SLOT ADD_B r1 st0).bind fun st1 =>
      (FILL_SLOT MUL_A r2 st1).bind fun st2 =>
      (FILL_SLOT MUL_B r3 st2).bind fun st3 =>
        let lo :=
          st3.1 ||| bits_set RADDR_A st3.2.1 ||| bits_set RADDR_B st3.2.2 |||
            bits_set MUL_OP i.op1.code ||| bits_set ADD_OP i.op0.code
        some { i with encoding0 := u32 lo, encoding1 := u32 hi }
    | _, _, _, _ => none

/-- `lisem_gen_code` (lisem.c); `none` is the failed `assert` on the source type. -/
def lisem_gen_code (i : instr) : Option instr :=
  let v0 :=
    bits_set SIG i.signal ||| bits_set UNPACK i.unpack |||
      bits_set ADD_COND i.op0.cond_code ||| bits_set MUL_COND i.op1.cond_code
  let v1 := if i.set_flag ≠ 0 then v0 ||| bits_on SF else v0
  let v2 := if i.write_swap ≠ 0 then v1 ||| bits_on WS else v1
  let hi := v2 ||| bits_set ADD_DST i.op0.dst.num ||| bits_set MUL_DST i.op1.dst.num
  match i.op0.src0 with
  | .ST_IMM32 imm32 =>
    let lo :=
      if i.op0.type = .OP_TYPE_SEM then
        if i.op0.code = OP_SEMDN then (imm32 &&& 0xf) ||| (1 <<< 4) else imm32 &&& 0xf
      else imm32
    some { i with encoding0 := u32 lo, encoding1 := u32 hi }
  | _ => none

/-- `gen_code` (main.c) for the instruction `i` of the program `instrs`: resolve by
family, re-read the type, encode. The `printf` is left out. -/
def gen_code (instrs : List instr) (i : instr) : outcome :=
  let resolved : outcome :=
    match i.op0.type with
    | .OP_TYPE_ADD => alu_resolve_instr i
    | .OP_TYPE_LI => lisem_resolve_instr i
    | .OP_TYPE_SEM => lisem_resolve_instr i
    | .OP_TYPE_BRANCH => branch_resolve_instr instrs i
    | .OP_TYPE_MUL => some (.ERR_SYNTAX, i)
  match resolved with
  | none => none
  | some (.ERR_SUCCESS, i1) =>
    -- Resolve may change the type. Re-read.
    match i1.op0.type with
    | .OP_TYPE_ADD => (alu_gen_code i1).map fun i2 => (.ERR_SUCCESS, i2)
    | .OP_TYPE_LI => (lisem_gen_code i1).map fun i2 => (.ERR_SUCCESS, i2)
    | .OP_TYPE_SEM => (lisem_gen_code i1).map fun i2 => (.ERR_SUCCESS, i2)
    | .OP_TYPE_BRANCH => (branch_gen_code i1).map fun i2 => (.ERR_SUCCESS, i2)
    | .OP_TYPE_MUL => some (.ERR_SYNTAX, i1)
  | some (e, i1) => some (e, i1)

/-! ## Opcode and condition tables, and the family parsers (`instr.h`, `main.c`, `alu.c`, `branch.c`) -/

/-- The `struct op_code_info` of `instr.h`: a name and a code. -/
abbrev op_code_info := String × Nat

def g_op_codes_add : List op_code_info :=
  [("-", 0), ("fadd", 1), ("fsub", 2), ("fmin", 3), ("fmax", 4), ("fminabs", 5),
   ("fmaxabs", 6), ("ftoi", 7), ("itof", 8),
   ("add", 12), ("sub", 13), ("shr", 14), ("asr", 15), ("ror", 16), ("shl", 17),
   ("min", 18), ("max", 19), ("and", 20), ("or", 21), ("xor", 22), ("not", 23),
   ("clz", 24),
   ("v8adds", 30), ("v8subs", 31)]

def g_op_codes_mul : List op_code_info :=
  [("-", 0), ("fmul", 1), ("mul24", 2), ("v8muld", 3), ("v8min", 4), ("v8max", 5),
   ("v8adds", 6), ("v8subs", 7)]

def g_op_codes_li : List op_code_info :=
  [("li", OP_LI), ("lis", OP_LIS), ("liu", OP_LIU)]

def g_op_codes_sem : List op_code_info :=
  [("semup", OP_SEMUP), ("semdn", OP_SEMDN)]

def g_op_codes_branch : List op_code_info :=
  [("b", OP_B), ("bz", OP_BZ), ("bnz", OP_BNZ), ("bn", OP_BN), ("bnn", OP_BNN),
   ("bc", OP_BC), ("bnc", OP_BNC)]

/-- The `struct cond_code_info` table `g_cond_codes` of `instr.h`. -/
def g_cond_codes : List (String × cond_code) :=
  [("x", CC_NEVER), ("a", CC_ALWAYS), ("z", CC_Z), ("nz", CC_NZ), ("n", CC_N),
   ("nn", CC_NN), ("c", CC_C), ("nc", CC_NC)]

/-- `parse_op_code` (main.c): the tables add, mul, li, sem, branch are searched in this
order; on a match the table index becomes `out_op->type` and the entry's code
`out_op->code`. `none` is the `ERR_SYNTAX` return, which leaves `out_op` untouched. -/
def parse_op_code (str : String) (out_op : op) : Option op :=
  match find_name g_op_codes_add str with
  | some e => some { out_op with type := .OP_TYPE_ADD, code := e.2 }
  | none =>
    match find_name g_op_codes_mul str with
    | some e => some { out_op with type := .OP_TYPE_MUL, code := e.2 }
    | none =>
      match find_name g_op_codes_li str with
      | some e => some { out_op with type := .OP_TYPE_LI, code := e.2 }
      | none =>
        match find_name g_op_codes_sem str with
        | some e => some { out_op with type := .OP_TYPE_SEM, code := e.2 }
        | none =>
          match find_name g_op_codes_branch str with
          | some e => some { out_op with type := .OP_TYPE_BRANCH, code := e.2 }
          | none => none

/-- `parse_cond_code` (main.c); `none` is the `ERR_SYNTAX` return. -/
def parse_cond_code (str : String) : Option cond_code :=
  (find_name g_cond_codes str).map fun e => e.2

/-- The statement pair `err = get_next_token(instr, token, buf); if (err) return err;`
followed by the rest `k` of the calling function, which receives the record and the
token. -/
def next_token (i : instr) (buf : List Char) (k : instr → String → outcome) : outcome :=
  match get_next_token i buf with
  | none => none
  | some (.ERR_SUCCESS, i1, token) => k i1 token
  | some (e, i1, _) => some (e, i1)

/-- The slot `op[k]` of a record (`k = 0` the add slot, otherwise the mul slot). -/
def get_op (i : instr) (k : Nat) : op := if k = 0 then i.op0 else i.op1

/-- The record with the slot `op[k]` replaced. -/
def set_op (i : instr) (k : Nat) (o : op) : instr :=
  if k = 0 then { i with op0 := o } else { i with op1 := o }

/-- `alu_parse_op_add_mul` (alu.c), called with `op = &instr->op[k]`. -/
def alu_parse_op_add_mul (i : instr) (buf : List Char) (k : Nat) : outcome :=
  -- assert(op->cond_code == CC_DEFAULT);
  if (get_op i k).cond_code ≠ CC_DEFAULT then none
  else
    -- Skip the opcode.
    next_token i buf fun i1 token =>
    -- If the next token is a ., then we have .cc
    let after_cc (i2 : instr) (token2 : String) : outcome :=
      -- If the token isn't a , then error.
      if token2 ≠ "," then some (.ERR_SYNTAX, i2)
      else
        -- Parse the dst.
        next_token i2 buf fun i3 token3 =>
        match parse_dst_reg token3 with
        | none => some (.ERR_SYNTAX, i3)
        | some dst =>
          let i4 := set_op i3 k { get_op i3 k with dst := dst }
          next_token i4 buf fun i5 token5 =>
          if token5 ≠ "," then some (.ERR_SYNTAX, i5)
          else
            -- Parse src0
            next_token i5 buf fun i6 token6 =>
            match alu_parse_src token6 with
            | none => some (.ERR_SYNTAX, i6)
            | some s0 =>
              let i7 := set_op i6 k { get_op i6 k with src0 := s0 }
              next_token i7 buf fun i8 token8 =>
              if token8 ≠ "," then some (.ERR_SYNTAX, i8)
              else
                -- Parse src1
                next_token i8 buf fun i9 token9 =>
                match alu_parse_src token9 with
                | none => some (.ERR_SYNTAX, i9)
                | some s1 =>
                  some (.ERR_SUCCESS, set_op i9 k { get_op i9 k with src1 := s1 })
    if token = "." then
      next_token i1 buf fun i2 token2 =>
      match parse_cond_code token2 with
      | none => some (.ERR_SYNTAX, i2)
      | some cc =>
        let i3 := set_op i2 k { get_op i2 k with cond_code := cc }
        next_token i3 buf after_cc
    else after_cc i1 token

/-- The second half of `alu_parse_instr`: the mul-slot mnemonic and the mul slot. -/
def alu_parse_mul_slot (i : instr) (buf : List Char) : outcome :=
  next_token i buf fun i1 token =>
  match parse_op_code token i1.op1 with
  | none => some (.ERR_SYNTAX, i1)
  | some o1 =>
    let i2 := { i1 with op1 := o1 }
    if i2.op1.code = 0 then some (.ERR_SUCCESS, { i2 with op1 := alu_op_nop i2.op1 })
    else alu_parse_op_add_mul i2 buf 1

/-- `alu_parse_instr` (alu.c). -/
def alu_parse_instr (i : instr) (buf : List Char) : outcome :=
  if i.op0.code = 0 then alu_parse_mul_slot { i with op0 := alu_op_nop i.op0 } buf
  else
    match alu_parse_op_add_mul i buf 0 with
    | none => none
    | some (.ERR_SUCCESS, i1) => alu_parse_mul_slot i1 buf
    | some (e, i1) => some (e, i1)

/-- The branch condition that `branch_parse_instr` stores: 15 for `b`; otherwise bit 0
is set for `bnz`, `bnn`, `bnc`, bit 1 when `is_all` is 0 (the suffix `.any`), and bits
3:2 hold 1 for `bn`, `bnn` and 2 for `bc`, `bnc`. `is_all` is -1 without a suffix. -/
def branch_cond (code : Nat) (is_all : Int) : cond_code :=
  if code ≠ OP_B then
    let i0 : Nat := if is_all = 0 then 0 ||| (1 <<< 1) else 0
    let i1 : Nat :=
      if code = OP_BNZ ∨ code = OP_BNN ∨ code = OP_BNC then i0 ||| (1 <<< 0) else i0
    if code = OP_BN ∨ code = OP_BNN then i1 ||| (1 <<< 2)
    else if code = OP_BC ∨ code = OP_BNC then i1 ||| (2 <<< 2)
    else i1
  else 15

/-- The part of `branch_parse_instr` that follows the target token `token`: the
register form when `token` is one of the first 32 entries of `g_src_regs_a`, the label
form otherwise, then the closing `;`. -/
def branch_parse_target (i : instr) (buf : List Char) (token : String) : outcome :=
  let closing (i1 : instr) : outcome :=
    next_token i1 buf fun i2 token2 =>
    if token2 ≠ ";" then some (.ERR_SYNTAX, i2) else some (.ERR_SUCCESS, i2)
  match find_name (g_src_regs_a.take 32) token with
  | some e =>
    -- rel == 0, reg == 1
    let i1 :=
      { i with
        branch_rel := 0
        branch_reg := 1
        op0 := { i.op0 with src0 := .ST_REG { rf := .RF_A, num := e.2 } } }
    next_token i1 buf fun i2 token2 =>
    if token2 ≠ "," then some (.ERR_SYNTAX, i2)
    else
      next_token i2 buf fun i3 token3 =>
      -- Parse the imm32 source.
      match parse_imm32 token3 with
      | none => some (.ERR_SYNTAX, i3)
      | some imm32 => closing { i3 with op0 := { i3.op0 with src1 := .ST_IMM32 imm32 } }
  | none =>
    -- token is a label: rel == 1, reg == 0
    closing
      { i with
        branch_rel := 1
        branch_reg := 0
        op0 := { i.op0 with src0 := .ST_LABEL token } }

/-- The part of `branch_parse_instr` up to and including the read of the target token:
the optional `.all` / `.any` suffix, the condition, the two destinations and the three
commas. `k` receives the record and the target token. -/
def branch_parse_head (i : instr) (buf : List Char) (k : instr → String → outcome) :
    outcome :=
  let i0 := { i with signal := 15 }
  next_token i0 buf fun i1 token =>
  let after_suffix (is_all : Int) (i2 : instr) (token2 : String) : outcome :=
    let i3 :=
      { i2 with op0 := { i2.op0 with cond_code := branch_cond i2.op0.code is_all } }
    -- Parse the two dst.
    if token2 ≠ "," then some (.ERR_SYNTAX, i3)
    else
      next_token i3 buf fun i4 token4 =>
      match parse_dst_reg token4 with
      | none => some (.ERR_SYNTAX, i4)
      | some d0 =>
        let i5 := { i4 with op0 := { i4.op0 with dst := d0 } }
        next_token i5 buf fun i6 token6 =>
        if token6 ≠ "," then some (.ERR_SYNTAX, i6)
        else
          next_token i6 buf fun i7 token7 =>
          match parse_dst_reg token7 with
          | none => some (.ERR_SYNTAX, i7)
          | some d1 =>
            let i8 := { i7 with op1 := { i7.op1 with dst := d1 } }
            next_token i8 buf fun i9 token9 =>
            if token9 ≠ "," then some (.ERR_SYNTAX, i9)
            else next_token i9 buf k
  -- If the next token is a ., then we have .all or .any
  if token = "." then
    next_token i1 buf fun i2 token2 =>
    if token2 = "all" then next_token i2 buf (after_suffix 1)
    else if token2 = "any" then next_token i2 buf (after_suffix 0)
    else some (.ERR_SYNTAX, i2)
  else after_suffix (-1) i1 token

/-- `branch_parse_instr` (branch.c). -/
def branch_parse_instr (i : instr) (buf : List Char) : outcome :=
  branch_parse_head i buf fun i1 token => branch_parse_target i1 buf token

/-! ## Whole-instruction parsers (`lisem.c`, `main.c`) -/

/-- The `struct signal_info` table `g_signals` of `instr.h`. -/
def g_signals : List (String × Nat) :=
  [("bkpt", 0), ("swt", 2), ("endp", 3), ("wtsb", 4), ("ulsb", 5), ("swtl", 6),
   ("ldcvr", 7), ("ldclr", 8), ("ldclrep", 9), ("ldtm0", 10), ("ldtm1", 11),
   ("ldalpha", 12)]

/-- `parse_signal` (main.c); `none` is the `ERR_SYNTAX` return. -/
def parse_signal (str : String) : Option Nat :=
  (find_name g_signals str).map fun e => e.2

/-- The assignment `src->type = ST_IMM32` alone: the member `u.imm32` keeps the bytes of
the union, which are the stored immediate if the operand was an immediate. Otherwise they
are the stale bytes of the other member and are taken as 0 here: on its successful return
`li_parse_instr` has assigned `u.imm32`, and on an error return, where the stale bytes
stay, `main` stops and the member is not read. -/
def retype_imm32 (s : src) : src :=
  match s with
  | .ST_IMM32 v => .ST_IMM32 v
  | _ => .ST_IMM32 0

/-- The end of the body of the destination loop of `li_parse_instr` for the slot `o`:
a slot with condition Never gets the destination `(AB, 39)`, any other slot with
destination number 39 gets the condition Never; `none` is the failed
`assert(op[i].dst.rf == RF_AB)`. -/
def li_fix_dst (o : op) : Option op :=
  if o.cond_code = CC_NEVER then some { o with dst := { rf := .RF_AB, num := 39 } }
  else if o.dst.num = 39 then
    if o.dst.rf ≠ .RF_AB then none else some { o with cond_code := CC_NEVER }
  else some o

/-- `li_parse_instr` (lisem.c). -/
def li_parse_instr (i : instr) (buf : List Char) : outcome :=
  let i0 :=
    if i.op0.code = OP_LIS then { i with unpack := 1 }
    else if i.op0.code = OP_LIU then { i with unpack := 3 }
    else i
  next_token i0 buf fun i1 token =>
  -- Single source, with type imm32.
  let i2 := { i1 with op0 := { i1.op0 with src0 := retype_imm32 i1.op0.src0 } }
  -- Parse the two dst.
  let dsts (i3 : instr) (token3 : String) : outcome :=
    -- If the token isn't a , then error.
    if token3 ≠ "," then some (.ERR_SYNTAX, i3)
    else
      next_token i3 buf fun i4 token4 =>
      match parse_dst_reg token4 with
      | none => some (.ERR_SYNTAX, i4)
      | some d0 =>
        next_token { i4 with op0 := { i4.op0 with dst := d0 } } buf fun i6 token6 =>
        match li_fix_dst i6.op0 with
        | none => none
        | some o0 =>
          let i7 := { i6 with op0 := o0 }
          if token6 ≠ "," then some (.ERR_SYNTAX, i7)
          else
            next_token i7 buf fun i8 token8 =>
            match parse_dst_reg token8 with
            | none => some (.ERR_SYNTAX, i8)
            | some d1 =>
              next_token { i8 with op1 := { i8.op1 with dst := d1 } } buf fun i10 token10 =>
              match li_fix_dst i10.op1 with
              | none => none
              | some o1 =>
                let i11 := { i10 with op1 := o1 }
                if token10 ≠ "," then some (.ERR_SYNTAX, i11)
                else
                  next_token i11 buf fun i12 token12 =>
                  -- Parse the imm32 source.
                  match parse_imm32 token12 with
                  | none => some (.ERR_SYNTAX, i12)
                  | some imm32 =>
                    some (.ERR_SUCCESS,
                      { i12 with op0 := { i12.op0 with src0 := .ST_IMM32 imm32 } })
  -- If the next token is a ., then we have .cc.cc
  if token = "." then
    next_token i2 buf fun i3 token3 =>
    match parse_cond_code token3 with
    | none => some (.ERR_SYNTAX, i3)
    | some cc0 =>
      next_token { i3 with op0 := { i3.op0 with cond_code := cc0 } } buf fun i5 token5 =>
      if token5 ≠ "." then some (.ERR_SYNTAX, i5)
      else
        next_token i5 buf fun i6 token6 =>
        match parse_cond_code token6 with
        | none => some (.ERR_SYNTAX, i6)
        | some cc1 =>
          next_token { i6 with op1 := { i6.op1 with cond_code := cc1 } } buf dsts
  else dsts i2 token

/-- `lisem_parse_instr` (lisem.c). -/
def lisem_parse_instr (i : instr) (buf : List Char) : outcome :=
  let i0 := { i with signal := 14 }
  if i0.op0.type = .OP_TYPE_LI then li_parse_instr i0 buf else sem_parse_instr i0 buf

/-- The loop `for (;;)` of `parse_instr` over the tokens that follow the operands: `sf`
and signal tokens up to the `;`. `type` is the family read before the operands were
parsed. Every iteration that does not return advances the cursor, so the number of
iterations is bounded by the fuel that `parse_instr` passes; `none` is the exhausted
fuel or a failed `assert` of `get_next_token`. -/
def parse_flags (type : op_code_type) : Nat → instr → List Char → outcome
  | 0, _, _ => none
  | fuel + 1, i, buf =>
    next_token i buf fun i1 token =>
    if token = ";" then some (.ERR_SUCCESS, i1)
    else if token = "sf" then
      -- Not more than one sf.
      if i1.set_flag ≠ 0 then some (.ERR_SYNTAX, i1)
      else parse_flags type fuel { i1 with set_flag := 1 } buf
    else
      match parse_signal token with
      | none => some (.ERR_SYNTAX, i1)
      | some signal =>
        -- LI and SEM do not support unpack or sig.
        if type = .OP_TYPE_LI ∨ type = .OP_TYPE_SEM then some (.ERR_SYNTAX, i1)
        -- Can't have multiple signals.
        else if i1.signal ≠ 1 then some (.ERR_SYNTAX, i1)
        else parse_flags type fuel { i1 with signal := signal } buf

/-- `parse_instr` (main.c); `print_tokens` is left out. The loop over the trailing tokens
gets one unit of fuel for every token that is left, and one more. -/
def parse_instr (i : instr) (buf : List Char) : outcome :=
  let i0 :=
    { i with
      unpack := 0
      signal := 1
      set_flag := 0
      write_swap := 0
      op0 := { i.op0 with cond_code := CC_DEFAULT }
      op1 := { i.op1 with cond_code := CC_DEFAULT } }
  next_token i0 buf fun i1 token =>
  match parse_op_code token i1.op0 with
  | none => some (.ERR_SYNTAX, i1)
  | some o0 =>
    let i2 := { i1 with op0 := o0 }
    let type := i2.op0.type
    let parsed : outcome :=
      match type with
      | .OP_TYPE_ADD => alu_parse_instr i2 buf
      | .OP_TYPE_LI => lisem_parse_instr i2 buf
      | .OP_TYPE_SEM => lisem_parse_instr i2 buf
      | .OP_TYPE_BRANCH => branch_parse_instr i2 buf
      | .OP_TYPE_MUL => some (.ERR_SYNTAX, i2)
    match parsed with
    | none => none
    | some (.ERR_SUCCESS, i3) =>
      -- Branch instructions do not support sf,unpack,pack,sig bits.
      if type = .OP_TYPE_BRANCH then some (.ERR_SUCCESS, i3)
      else parse_flags type ((i3.num_tokens - i3.curr_token).toNat + 1) i3 buf
    | some (e, i3) => some (e, i3)

/-! ## The tokenizer (`main.c`) -/

/-- `MAX_TOKENS_PER_LINE` (main.c). -/
def MAX_TOKENS_PER_LINE : Nat := 512

/-- The `isspace` of `ctype.h` in the C locale: space, `\t`, `\n`, `\v`, `\f`, `\r`. -/
def isspace (c : Char) : Bool := c.toNat = 32 || (9 ≤ c.toNat && c.toNat ≤ 13)

/-- The assignment `a[k] = v` on an `int` array whose leading elements are the list `a`
(the elements behind the list are 0, as `get_next_token` reads them). -/
def array_set (a : List Nat) (k v : Nat) : List Nat :=
  if k < a.length then a.set k v else a ++ List.replicate (k - a.length) 0 ++ [v]

/-- The pair of assignments `instr->token_start[k] = s; instr->token_end[k] = e;`. -/
def set_token (i : instr) (k s e : Nat) : instr :=
  { i with token_start := array_set i.token_start k s, token_end := array_set i.token_end k e }

/-- The loop of `tokenize_instr` from the index `i` on, with `n` characters left before
`end`. `ts` is the local `token_start` (`none` for -1) and `k` the number of tokens
recorded. The result is whether the loop left through the `break` at a `;`, the final `k`
and the record; `none` is a failed `assert(k < MAX_TOKENS_PER_LINE)`. -/
def tokenize_scan (buf : List Char) : Nat → Nat → Option Nat → Nat → instr →
    Option (Bool × Nat × instr)
  | 0, _, _, k, ins => some (false, k, ins)
  | n + 1, i, none, k, ins =>
    if !isspace (buf.getD i (Char.ofNat 0)) then tokenize_scan buf n (i + 1) (some i) k ins
    else tokenize_scan buf n (i + 1) none k ins
  | n + 1, i, some ts, k, ins =>
    let c := buf.getD i (Char.ofNat 0)
    -- A token was in the midst of being scanned. If a space or a delimiter was found,
    -- close the token.
    if isspace c ∨ c = '.' ∨ c = ',' ∨ c = ';' then
      if ¬ k < MAX_TOKENS_PER_LINE then none
      else
        let ins1 := set_token ins k ts i
        -- If a delimiter was found, create a token for it too.
        if !isspace c then
          if ¬ k + 1 < MAX_TOKENS_PER_LINE then none
          else
            let ins2 := set_token ins1 (k + 1) i (i + 1)
            -- If the delim is a ;, end the tokenizer.
            if c = ';' then some (true, k + 2, ins2)
            else tokenize_scan buf n (i + 1) none (k + 2) ins2
        else tokenize_scan buf n (i + 1) none (k + 1) ins1
    else tokenize_scan buf n (i + 1) (some ts) k ins

/-- `tokenize_instr` (main.c) on the span `[pos, end_)` of `buf`. Without the `break`
the loop ends with `i == end` exactly when `pos ≤ end_`. -/
def tokenize_instr (ins : instr) (buf : List Char) (pos end_ : Nat) : outcome :=
  let ins0 := { ins with curr_token := -1 }
  match tokenize_scan buf (end_ - pos) pos none 0 ins0 with
  | none => none
  | some (found, k, ins1) =>
    -- We must find a ;, else that is a syntax error.
    if found = false ∧ pos ≤ end_ then some (.ERR_SYNTAX, ins1)
    else if ¬ k ≤ MAX_TOKENS_PER_LINE then none
    else some (.ERR_SUCCESS, { ins1 with num_tokens := k })

/-! ## The earlier revision (`qas.c`, `qas.h`) -/

/-- The positions of the load-immediate and semaphore codes in `enum op_code` (qas.h). -/
def OP_IMM_LI : Nat := 76
def OP_IMM_LIS : Nat := 77
def OP_IMM_LIU : Nat := 78
def OP_SEM_SEMUP : Nat := 79
def OP_SEM_SEMDN : Nat := 80

/-- The entries of `g_op_info` (qas.h) for the load-immediate and semaphore mnemonics. -/
def g_op_info_load : List (String × Nat) :=
  [("li", OP_IMM_LI), ("lis", OP_IMM_LIS), ("liu", OP_IMM_LIU),
   ("semup", OP_SEM_SEMUP), ("semdn", OP_SEM_SEMDN)]

/-- The `switch (op->code[0])` of `parse_op_load_imm` (qas.c): the value assigned to
`in->unpack`; `none` is the `default: return -EINVAL;`. -/
def parse_op_load_imm_unpack (code : Nat) : Option Nat :=
  if code = OP_IMM_LI then some 0
  else if code = OP_IMM_LIS then some 1
  else if code = OP_IMM_LIU then some 3
  else if code = OP_SEM_SEMUP ∨ code = OP_SEM_SEMDN then some 4
  else none

namespace Earlier

/-- `enum reg_file` of `qas.h`. -/
inductive reg_file where
  | RF_A | RF_B | RF_AB | RF_SIMM | RF_ACC | RF_IMM
  deriving DecidableEq, Repr

/-- `struct reg` of `qas.h`; the numbers are those of the register tables. -/
structure reg where
  rf : reg_file
  num : Nat
  deriving DecidableEq, Repr

/-- `struct op` of `qas.h` without `src_label`: `code[2]`, `cc[2]`, `dst[2]`, `src[4]`. -/
structure op where
  code0 : Nat
  code1 : Nat
  cc0 : Nat
  cc1 : Nat
  dst0 : reg
  dst1 : reg
  src0 : reg
  src1 : reg
  src2 : reg
  src3 : reg
  deriving DecidableEq, Repr

/-- The members of `struct instr` (qas.h) that `verify_alu` reads or writes. -/
structure instr where
  ws : Nat
  op : op
  deriving DecidableEq, Repr

/-- `ESUCC` (qas.h). -/
def ESUCC : Int := 0

/-- `EINVAL` (`errno.h`). -/
def EINVAL : Int := 22

/-- `CC_NEVER` and `CC_ALL_Z`, positions 0 and 8 of `enum cc` (qas.h). -/
def CC_NEVER : Nat := 0

def CC_ALL_Z : Nat := 8

/-- The element `op->src[k]`. -/
def get_src (o : op) (k : Nat) : reg :=
  match k with
  | 0 => o.src0
  | 1 => o.src1
  | 2 => o.src2
  | _ => o.src3

/-- The assignment `op->src[k].rf = rf`. -/
def set_src_rf (o : op) (k : Nat) (rf : reg_file) : op :=
  match k with
  | 0 => { o with src0 := { o.src0 with rf := rf } }
  | 1 => { o with src1 := { o.src1 with rf := rf } }
  | 2 => { o with src2 := { o.src2 with rf := rf } }
  | _ => { o with src3 := { o.src3 with rf := rf } }

/-- `resolve_dst_regs` (qas.c). -/
def resolve_dst_regs (ins : instr) : instr :=
  let ws : Nat := if ins.op.dst0.rf = .RF_B ∨ ins.op.dst1.rf = .RF_A then 1 else 0
  if ws ≠ 0 then
    { ws := ws, op := { ins.op with dst0 := { ins.op.dst0 with rf := .RF_B },
                                    dst1 := { ins.op.dst1 with rf := .RF_A } } }
  else
    { ws := ws, op := { ins.op with dst0 := { ins.op.dst0 with rf := .RF_A },
                                    dst1 := { ins.op.dst1 with rf := .RF_B } } }

/-- `count_ones` (qas.h), the loop with the iteration count as fuel. -/
def count_ones (mask : Nat) : Nat := count_mask_bits_loop 64 mask 0

/-- The array `uint64_t mask[6]` of `verify_alu`, indexed by register file. -/
abbrev masks := reg_file → Nat

/-- Body of the first loop of `verify_alu` for `src[k]`: a source that is not `RF_IMM`
adds `1ul << op->src[k].num` to the mask of its file. -/
def add_mask (o : op) (m : masks) (k : Nat) : masks :=
  if (get_src o k).rf = .RF_IMM then m
  else Function.update m (get_src o k).rf (m (get_src o k).rf ||| mask_of (get_src o k).num)

/-- The first loop of `verify_alu`, from the zeroed `mask`. -/
def src_masks (o : op) : masks :=
  [0, 1, 2, 3].foldl (add_mask o) (fun _ => 0)

/-- The loop of `verify_alu` under a rotation with a small immediate: every `RF_AB`
source is moved to `RF_A`. -/
def force_ab_to_a (st : masks × op) : masks × op :=
  [0, 1, 2, 3].foldl
    (fun st k =>
      if (get_src st.2 k).rf ≠ .RF_AB then st
      else
        (Function.update st.1 .RF_A (st.1 .RF_A ||| mask_of (get_src st.2 k).num),
          set_src_rf st.2 k .RF_A))
    st

/-- The first `RF_AB` loop of `verify_alu`: a source whose number a side already holds is
moved to that side, `RF_A` first. -/
def fold_ab (st : masks × op) : masks × op :=
  [0, 1, 2, 3].foldl
    (fun st k =>
      if (get_src st.2 k).rf ≠ .RF_AB then st
      else
        let t := mask_of (get_src st.2 k).num
        -- Try resolving with RF_A.
        if st.1 .RF_A &&& t ≠ 0 then
          (Function.update st.1 .RF_A (st.1 .RF_A ||| t), set_src_rf st.2 k .RF_A)
        -- Try resolving with RF_B.
        else if st.1 .RF_B &&& t ≠ 0 then
          (Function.update st.1 .RF_B (st.1 .RF_B ||| t), set_src_rf st.2 k .RF_B)
        else st)
    st

/-- The second `RF_AB` loop of `verify_alu`: a remaining source goes to a side that is
unused or holds its number, `RF_A` first. The first component is false after the
`return -EINVAL`, which leaves the sources placed before it rewritten. -/
def place_ab (st : masks × op) : Bool × masks × op :=
  [0, 1, 2, 3].foldl
    (fun r k =>
      if r.1 = false then r
      else
        let st := r.2
        if (get_src st.2 k).rf ≠ .RF_AB then r
        else
          let t := mask_of (get_src st.2 k).num
          -- Try resolving with RF_A if RF_A is unused, or same.
          if st.1 .RF_A = 0 ∨ st.1 .RF_A &&& t ≠ 0 then
            (true, Function.update st.1 .RF_A (st.1 .RF_A ||| t), set_src_rf st.2 k .RF_A)
          -- Try resolving with RF_B if RF_B is unused, or same,
          else if st.1 .RF_B = 0 ∨ st.1 .RF_B &&& t ≠ 0 then
            (true, Function.update st.1 .RF_B (st.1 .RF_B ||| t), set_src_rf st.2 k .RF_B)
          -- Can't be resolved.
          else (false, st))
    (true, st)

/-- The test `(src.rf == RF_A || src.rf == RF_B) && (src.num > 31)` of `verify_alu`. -/
def is_io (r : reg) : Bool := (r.rf = .RF_A ∨ r.rf = .RF_B) ∧ r.num > 31

/-- The part of `verify_alu` after the two rotation checks, with `rot` the value of
`code >= OP_MUL_FMULROTR5 && code <= OP_MUL_FMULROT15` and `mask` the masks of the first
loop. -/
def verify_alu_srcs (ins : instr) (rot : Bool) (mask : masks) : Int × instr :=
  let o := ins.op
  -- If there are small immediate sources, they should be same.
  if count_ones (mask .RF_SIMM) > 1 then (-EINVAL, ins)
  else
    -- If there are small immediate sources, or, if mul output is to be rotated, any
    -- RF_AB source must be converted to RF_A.
    let st1 : masks × op :=
      if rot = true ∧ mask .RF_SIMM ≠ 0 then force_ab_to_a (mask, o) else (mask, o)
    -- If there are RF_A sources, they should be same. Similarly for RF_B sources.
    if count_ones (st1.1 .RF_A) > 1 then (-EINVAL, { ins with op := st1.2 })
    else if count_ones (st1.1 .RF_B) > 1 then (-EINVAL, { ins with op := st1.2 })
    else
      -- If there are RF_AB sources, try to resolve them.
      let r := place_ab (fold_ab st1)
      if r.1 = false then (-EINVAL, { ins with op := r.2.2 })
      else
        let o3 := r.2.2
        -- If the dst is NOP and the sources are not IO registers, change the cc to
        -- CC_NEVER.
        let o4 := if o3.dst0.num = 39 ∧ ¬ (is_io o3.src0 ∨ is_io o3.src1)
          then { o3 with cc0 := CC_NEVER } else o3
        let o5 := if o4.dst1.num = 39 ∧ ¬ (is_io o4.src2 ∨ is_io o4.src3)
          then { o4 with cc1 := CC_NEVER } else o4
        (ESUCC, { ins with op := o5 })

/-- `verify_alu` (qas.c). The codes `OP_MUL_FMULROTR5` and `OP_MUL_FMULROT15`, which
`qas.c` names and `qas.h` does not declare, are the parameters `rotr5` and `rot15`. The
result is the returned code and the record. -/
def verify_alu (rotr5 rot15 : Nat) (ins0 : instr) : Int × instr :=
  let ins := resolve_dst_regs ins0
  let o := ins.op
  -- ALUs do not deal with branch condition codes.
  if o.cc0 ≥ CC_ALL_Z ∨ o.cc1 ≥ CC_ALL_Z then (-EINVAL, ins)
  -- Behaviour is undefined if both ALUs write to the same accumulator or IO register.
  else if o.dst0.num = o.dst1.num ∧ o.dst0.num > 31 ∧ o.dst0.num ≠ 39 then (-EINVAL, ins)
  else
    let mask := src_masks o
    let rot : Bool := decide (o.code1 ≥ rotr5 ∧ o.code1 ≤ rot15)
    -- If mul output is to be rotated, there shouldn't be any small immediates, or anyone
    -- reading from RF_B.
    if rot = true ∧ (mask .RF_SIMM ≠ 0 ∨ mask .RF_B ≠ 0) then (-EINVAL, ins)
    -- If mul output is to be rotated, the sources must be from RF_ACC, r0-r3.
    else if rot = true ∧ (o.src2.rf ≠ .RF_ACC ∨ o.src3.rf ≠ .RF_ACC) then (-EINVAL, ins)
    else verify_alu_srcs ins rot mask

end Earlier

namespace Earlier

/-- The other members of `enum cc` (qas.h), by position. -/
def CC_ALWAYS : Nat := 1
def CC_Z : Nat := 2
def CC_NZ : Nat := 3
def CC_N : Nat := 4
def CC_NN : Nat := 5
def CC_C : Nat := 6
def CC_NC : Nat := 7
def CC_ALL_NZ : Nat := 9
def CC_ALL_N : Nat := 10
def CC_ALL_NN : Nat := 11
def CC_ALL_C : Nat := 12
def CC_ALL_NC : Nat := 13

/-- `encode_cond_br` (qas.h). -/
def encode_cond_br (code : Nat) : Int :=
  if code = CC_ALL_Z then 0
  else if code = CC_ALL_NZ then 1
  else if code = CC_Z then 2
  else if code = CC_NZ then 3
  else if code = CC_ALL_N then 4
  else if code = CC_ALL_NN then 5
  else if code = CC_N then 6
  else if code = CC_NN then 7
  else if code = CC_ALL_C then 8
  else if code = CC_ALL_NC then 9
  else if code = CC_C then 10
  else if code = CC_NC then 11
  else if code = CC_ALWAYS then 15
  else -EINVAL

end Earlier

namespace Earlier

/-- `MAX_TOKENS` (qas.h). -/
def MAX_TOKENS : Nat := 256

/-- The file-scope arrays `token_start[]`, `token_end[]` and the counter `num_tokens` of
qas.c; the lists are the leading elements of the arrays. -/
structure tokens where
  token_start : List Nat
  token_end : List Nat
  num_tokens : Nat
  deriving DecidableEq, Repr

/-- The loop of `tokenize` (qas.c) from the index `i` on, with `n` characters left before
`le`. `in_token` and `nt` are the locals of that name. The result is whether the loop left
through the `break` at a `;`, the final `nt` and the arrays; `none` is a failed
`assert(nt < MAX_TOKENS)`. -/
def tokenize_scan (buf : List Char) : Nat → Nat → Bool → Nat → tokens →
    Option (Bool × Nat × tokens)
  | 0, _, _, nt, t => some (false, nt, t)
  | n + 1, i, in_token, nt, t =>
    let c := buf.getD i (Char.ofNat 0)
    -- Is it a delimiter?
    if isspace c ∨ c = ',' ∨ c = '.' ∨ c = ';' then
      -- It is a delimiter; close any previous token.
      let nt1 := if in_token then nt + 1 else nt
      let t1 := if in_token then { t with token_end := array_set t.token_end nt i } else t
      if isspace c ∨ c = ',' ∨ c = '.' then tokenize_scan buf n (i + 1) false nt1 t1
      -- Delim ; is a token.
      else if ¬ nt1 < MAX_TOKENS then none
      else
        some (true, nt1 + 1,
          { t1 with token_start := array_set t1.token_start nt1 i,
                    token_end := array_set t1.token_end nt1 (i + 1) })
    else if in_token = false then
      -- Else it is a non-delim non-space char. Begin a token if not already begun.
      if ¬ nt < MAX_TOKENS then none
      else
        tokenize_scan buf n (i + 1) true nt
          { t with token_start := array_set t.token_start nt i }
    else tokenize_scan buf n (i + 1) in_token nt t

/-- `tokenize` (qas.c) on the line `[ls, le)` of `buf`. When the loop ends without the
`break`, `i` is not below `le` and `assert(i < le)` fails, so the `return -EINVAL` that
follows the assert is never reached; `none` is a failed assert. -/
def tokenize (t : tokens) (buf : List Char) (ls le : Nat) : Option (Int × tokens) :=
  match tokenize_scan buf (le - ls) ls false 0 { t with num_tokens := 0 } with
  | none => none
  | some (found, nt, t1) =>
    if found = false then none
    else if ¬ nt ≤ MAX_TOKENS then none
    else some (ESUCC, { t1 with num_tokens := nt })

end Earlier

/-! ## Auxiliary notions used in the statements -/

/-- The array `src[4]` of `alu_resolve_src_regfiles` and `alu_gen_code`:
`src[0] = &op[0].src[0]`, `src[1] = &op[0].src[1]`, `src[2] = &op[1].src[0]`,
`src[3] = &op[1].src[1]`. -/
def alu_srcs (i : instr) : List src :=
  [i.op0.src0, i.op0.src1, i.op1.src0, i.op1.src1]

/-- The four read operands are values that `alu_parse_src` returns for some token. -/
def alu_srcs_parsed (i : instr) : Prop :=
  (∃ t, alu_parse_src t = some i.op0.src0) ∧ (∃ t, alu_parse_src t = some i.op0.src1) ∧
  (∃ t, alu_parse_src t = some i.op1.src0) ∧ (∃ t, alu_parse_src t = some i.op1.src1)

/-- Two distinct bits of `m` are set. -/
def two_bits (m : Nat) : Prop :=
  ∃ a b, a ≠ b ∧ m.testBit a = true ∧ m.testBit b = true

/-- The read operands of `i` are resolved: each is a register not in file AB, and the
file-A reads, the file-B reads and the small-immediate reads each carry at most one
distinct number. -/
def read_ports_resolved (i : instr) : Prop :=
  (∀ s ∈ alu_srcs i, ∃ r, s = .ST_REG r ∧ r.rf ≠ .RF_AB) ∧
  (∀ r r', src.ST_REG r ∈ alu_srcs i → src.ST_REG r' ∈ alu_srcs i →
    r.rf = .RF_A → r'.rf = .RF_A → r.num = r'.num) ∧
  (∀ r r', src.ST_REG r ∈ alu_srcs i → src.ST_REG r' ∈ alu_srcs i →
    r.rf = .RF_B → r'.rf = .RF_B → r.num = r'.num) ∧
  (∀ r r', src.ST_REG r ∈ alu_srcs i → src.ST_REG r' ∈ alu_srcs i →
    r.rf = .RF_SIMM → r'.rf = .RF_SIMM → r.num = r'.num)

/-- The final destination banks and `write_swap` are `(A, B, 0)` or `(B, A, 1)`. -/
def dst_banks_resolved (i : instr) : Prop :=
  (i.op0.dst.rf = .RF_A ∧ i.op1.dst.rf = .RF_B ∧ i.write_swap = 0) ∨
  (i.op0.dst.rf = .RF_B ∧ i.op1.dst.rf = .RF_A ∧ i.write_swap = 1)

/-- The numbers of the registers reachable from both read ports (`g_src_regs_ab`). -/
def ab_num (n : Nat) : Prop := n = 32 ∨ n = 35 ∨ n = 39 ∨ n = 48 ∨ n = 51

instance (n : Nat) : Decidable (ab_num n) := by unfold ab_num; infer_instance

/-- Every file-A (file-B) register of `L` has the number recorded in `m` for port A
(port B), and all register numbers fit a 64-bit mask. -/
def ports_consistent (m : masks_t) (L : List src) : Prop :=
  ∀ r, src.ST_REG r ∈ L → r.num < 64 ∧
    (r.rf = .RF_A → m .RF_A = mask_of r.num) ∧ (r.rf = .RF_B → m .RF_B = mask_of r.num)

/-- The port masks `m` have fixed the side `f` on which the ambiguous register with
mask `t` is read. -/
def settled (m : masks_t) (t : Nat) (f : reg_file) : Prop :=
  t ≠ 0 ∧ ((f = .RF_A ∧ m .RF_A = t) ∨
    (f = .RF_B ∧ m .RF_A ≠ 0 ∧ m .RF_A ≠ t ∧ m .RF_B = t))

/-- How one read operand may change in the last loop of `alu_resolve_src_regfiles`. -/
def src_resolved (s s' : src) : Prop :=
  (s' = s ∧ ∀ r, s = .ST_REG r → r.rf ≠ .RF_AB) ∨
  ∃ n, s = .ST_REG ⟨.RF_AB, n⟩ ∧ (s' = .ST_REG ⟨.RF_A, n⟩ ∨ s' = .ST_REG ⟨.RF_B, n⟩)

/-- The record `i` with its four read operands replaced. -/
def with_srcs (i : instr) (b0 b1 b2 b3 : src) : instr :=
  { i with
    op0 := { i.op0 with src0 := b0, src1 := b1 }
    op1 := { i.op1 with src0 := b2, src1 := b3 } }

/-- The four iterations of the last loop of `alu_resolve_src_regfiles` all pass,
turning the operands `a0..a3` into `b0..b3` and the masks `m0` into `m4`. -/
def ab_chain (m0 m4 : masks_t) (a0 a1 a2 a3 b0 b1 b2 b3 : src) : Prop :=
  ∃ m1 m2 m3, resolve_ab_src m0 a0 = some (m1, b0) ∧ resolve_ab_src m1 a1 = some (m2, b1) ∧
    resolve_ab_src m2 a2 = some (m3, b2) ∧ resolve_ab_src m3 a3 = some (m4, b3)

/-- The source is a read of the reserved register 39 through file A or B (the reads
counted by `n_nops` in `alu_reduce_op`). -/
def is_nop_read (s : src) : Prop :=
  match s with
  | .ST_REG r => (r.rf = .RF_A ∨ r.rf = .RF_B) ∧ r.num = 39
  | _ => False

instance (s : src) : Decidable (is_nop_read s) := by
  unfold is_nop_read; split <;> infer_instance

/-- The source is a read of an I/O register: file A or B, number at least 32 and not 39
(the reads counted by `n_ios` in `alu_reduce_op`). -/
def is_io_read (s : src) : Prop :=
  match s with
  | .ST_REG r => (r.rf = .RF_A ∨ r.rf = .RF_B) ∧ 32 ≤ r.num ∧ r.num ≠ 39
  | _ => False

instance (s : src) : Decidable (is_io_read s) := by
  unfold is_io_read; split <;> infer_instance

/-- The accumulator `r0` as a read operand. -/
def src_r0 : src := .ST_REG { rf := .RF_R, num := 0 }

/-- The input-mux selector of a read operand: the accumulator number for an
accumulator read, 6 for a file-A read, 7 for a file-B or small-immediate read. -/
def mux (r : reg) : Nat :=
  if r.rf = .RF_R then r.num else if r.rf = .RF_A then 6 else 7

/-- The operand reads the B port: it is a file-B register or a small immediate. -/
def on_port_b (r : reg) : Prop := r.rf = .RF_B ∨ r.rf = .RF_SIMM

instance (r : reg) : Decidable (on_port_b r) := by unfold on_port_b; infer_instance

/-- The record with the condition of the slot `op[k]` set to `c`. -/
def set_cond (i : instr) (k : Nat) (c : cond_code) : instr :=
  set_op i k { get_op i k with cond_code := c }

/-- What `gen_code` leaves to observe: the error code and the two encoding words. -/
def words (r : outcome) : Option (error × Nat × Nat) :=
  r.map fun r => (r.1, r.2.encoding0, r.2.encoding1)

/-- The flag class of a conditional branch mnemonic: 0 for `bz`, `bnz`, 1 for `bn`,
`bnn`, 2 for `bc`, `bnc`. -/
def br_flag_class (m : String) : Nat :=
  if m = "bn" ∨ m = "bnn" then 1 else if m = "bc" ∨ m = "bnc" then 2 else 0

/-- The negate bit of a conditional branch mnemonic: 1 for `bnz`, `bnn`, `bnc`. -/
def br_negate (m : String) : Nat :=
  if m = "bnz" ∨ m = "bnn" ∨ m = "bnc" then 1 else 0

/-- A character that neither ends a token nor is skipped between tokens. -/
def token_char (c : Char) : Prop := isspace c = false ∧ c ≠ '.' ∧ c ≠ ',' ∧ c ≠ ';'

/-- The text of the token span number `j` of a record as `get_next_token` copies it: the
characters of `[token_start[j], token_end[j])`, read as a C string. -/
def token_text (i : instr) (buf : List Char) (j : Nat) : String :=
  String.mk (((buf.drop (i.token_start.getD j 0)).take
    (i.token_end.getD j 0 - i.token_start.getD j 0)).takeWhile fun c => c ≠ Char.ofNat 0)

/-- The record after `k` successive calls of `get_next_token`, whatever they returned;
`none` if an assert failed. -/
def after_calls (buf : List Char) : Nat → instr → Option instr
  | 0, i => some i
  | k + 1, i =>
    match get_next_token i buf with
    | none => none
    | some (_, i1, _) => after_calls buf k i1

/-- What the parsers of the operation slots keep of a record: the signal, the flag and
the number of tokens, and a cursor that is before the end stays before the end. -/
def tok_frame (i i' : instr) : Prop :=
  i'.signal = i.signal ∧ i'.set_flag = i.set_flag ∧ i'.num_tokens = i.num_tokens ∧
    (i.curr_token < i.num_tokens → i'.curr_token < i'.num_tokens)

/-- The tokens that successive calls of `get_next_token` return from the record `i` on,
up to the first `;`, are `ts` (none of them `;`), and the `;` follows. -/
def trailing_tokens (buf : List Char) : List String → instr → Prop
  | [], i => ∃ i1, get_next_token i buf = some (.ERR_SUCCESS, i1, ";")
  | t :: ts, i =>
    t ≠ ";" ∧ ∃ i1, get_next_token i buf = some (.ERR_SUCCESS, i1, t) ∧ trailing_tokens buf ts i1

/-- Whether a token is the name of an entry of `g_signals`. -/
def is_signal (t : String) : Bool := (parse_signal t).isSome

/-- The tables that `parse_dst_reg` searches, each with the register file its index
stands for, in the order of the array `ris`. -/
def dst_tables : List (reg_file × List reg_info) :=
  [(.RF_A, g_dst_regs_a), (.RF_B, g_dst_regs_b), (.RF_AB, g_dst_regs_ab)]

/-- The tables that `alu_parse_src` searches, each with the register file it stores, in
the order of the search: the array `ris`, then the small immediates. -/
def src_tables : List (reg_file × List reg_info) :=
  [(.RF_A, g_src_regs_a), (.RF_B, g_src_regs_b), (.RF_AB, g_src_regs_ab),
   (.RF_R, g_src_regs_r), (.RF_SIMM, g_src_regs_simm)]

/-- The search of `parse_dst_reg` and `alu_parse_src` over an arbitrary list of tables:
the first table that has an entry named `str` gives the register file, and its first such
entry the number. -/
def lookup_tables : List (reg_file × List reg_info) → String → Option reg
  | [], _ => none
  | (f, t) :: rest, str =>
    match find_name t str with
    | some e => some { rf := f, num := e.2 }
    | none => lookup_tables rest str

/-- The register numbers that the four read operands of `i` read from the file `f`. -/
def read_nums (i : instr) (f : reg_file) : Finset Nat :=
  ((alu_srcs i).filterMap fun s =>
    match s with
    | .ST_REG r => if r.rf = f then some r.num else none
    | _ => none).toFinset

/-- The number of distinct register numbers among the reads of `i` from the file `f`. -/
def distinct_reads (i : instr) (f : reg_file) : Nat := (read_nums i f).card

/-- The last loop of `alu_resolve_src_regfiles` over a list of operands, keeping only the
masks; `none` is its `return ERR_SYNTAX`. -/
def ab_run (m : masks_t) : List src → Option masks_t
  | [] => some m
  | s :: L =>
    match resolve_ab_src m s with
    | none => none
    | some (m1, _) => ab_run m1 L

/-- The AB-file reads of `L` fit the two read ports as the masks `m` have them so far:
there are register numbers `u` for port A and `v` for port B, equal to what the ports
already hold, such that every AB-file read of `L` has the number `u` or `v`. -/
def ab_fits (m : masks_t) (L : List src) : Prop :=
  ∃ u v, (∀ n, src.ST_REG ⟨.RF_AB, n⟩ ∈ L → n = u ∨ n = v) ∧
    (m .RF_A ≠ 0 → m .RF_A = mask_of u) ∧ (m .RF_B ≠ 0 → m .RF_B = mask_of v)

/-- The register reads of `i` can be packed into one A-port value `u` and one B-port
value `v`: every file-A read has the number `u`, every file-B read the number `v`, and
every AB-file read one of the two. -/
def reads_packed (i : instr) : Prop :=
  ∃ u v, ∀ r, src.ST_REG r ∈ alu_srcs i →
    (r.rf = .RF_A → r.num = u) ∧ (r.rf = .RF_B → r.num = v) ∧
      (r.rf = .RF_AB → r.num = u ∨ r.num = v)

/-- The member of the earlier revision's `enum cc` named after a flag class (0 for Z, 1
for N, 2 for C), a polarity (`negate` for the flag being clear) and a lane mode: the
`CC_ALL_` members for all lanes, the plain members for any lane. -/
def earlier_br_cc (cls : Fin 3) (negate all : Bool) : Nat :=
  match cls, negate, all with
  | 0, false, true => Earlier.CC_ALL_Z
  | 0, true, true => Earlier.CC_ALL_NZ
  | 1, false, true => Earlier.CC_ALL_N
  | 1, true, true => Earlier.CC_ALL_NN
  | 2, false, true => Earlier.CC_ALL_C
  | 2, true, true => Earlier.CC_ALL_NC
  | 0, false, false => Earlier.CC_Z
  | 0, true, false => Earlier.CC_NZ
  | 1, false, false => Earlier.CC_N
  | 1, true, false => Earlier.CC_NN
  | 2, false, false => Earlier.CC_C
  | 2, true, false => Earlier.CC_NC

/-- The later revision's opcode of the conditional branch with the given flag class and
polarity: `bz`, `bnz`, `bn`, `bnn`, `bc`, `bnc`. -/
def later_br_code (cls : Fin 3) (negate : Bool) : Nat :=
  match cls, negate with
  | 0, false => OP_BZ
  | 0, true => OP_BNZ
  | 1, false => OP_BN
  | 1, true => OP_BNN
  | 2, false => OP_BC
  | 2, true => OP_BNC

/-- The register file of the earlier revision (`enum reg_file` of qas.h) that stands for
a register file of the later one: the accumulators are `RF_ACC` there. -/
def earlier_rf : reg_file → Earlier.reg_file
  | .RF_A => .RF_A
  | .RF_B => .RF_B
  | .RF_AB => .RF_AB
  | .RF_R => .RF_ACC
  | .RF_SIMM => .RF_SIMM

/-- A register read of the later revision as a `struct reg` of the earlier one: the same
number in the corresponding file. -/
def earlier_reg (r : reg) : Earlier.reg := ⟨earlier_rf r.rf, r.num⟩

/-- The four read operands of the later record `i` are registers, and the earlier
operation `o` reads the same registers in `src[0..3]`. -/
def same_reads (i : instr) (o : Earlier.op) : Prop :=
  ∃ r0 r1 r2 r3, i.op0.src0 = .ST_REG r0 ∧ i.op0.src1 = .ST_REG r1 ∧
    i.op1.src0 = .ST_REG r2 ∧ i.op1.src1 = .ST_REG r3 ∧
    o.src0 = earlier_reg r0 ∧ o.src1 = earlier_reg r1 ∧ o.src2 = earlier_reg r2 ∧
    o.src3 = earlier_reg r3

/-- Body of the first `RF_AB` loop of `verify_alu` for `src[k]` (the function folded by
`Earlier.fold_ab`). -/
def fold_ab_step (st : Earlier.masks × Earlier.op) (k : Nat) : Earlier.masks × Earlier.op :=
  if (Earlier.get_src st.2 k).rf ≠ .RF_AB then st
  else
    let t := mask_of (Earlier.get_src st.2 k).num
    if st.1 .RF_A &&& t ≠ 0 then
      (Function.update st.1 .RF_A (st.1 .RF_A ||| t), Earlier.set_src_rf st.2 k .RF_A)
    else if st.1 .RF_B &&& t ≠ 0 then
      (Function.update st.1 .RF_B (st.1 .RF_B ||| t), Earlier.set_src_rf st.2 k .RF_B)
    else st

/-- Body of the second `RF_AB` loop of `verify_alu` for `src[k]` (the function folded by
`Earlier.place_ab`). -/
def place_ab_step (r : Bool × Earlier.masks × Earlier.op) (k : Nat) :
    Bool × Earlier.masks × Earlier.op :=
  if r.1 = false then r
  else
    let st := r.2
    if (Earlier.get_src st.2 k).rf ≠ .RF_AB then r
    else
      let t := mask_of (Earlier.get_src st.2 k).num
      if st.1 .RF_A = 0 ∨ st.1 .RF_A &&& t ≠ 0 then
        (true, Function.update st.1 .RF_A (st.1 .RF_A ||| t), Earlier.set_src_rf st.2 k .RF_A)
      else if st.1 .RF_B = 0 ∨ st.1 .RF_B &&& t ≠ 0 then
        (true, Function.update st.1 .RF_B (st.1 .RF_B ||| t), Earlier.set_src_rf st.2 k .RF_B)
      else (false, st)

/-- The canonical ALU NOP slot with the destination in the file `f`: type ADD, opcode 0,
condition Never, destination number 0, both sources the accumulator `r0`. -/
def alu_nop_slot (f : reg_file) : op :=
  { type := .OP_TYPE_ADD, code := 0, cond_code := CC_NEVER, dst := ⟨f, 0⟩,
    src0 := src_r0, src1 := src_r0 }

/-- The value of a digit character: `0`..`9`, `a`..`f` or `A`..`F`. -/
def digit_value (c : Char) : Nat :=
  if c.toNat ≤ 57 then c.toNat - 48 else if 97 ≤ c.toNat then c.toNat - 87 else c.toNat - 55

/-- The number that the digits `cs` denote in the base `base`, continuing the number
`acc` of the digits before them. -/
def digits_value (base : Nat) (cs : List Char) (acc : Nat) : Nat :=
  cs.foldl (fun a c => a * base + digit_value c) acc

/-- A non-empty run of decimal digits. -/
def dec_literal (cs : List Char) : Prop := cs ≠ [] ∧ ∀ c ∈ cs, isdigit c = true

/-- The characters `0x` followed by one or more hexadecimal digits of either case. -/
def hex_literal (cs : List Char) : Prop :=
  ∃ ds, cs = '0' :: 'x' :: ds ∧ ds ≠ [] ∧ ∀ c ∈ ds, ishexdigit c = true

/-- A decimal digit or one of `a`..`f`. -/
def lower_hex (c : Char) : Prop := isdigit c = true ∨ (97 ≤ c.toNat ∧ c.toNat ≤ 102)

/-- The number of times the loop of `tokenize_instr` executes `++k` over `n` characters
from the index `i` on when no assert stops it: once for a token that white space ends,
twice for a token that `.`, `,` or `;` ends (the token and the delimiter), and the loop
ends at a `;` that ends a token. `scanning` is the test `token_start >= 0`. -/
def span_tokens (buf : List Char) : Nat → Nat → Bool → Nat
  | 0, _, _ => 0
  | n + 1, i, false => span_tokens buf n (i + 1) (!isspace (buf.getD i (Char.ofNat 0)))
  | n + 1, i, true =>
    let c := buf.getD i (Char.ofNat 0)
    if isspace c then 1 + span_tokens buf n (i + 1) false
    else if c = '.' ∨ c = ',' then 2 + span_tokens buf n (i + 1) false
    else if c = ';' then 2
    else span_tokens buf n (i + 1) true

/-! ## Sample records -/

/-- A record as `parse_instr` initialises it (`unpack = 0`, `signal = 1`, `set_flag = 0`,
`write_swap = 0`) with the two slots filled in, at address `pc` and with `labels`. -/
def instr_of_ops (labels : List String) (pc : Int) (o0 o1 : op) : instr :=
  { labels := labels, pc := pc, op0 := o0, op1 := o1, signal := 1, set_flag := 0,
    write_swap := 0, branch_rel := 0, branch_reg := 0, encoding0 := 0, encoding1 := 0,
    token_start := [], token_end := [], num_tokens := 0, curr_token := 0, unpack := 0 }

/-- The mul slot `-` as `alu_parse_instr` leaves it (`alu_op_nop`). -/
def mul_nop_slot : op :=
  alu_op_nop
    { type := .OP_TYPE_MUL, code := 0, cond_code := CC_DEFAULT, dst := ⟨.RF_AB, 39⟩,
      src0 := .ST_REG ⟨.RF_R, 0⟩, src1 := .ST_REG ⟨.RF_R, 0⟩ }

/-- The add slot `add r0, a1, 3` as parsed (`add` is code 12, `r0` is `(AB, 32)`). -/
def add_r0_a1_3 : op :=
  { type := .OP_TYPE_ADD, code := 12, cond_code := CC_DEFAULT, dst := ⟨.RF_AB, 32⟩,
    src0 := .ST_REG ⟨.RF_A, 1⟩, src1 := .ST_REG ⟨.RF_SIMM, 3⟩ }

/-- The add slot `add r1, a2, 5` as parsed (`r1` is `(AB, 33)`). -/
def add_r1_a2_5 : op :=
  { type := .OP_TYPE_ADD, code := 12, cond_code := CC_DEFAULT, dst := ⟨.RF_AB, 33⟩,
    src0 := .ST_REG ⟨.RF_A, 2⟩, src1 := .ST_REG ⟨.RF_SIMM, 5⟩ }

/-- The mul slot `fmul r1, a1, 5` as parsed (`fmul` is code 1). -/
def fmul_r1_a1_5 : op :=
  { type := .OP_TYPE_MUL, code := 1, cond_code := CC_DEFAULT, dst := ⟨.RF_AB, 33⟩,
    src0 := .ST_REG ⟨.RF_A, 1⟩, src1 := .ST_REG ⟨.RF_SIMM, 5⟩ }

/-- The add slot `add r0, unif, vary` as parsed. -/
def add_r0_unif_vary : op :=
  { type := .OP_TYPE_ADD, code := 12, cond_code := CC_DEFAULT, dst := ⟨.RF_AB, 32⟩,
    src0 := .ST_REG ⟨.RF_AB, 32⟩, src1 := .ST_REG ⟨.RF_AB, 35⟩ }

/-- The mul slot `fmul r1, vpm, unif` as parsed. -/
def fmul_r1_vpm_unif : op :=
  { type := .OP_TYPE_MUL, code := 1, cond_code := CC_DEFAULT, dst := ⟨.RF_AB, 33⟩,
    src0 := .ST_REG ⟨.RF_AB, 48⟩, src1 := .ST_REG ⟨.RF_AB, 32⟩ }

/-- The mul slot `fmul r1, unif, r2` as parsed. -/
def fmul_r1_unif_r2 : op :=
  { type := .OP_TYPE_MUL, code := 1, cond_code := CC_DEFAULT, dst := ⟨.RF_AB, 33⟩,
    src0 := .ST_REG ⟨.RF_AB, 32⟩, src1 := .ST_REG ⟨.RF_R, 2⟩ }

/-- The instruction `add r0, unif, vary  fmul r1, unif, r2` as parsed. -/
def unif_vary_unif : instr :=
  instr_of_ops [] 0 add_r0_unif_vary fmul_r1_unif_r2

/-- The record `unif_vary_unif` after `alu_resolve_src_regfiles`: `unif` is read through
port A in both slots and `vary` through port B. -/
def unif_vary_unif_resolved : instr :=
  with_srcs unif_vary_unif (.ST_REG ⟨.RF_A, 32⟩) (.ST_REG ⟨.RF_B, 35⟩)
    (.ST_REG ⟨.RF_A, 32⟩) (.ST_REG ⟨.RF_R, 2⟩)

/-- The add slot `add r0, r1, r2` as parsed (sources are accumulators). -/
def add_r0_r1_r2 : op :=
  { type := .OP_TYPE_ADD, code := 12, cond_code := CC_DEFAULT, dst := ⟨.RF_AB, 32⟩,
    src0 := .ST_REG ⟨.RF_R, 1⟩, src1 := .ST_REG ⟨.RF_R, 2⟩ }

/-- The mul slot `fmul r0, r1, r2` as parsed. -/
def fmul_r0_r1_r2 : op :=
  { type := .OP_TYPE_MUL, code := 1, cond_code := CC_DEFAULT, dst := ⟨.RF_AB, 32⟩,
    src0 := .ST_REG ⟨.RF_R, 1⟩, src1 := .ST_REG ⟨.RF_R, 2⟩ }

/-- The slot 0 of a branch `b` with link destination `d0` and the label `l` as target,
as `branch_parse_instr` leaves it (condition 15). -/
def branch_slot0 (d0 : reg) (l : String) : op :=
  { type := .OP_TYPE_BRANCH, code := OP_B, cond_code := 15, dst := d0,
    src0 := .ST_LABEL l, src1 := .ST_REG ⟨.RF_R, 0⟩ }

/-- The slot 1 of a branch, which only carries the second destination `d1`. -/
def branch_slot1 (d1 : reg) : op :=
  { type := .OP_TYPE_ADD, code := 0, cond_code := CC_DEFAULT, dst := d1,
    src0 := .ST_REG ⟨.RF_R, 0⟩, src1 := .ST_REG ⟨.RF_R, 0⟩ }

/-- The label-form branch `b d0, d1, l` at address `pc` as `branch_parse_instr` leaves
it: signal 15, `branch_rel = 1`, `branch_reg = 0`. -/
def branch_to_label (labels : List String) (pc : Int) (d0 d1 : reg) (l : String) : instr :=
  { instr_of_ops labels pc (branch_slot0 d0 l) (branch_slot1 d1) with
    signal := 15, branch_rel := 1, branch_reg := 0 }

/-- The text `semup, 3;` with its four token spans, the cursor on the mnemonic, and the
opcode already stored by `parse_op_code` and `lisem_parse_instr` (signal 14). -/
def semup_3_tokens : instr :=
  { instr_of_ops [] 0
      { type := .OP_TYPE_SEM, code := OP_SEMUP, cond_code := CC_DEFAULT, dst := ⟨.RF_AB, 0⟩,
        src0 := .ST_IMM32 0, src1 := .ST_IMM32 0 }
      { type := .OP_TYPE_ADD, code := 0, cond_code := CC_DEFAULT, dst := ⟨.RF_AB, 0⟩,
        src0 := .ST_IMM32 0, src1 := .ST_IMM32 0 } with
    signal := 14, token_start := [0, 5, 7, 8], token_end := [5, 6, 8, 9],
    num_tokens := 4, curr_token := 0 }

/-- The characters of `semup, 3;`. -/
def semup_3_text : List Char := "semup, 3;".data

/-- The record that `sem_parse_instr` builds from `semup, 3;`. -/
def semup_3 : instr :=
  { semup_3_tokens with
    op0 :=
      { semup_3_tokens.op0 with
        src0 := .ST_IMM32 3, cond_code := CC_ALWAYS, dst := ⟨.RF_A, 39⟩ }
    op1 := { semup_3_tokens.op1 with cond_code := CC_NEVER, dst := ⟨.RF_B, 0⟩ }
    write_swap := 0, unpack := 4, curr_token := 2 }

/-- The mul slot `fmul a3, r1, r2` as parsed (destination in file A). -/
def fmul_a3_r1_r2 : op :=
  { type := .OP_TYPE_MUL, code := 1, cond_code := CC_DEFAULT, dst := ⟨.RF_A, 3⟩,
    src0 := .ST_REG ⟨.RF_R, 1⟩, src1 := .ST_REG ⟨.RF_R, 2⟩ }

/-- The add slot `add a1, r1, r2` as parsed (destination in file A). -/
def add_a1_r1_r2 : op :=
  { type := .OP_TYPE_ADD, code := 12, cond_code := CC_DEFAULT, dst := ⟨.RF_A, 1⟩,
    src0 := .ST_REG ⟨.RF_R, 1⟩, src1 := .ST_REG ⟨.RF_R, 2⟩ }

/-- The add slot `-` as `alu_parse_instr` leaves it (`alu_op_nop`). -/
def add_nop_slot : op :=
  alu_op_nop
    { type := .OP_TYPE_ADD, code := 0, cond_code := CC_DEFAULT, dst := ⟨.RF_AB, 39⟩,
      src0 := .ST_REG ⟨.RF_R, 0⟩, src1 := .ST_REG ⟨.RF_R, 0⟩ }

/-- The instruction `- -;` at address `pc`, carrying `labels`. -/
def nop_at (labels : List String) (pc : Int) : instr :=
  instr_of_ops labels pc add_nop_slot mul_nop_slot

/-- A four-instruction program: the branch `b r0, r1, L` at address 0 and the label `L`
on the instruction at address 24. -/
def branch_program : List instr :=
  [branch_to_label [] 0 ⟨.RF_AB, 32⟩ ⟨.RF_AB, 33⟩ "L", nop_at [] 8, nop_at [] 16,
    nop_at ["L"] 24]

/-- The instruction `add r0, r1, r2  fmul a3, r1, r2` as parsed: an ambiguous add-slot
destination and a file-A mul-slot destination. -/
def r0_a3_dsts : instr :=
  instr_of_ops [] 0 add_r0_r1_r2 fmul_a3_r1_r2

/-- The record `r0_a3_dsts` after `resolve_dst_regfiles`: `r0` is written through
port B and `write_swap` is set. -/
def r0_a3_dsts_resolved : instr :=
  { r0_a3_dsts with
    op0 := { add_r0_r1_r2 with dst := ⟨.RF_B, 32⟩ }
    write_swap := 1 }

/-- A two-instruction program in which no instruction carries a label: the branch
`b r0, r1, missing` at address 0 and `- -;` at address 8. -/
def missing_label_program : List instr :=
  [branch_to_label [] 0 ⟨.RF_AB, 32⟩ ⟨.RF_AB, 33⟩ "missing", nop_at [] 8]

/-- The mul slot `fmul r1, a1, 3` as parsed. -/
def fmul_r1_a1_3 : op :=
  { type := .OP_TYPE_MUL, code := 1, cond_code := CC_DEFAULT, dst := ⟨.RF_AB, 33⟩,
    src0 := .ST_REG ⟨.RF_A, 1⟩, src1 := .ST_REG ⟨.RF_SIMM, 3⟩ }

/-- The instruction `add r0, a1, 3  fmul r1, a1, 3` after `alu_resolve_instr`: `r0` is
written through port A and `r1` through port B, both conditions are Always and the
signal is 13 (small immediate). -/
def add_fmul_a1_3_resolved : instr :=
  { instr_of_ops [] 0
      { add_r0_a1_3 with cond_code := CC_ALWAYS, dst := ⟨.RF_A, 32⟩ }
      { fmul_r1_a1_3 with cond_code := CC_ALWAYS, dst := ⟨.RF_B, 33⟩ } with
    signal := 13 }

/-- The add slot `add -, a1, 3` as parsed: the destination `-` is `(AB, 39)`. -/
def add_nop_a1_3 : op :=
  { type := .OP_TYPE_ADD, code := 12, cond_code := CC_DEFAULT, dst := ⟨.RF_AB, 39⟩,
    src0 := .ST_REG ⟨.RF_A, 1⟩, src1 := .ST_REG ⟨.RF_SIMM, 3⟩ }

/-- The characters of `add, -, a1, 3 -;`. -/
def add_nop_a1_3_text : List Char := "add, -, a1, 3 -;".data

/-- The text `add, -, a1, 3 -;` with its nine token spans, the cursor on the mnemonic,
and the add opcode already stored by `parse_op_code`. -/
def add_nop_a1_3_tokens : instr :=
  { instr_of_ops [] 0
      { type := .OP_TYPE_ADD, code := 12, cond_code := CC_DEFAULT, dst := ⟨.RF_AB, 0⟩,
        src0 := .ST_IMM32 0, src1 := .ST_IMM32 0 }
      { type := .OP_TYPE_ADD, code := 0, cond_code := CC_DEFAULT, dst := ⟨.RF_AB, 0⟩,
        src0 := .ST_IMM32 0, src1 := .ST_IMM32 0 } with
    token_start := [0, 3, 5, 6, 8, 10, 12, 14, 15],
    token_end := [3, 4, 6, 7, 10, 11, 13, 15, 16],
    num_tokens := 9, curr_token := 0 }

/-- The record that `alu_parse_instr` builds from `add, -, a1, 3 -;`. -/
def add_nop_a1_3_parsed : instr :=
  { add_nop_a1_3_tokens with op0 := add_nop_a1_3, op1 := add_nop_slot, curr_token := 7 }

/-- The record `add_nop_a1_3_parsed` after `alu_resolve_instr`: both slots are NOPs and
the signal is 13. -/
def add_nop_a1_3_resolved : instr :=
  { add_nop_a1_3_parsed with
    op0 := { add_nop_slot with dst := ⟨.RF_A, 0⟩ }
    op1 := { add_nop_slot with dst := ⟨.RF_B, 0⟩ }
    signal := 13 }

/-- The instruction `li, r0, r1, 16;` as `lisem_parse_instr` leaves it: signal 14,
unpack 0, both conditions still Default. -/
def li_r0_r1_16 : instr :=
  { instr_of_ops [] 0
      { type := .OP_TYPE_LI, code := OP_LI, cond_code := CC_DEFAULT, dst := ⟨.RF_AB, 32⟩,
        src0 := .ST_IMM32 16, src1 := .ST_IMM32 0 }
      { type := .OP_TYPE_ADD, code := 0, cond_code := CC_DEFAULT, dst := ⟨.RF_AB, 33⟩,
        src0 := .ST_IMM32 0, src1 := .ST_IMM32 0 } with
    signal := 14 }

/-- The characters of `b, r0, r1, a5, 0;`. -/
def b_a5_text : List Char := "b, r0, r1, a5, 0;".data

/-- The text `b, r0, r1, a5, 0;` with its ten token spans, the cursor on the mnemonic,
and the branch opcode already stored by `parse_op_code`. -/
def b_a5_tokens : instr :=
  { instr_of_ops [] 0
      { type := .OP_TYPE_BRANCH, code := OP_B, cond_code := CC_DEFAULT, dst := ⟨.RF_AB, 0⟩,
        src0 := .ST_IMM32 0, src1 := .ST_IMM32 0 }
      (branch_slot1 ⟨.RF_AB, 0⟩) with
    token_start := [0, 1, 3, 5, 7, 9, 11, 13, 15, 16],
    token_end := [1, 2, 5, 6, 9, 10, 13, 14, 16, 17],
    num_tokens := 10, curr_token := 0 }

/-- The record that `branch_parse_instr` builds from `b, r0, r1, a5, 0;`: the register
form. -/
def b_a5_parsed : instr :=
  { b_a5_tokens with
    op0 :=
      { type := .OP_TYPE_BRANCH, code := OP_B, cond_code := 15, dst := ⟨.RF_AB, 32⟩,
        src0 := .ST_REG ⟨.RF_A, 5⟩, src1 := .ST_IMM32 0 }
    op1 := branch_slot1 ⟨.RF_AB, 33⟩
    signal := 15, branch_rel := 0, branch_reg := 1, curr_token := 9 }

/-- The record `b_a5_parsed` after `branch_resolve_instr`. -/
def b_a5_resolved : instr :=
  { b_a5_parsed with
    op0 := { b_a5_parsed.op0 with dst := ⟨.RF_A, 32⟩ }
    op1 := branch_slot1 ⟨.RF_B, 33⟩
    write_swap := 0 }

/-- The characters of `b, r0, r1, L;`. -/
def b_L_text : List Char := "b, r0, r1, L;".data

/-- The text `b, r0, r1, L;` with its eight token spans, the cursor on the mnemonic. -/
def b_L_tokens : instr :=
  { instr_of_ops [] 0
      { branch_slot0 ⟨.RF_AB, 0⟩ "" with cond_code := CC_DEFAULT, src0 := .ST_IMM32 0 }
      (branch_slot1 ⟨.RF_AB, 0⟩) with
    token_start := [0, 1, 3, 5, 7, 9, 11, 12],
    token_end := [1, 2, 5, 6, 9, 10, 12, 13],
    num_tokens := 8, curr_token := 0 }

/-- The record that `branch_parse_instr` builds from `b, r0, r1, L;`: the label form. -/
def b_L_parsed : instr :=
  { branch_to_label [] 0 ⟨.RF_AB, 32⟩ ⟨.RF_AB, 33⟩ "L" with
    token_start := [0, 1, 3, 5, 7, 9, 11, 12],
    token_end := [1, 2, 5, 6, 9, 10, 12, 13],
    num_tokens := 8, curr_token := 7 }

/-- The record `b_L_parsed` after `branch_resolve_instr` in `branch_program`. -/
def b_L_resolved : instr :=
  { b_L_parsed with
    op0 := { b_L_parsed.op0 with dst := ⟨.RF_A, 32⟩, src0 := .ST_IMM32 0xFFFFFFF8 }
    op1 := branch_slot1 ⟨.RF_B, 33⟩
    write_swap := 0 }

/-- The record `li_r0_r1_16` after `lisem_resolve_instr`. -/
def li_r0_r1_16_resolved : instr :=
  { li_r0_r1_16 with
    op0 := { li_r0_r1_16.op0 with cond_code := CC_ALWAYS, dst := ⟨.RF_A, 32⟩ }
    op1 := { li_r0_r1_16.op1 with cond_code := CC_ALWAYS, dst := ⟨.RF_B, 33⟩ } }

/-- The text `add, -, a1, 3 -;` as `tokenize_instr` leaves it: the cursor is -1. -/
def add_nop_a1_3_line : instr :=
  { add_nop_a1_3_tokens with
    op0 := { add_nop_a1_3_tokens.op0 with type := .OP_TYPE_MUL, code := 0 }
    curr_token := -1 }

/-- The characters of `add, r0, unif, vary fmul, r1, unif, r2;`. -/
def unif_vary_text : List Char := "add, r0, unif, vary fmul, r1, unif, r2;".data

/-- The text `add, r0, unif, vary fmul, r1, unif, r2;` as `tokenize_instr` leaves it:
fifteen token spans and the cursor at -1; the other members hold earlier values. -/
def unif_vary_line : instr :=
  { instr_of_ops [] 0
      { type := .OP_TYPE_MUL, code := 0, cond_code := CC_NEVER, dst := ⟨.RF_AB, 0⟩,
        src0 := .ST_IMM32 0, src1 := .ST_IMM32 0 }
      { type := .OP_TYPE_MUL, code := 0, cond_code := CC_NEVER, dst := ⟨.RF_AB, 0⟩,
        src0 := .ST_IMM32 0, src1 := .ST_IMM32 0 } with
    token_start := [0, 3, 5, 7, 9, 13, 15, 20, 24, 26, 28, 30, 34, 36, 38],
    token_end := [3, 4, 7, 8, 13, 14, 19, 24, 25, 28, 29, 34, 35, 38, 39],
    num_tokens := 15, curr_token := -1 }

/-- The record that `parse_instr` builds from `unif_vary_line`. -/
def unif_vary_parsed : instr :=
  { unif_vary_line with op0 := add_r0_unif_vary, op1 := fmul_r1_unif_r2, curr_token := 14 }

/-- A record before `tokenize_instr`: no tokens, every member zero or stale. -/
def blank_line : instr :=
  { instr_of_ops [] 0
      { type := .OP_TYPE_MUL, code := 0, cond_code := CC_NEVER, dst := ⟨.RF_AB, 0⟩,
        src0 := .ST_IMM32 0, src1 := .ST_IMM32 0 }
      { type := .OP_TYPE_MUL, code := 0, cond_code := CC_NEVER, dst := ⟨.RF_AB, 0⟩,
        src0 := .ST_IMM32 0, src1 := .ST_IMM32 0 } with
    curr_token := 0, num_tokens := 0 }

/-- The text of 514 commas followed by `;`: every two commas are recorded as two
tokens. -/
def many_commas_text : List Char := List.replicate 514 ',' ++ [';']

/-- The line `- - ;`, whose `;` follows a blank. -/
def nop_nop_spaced_text : List Char := "- - ;".data

/-- The line `- -;`. -/
def nop_nop_text : List Char := "- -;".data

/-- The record of the line `- -;` after `tokenize_instr`. -/
def nop_nop_line : instr :=
  { blank_line with token_start := [0, 2, 3], token_end := [1, 3, 4], num_tokens := 3,
                    curr_token := -1 }

/-- A record as `tokenize_instr` leaves it on a line with the given token spans: the
cursor is -1 and the other members hold earlier values. -/
def tokenized_line (starts ends : List Nat) : instr :=
  { blank_line with token_start := starts, token_end := ends, num_tokens := starts.length,
                    curr_token := -1 }

/-- The characters of `add, r0, r1, r2 - sf ldtm0;`. -/
def add_sf_ldtm0_text : List Char := "add, r0, r1, r2 - sf ldtm0;".data

/-- The line `add, r0, r1, r2 - sf ldtm0;` after `tokenize_instr`. -/
def add_sf_ldtm0_line : instr :=
  tokenized_line [0, 3, 5, 7, 9, 11, 13, 16, 18, 21, 26] [3, 4, 7, 8, 11, 12, 15, 17, 20, 26, 27]

/-- The record of `add_sf_ldtm0_line` after `alu_parse_instr`: both slots are parsed and
the cursor is on the mul-slot mnemonic `-`. -/
def add_sf_ldtm0_slots : instr :=
  { add_sf_ldtm0_line with op0 := add_r0_r1_r2, op1 := add_nop_slot, curr_token := 7 }

/-- The characters of `add, r0, r1, rot1 fmul, r2, b1, r3;`: the rotation operand `rot1`
next to a read of the file-B register `b1`. -/
def rot_b_text : List Char := "add, r0, r1, rot1 fmul, r2, b1, r3;".data

/-- The line `add, r0, r1, rot1 fmul, r2, b1, r3;` after `tokenize_instr`. -/
def rot_b_line : instr :=
  tokenized_line [0, 3, 5, 7, 9, 11, 13, 18, 22, 24, 26, 28, 30, 32, 34]
    [3, 4, 7, 8, 11, 12, 17, 22, 23, 26, 27, 30, 31, 34, 35]

/-- The record that `parse_instr` builds from `rot_b_line`. -/
def rot_b_parsed : instr :=
  { rot_b_line with
    op0 := { type := .OP_TYPE_ADD, code := 12, cond_code := CC_DEFAULT, dst := ⟨.RF_AB, 32⟩,
             src0 := .ST_REG ⟨.RF_R, 1⟩, src1 := .ST_REG ⟨.RF_SIMM, 49⟩ },
    op1 := { type := .OP_TYPE_MUL, code := 1, cond_code := CC_DEFAULT, dst := ⟨.RF_AB, 34⟩,
             src0 := .ST_REG ⟨.RF_B, 1⟩, src1 := .ST_REG ⟨.RF_R, 3⟩ },
    curr_token := 14 }

/-- The characters of `add, r0, r1, rot1 fmul, r2, a1, r3;`: the rotation operand `rot1`
with a mul slot that reads the file-A register `a1`. -/
def rot_a_text : List Char := "add, r0, r1, rot1 fmul, r2, a1, r3;".data

/-- The record that `parse_instr` builds from the line
`add, r0, r1, rot1 fmul, r2, a1, r3;` (the token spans are those of `rot_b_line`). -/
def rot_a_parsed : instr :=
  { rot_b_parsed with op1 := { rot_b_parsed.op1 with src0 := .ST_REG ⟨.RF_A, 1⟩ } }

/-- The instruction `add, r0, a1, 3 - ldtm0;` as parsed: one file-A read, one small
immediate, and the signal `ldtm0` (10) set by the trailing token. -/
def add_a1_3_ldtm0 : instr :=
  { instr_of_ops [] 0 add_r0_a1_3 add_nop_slot with signal := 10 }

/-- The characters of `bnz.any, r0, r1, L;`. -/
def bnz_any_text : List Char := "bnz.any, r0, r1, L;".data

/-- The line `bnz.any, r0, r1, L;` after `tokenize_instr`. -/
def bnz_any_line : instr :=
  tokenized_line [0, 3, 4, 7, 9, 11, 13, 15, 17, 18] [3, 4, 7, 8, 11, 12, 15, 16, 18, 19]

/-- The record of `bnz_any_line` when `parse_instr` calls `branch_parse_instr`: the
mnemonic `bnz` (code 2) is stored and the cursor is on it. -/
def bnz_any_tokens : instr :=
  { bnz_any_line with
    op0 := { bnz_any_line.op0 with type := .OP_TYPE_BRANCH, code := 2, cond_code := CC_DEFAULT },
    op1 := { bnz_any_line.op1 with cond_code := CC_DEFAULT }, curr_token := 0 }

/-- The record that `branch_parse_instr` builds from `bnz_any_tokens`. -/
def bnz_any_parsed : instr :=
  { bnz_any_line with
    op0 := { type := .OP_TYPE_BRANCH, code := 2, cond_code := 3, dst := ⟨.RF_AB, 32⟩,
             src0 := .ST_LABEL "L", src1 := .ST_IMM32 0 },
    op1 := { bnz_any_line.op1 with cond_code := CC_DEFAULT, dst := ⟨.RF_AB, 33⟩ },
    signal := 15, branch_rel := 1, curr_token := 9 }

/-- The characters of `semup, 16;`. -/
def semup_16_text : List Char := "semup, 16;".data

/-- The line `semup, 16;` after `tokenize_instr`. -/
def semup_16_line : instr := tokenized_line [0, 5, 7, 9] [5, 6, 9, 10]

/-- The record of `semup_16_line` when `parse_instr` calls `lisem_parse_instr`: the
mnemonic `semup` (code 0) is stored and the cursor is on it. -/
def semup_16_tokens : instr :=
  { semup_16_line with
    op0 := { semup_16_line.op0 with type := .OP_TYPE_SEM, code := 0, cond_code := CC_DEFAULT },
    op1 := { semup_16_line.op1 with cond_code := CC_DEFAULT }, curr_token := 0 }

/-- The record that `lisem_parse_instr` builds from `semup_16_tokens`. -/
def semup_16_parsed : instr :=
  { semup_16_line with
    op0 := { type := .OP_TYPE_SEM, code := 0, cond_code := CC_ALWAYS, dst := ⟨.RF_A, 39⟩,
             src0 := .ST_IMM32 16, src1 := .ST_IMM32 0 },
    op1 := { semup_16_line.op1 with cond_code := CC_NEVER, dst := ⟨.RF_B, 0⟩ },
    signal := 14, unpack := 4, curr_token := 2 }

/-- The characters of `lis, r0, r1, 16;`. -/
def lis_16_text : List Char := "lis, r0, r1, 16;".data

/-- The line `lis, r0, r1, 16;` after `tokenize_instr`. -/
def lis_16_line : instr :=
  tokenized_line [0, 3, 5, 7, 9, 11, 13, 15] [3, 4, 7, 8, 11, 12, 15, 16]

/-- The record that `parse_instr` builds from `lis_16_line`. -/
def lis_16_parsed : instr :=
  { lis_16_line with
    op0 := { type := .OP_TYPE_LI, code := 1, cond_code := CC_DEFAULT, dst := ⟨.RF_AB, 32⟩,
             src0 := .ST_IMM32 16, src1 := .ST_IMM32 0 },
    op1 := { lis_16_line.op1 with cond_code := CC_DEFAULT, dst := ⟨.RF_AB, 33⟩ },
    signal := 14, unpack := 1, curr_token := 7 }

/-- A program in which the label `L` is carried by the instructions at addresses 16 and
24, after the branch `b r0, r1, L` at address 0. -/
def twice_labelled_program : List instr :=
  [branch_to_label [] 0 ⟨.RF_AB, 32⟩ ⟨.RF_AB, 33⟩ "L", nop_at [] 8, nop_at ["K", "L"] 16,
    nop_at ["L"] 24]

/-- The earlier revision's record of `add r0, unif, vary  fmul r1, unif, r2`: the reads
`(AB, 32)`, `(AB, 35)`, `(AB, 32)` and the accumulator `r2`, conditions Always, and
opcodes outside the rotate range. -/
def earlier_unif_vary_unif : Earlier.instr :=
  ⟨0, ⟨1, 1, 1, 1, ⟨.RF_AB, 32⟩, ⟨.RF_AB, 33⟩,
    ⟨.RF_AB, 32⟩, ⟨.RF_AB, 35⟩, ⟨.RF_AB, 32⟩, ⟨.RF_ACC, 2⟩⟩⟩

/-- The characters of `add, r0, r1, r2 v8adds, r3, r1, r2;`. -/
def add_v8adds_text : List Char := "add, r0, r1, r2 v8adds, r3, r1, r2;".data

/-- The line `add, r0, r1, r2 v8adds, r3, r1, r2;` after `tokenize_instr`. -/
def add_v8adds_line : instr :=
  tokenized_line [0, 3, 5, 7, 9, 11, 13, 16, 22, 24, 26, 28, 30, 32, 34]
    [3, 4, 7, 8, 11, 12, 15, 22, 23, 26, 27, 30, 31, 34, 35]

/-- The record that `parse_instr` builds from `add_v8adds_line`: the mul slot holds the
add-table code 30 of `v8adds`. -/
def add_v8adds_parsed : instr :=
  { add_v8adds_line with
    op0 := add_r0_r1_r2,
    op1 := { type := .OP_TYPE_ADD, code := 30, cond_code := CC_DEFAULT, dst := ⟨.RF_AB, 35⟩,
             src0 := .ST_REG ⟨.RF_R, 1⟩, src1 := .ST_REG ⟨.RF_R, 2⟩ },
    curr_token := 14 }

/-- The record `add_v8adds_parsed` after `alu_resolve_instr`. -/
def add_v8adds_resolved : instr :=
  { add_v8adds_parsed with
    op0 := { add_v8adds_parsed.op0 with cond_code := CC_ALWAYS, dst := ⟨.RF_A, 32⟩ },
    op1 := { add_v8adds_parsed.op1 with cond_code := CC_ALWAYS, dst := ⟨.RF_B, 35⟩ } }

/-- The characters of `add, r0, r1, r2 add, r3, r1, r2;`: the add-only mnemonic `add` in
the mul-slot position. -/
def add_add_text : List Char := "add, r0, r1, r2 add, r3, r1, r2;".data

/-- The line `add, r0, r1, r2 add, r3, r1, r2;` after `tokenize_instr`. -/
def add_add_line : instr :=
  tokenized_line [0, 3, 5, 7, 9, 11, 13, 16, 19, 21, 23, 25, 27, 29, 31]
    [3, 4, 7, 8, 11, 12, 15, 19, 20, 23, 24, 27, 28, 31, 32]

/-- The record `add_add_line` as `parse_instr` hands it to `alu_parse_instr`: the cursor
on the first mnemonic, whose type and code are stored, and both conditions Default. -/
def add_add_tokens : instr :=
  { add_add_line with
    op0 := { add_add_line.op0 with type := .OP_TYPE_ADD, code := 12, cond_code := CC_DEFAULT },
    op1 := { add_add_line.op1 with cond_code := CC_DEFAULT },
    curr_token := 0 }

/-- The record that `alu_parse_instr` builds from `add_add_tokens`: the mul slot holds the
add-table type and code of `add`. -/
def add_add_slots : instr :=
  { add_add_line with
    op0 := add_r0_r1_r2,
    op1 := { type := .OP_TYPE_ADD, code := 12, cond_code := CC_DEFAULT, dst := ⟨.RF_AB, 35⟩,
             src0 := .ST_REG ⟨.RF_R, 1⟩, src1 := .ST_REG ⟨.RF_R, 2⟩ },
    curr_token := 13 }

/-- The characters of `add, r0, r1, r2 li;`: a load-immediate mnemonic in the mul-slot
position. -/
def add_li_text : List Char := "add, r0, r1, r2 li;".data

/-- The line `add, r0, r1, r2 li;` after `tokenize_instr`. -/
def add_li_line : instr :=
  tokenized_line [0, 3, 5, 7, 9, 11, 13, 16, 18] [3, 4, 7, 8, 11, 12, 15, 18, 19]

/-- The record `add_li_line` as `parse_instr` hands it to `alu_parse_instr`. -/
def add_li_tokens : instr :=
  { add_li_line with
    op0 := { add_li_line.op0 with type := .OP_TYPE_ADD, code := 12, cond_code := CC_DEFAULT },
    op1 := { add_li_line.op1 with cond_code := CC_DEFAULT },
    curr_token := 0 }

/-- The record that `alu_parse_instr` builds from `add_li_tokens`: the mul slot is the NOP
that `alu_op_nop` writes, with the type of `li`. -/
def add_li_slots : instr :=
  { add_li_line with
    op0 := add_r0_r1_r2,
    op1 := { type := .OP_TYPE_LI, code := 0, cond_code := CC_NEVER, dst := ⟨.RF_AB, 39⟩,
             src0 := .ST_REG ⟨.RF_R, 0⟩, src1 := .ST_REG ⟨.RF_R, 0⟩ },
    curr_token := 7 }

/-- The characters of `add, r0, b1, 3 -;`: a read of the file-B register `b1` next to
the small immediate 3. -/
def add_b1_3_text : List Char := "add, r0, b1, 3 -;".data

/-- The line `add, r0, b1, 3 -;` after `tokenize_instr`. -/
def add_b1_3_line : instr :=
  tokenized_line [0, 3, 5, 7, 9, 11, 13, 15, 16] [3, 4, 7, 8, 11, 12, 14, 16, 17]

/-- The record that `parse_instr` builds from `add_b1_3_line`. -/
def add_b1_3_parsed : instr :=
  { add_b1_3_line with
    op0 := { type := .OP_TYPE_ADD, code := 12, cond_code := CC_DEFAULT, dst := ⟨.RF_AB, 32⟩,
             src0 := .ST_REG ⟨.RF_B, 1⟩, src1 := .ST_REG ⟨.RF_SIMM, 3⟩ },
    op1 := add_nop_slot,
    curr_token := 8 }

/-- The record `add_b1_3_parsed` after `alu_resolve_instr`: both reads of the add slot
are kept, and the signal is 13. -/
def add_b1_3_resolved : instr :=
  { add_b1_3_parsed with
    op0 := { add_b1_3_parsed.op0 with cond_code := CC_ALWAYS, dst := ⟨.RF_A, 32⟩ },
    op1 := { add_nop_slot with dst := ⟨.RF_B, 0⟩ },
    signal := 13 }

/-- The record `add_b1_3_parsed` with the small immediate 3 in place of `b1`: the
instruction `add, r0, 3, 3 -;`. -/
def add_3_3_parsed : instr :=
  { add_b1_3_parsed with
    op0 := { add_b1_3_parsed.op0 with src0 := .ST_REG ⟨.RF_SIMM, 3⟩ } }

/-- The record `add_b1_3_parsed` with the file-B register `b2` in place of the small
immediate: the instruction `add, r0, b1, b2 -;`. -/
def add_b1_b2_parsed : instr :=
  { add_b1_3_parsed with
    op0 := { add_b1_3_parsed.op0 with src1 := .ST_REG ⟨.RF_B, 2⟩ } }

/-- The characters of `li.x.x, r0, r1, 16 sf;`: both conditions written `.x`. -/
def li_x_text : List Char := "li.x.x, r0, r1, 16 sf;".data

/-- The line `li.x.x, r0, r1, 16 sf;` after `tokenize_instr`. -/
def li_x_line : instr :=
  tokenized_line [0, 2, 3, 4, 5, 6, 8, 10, 12, 14, 16, 19, 21]
    [2, 3, 4, 5, 6, 7, 10, 11, 14, 15, 18, 21, 22]

/-- The record that `parse_instr` builds from `li_x_line`: both conditions Never, both
destinations `(AB, 39)`, the immediate 16, signal 14 and `set_flag` 1. -/
def li_x_parsed : instr :=
  { li_x_line with
    op0 := { type := .OP_TYPE_LI, code := 0, cond_code := CC_NEVER, dst := ⟨.RF_AB, 39⟩,
             src0 := .ST_IMM32 16, src1 := .ST_IMM32 0 },
    op1 := { li_x_line.op1 with cond_code := CC_NEVER, dst := ⟨.RF_AB, 39⟩ },
    signal := 14, set_flag := 1, curr_token := 12 }

/-- The characters of `add, b1, r1, r2 fmul, r0, r1, r2;`: the add slot writes file B. -/
def add_b1_fmul_r0_text : List Char := "add, b1, r1, r2 fmul, r0, r1, r2;".data

/-- The line `add, b1, r1, r2 fmul, r0, r1, r2;` after `tokenize_instr`. -/
def add_b1_fmul_r0_line : instr :=
  tokenized_line [0, 3, 5, 7, 9, 11, 13, 16, 20, 22, 24, 26, 28, 30, 32]
    [3, 4, 7, 8, 11, 12, 15, 20, 21, 24, 25, 28, 29, 32, 33]

/-- The record that `parse_instr` builds from `add_b1_fmul_r0_line`: the destinations are
`(B, 1)` and `(AB, 32)`. -/
def add_b1_fmul_r0_parsed : instr :=
  { add_b1_fmul_r0_line with
    op0 := { type := .OP_TYPE_ADD, code := 12, cond_code := CC_DEFAULT, dst := ⟨.RF_B, 1⟩,
             src0 := .ST_REG ⟨.RF_R, 1⟩, src1 := .ST_REG ⟨.RF_R, 2⟩ },
    op1 := { type := .OP_TYPE_MUL, code := 1, cond_code := CC_DEFAULT, dst := ⟨.RF_AB, 32⟩,
             src0 := .ST_REG ⟨.RF_R, 1⟩, src1 := .ST_REG ⟨.RF_R, 2⟩ },
    curr_token := 14 }

/-- The record `add_b1_fmul_r0_parsed` after `alu_resolve_instr`: the mul destination is
placed in file A and the write swap is on. -/
def add_b1_fmul_r0_resolved : instr :=
  { add_b1_fmul_r0_parsed with
    op0 := { add_b1_fmul_r0_parsed.op0 with cond_code := CC_ALWAYS },
    op1 := { add_b1_fmul_r0_parsed.op1 with cond_code := CC_ALWAYS, dst := ⟨.RF_A, 32⟩ },
    write_swap := 1 }

/-- The characters of `semup, 12;`. -/
def semup_12_text : List Char := "semup, 12;".data

/-- The line `semup, 12;` after `tokenize_instr`. -/
def semup_12_line : instr := tokenized_line [0, 5, 7, 9] [5, 6, 9, 10]

/-- The record that `parse_instr` builds from `semup_12_line`: the trailing-token loop has
read the `;`, so the cursor is on the last token. -/
def semup_12_parsed : instr :=
  { semup_12_line with
    op0 := { type := .OP_TYPE_SEM, code := 0, cond_code := CC_ALWAYS, dst := ⟨.RF_A, 39⟩,
             src0 := .ST_IMM32 12, src1 := .ST_IMM32 0 },
    op1 := { semup_12_line.op1 with cond_code := CC_NEVER, dst := ⟨.RF_B, 0⟩ },
    signal := 14, unpack := 4, curr_token := 3 }

/-- A line of 600 letters `a` without a `;`. -/
def long_word_text : List Char := List.replicate 600 'a'

/-! ## The bit-counting loop -/

theorem count_loop_ge (fuel m n : Nat) : n ≤ count_mask_bits_loop fuel m n := by
  induction fuel generalizing m n with
  | zero => simp [count_mask_bits_loop]
  | succ k ih =>
    unfold count_mask_bits_loop
    split
    · exact le_rfl
    · split
      · exact le_trans (Nat.le_succ n) (ih _ _)
      · exact ih _ _

theorem shr_one (m : Nat) : m >>> 1 = m / 2 := by
  rw [Nat.shiftRight_eq_div_pow]

theorem count_loop_eq_iff (fuel m n : Nat) (hm : m < 2 ^ fuel) :
    count_mask_bits_loop fuel m n = n ↔ m = 0 := by
  induction fuel generalizing m n with
  | zero =>
    simp [count_mask_bits_loop]
    omega
  | succ k ih =>
    unfold count_mask_bits_loop
    by_cases h0 : m = 0
    · simp [h0]
    · rw [if_neg h0]
      simp only [h0, iff_false]
      have hlt : m >>> 1 < 2 ^ k := by
        rw [shr_one]; omega
      by_cases hb : m &&& 1 ≠ 0
      · rw [if_pos hb]
        have := count_loop_ge k (m >>> 1) (n + 1)
        omega
      · rw [if_neg hb]
        rw [ih _ _ hlt]
        rw [Nat.and_one_is_mod] at hb
        rw [shr_one]
        omega

/-- The fuel of the bit-counting loop suffices for every 64-bit mask: with more
iterations allowed the loop computes the same count. -/
theorem count_loop_fuel (fuel k m n : Nat) (hm : m < 2 ^ fuel) :
    count_mask_bits_loop (fuel + k) m n = count_mask_bits_loop fuel m n := by
  induction fuel generalizing m n with
  | zero =>
    have h0 : m = 0 := by simpa using hm
    subst h0
    cases k with
    | zero => rfl
    | succ k => simp [count_mask_bits_loop]
  | succ f ih =>
    have e : f + 1 + k = (f + k) + 1 := by omega
    rw [e]
    unfold count_mask_bits_loop
    by_cases h0 : m = 0
    · simp [h0]
    · rw [if_neg h0, if_neg h0]
      exact ih _ _ (by rw [shr_one]; omega)

theorem two_bits_half (m : Nat) :
    two_bits m ↔ (m % 2 = 1 ∧ m / 2 ≠ 0) ∨ two_bits (m / 2) := by
  constructor
  · rintro ⟨a, b, hab, ha, hb⟩
    rcases a with _ | a <;> rcases b with _ | b
    · exact absurd rfl hab
    · left
      rw [Nat.testBit_succ] at hb
      refine ⟨by simpa [Nat.testBit_zero] using ha, ?_⟩
      intro h; rw [h] at hb; simp at hb
    · left
      rw [Nat.testBit_succ] at ha
      refine ⟨by simpa [Nat.testBit_zero] using hb, ?_⟩
      intro h; rw [h] at ha; simp at ha
    · right
      rw [Nat.testBit_succ] at ha hb
      exact ⟨a, b, by omega, ha, hb⟩
  · rintro (⟨h1, h2⟩ | ⟨a, b, hab, ha, hb⟩)
    · obtain ⟨j, hj⟩ := Nat.ne_zero_implies_bit_true h2
      refine ⟨0, j + 1, by omega, by simpa [Nat.testBit_zero] using h1, ?_⟩
      rw [Nat.testBit_succ]; exact hj
    · refine ⟨a + 1, b + 1, by omega, ?_, ?_⟩ <;> rw [Nat.testBit_succ] <;> assumption

theorem count_loop_two_iff (fuel m n : Nat) (hm : m < 2 ^ fuel) :
    n + 2 ≤ count_mask_bits_loop fuel m n ↔ two_bits m := by
  induction fuel generalizing m n with
  | zero =>
    have : m = 0 := by simpa using hm
    subst this
    simp [count_mask_bits_loop, two_bits]
  | succ k ih =>
    unfold count_mask_bits_loop
    by_cases h0 : m = 0
    · subst h0; simp [two_bits]
    · rw [if_neg h0]
      have hlt : m >>> 1 < 2 ^ k := by
        rw [shr_one]; omega
      rw [two_bits_half]
      rw [shr_one] at hlt ⊢
      by_cases hb : m &&& 1 ≠ 0
      · rw [if_pos hb]
        have hb' : m % 2 = 1 := by
          rw [Nat.and_one_is_mod] at hb; omega
        have hge := count_loop_ge k (m / 2) (n + 1)
        have heq := count_loop_eq_iff k (m / 2) (n + 1) hlt
        have ih' := ih (m / 2) (n + 1) hlt
        constructor
        · intro h
          left
          refine ⟨hb', ?_⟩
          intro hz
          have := heq.2 hz
          omega
        · rintro (⟨_, h2⟩ | h2)
          · have : count_mask_bits_loop k (m / 2) (n + 1) ≠ n + 1 := fun h => h2 (heq.1 h)
            omega
          · have := ih'.2 h2
            omega
      · rw [if_neg hb]
        have hb' : m % 2 = 0 := by
          rw [Nat.and_one_is_mod] at hb; omega
        rw [ih (m / 2) n hlt]
        constructor
        · intro h; exact Or.inr h
        · rintro (⟨h1, _⟩ | h2)
          · omega
          · exact h2

/-! ## The masks of the read operands -/

theorem mask_of_testBit (a n : Nat) :
    (mask_of a).testBit n = (decide (n < 64) && decide (a = n)) := by
  unfold mask_of
  rw [Nat.testBit_mod_two_pow, Nat.one_shiftLeft, Nat.testBit_two_pow]

theorem mask_of_lt (a : Nat) : mask_of a < 2 ^ 64 := by
  unfold mask_of
  exact Nat.mod_lt _ (by norm_num)

theorem mask_of_ne_zero {a : Nat} (h : a < 64) : mask_of a ≠ 0 := by
  intro hz
  have := mask_of_testBit a a
  rw [hz] at this
  simp [h] at this

theorem mask_of_inj {a b : Nat} (ha : a < 64) (h : mask_of a = mask_of b) : a = b := by
  have := mask_of_testBit a a
  rw [h, mask_of_testBit] at this
  simp [ha] at this
  exact this.symm

theorem not_two_bits_eq {m a : Nat} (h : ¬ two_bits m) (ha : m.testBit a = true) (h64 : a < 64) :
    m = mask_of a := by
  apply Nat.eq_of_testBit_eq
  intro j
  rw [mask_of_testBit]
  by_cases hj : a = j
  · subst hj; simp [ha, h64]
  · simp only [hj, decide_False, Bool.and_false]
    by_contra hne
    exact h ⟨a, j, hj, ha, by simpa using hne⟩

theorem add_src_mask_spec {m m' : masks_t} {s : src} (h : add_src_mask m s = some m') :
    ∃ r, s = .ST_REG r ∧
      (∀ f n, (m' f).testBit n =
        ((m f).testBit n ||
          (decide (n < 64) && decide (r.rf = f ∧ f ≠ .RF_R ∧ r.num = n)))) ∧
      (∀ f, m f < 2 ^ 64 → m' f < 2 ^ 64) := by
  cases s with
  | ST_IMM32 v => simp [add_src_mask] at h
  | ST_LABEL l => simp [add_src_mask] at h
  | ST_REG r =>
    refine ⟨r, rfl, ?_⟩
    unfold add_src_mask at h
    simp only at h
    split at h
    · rename_i hr
      simp only [Option.some.injEq] at h
      subst h
      constructor
      · intro f n
        by_cases hf : r.rf = f
        · subst hf; simp [hr]
        · simp [hf]
      · intro f hf; exact hf
    · rename_i hr
      simp only [Option.some.injEq] at h
      subst h
      constructor
      · intro f n
        by_cases hf : f = r.rf
        · subst hf
          simp [Function.update_same, Nat.testBit_or, mask_of_testBit, hr]
        · have hf' : ¬ r.rf = f := fun h => hf h.symm
          simp [Function.update_noteq hf, hf']
      · intro f hf
        by_cases hf' : f = r.rf
        · subst hf'
          rw [Function.update_same]
          exact Nat.or_lt_two_pow hf (mask_of_lt _)
        · rw [Function.update_noteq hf']; exact hf

theorem alu_src_masks_spec {i : instr} {M : masks_t} (h : alu_src_masks i = some M) :
    (∀ s ∈ alu_srcs i, ∃ r, s = .ST_REG r) ∧
    (∀ f n, (M f).testBit n = true ↔
      n < 64 ∧ f ≠ .RF_R ∧ .ST_REG ⟨f, n⟩ ∈ alu_srcs i) ∧
    (∀ f, M f < 2 ^ 64) := by
  unfold alu_src_masks at h
  simp only [Option.bind_eq_some] at h
  obtain ⟨m0, h0, m1, h1, m2, h2, h3⟩ := h
  obtain ⟨r0, e0, b0, l0⟩ := add_src_mask_spec h0
  obtain ⟨r1, e1, b1, l1⟩ := add_src_mask_spec h1
  obtain ⟨r2, e2, b2, l2⟩ := add_src_mask_spec h2
  obtain ⟨r3, e3, b3, l3⟩ := add_src_mask_spec h3
  refine ⟨?_, ?_, ?_⟩
  · intro s hs
    simp only [alu_srcs, List.mem_cons, List.mem_singleton, List.not_mem_nil, or_false] at hs
    rcases hs with hs | hs | hs | hs
    · exact ⟨r0, hs.trans e0⟩
    · exact ⟨r1, hs.trans e1⟩
    · exact ⟨r2, hs.trans e2⟩
    · exact ⟨r3, hs.trans e3⟩
  · intro f n
    rw [b3, b2, b1, b0]
    simp only [alu_srcs, e0, e1, e2, e3, List.mem_cons, List.mem_singleton, src.ST_REG.injEq,
      List.not_mem_nil, or_false, Nat.zero_testBit, Bool.false_or, Bool.or_eq_true,
      Bool.and_eq_true, decide_eq_true_eq]
    constructor
    · rintro (((⟨hn, hf, hR, hnum⟩ | ⟨hn, hf, hR, hnum⟩) | ⟨hn, hf, hR, hnum⟩) | ⟨hn, hf, hR, hnum⟩)
      · exact ⟨hn, hR, Or.inl (by subst hf hnum; rfl)⟩
      · exact ⟨hn, hR, Or.inr (Or.inl (by subst hf hnum; rfl))⟩
      · exact ⟨hn, hR, Or.inr (Or.inr (Or.inl (by subst hf hnum; rfl)))⟩
      · exact ⟨hn, hR, Or.inr (Or.inr (Or.inr (by subst hf hnum; rfl)))⟩
    · rintro ⟨hn, hR, h | h | h | h⟩
      · subst h; exact Or.inl (Or.inl (Or.inl ⟨hn, rfl, hR, rfl⟩))
      · subst h; exact Or.inl (Or.inl (Or.inr ⟨hn, rfl, hR, rfl⟩))
      · subst h; exact Or.inl (Or.inr ⟨hn, rfl, hR, rfl⟩)
      · subst h; exact Or.inr ⟨hn, rfl, hR, rfl⟩
  · intro f
    exact l3 f (l2 f (l1 f (l0 f (by norm_num))))

/-! ## Operand tables -/

theorem find_name_mem {t : List reg_info} {s : String} {e : reg_info}
    (h : find_name t s = some e) : e ∈ t := by
  induction t with
  | nil => simp [find_name] at h
  | cons x xs ih =>
    unfold find_name at h
    split at h
    · simp only [Option.some.injEq] at h; subst h; exact List.mem_cons_self _ _
    · exact List.mem_cons_of_mem _ (ih h)

theorem alu_parse_src_spec {t : String} {s : src} (h : alu_parse_src t = some s) :
    ∃ r, s = .ST_REG r ∧ r.num < 64 ∧ (r.rf = .RF_AB → ab_num r.num) ∧
      (r.rf = .RF_A ∨ r.rf = .RF_B → ¬ ab_num r.num) := by
  unfold alu_parse_src at h
  split at h
  · rename_i e he
    simp only [Option.some.injEq] at h; subst h
    have hm := find_name_mem he
    have : ∀ e ∈ g_src_regs_a, e.2 < 64 ∧ ¬ ab_num e.2 := by decide
    exact ⟨_, rfl, (this e hm).1, by simp, fun _ => (this e hm).2⟩
  · split at h
    · rename_i e he
      simp only [Option.some.injEq] at h; subst h
      have hm := find_name_mem he
      have : ∀ e ∈ g_src_regs_b, e.2 < 64 ∧ ¬ ab_num e.2 := by decide
      exact ⟨_, rfl, (this e hm).1, by simp, fun _ => (this e hm).2⟩
    · split at h
      · rename_i e he
        simp only [Option.some.injEq] at h; subst h
        have hm := find_name_mem he
        have : ∀ e ∈ g_src_regs_ab, e.2 < 64 ∧ ab_num e.2 := by decide
        exact ⟨_, rfl, (this e hm).1, fun _ => (this e hm).2, by simp⟩
      · split at h
        · rename_i e he
          simp only [Option.some.injEq] at h; subst h
          have hm := find_name_mem he
          have : ∀ e ∈ g_src_regs_r, e.2 < 64 := by decide
          exact ⟨_, rfl, this e hm, by simp, by simp⟩
        · split at h
          · rename_i e he
            simp only [Option.some.injEq] at h; subst h
            have hm := find_name_mem he
            have : ∀ e ∈ g_src_regs_simm, e.2 < 64 := by decide
            exact ⟨_, rfl, this e hm, by simp, by simp⟩
          · simp at h

/-! ## The last loop of `alu_resolve_src_regfiles` -/

theorem resolve_ab_src_spec {m m' : masks_t} {s s' : src}
    (h : resolve_ab_src m s = some (m', s')) :
    (s' = s ∧ m' = m ∧ ∀ r, s = .ST_REG r → r.rf ≠ .RF_AB) ∨
    (∃ n, s = .ST_REG ⟨.RF_AB, n⟩ ∧ s' = .ST_REG ⟨.RF_A, n⟩ ∧
      (m .RF_A = 0 ∨ m .RF_A = mask_of n) ∧
      m' = Function.update m .RF_A (mask_of n)) ∨
    (∃ n, s = .ST_REG ⟨.RF_AB, n⟩ ∧ s' = .ST_REG ⟨.RF_B, n⟩ ∧
      ¬ (m .RF_A = 0 ∨ m .RF_A = mask_of n) ∧
      (m .RF_B = 0 ∨ m .RF_B = mask_of n) ∧
      m' = Function.update m .RF_B (mask_of n)) := by
  cases s with
  | ST_IMM32 v =>
    simp only [resolve_ab_src, Option.some.injEq, Prod.mk.injEq] at h
    exact Or.inl ⟨h.2.symm, h.1.symm, by simp⟩
  | ST_LABEL l =>
    simp only [resolve_ab_src, Option.some.injEq, Prod.mk.injEq] at h
    exact Or.inl ⟨h.2.symm, h.1.symm, by simp⟩
  | ST_REG r =>
    obtain ⟨rf, n⟩ := r
    unfold resolve_ab_src at h
    simp only at h
    split at h
    · rename_i hr
      simp only [Option.some.injEq, Prod.mk.injEq] at h
      exact Or.inl ⟨h.2.symm, h.1.symm, by
        intro r hr'; simp only [src.ST_REG.injEq] at hr'; subst hr'; exact hr⟩
    · rename_i hr
      have hr' : rf = .RF_AB := by simpa using hr
      subst hr'
      split at h
      · rename_i hA
        simp only [Option.some.injEq, Prod.mk.injEq] at h
        exact Or.inr (Or.inl ⟨n, rfl, h.2.symm, hA, h.1.symm⟩)
      · rename_i hA
        split at h
        · rename_i hB
          simp only [Option.some.injEq, Prod.mk.injEq] at h
          exact Or.inr (Or.inr ⟨n, rfl, h.2.symm, hA, hB, h.1.symm⟩)
        · simp at h

theorem resolve_ab_src_rel {m m' : masks_t} {s s' : src}
    (h : resolve_ab_src m s = some (m', s')) : src_resolved s s' := by
  rcases resolve_ab_src_spec h with ⟨h1, _, h3⟩ | ⟨n, h1, h2, _⟩ | ⟨n, h1, h2, _⟩
  · exact Or.inl ⟨h1, h3⟩
  · exact Or.inr ⟨n, h1, Or.inl h2⟩
  · exact Or.inr ⟨n, h1, Or.inr h2⟩

theorem resolve_ab_src_none {m : masks_t} {s : src} (h : resolve_ab_src m s = none) :
    ∃ n, s = .ST_REG ⟨.RF_AB, n⟩ ∧ ¬ (m .RF_A = 0 ∨ m .RF_A = mask_of n) ∧
      ¬ (m .RF_B = 0 ∨ m .RF_B = mask_of n) := by
  cases s with
  | ST_IMM32 v => simp [resolve_ab_src] at h
  | ST_LABEL l => simp [resolve_ab_src] at h
  | ST_REG r =>
    obtain ⟨rf, n⟩ := r
    unfold resolve_ab_src at h
    simp only at h
    split at h
    · simp at h
    · rename_i hr
      have hr' : rf = .RF_AB := by simpa using hr
      subst hr'
      split at h
      · simp at h
      · rename_i hA
        split at h
        · simp at h
        · rename_i hB
          exact ⟨n, rfl, hA, hB⟩

theorem ports_consistent_step {m m' : masks_t} {s s' : src} {L L' : List src}
    (hL : ports_consistent m L) (hs : s ∈ L)
    (h : resolve_ab_src m s = some (m', s'))
    (hsub : ∀ x ∈ L', x = s' ∨ x ∈ L) : ports_consistent m' L' := by
  rcases resolve_ab_src_spec h with ⟨h1, h2, _⟩ | ⟨n, h1, h2, hc, hm⟩ | ⟨n, h1, h2, _, hc, hm⟩
  · subst h1 h2
    intro r hr
    rcases hsub _ hr with hx | hx
    · exact hL r (hx ▸ hs)
    · exact hL r hx
  · subst hm
    have hn : n < 64 := (hL ⟨.RF_AB, n⟩ (h1 ▸ hs)).1
    intro r hr
    rcases hsub _ hr with hx | hx
    · rw [h2] at hx
      simp only [src.ST_REG.injEq] at hx
      subst hx
      simp [hn]
    · obtain ⟨hr1, hr2, hr3⟩ := hL r hx
      refine ⟨hr1, ?_, ?_⟩
      · intro hA
        rw [Function.update_same]
        have := hr2 hA
        rcases hc with hc | hc
        · exact absurd (this.symm.trans hc) (mask_of_ne_zero hr1)
        · exact hc.symm.trans this
      · intro hB
        rw [Function.update_noteq (by decide)]
        exact hr3 hB
  · subst hm
    have hn : n < 64 := (hL ⟨.RF_AB, n⟩ (h1 ▸ hs)).1
    intro r hr
    rcases hsub _ hr with hx | hx
    · rw [h2] at hx
      simp only [src.ST_REG.injEq] at hx
      subst hx
      simp [hn]
    · obtain ⟨hr1, hr2, hr3⟩ := hL r hx
      refine ⟨hr1, ?_, ?_⟩
      · intro hA
        rw [Function.update_noteq (by decide)]
        exact hr2 hA
      · intro hB
        rw [Function.update_same]
        have := hr3 hB
        rcases hc with hc | hc
        · exact absurd (this.symm.trans hc) (mask_of_ne_zero hr1)
        · exact hc.symm.trans this

theorem settled_step {m m' : masks_t} {s s' : src} {t : Nat} {f : reg_file}
    (hst : settled m t f) (h : resolve_ab_src m s = some (m', s')) : settled m' t f := by
  obtain ⟨ht, hst⟩ := hst
  refine ⟨ht, ?_⟩
  rcases resolve_ab_src_spec h with ⟨_, h2, _⟩ | ⟨n, _, _, hc, hm⟩ | ⟨n, _, _, hnA, hc, hm⟩
  · subst h2; exact hst
  · subst hm
    rcases hst with ⟨hf, hA⟩ | ⟨hf, hA0, hAt, hB⟩
    · left
      refine ⟨hf, ?_⟩
      rw [Function.update_same]
      rcases hc with hc | hc
      · exact absurd (hA.symm.trans hc) ht
      · exact hc.symm.trans hA
    · right
      have hc' : m .RF_A = mask_of n := by
        rcases hc with hc | hc
        · exact absurd hc hA0
        · exact hc
      refine ⟨hf, ?_, ?_, ?_⟩
      · rw [Function.update_same, ← hc']; exact hA0
      · rw [Function.update_same, ← hc']; exact hAt
      · rw [Function.update_noteq (by decide)]; exact hB
  · subst hm
    rcases hst with ⟨hf, hA⟩ | ⟨hf, hA0, hAt, hB⟩
    · left
      refine ⟨hf, ?_⟩
      rw [Function.update_noteq (by decide)]; exact hA
    · right
      refine ⟨hf, ?_, ?_, ?_⟩
      · rw [Function.update_noteq (by decide)]; exact hA0
      · rw [Function.update_noteq (by decide)]; exact hAt
      · rw [Function.update_same]
        rcases hc with hc | hc
        · exact absurd (hB.symm.trans hc) ht
        · exact hc.symm.trans hB

theorem settled_after {m m' : masks_t} {s' : src} {n : Nat} (hn : n < 64)
    (h : resolve_ab_src m (.ST_REG ⟨.RF_AB, n⟩) = some (m', s')) :
    ∃ f, (f = .RF_A ∨ f = .RF_B) ∧ s' = .ST_REG ⟨f, n⟩ ∧ settled m' (mask_of n) f := by
  have ht := mask_of_ne_zero hn
  rcases resolve_ab_src_spec h with ⟨_, _, h3⟩ | ⟨k, h1, h2, hc, hm⟩ | ⟨k, h1, h2, hnA, hc, hm⟩
  · exact absurd rfl (h3 _ rfl)
  · simp only [src.ST_REG.injEq, reg.mk.injEq, true_and] at h1
    subst h1 hm
    exact ⟨.RF_A, Or.inl rfl, h2, ht, Or.inl ⟨rfl, by rw [Function.update_same]⟩⟩
  · simp only [src.ST_REG.injEq, reg.mk.injEq, true_and] at h1
    subst h1 hm
    refine ⟨.RF_B, Or.inr rfl, h2, ht, Or.inr ⟨rfl, ?_, ?_, ?_⟩⟩
    · rw [Function.update_noteq (by decide)]; exact fun h0 => hnA (Or.inl h0)
    · rw [Function.update_noteq (by decide)]; exact fun h0 => hnA (Or.inr h0)
    · rw [Function.update_same]

theorem settled_out {m m' : masks_t} {s' : src} {n : Nat} {f : reg_file}
    (hst : settled m (mask_of n) f)
    (h : resolve_ab_src m (.ST_REG ⟨.RF_AB, n⟩) = some (m', s')) :
    s' = .ST_REG ⟨f, n⟩ := by
  obtain ⟨ht, hst⟩ := hst
  rcases resolve_ab_src_spec h with ⟨_, _, h3⟩ | ⟨k, h1, h2, hc, hm⟩ | ⟨k, h1, h2, hnA, hc, hm⟩
  · exact absurd rfl (h3 _ rfl)
  · simp only [src.ST_REG.injEq, reg.mk.injEq, true_and] at h1
    subst h1
    rcases hst with ⟨hf, _⟩ | ⟨_, hA0, hAt, _⟩
    · subst hf; exact h2
    · rcases hc with hc | hc
      · exact absurd hc hA0
      · exact absurd hc hAt
  · simp only [src.ST_REG.injEq, reg.mk.injEq, true_and] at h1
    subst h1
    rcases hst with ⟨_, hA⟩ | ⟨hf, _, _, _⟩
    · exact absurd (Or.inr hA) hnA
    · subst hf; exact h2

theorem resolve_ab_srcs_success {m : masks_t} {i i' : instr}
    (h : resolve_ab_srcs m i = some (.ERR_SUCCESS, i')) :
    ∃ m4 b0 b1 b2 b3,
      ab_chain m m4 i.op0.src0 i.op0.src1 i.op1.src0 i.op1.src1 b0 b1 b2 b3 ∧
      i' = with_srcs i b0 b1 b2 b3 := by
  unfold resolve_ab_srcs at h
  split at h
  · simp at h
  · rename_i m1 s0 h0
    simp only at h
    split at h
    · simp at h
    · rename_i m2 s1 h1
      split at h
      · simp at h
      · rename_i m3 s2 h2
        split at h
        · simp at h
        · rename_i m4 s3 h3
          simp only [Option.some.injEq, Prod.mk.injEq, true_and] at h
          exact ⟨m4, s0, s1, s2, s3, ⟨m1, m2, m3, h0, h1, h2, h3⟩, h.symm⟩

theorem resolve_ab_srcs_returns (m : masks_t) (i : instr) :
    ∃ e i', resolve_ab_srcs m i = some (e, i') ∧ (e = .ERR_SUCCESS ∨ e = .ERR_SYNTAX) := by
  unfold resolve_ab_srcs
  split
  · exact ⟨_, _, rfl, Or.inr rfl⟩
  · simp only
    split
    · exact ⟨_, _, rfl, Or.inr rfl⟩
    · split
      · exact ⟨_, _, rfl, Or.inr rfl⟩
      · split
        · exact ⟨_, _, rfl, Or.inr rfl⟩
        · exact ⟨_, _, rfl, Or.inl rfl⟩

theorem ab_chain_rel {m0 m4 : masks_t} {a0 a1 a2 a3 b0 b1 b2 b3 : src}
    (h : ab_chain m0 m4 a0 a1 a2 a3 b0 b1 b2 b3) :
    src_resolved a0 b0 ∧ src_resolved a1 b1 ∧ src_resolved a2 b2 ∧ src_resolved a3 b3 := by
  obtain ⟨m1, m2, m3, h0, h1, h2, h3⟩ := h
  exact ⟨resolve_ab_src_rel h0, resolve_ab_src_rel h1, resolve_ab_src_rel h2,
    resolve_ab_src_rel h3⟩

theorem ab_chain_consistent {m0 m4 : masks_t} {a0 a1 a2 a3 b0 b1 b2 b3 : src}
    (hL : ports_consistent m0 [a0, a1, a2, a3])
    (h : ab_chain m0 m4 a0 a1 a2 a3 b0 b1 b2 b3) :
    ports_consistent m4 [b0, b1, b2, b3] := by
  obtain ⟨m1, m2, m3, h0, h1, h2, h3⟩ := h
  have c1 : ports_consistent m1 [b0, a1, a2, a3] :=
    ports_consistent_step hL (by simp) h0 (by simp)
  have c2 : ports_consistent m2 [b0, b1, a2, a3] :=
    ports_consistent_step c1 (by simp) h1 (by intro x hx; simp at hx ⊢; tauto)
  have c3 : ports_consistent m3 [b0, b1, b2, a3] :=
    ports_consistent_step c2 (by simp) h2 (by intro x hx; simp at hx ⊢; tauto)
  exact ports_consistent_step c3 (by simp) h3 (by intro x hx; simp at hx ⊢; tauto)

theorem ab_chain_same {m0 m4 : masks_t} {a0 a1 a2 a3 b0 b1 b2 b3 : src} {n j k : Nat}
    (h : ab_chain m0 m4 a0 a1 a2 a3 b0 b1 b2 b3) (hn : n < 64) (hjk : j < k)
    (hj : [a0, a1, a2, a3][j]? = some (.ST_REG ⟨.RF_AB, n⟩))
    (hk : [a0, a1, a2, a3][k]? = some (.ST_REG ⟨.RF_AB, n⟩)) :
    ∃ f, (f = .RF_A ∨ f = .RF_B) ∧ [b0, b1, b2, b3][j]? = some (.ST_REG ⟨f, n⟩) ∧
      [b0, b1, b2, b3][k]? = some (.ST_REG ⟨f, n⟩) := by
  obtain ⟨m1, m2, m3, h0, h1, h2, h3⟩ := h
  have hk4 : k < 4 := by
    by_contra hc
    rw [List.getElem?_eq_none (by simp; omega)] at hk
    simp at hk
  have hcases : (j = 0 ∧ k = 1) ∨ (j = 0 ∧ k = 2) ∨ (j = 0 ∧ k = 3) ∨ (j = 1 ∧ k = 2) ∨
      (j = 1 ∧ k = 3) ∨ (j = 2 ∧ k = 3) := by omega
  rcases hcases with ⟨rfl, rfl⟩ | ⟨rfl, rfl⟩ | ⟨rfl, rfl⟩ | ⟨rfl, rfl⟩ | ⟨rfl, rfl⟩ | ⟨rfl, rfl⟩ <;>
    simp only [List.getElem?_cons_zero, List.getElem?_cons_succ, Option.some.injEq] at hj hk ⊢ <;>
    subst hj hk
  · obtain ⟨f, hf, e, st⟩ := settled_after hn h0
    exact ⟨f, hf, e, settled_out st h1⟩
  · obtain ⟨f, hf, e, st⟩ := settled_after hn h0
    exact ⟨f, hf, e, settled_out (settled_step st h1) h2⟩
  · obtain ⟨f, hf, e, st⟩ := settled_after hn h0
    exact ⟨f, hf, e, settled_out (settled_step (settled_step st h1) h2) h3⟩
  · obtain ⟨f, hf, e, st⟩ := settled_after hn h1
    exact ⟨f, hf, e, settled_out st h2⟩
  · obtain ⟨f, hf, e, st⟩ := settled_after hn h1
    exact ⟨f, hf, e, settled_out (settled_step st h2) h3⟩
  · obtain ⟨f, hf, e, st⟩ := settled_after hn h2
    exact ⟨f, hf, e, settled_out st h3⟩

/-! ## `alu_resolve_src_regfiles`: what a return means -/

theorem count_mask_bits_eq_zero {m : Nat} (hm : m < 2 ^ 64) : count_mask_bits m = 0 ↔ m = 0 :=
  count_loop_eq_iff 64 m 0 hm

theorem count_mask_bits_two {m : Nat} (hm : m < 2 ^ 64) : 2 ≤ count_mask_bits m ↔ two_bits m := by
  have := count_loop_two_iff 64 m 0 hm
  simpa [count_mask_bits] using this

theorem alu_srcs_parsed_spec {i : instr} (hp : alu_srcs_parsed i) :
    ∀ s ∈ alu_srcs i, ∃ r, s = .ST_REG r ∧ r.num < 64 ∧ (r.rf = .RF_AB → ab_num r.num) ∧
      (r.rf = .RF_A ∨ r.rf = .RF_B → ¬ ab_num r.num) := by
  obtain ⟨⟨t0, h0⟩, ⟨t1, h1⟩, ⟨t2, h2⟩, ⟨t3, h3⟩⟩ := hp
  intro s hs
  simp only [alu_srcs, List.mem_cons, List.mem_singleton, List.not_mem_nil, or_false] at hs
  rcases hs with hs | hs | hs | hs <;> subst hs
  · exact alu_parse_src_spec h0
  · exact alu_parse_src_spec h1
  · exact alu_parse_src_spec h2
  · exact alu_parse_src_spec h3

theorem alu_srcs_parsed_num {i : instr} (hp : alu_srcs_parsed i) :
    ∀ r, src.ST_REG r ∈ alu_srcs i → r.num < 64 := by
  intro r hr
  obtain ⟨r', e, h, _⟩ := alu_srcs_parsed_spec hp _ hr
  simp only [src.ST_REG.injEq] at e
  subst e
  exact h

theorem add_src_mask_reg (m : masks_t) (r : reg) : ∃ m', add_src_mask m (.ST_REG r) = some m' := by
  unfold add_src_mask
  simp only
  split <;> exact ⟨_, rfl⟩

theorem alu_src_masks_some {i : instr} (h : ∀ s ∈ alu_srcs i, ∃ r, s = src.ST_REG r) :
    ∃ M, alu_src_masks i = some M := by
  obtain ⟨r0, e0⟩ := h i.op0.src0 (by simp [alu_srcs])
  obtain ⟨r1, e1⟩ := h i.op0.src1 (by simp [alu_srcs])
  obtain ⟨r2, e2⟩ := h i.op1.src0 (by simp [alu_srcs])
  obtain ⟨r3, e3⟩ := h i.op1.src1 (by simp [alu_srcs])
  unfold alu_src_masks
  rw [e0, e1, e2, e3]
  obtain ⟨m0, h0⟩ := add_src_mask_reg (fun _ => 0) r0
  obtain ⟨m1, h1⟩ := add_src_mask_reg m0 r1
  obtain ⟨m2, h2⟩ := add_src_mask_reg m1 r2
  obtain ⟨m3, h3⟩ := add_src_mask_reg m2 r3
  exact ⟨m3, by simp [h0, h1, h2, h3]⟩

/-- The masks of parsed operands pass both `assert`s on `masks[RF_AB]`. -/
theorem alu_src_masks_disjoint {i : instr} {M : masks_t} (hp : alu_srcs_parsed i)
    (hM : alu_src_masks i = some M) :
    M .RF_A &&& M .RF_AB = 0 ∧ M .RF_B &&& M .RF_AB = 0 := by
  obtain ⟨_, hbit, _⟩ := alu_src_masks_spec hM
  have hs := alu_srcs_parsed_spec hp
  have key : ∀ f, (f = .RF_A ∨ f = .RF_B) → M f &&& M .RF_AB = 0 := by
    intro f hf
    apply Nat.eq_of_testBit_eq
    intro n
    rw [Nat.testBit_and, Nat.zero_testBit]
    by_contra hne
    simp only [Bool.and_eq_false_imp, Bool.not_eq_false, not_forall] at hne
    obtain ⟨h1, h2⟩ := hne
    have h2 : (M .RF_AB).testBit n = true := by simpa using h2
    obtain ⟨_, _, m1⟩ := (hbit f n).1 h1
    obtain ⟨_, _, m2⟩ := (hbit .RF_AB n).1 h2
    obtain ⟨r1, e1, _, _, p1⟩ := hs _ m1
    obtain ⟨r2, e2, _, p2, _⟩ := hs _ m2
    simp only [src.ST_REG.injEq] at e1 e2
    subst e1 e2
    exact p1 hf (p2 rfl)
  exact ⟨key _ (Or.inl rfl), key _ (Or.inr rfl)⟩

theorem ports_consistent_init {i : instr} {M : masks_t} (hM : alu_src_masks i = some M)
    (hnum : ∀ r, src.ST_REG r ∈ alu_srcs i → r.num < 64)
    (hA : ¬ two_bits (M .RF_A)) (hB : ¬ two_bits (M .RF_B)) :
    ports_consistent M (alu_srcs i) := by
  obtain ⟨_, hbit, _⟩ := alu_src_masks_spec hM
  intro r hr
  have hn := hnum r hr
  refine ⟨hn, ?_, ?_⟩
  · intro hf
    exact not_two_bits_eq hA ((hbit .RF_A r.num).2 ⟨hn, by decide, by rw [← hf]; exact hr⟩) hn
  · intro hf
    exact not_two_bits_eq hB ((hbit .RF_B r.num).2 ⟨hn, by decide, by rw [← hf]; exact hr⟩) hn

/-- With no ambiguous register among the operands the last loop changes nothing. -/
theorem ab_chain_refl {i : instr} {M : masks_t} (hM : alu_src_masks i = some M)
    (hnum : ∀ r, src.ST_REG r ∈ alu_srcs i → r.num < 64) (hAB : M .RF_AB = 0) :
    ab_chain M M i.op0.src0 i.op0.src1 i.op1.src0 i.op1.src1
      i.op0.src0 i.op0.src1 i.op1.src0 i.op1.src1 := by
  obtain ⟨hreg, hbit, _⟩ := alu_src_masks_spec hM
  have key : ∀ s ∈ alu_srcs i, resolve_ab_src M s = some (M, s) := by
    intro s hs
    obtain ⟨r, e⟩ := hreg s hs
    subst e
    have hne : r.rf ≠ .RF_AB := by
      intro hf
      have hb := (hbit .RF_AB r.num).2 ⟨hnum r hs, by decide, by rw [← hf]; exact hs⟩
      rw [hAB] at hb
      simp at hb
    simp [resolve_ab_src, hne]
  exact ⟨M, M, M, key _ (by simp [alu_srcs]), key _ (by simp [alu_srcs]),
    key _ (by simp [alu_srcs]), key _ (by simp [alu_srcs])⟩

/-- What a successful `alu_resolve_src_regfiles` has checked and done. -/
theorem alu_resolve_src_regfiles_success {i i' : instr}
    (hnum : ∀ r, src.ST_REG r ∈ alu_srcs i → r.num < 64)
    (h : alu_resolve_src_regfiles i = some (.ERR_SUCCESS, i')) :
    ∃ M m4 b0 b1 b2 b3, alu_src_masks i = some M ∧
      ¬ two_bits (M .RF_SIMM) ∧ ¬ two_bits (M .RF_A) ∧ ¬ two_bits (M .RF_B) ∧
      (M .RF_SIMM ≠ 0 → i.signal = 1) ∧
      ab_chain M m4 i.op0.src0 i.op0.src1 i.op1.src0 i.op1.src1 b0 b1 b2 b3 ∧
      i' = with_srcs { i with signal := if M .RF_SIMM ≠ 0 then 13 else i.signal }
        b0 b1 b2 b3 := by
  unfold alu_resolve_src_regfiles at h
  split at h
  · simp at h
  · rename_i M hM
    obtain ⟨_, _, hlt⟩ := alu_src_masks_spec hM
    simp only at h
    split at h
    · simp at h
    · rename_i hS2
      split at h
      · simp at h
      · rename_i hS1
        split at h
        · simp at h
        · split at h
          · simp at h
          · split at h
            · simp at h
            · rename_i hAB2
              have hS : ¬ two_bits (M .RF_SIMM) := fun hc =>
                hS2 ((count_mask_bits_two (hlt _)).2 hc)
              have hA : ¬ two_bits (M .RF_A) := fun hc =>
                hAB2 (Or.inl ((count_mask_bits_two (hlt _)).2 hc))
              have hB : ¬ two_bits (M .RF_B) := fun hc =>
                hAB2 (Or.inr ((count_mask_bits_two (hlt _)).2 hc))
              have hsig : M .RF_SIMM ≠ 0 → i.signal = 1 := by
                intro hne
                by_contra hc
                exact hS1 ⟨fun h0 => hne ((count_mask_bits_eq_zero (hlt _)).1 h0), hc⟩
              have hcz : (count_mask_bits (M .RF_SIMM) ≠ 0) = (M .RF_SIMM ≠ 0) := by
                rw [Ne, Ne, count_mask_bits_eq_zero (hlt _)]
              simp only [hcz] at h
              split at h
              · rename_i hz
                simp only [Option.some.injEq, Prod.mk.injEq, true_and] at h
                refine ⟨M, M, _, _, _, _, hM, hS, hA, hB, hsig, ab_chain_refl hM hnum hz, ?_⟩
                rw [← h]
                split <;> rfl
              · split at h
                · simp at h
                · obtain ⟨m4, b0, b1, b2, b3, hc, he⟩ := resolve_ab_srcs_success h
                  refine ⟨M, m4, b0, b1, b2, b3, hM, hS, hA, hB, hsig, ?_, ?_⟩
                  · split at hc <;> exact hc
                  · rw [he]
                    split <;> rfl

/-- On parsed operands `alu_resolve_src_regfiles` returns (no `assert` fails), with
`ERR_SUCCESS` or `ERR_SYNTAX`. -/
theorem alu_resolve_src_regfiles_returns {i : instr} (hp : alu_srcs_parsed i) :
    ∃ e i', alu_resolve_src_regfiles i = some (e, i') ∧
      (e = .ERR_SUCCESS ∨ e = .ERR_SYNTAX) := by
  have hreg : ∀ s ∈ alu_srcs i, ∃ r, s = src.ST_REG r := by
    intro s hs
    obtain ⟨r, e, _⟩ := alu_srcs_parsed_spec hp s hs
    exact ⟨r, e⟩
  obtain ⟨M, hM⟩ := alu_src_masks_some hreg
  obtain ⟨d1, d2⟩ := alu_src_masks_disjoint hp hM
  unfold alu_resolve_src_regfiles
  rw [hM]
  simp only [d1, d2, ne_eq, not_true_eq_false, if_false]
  split
  · exact ⟨_, _, rfl, Or.inr rfl⟩
  · split
    · exact ⟨_, _, rfl, Or.inr rfl⟩
    · split
      · exact ⟨_, _, rfl, Or.inr rfl⟩
      · split
        · exact ⟨_, _, rfl, Or.inl rfl⟩
        · split
          · exact ⟨_, _, rfl, Or.inr rfl⟩
          · exact resolve_ab_srcs_returns _ _

theorem alu_srcs_with_srcs (i : instr) (b0 b1 b2 b3 : src) :
    alu_srcs (with_srcs i b0 b1 b2 b3) = [b0, b1, b2, b3] := rfl

theorem src_resolved_mem {a b : src} {r : reg} (h : src_resolved a b) (hb : b = .ST_REG r) :
    (a = b ∧ r.rf ≠ .RF_AB) ∨ (a = .ST_REG ⟨.RF_AB, r.num⟩ ∧ (r.rf = .RF_A ∨ r.rf = .RF_B)) := by
  rcases h with ⟨h1, h2⟩ | ⟨n, h1, h2 | h2⟩
  · exact Or.inl ⟨h1.symm, h2 r (h1 ▸ hb)⟩
  · rw [hb] at h2; simp only [src.ST_REG.injEq] at h2; subst h2
    exact Or.inr ⟨h1, Or.inl rfl⟩
  · rw [hb] at h2; simp only [src.ST_REG.injEq] at h2; subst h2
    exact Or.inr ⟨h1, Or.inr rfl⟩

/-- Each read operand after the last loop comes from an operand before it: the same
one, or an ambiguous one of the same number. -/
theorem ab_chain_origin {m0 m4 : masks_t} {a0 a1 a2 a3 b0 b1 b2 b3 : src}
    (h : ab_chain m0 m4 a0 a1 a2 a3 b0 b1 b2 b3) {r : reg}
    (hr : src.ST_REG r ∈ [b0, b1, b2, b3]) :
    (src.ST_REG r ∈ [a0, a1, a2, a3] ∧ r.rf ≠ .RF_AB) ∨
    (src.ST_REG ⟨.RF_AB, r.num⟩ ∈ [a0, a1, a2, a3] ∧ (r.rf = .RF_A ∨ r.rf = .RF_B)) := by
  obtain ⟨r0, r1, r2, r3⟩ := ab_chain_rel h
  simp only [List.mem_cons, List.mem_singleton, List.not_mem_nil, or_false] at hr ⊢
  rcases hr with hr | hr | hr | hr
  · rcases src_resolved_mem r0 hr.symm with ⟨e, h⟩ | ⟨e, h⟩
    · exact Or.inl ⟨Or.inl (hr.trans e.symm), h⟩
    · exact Or.inr ⟨Or.inl e.symm, h⟩
  · rcases src_resolved_mem r1 hr.symm with ⟨e, h⟩ | ⟨e, h⟩
    · exact Or.inl ⟨Or.inr (Or.inl (hr.trans e.symm)), h⟩
    · exact Or.inr ⟨Or.inr (Or.inl e.symm), h⟩
  · rcases src_resolved_mem r2 hr.symm with ⟨e, h⟩ | ⟨e, h⟩
    · exact Or.inl ⟨Or.inr (Or.inr (Or.inl (hr.trans e.symm))), h⟩
    · exact Or.inr ⟨Or.inr (Or.inr (Or.inl e.symm)), h⟩
  · rcases src_resolved_mem r3 hr.symm with ⟨e, h⟩ | ⟨e, h⟩
    · exact Or.inl ⟨Or.inr (Or.inr (Or.inr (hr.trans e.symm))), h⟩
    · exact Or.inr ⟨Or.inr (Or.inr (Or.inr e.symm)), h⟩

/-- Each ambiguous read operand before the last loop is, after it, a file-A or file-B
operand of the same number. -/
theorem ab_chain_image {m0 m4 : masks_t} {a0 a1 a2 a3 b0 b1 b2 b3 : src}
    (h : ab_chain m0 m4 a0 a1 a2 a3 b0 b1 b2 b3) {n : Nat}
    (hr : src.ST_REG ⟨.RF_AB, n⟩ ∈ [a0, a1, a2, a3]) :
    src.ST_REG ⟨.RF_A, n⟩ ∈ [b0, b1, b2, b3] ∨ src.ST_REG ⟨.RF_B, n⟩ ∈ [b0, b1, b2, b3] := by
  obtain ⟨r0, r1, r2, r3⟩ := ab_chain_rel h
  have key : ∀ a b, src_resolved a b → src.ST_REG ⟨.RF_AB, n⟩ = a →
      b = .ST_REG ⟨.RF_A, n⟩ ∨ b = .ST_REG ⟨.RF_B, n⟩ := by
    intro a b hab ha
    rcases hab with ⟨_, h2⟩ | ⟨k, h1, h2⟩
    · exact absurd rfl (h2 _ ha.symm)
    · rw [← ha] at h1
      simp only [src.ST_REG.injEq, reg.mk.injEq, true_and] at h1
      subst h1
      exact h2
  simp only [List.mem_cons, List.mem_singleton, List.not_mem_nil, or_false] at hr ⊢
  rcases hr with hr | hr | hr | hr
  · rcases key _ _ r0 hr with e | e
    · exact Or.inl (Or.inl e.symm)
    · exact Or.inr (Or.inl e.symm)
  · rcases key _ _ r1 hr with e | e
    · exact Or.inl (Or.inr (Or.inl e.symm))
    · exact Or.inr (Or.inr (Or.inl e.symm))
  · rcases key _ _ r2 hr with e | e
    · exact Or.inl (Or.inr (Or.inr (Or.inl e.symm)))
    · exact Or.inr (Or.inr (Or.inr (Or.inl e.symm)))
  · rcases key _ _ r3 hr with e | e
    · exact Or.inl (Or.inr (Or.inr (Or.inr e.symm)))
    · exact Or.inr (Or.inr (Or.inr (Or.inr e.symm)))


theorem alu_srcs_parsed_reg {i : instr} (hp : alu_srcs_parsed i) :
    ∀ s ∈ alu_srcs i, ∃ r, s = src.ST_REG r := by
  intro s hs
  obtain ⟨r, e, _⟩ := alu_srcs_parsed_spec hp s hs
  exact ⟨r, e⟩


theorem simm_bit {i : instr} {M : masks_t} (hM : alu_src_masks i = some M)
    (hnum : ∀ r, src.ST_REG r ∈ alu_srcs i → r.num < 64) {v : Nat}
    (hv : src.ST_REG ⟨.RF_SIMM, v⟩ ∈ alu_srcs i) : (M .RF_SIMM).testBit v = true :=
  ((alu_src_masks_spec hM).2.1 .RF_SIMM v).2 ⟨hnum _ hv, by decide, hv⟩


/-! ## Write-port resolution -/

theorem resolve_dst_regfiles_cases (i : instr)
    (h0 : is_dst_rf i.op0.dst.rf) (h1 : is_dst_rf i.op1.dst.rf) :
    ((i.op0.dst.rf = i.op1.dst.rf ∧ i.op0.dst.rf ≠ .RF_AB) ∧
      resolve_dst_regfiles i = some (.ERR_SYNTAX, i)) ∨
    (¬ (i.op0.dst.rf = i.op1.dst.rf ∧ i.op0.dst.rf ≠ .RF_AB) ∧
      ((i.op0.dst.rf = .RF_B ∨ i.op1.dst.rf = .RF_A) ∧
        resolve_dst_regfiles i = some (.ERR_SUCCESS,
          { i with
            op0 := { i.op0 with dst := { i.op0.dst with rf := .RF_B } }
            op1 := { i.op1 with dst := { i.op1.dst with rf := .RF_A } }
            write_swap := 1 }) ∨
       (¬ (i.op0.dst.rf = .RF_B ∨ i.op1.dst.rf = .RF_A) ∧
        resolve_dst_regfiles i = some (.ERR_SUCCESS,
          { i with
            op0 := { i.op0 with dst := { i.op0.dst with rf := .RF_A } }
            op1 := { i.op1 with dst := { i.op1.dst with rf := .RF_B } }
            write_swap := 0 })))) := by
  unfold resolve_dst_regfiles
  rcases h0 with h0 | h0 | h0 <;> rcases h1 with h1 | h1 | h1 <;> simp [h0, h1]

/-- A successful `resolve_dst_regfiles` leaves the banks `(A, B, 0)` or `(B, A, 1)`. -/
theorem resolve_dst_regfiles_banks {i i' : instr}
    (h0 : is_dst_rf i.op0.dst.rf) (h1 : is_dst_rf i.op1.dst.rf)
    (h : resolve_dst_regfiles i = some (.ERR_SUCCESS, i')) : dst_banks_resolved i' := by
  rcases resolve_dst_regfiles_cases i h0 h1 with ⟨_, e⟩ | ⟨_, ⟨_, e⟩ | ⟨_, e⟩⟩
  · rw [e] at h; simp at h
  · rw [e] at h
    simp only [Option.some.injEq, Prod.mk.injEq, true_and] at h
    subst h
    exact Or.inr ⟨rfl, rfl, rfl⟩
  · rw [e] at h
    simp only [Option.some.injEq, Prod.mk.injEq, true_and] at h
    subst h
    exact Or.inl ⟨rfl, rfl, rfl⟩

theorem parse_dst_reg_rf {t : String} {r : reg} (h : parse_dst_reg t = some r) :
    is_dst_rf r.rf := by
  unfold parse_dst_reg at h
  split at h
  · simp only [Option.some.injEq] at h; subst h; exact Or.inl rfl
  · split at h
    · simp only [Option.some.injEq] at h; subst h; exact Or.inr (Or.inl rfl)
    · split at h
      · simp only [Option.some.injEq] at h; subst h; exact Or.inr (Or.inr rfl)
      · simp at h

theorem zero_never_dsts_banks (i : instr) :
    (zero_never_dsts i).op0.dst.rf = i.op0.dst.rf ∧
    (zero_never_dsts i).op1.dst.rf = i.op1.dst.rf ∧
    (zero_never_dsts i).write_swap = i.write_swap := by
  unfold zero_never_dsts
  simp only
  split <;> split <;> simp

theorem zero_never_dsts_conds (i : instr) :
    (zero_never_dsts i).op0.cond_code = i.op0.cond_code ∧
    (zero_never_dsts i).op1.cond_code = i.op1.cond_code := by
  unfold zero_never_dsts
  simp only
  split <;> split <;> simp

theorem alu_reduce_op_dst_eq (o : op) :
    (alu_reduce_op o).2.dst = o.dst ∨ (alu_reduce_op o).2.dst = ⟨.RF_AB, 39⟩ := by
  unfold alu_reduce_op
  simp only
  split_ifs <;> simp [alu_op_nop]

theorem alu_reduce_op_err (o : op) : (alu_reduce_op o).1 = .ERR_SUCCESS := by
  unfold alu_reduce_op
  simp only
  split_ifs <;> rfl

theorem alu_reduce_op_dst (o : op) (h : is_dst_rf o.dst.rf) :
    is_dst_rf (alu_reduce_op o).2.dst.rf := by
  rcases alu_reduce_op_dst_eq o with e | e
  · rw [e]; exact h
  · rw [e]; exact Or.inr (Or.inr rfl)

theorem resolve_ab_srcs_frame {m : masks_t} {i i' : instr} {e : error}
    (h : resolve_ab_srcs m i = some (e, i')) :
    ∃ b0 b1 b2 b3, i' = with_srcs i b0 b1 b2 b3 := by
  unfold resolve_ab_srcs at h
  split at h
  · simp only [Option.some.injEq, Prod.mk.injEq] at h
    exact ⟨_, _, _, _, h.2.symm⟩
  · simp only at h
    split at h
    · simp only [Option.some.injEq, Prod.mk.injEq] at h
      exact ⟨_, _, _, _, h.2.symm⟩
    · split at h
      · simp only [Option.some.injEq, Prod.mk.injEq] at h
        exact ⟨_, _, _, _, h.2.symm⟩
      · split at h
        · simp only [Option.some.injEq, Prod.mk.injEq] at h
          exact ⟨_, _, _, _, h.2.symm⟩
        · simp only [Option.some.injEq, Prod.mk.injEq] at h
          exact ⟨_, _, _, _, h.2.symm⟩

/-- `alu_resolve_src_regfiles` writes only the signal and the four read operands. -/
theorem alu_resolve_src_regfiles_frame {i i' : instr} {e : error}
    (h : alu_resolve_src_regfiles i = some (e, i')) :
    ∃ sig b0 b1 b2 b3, i' = with_srcs { i with signal := sig } b0 b1 b2 b3 := by
  have self : ∀ j : instr, j = with_srcs { j with signal := j.signal }
      j.op0.src0 j.op0.src1 j.op1.src0 j.op1.src1 := fun j => rfl
  have sig13 : ∀ j : instr, (if count_mask_bits 0 ≠ 0 then { j with signal := 13 } else j) = j :=
    fun j => by simp [count_mask_bits, count_mask_bits_loop]
  unfold alu_resolve_src_regfiles at h
  split at h
  · simp at h
  · simp only at h
    split at h
    · simp only [Option.some.injEq, Prod.mk.injEq] at h
      obtain ⟨_, rfl⟩ := h
      exact ⟨_, _, _, _, _, self i⟩
    · split at h
      · simp only [Option.some.injEq, Prod.mk.injEq] at h
        obtain ⟨_, rfl⟩ := h
        exact ⟨_, _, _, _, _, self i⟩
      · split at h
        · simp at h
        · split at h
          · simp at h
          · split at h
            · simp only [Option.some.injEq, Prod.mk.injEq] at h
              rw [← h.2]
              split
              · exact ⟨13, _, _, _, _, rfl⟩
              · exact ⟨_, _, _, _, _, self i⟩
            · split at h
              · simp only [Option.some.injEq, Prod.mk.injEq] at h
                rw [← h.2]
                split
                · exact ⟨13, _, _, _, _, rfl⟩
                · exact ⟨_, _, _, _, _, self i⟩
              · split at h
                · simp only [Option.some.injEq, Prod.mk.injEq] at h
                  rw [← h.2]
                  split
                  · exact ⟨13, _, _, _, _, rfl⟩
                  · exact ⟨_, _, _, _, _, self i⟩
                · obtain ⟨b0, b1, b2, b3, hb⟩ := resolve_ab_srcs_frame h
                  rw [hb]
                  split
                  · exact ⟨13, _, _, _, _, rfl⟩
                  · exact ⟨_, _, _, _, _, rfl⟩

/-- The stages of a successful `alu_resolve_instr`. -/
theorem alu_resolve_instr_success {i i' : instr}
    (h : alu_resolve_instr i = some (.ERR_SUCCESS, i')) :
    ∃ i1 i4, alu_resolve_src_regfiles i = some (.ERR_SUCCESS, i1) ∧
      resolve_dst_regfiles
        { i1 with op0 := (alu_reduce_op i1.op0).2, op1 := (alu_reduce_op i1.op1).2 } =
        some (.ERR_SUCCESS, i4) ∧
      i' = zero_never_dsts i4 := by
  unfold alu_resolve_instr at h
  split at h
  · simp at h
  · rename_i i1 h1
    simp only [alu_reduce_op_err, ne_eq, not_true_eq_false, if_false] at h
    split at h
    · simp at h
    · rename_i i4 h4
      simp only [Option.some.injEq, Prod.mk.injEq, true_and] at h
      exact ⟨i1, i4, h1, h4, h.symm⟩
    · rename_i e i4 hne h4
      simp only [Option.some.injEq, Prod.mk.injEq] at h
      exact absurd h.1 hne
  · rename_i e i1 hne h1
    simp only [Option.some.injEq, Prod.mk.injEq] at h
    exact absurd h.1 hne

theorem alu_resolve_instr_banks {i i' : instr}
    (h0 : is_dst_rf i.op0.dst.rf) (h1 : is_dst_rf i.op1.dst.rf)
    (h : alu_resolve_instr i = some (.ERR_SUCCESS, i')) : dst_banks_resolved i' := by
  obtain ⟨i1, i4, hs, hd, he⟩ := alu_resolve_instr_success h
  obtain ⟨sig, b0, b1, b2, b3, hf⟩ := alu_resolve_src_regfiles_frame hs
  have d0 : is_dst_rf i1.op0.dst.rf := by rw [hf]; exact h0
  have d1 : is_dst_rf i1.op1.dst.rf := by rw [hf]; exact h1
  have hb := resolve_dst_regfiles_banks (alu_reduce_op_dst _ d0) (alu_reduce_op_dst _ d1) hd
  obtain ⟨z0, z1, z2⟩ := zero_never_dsts_banks i4
  unfold dst_banks_resolved at hb ⊢
  rw [he, z0, z1, z2]
  exact hb

theorem default_conds_always_banks (i : instr) :
    (default_conds_always i).op0.dst = i.op0.dst ∧
    (default_conds_always i).op1.dst = i.op1.dst ∧
    (default_conds_always i).write_swap = i.write_swap := by
  unfold default_conds_always
  simp only
  split <;> split <;> simp

theorem lisem_resolve_instr_banks {i i' : instr}
    (h0 : is_dst_rf i.op0.dst.rf) (h1 : is_dst_rf i.op1.dst.rf)
    (hsem : i.op0.type = .OP_TYPE_SEM → dst_banks_resolved i)
    (h : lisem_resolve_instr i = some (.ERR_SUCCESS, i')) : dst_banks_resolved i' := by
  unfold lisem_resolve_instr at h
  split at h
  · rename_i ht
    simp only [Option.some.injEq, Prod.mk.injEq, true_and] at h
    exact h ▸ hsem ht
  · split at h
    · simp at h
    · rename_i i1 hr
      have hb := resolve_dst_regfiles_banks h0 h1 hr
      simp only at h
      split at h
      · simp only [Option.some.injEq, Prod.mk.injEq, true_and] at h
        rw [← h]
        exact Or.inl ⟨rfl, rfl, rfl⟩
      · simp only [Option.some.injEq, Prod.mk.injEq, true_and] at h
        rw [← h]
        unfold dst_banks_resolved at hb ⊢
        obtain ⟨z0, z1, z2⟩ := zero_never_dsts_banks (default_conds_always i1)
        obtain ⟨y0, y1, y2⟩ := default_conds_always_banks i1
        rw [z0, z1, z2, y0, y1, y2]
        exact hb
    · rename_i e i1 hne hr
      simp only [Option.some.injEq, Prod.mk.injEq] at h
      exact absurd h.1 hne

theorem sem_parse_instr_banks {i0 i : instr} {buf : List Char}
    (h : sem_parse_instr i0 buf = some (.ERR_SUCCESS, i)) :
    i.op0.dst = ⟨.RF_A, 39⟩ ∧ i.op1.dst = ⟨.RF_B, 0⟩ ∧ i.write_swap = 0 := by
  unfold sem_parse_instr at h
  simp only at h
  split at h
  · simp at h
  · split at h
    · simp at h
    · split at h
      · simp at h
      · split at h
        · simp at h
        · simp only [Option.some.injEq, Prod.mk.injEq, true_and] at h
          rw [← h]
          exact ⟨rfl, rfl, rfl⟩
      · rename_i e i2 t hne hr
        simp only [Option.some.injEq, Prod.mk.injEq] at h
        exact absurd h.1 hne
  · rename_i e i2 t hne hr
    simp only [Option.some.injEq, Prod.mk.injEq] at h
    exact absurd h.1 hne

theorem branch_resolve_instr_banks {instrs : List instr} {i i' : instr}
    (h0 : is_dst_rf i.op0.dst.rf) (h1 : is_dst_rf i.op1.dst.rf)
    (h : branch_resolve_instr instrs i = some (.ERR_SUCCESS, i')) : dst_banks_resolved i' := by
  unfold branch_resolve_instr at h
  split at h
  · simp at h
  · rename_i i1 hr
    have hb := resolve_dst_regfiles_banks h0 h1 hr
    split at h
    · split at h
      · simp at h
      · simp only [Option.some.injEq, Prod.mk.injEq, true_and] at h
        rw [← h]
        exact hb
    · simp only [Option.some.injEq, Prod.mk.injEq, true_and] at h
      rw [← h]
      exact hb
  · rename_i e i1 hne hr
    simp only [Option.some.injEq, Prod.mk.injEq] at h
    exact absurd h.1 hne


/-! ## Branch targets -/

theorem has_label_iff (l : String) (ls : List String) : has_label l ls = true ↔ l ∈ ls := by
  induction ls with
  | nil => simp [has_label]
  | cons x xs ih =>
    unfold has_label
    by_cases hx : l = x
    · simp [hx]
    · simp [hx, ih]

theorem find_target_some {l : String} {instrs : List instr}
    (h : ∃ t ∈ instrs, l ∈ t.labels) :
    ∃ target, find_target l instrs = some target ∧ target ∈ instrs ∧ l ∈ target.labels := by
  induction instrs with
  | nil => simp at h
  | cons x xs ih =>
    unfold find_target
    by_cases hx : has_label l x.labels = true
    · exact ⟨x, by simp [hx], List.mem_cons_self _ _, (has_label_iff _ _).1 hx⟩
    · have hx' : l ∉ x.labels := fun hc => hx ((has_label_iff _ _).2 hc)
      obtain ⟨t, ht, hl⟩ := h
      have : ∃ t ∈ xs, l ∈ t.labels := by
        rcases List.mem_cons.1 ht with e | e
        · subst e; exact absurd hl hx'
        · exact ⟨t, e, hl⟩
      obtain ⟨target, e1, e2, e3⟩ := ih this
      exact ⟨target, by simp [hx, e1], List.mem_cons_of_mem _ e2, e3⟩

/-! ## Label lookup, NOP reduction and bit fields -/

/-- `resolve_dst_regfiles` always returns: its `assert` cannot fail, whatever the two
destination files are. On `ERR_SUCCESS` only the destination files and `write_swap`
are written. -/
theorem resolve_dst_regfiles_returns (i : instr) :
    resolve_dst_regfiles i = some (.ERR_SYNTAX, i) ∨
    ∃ f0 f1 ws, resolve_dst_regfiles i = some (.ERR_SUCCESS,
      { i with
        op0 := { i.op0 with dst := { i.op0.dst with rf := f0 } }
        op1 := { i.op1 with dst := { i.op1.dst with rf := f1 } }
        write_swap := ws }) := by
  unfold resolve_dst_regfiles
  cases h0 : i.op0.dst.rf <;> cases h1 : i.op1.dst.rf <;> simp

theorem find_target_none {l : String} {instrs : List instr}
    (h : ∀ t ∈ instrs, l ∉ t.labels) : find_target l instrs = none := by
  induction instrs with
  | nil => rfl
  | cons x xs ih =>
    unfold find_target
    have hx : ¬ has_label l x.labels = true := fun hc =>
      h x (List.mem_cons_self _ _) ((has_label_iff _ _).1 hc)
    rw [if_neg hx]
    exact ih fun t ht => h t (List.mem_cons_of_mem _ ht)

theorem reduce_src_spec (s : src) :
    reduce_src s =
      (if is_nop_read s then src_r0 else s, if is_nop_read s then 1 else 0,
        if is_io_read s then 1 else 0) := by
  cases s with
  | ST_IMM32 v => simp [reduce_src, is_nop_read, is_io_read]
  | ST_LABEL l => simp [reduce_src, is_nop_read, is_io_read]
  | ST_REG r =>
    obtain ⟨rf, n⟩ := r
    by_cases h39 : n = 39
    · subst h39
      cases rf <;> simp [reduce_src, is_nop_read, is_io_read, src_r0]
    · by_cases h32 : 32 ≤ n
      · cases rf <;> simp [reduce_src, is_nop_read, is_io_read, src_r0, h39, h32]
      · cases rf <;> simp [reduce_src, is_nop_read, is_io_read, src_r0, h39, h32]

theorem bits_set_eq (f : bitfield) (v : Nat) :
    bits_set f v = (v % 2 ^ f.bits) <<< f.pos := by
  unfold bits_set bits_mask bits_size
  rw [Nat.one_shiftLeft, Nat.and_pow_two_sub_one_eq_mod]

theorem bits_on_eq (f : bitfield) : bits_on f = (2 ^ f.bits - 1) <<< f.pos := by
  unfold bits_on bits_mask bits_size
  rw [Nat.one_shiftLeft]

theorem bits_get_eq (v : Nat) (f : bitfield) :
    bits_get v f = (v / 2 ^ f.pos) % 2 ^ f.bits := by
  unfold bits_get bits_mask bits_size
  rw [Nat.one_shiftLeft, Nat.and_pow_two_sub_one_eq_mod, Nat.shiftRight_eq_div_pow]

/-- Appending a field above the bits used so far is an addition. -/
theorem or_shl_eq_add {x : Nat} (a p : Nat) (h : x < 2 ^ p) :
    x ||| a <<< p = x + a * 2 ^ p := by
  rw [Nat.lor_comm, Nat.shiftLeft_eq, Nat.mul_comm, ← Nat.mul_add_lt_is_or h, Nat.add_comm]

theorem mux_lt {r : reg} (h : r.rf = .RF_R → r.num ≤ 5) : mux r < 8 := by
  unfold mux
  split
  · rename_i hr; have := h hr; omega
  · split <;> omega

/-- `FILL_SLOT` on a resolved operand: the slot receives the mux selector, and the
operand's number becomes `raddr_a` (file A) or `raddr_b` (file B, small immediate). -/
theorem FILL_SLOT_spec (slot : bitfield) (r : reg) (st : Nat × Nat × Nat)
    (h : r.rf ≠ .RF_AB) :
    FILL_SLOT slot r st =
      some (st.1 ||| bits_set slot (mux r),
        if r.rf = .RF_A then r.num else st.2.1,
        if on_port_b r then r.num else st.2.2) := by
  obtain ⟨rf, n⟩ := r
  cases rf <;> simp [FILL_SLOT, mux, on_port_b] at h ⊢

/-- The `raddr_a` and `raddr_b` that the four `FILL_SLOT`s of `alu_gen_code` leave:
the number of the last file-A read and of the last B-port read, 0 without one. -/
theorem alu_gen_code_eq (i : instr) (r0 r1 r2 r3 : reg)
    (hs0 : i.op0.src0 = .ST_REG r0) (hs1 : i.op0.src1 = .ST_REG r1)
    (hs2 : i.op1.src0 = .ST_REG r2) (hs3 : i.op1.src1 = .ST_REG r3)
    (h0 : r0.rf ≠ .RF_AB) (h1 : r1.rf ≠ .RF_AB) (h2 : r2.rf ≠ .RF_AB) (h3 : r3.rf ≠ .RF_AB)
    (hc0 : i.op0.cond_code ≠ CC_DEFAULT) (hc1 : i.op1.cond_code ≠ CC_DEFAULT) :
    alu_gen_code i = some
      { i with
        encoding0 := u32
          (0 ||| bits_set ADD_A (mux r0) ||| bits_set ADD_B (mux r1) |||
            bits_set MUL_A (mux r2) ||| bits_set MUL_B (mux r3) |||
            bits_set RADDR_A
              (if r3.rf = .RF_A then r3.num else if r2.rf = .RF_A then r2.num
                else if r1.rf = .RF_A then r1.num else if r0.rf = .RF_A then r0.num else 0) |||
            bits_set RADDR_B
              (if on_port_b r3 then r3.num else if on_port_b r2 then r2.num
                else if on_port_b r1 then r1.num else if on_port_b r0 then r0.num else 0) |||
            bits_set MUL_OP i.op1.code ||| bits_set ADD_OP i.op0.code)
        encoding1 := u32
          ((if i.set_flag ≠ 0 then
              (if i.write_swap ≠ 0 then
                bits_set ADD_DST i.op0.dst.num ||| bits_set MUL_DST i.op1.dst.num ||| bits_on WS
              else bits_set ADD_DST i.op0.dst.num ||| bits_set MUL_DST i.op1.dst.num) |||
                bits_on SF
            else
              (if i.write_swap ≠ 0 then
                bits_set ADD_DST i.op0.dst.num ||| bits_set MUL_DST i.op1.dst.num ||| bits_on WS
              else bits_set ADD_DST i.op0.dst.num ||| bits_set MUL_DST i.op1.dst.num)) |||
            bits_set ADD_COND i.op0.cond_code ||| bits_set MUL_COND i.op1.cond_code |||
            bits_set SIG i.signal) } := by
  unfold alu_gen_code
  simp only [hs0, hs1, hs2, hs3, hc0, hc1, or_self, if_false, FILL_SLOT_spec _ _ _ h0,
    FILL_SLOT_spec _ _ _ h1, FILL_SLOT_spec _ _ _ h2, FILL_SLOT_spec _ _ _ h3,
    Option.some_bind]

/-- A one-bit flag `if (flag) v |= bits_on(f);` with `flag` 0 or 1. -/
theorem or_flag (x flag : Nat) (f : bitfield) (hb : f.bits = 1) (h : flag ≤ 1) :
    (if flag ≠ 0 then x ||| bits_on f else x) = x ||| flag <<< f.pos := by
  have h' : flag = 0 ∨ flag = 1 := by omega
  rcases h' with rfl | rfl
  · simp
  · simp [bits_on_eq, hb]

theorem or_perm_high (a b w s c0 c1 g : Nat) :
    a ||| b ||| w ||| s ||| c0 ||| c1 ||| g = b ||| a ||| w ||| s ||| c1 ||| c0 ||| g := by
  ac_rfl

theorem alu_high_eq (d0 d1 ws sf c0 c1 sig : Nat) (hws : ws ≤ 1) (hsf : sf ≤ 1)
    (hc0 : c0 ≤ 7) (hc1 : c1 ≤ 7) :
    (if sf ≠ 0 then
        (if ws ≠ 0 then bits_set ADD_DST d0 ||| bits_set MUL_DST d1 ||| bits_on WS
          else bits_set ADD_DST d0 ||| bits_set MUL_DST d1) ||| bits_on SF
      else
        (if ws ≠ 0 then bits_set ADD_DST d0 ||| bits_set MUL_DST d1 ||| bits_on WS
          else bits_set ADD_DST d0 ||| bits_set MUL_DST d1)) |||
      bits_set ADD_COND c0 ||| bits_set MUL_COND c1 ||| bits_set SIG sig =
    d1 % 64 ||| (d0 % 64) <<< 6 ||| ws <<< 12 ||| sf <<< 13 ||| c1 <<< 14 ||| c0 <<< 17 |||
      (sig % 16) <<< 28 := by
  have e0 : c0 % 2 ^ 3 = c0 := Nat.mod_eq_of_lt (by omega)
  have e1 : c1 % 2 ^ 3 = c1 := Nat.mod_eq_of_lt (by omega)
  rw [or_flag _ ws WS rfl hws, or_flag _ sf SF rfl hsf]
  simp only [bits_set_eq, ADD_DST, MUL_DST, WS, SF, ADD_COND, MUL_COND, SIG, e0, e1,
    Nat.shiftLeft_zero]
  exact or_perm_high _ _ _ _ _ _ _

/-- The ALU high word as a sum of its fields. -/
theorem alu_high_sum (d0 d1 ws sf c0 c1 sig : Nat) (hws : ws ≤ 1) (hsf : sf ≤ 1)
    (hc0 : c0 ≤ 7) (hc1 : c1 ≤ 7) :
    d1 % 64 ||| (d0 % 64) <<< 6 ||| ws <<< 12 ||| sf <<< 13 ||| c1 <<< 14 ||| c0 <<< 17 |||
      (sig % 16) <<< 28 =
    d1 % 64 + (d0 % 64) * 2 ^ 6 + ws * 2 ^ 12 + sf * 2 ^ 13 + c1 * 2 ^ 14 + c0 * 2 ^ 17 +
      (sig % 16) * 2 ^ 28 := by
  simp (disch := omega) only [or_shl_eq_add]

theorem or_perm_low (a0 a1 a2 a3 ra rb om oa : Nat) :
    0 ||| a0 ||| a1 ||| a2 ||| a3 ||| ra ||| rb ||| om ||| oa =
      a3 ||| a2 ||| a1 ||| a0 ||| rb ||| ra ||| oa ||| om := by
  rw [Nat.zero_or]
  ac_rfl

theorem alu_low_eq (m0 m1 m2 m3 ra rb c0 c1 : Nat) (h0 : m0 < 8) (h1 : m1 < 8) (h2 : m2 < 8)
    (h3 : m3 < 8) (hra : ra < 64) (hrb : rb < 64) :
    0 ||| bits_set ADD_A m0 ||| bits_set ADD_B m1 ||| bits_set MUL_A m2 ||| bits_set MUL_B m3 |||
      bits_set RADDR_A ra ||| bits_set RADDR_B rb ||| bits_set MUL_OP c1 ||| bits_set ADD_OP c0 =
    m3 ||| m2 <<< 3 ||| m1 <<< 6 ||| m0 <<< 9 ||| rb <<< 12 ||| ra <<< 18 ||| (c0 % 32) <<< 24 |||
      (c1 % 8) <<< 29 := by
  have e0 : m0 % 2 ^ 3 = m0 := Nat.mod_eq_of_lt (by omega)
  have e1 : m1 % 2 ^ 3 = m1 := Nat.mod_eq_of_lt (by omega)
  have e2 : m2 % 2 ^ 3 = m2 := Nat.mod_eq_of_lt (by omega)
  have e3 : m3 % 2 ^ 3 = m3 := Nat.mod_eq_of_lt (by omega)
  have ea : ra % 2 ^ 6 = ra := Nat.mod_eq_of_lt (by omega)
  have eb : rb % 2 ^ 6 = rb := Nat.mod_eq_of_lt (by omega)
  simp only [bits_set_eq, ADD_A, ADD_B, MUL_A, MUL_B, RADDR_A, RADDR_B, MUL_OP, ADD_OP,
    e0, e1, e2, e3, ea, eb, Nat.shiftLeft_zero]
  exact or_perm_low _ _ _ _ _ _ _ _

/-- The ALU low word as a sum of its fields. -/
theorem alu_low_sum (m0 m1 m2 m3 ra rb c0 c1 : Nat) (h0 : m0 < 8) (h1 : m1 < 8) (h2 : m2 < 8)
    (h3 : m3 < 8) (hra : ra < 64) (hrb : rb < 64) :
    m3 ||| m2 <<< 3 ||| m1 <<< 6 ||| m0 <<< 9 ||| rb <<< 12 ||| ra <<< 18 ||| (c0 % 32) <<< 24 |||
      (c1 % 8) <<< 29 =
    m3 + m2 * 2 ^ 3 + m1 * 2 ^ 6 + m0 * 2 ^ 9 + rb * 2 ^ 12 + ra * 2 ^ 18 + (c0 % 32) * 2 ^ 24 +
      (c1 % 8) * 2 ^ 29 := by
  simp (disch := omega) only [or_shl_eq_add]

/-- `alu_reduce_op` in closed form: the returned operation. -/
theorem alu_reduce_op_eq (o : op) :
    (alu_reduce_op o).2 =
      if (if is_nop_read o.src0 then 1 else 0) + (if is_nop_read o.src1 then 1 else 0) = 2 ∨
          (o.dst.num = 39 ∧
            (if is_io_read o.src0 then 1 else 0) + (if is_io_read o.src1 then 1 else 0) = 0) ∨
          o.cond_code = CC_NEVER then
        { type := o.type, code := 0, cond_code := CC_NEVER, dst := ⟨.RF_AB, 39⟩,
          src0 := src_r0, src1 := src_r0 }
      else
        { type := o.type, code := o.code,
          cond_code := if o.cond_code = CC_DEFAULT then CC_ALWAYS else o.cond_code,
          dst := o.dst,
          src0 := if is_nop_read o.src0 then src_r0 else o.src0,
          src1 := if is_nop_read o.src1 then src_r0 else o.src1 } := by
  by_cases h : (if is_nop_read o.src0 then 1 else 0) + (if is_nop_read o.src1 then 1 else 0) = 2 ∨
      (o.dst.num = 39 ∧
        (if is_io_read o.src0 then 1 else 0) + (if is_io_read o.src1 then 1 else 0) = 0) ∨
      o.cond_code = CC_NEVER
  · rw [if_pos h]
    unfold alu_reduce_op
    simp only [reduce_src_spec]
    rcases h with h | h | h
    · simp [h, alu_op_nop, src_r0]
    · by_cases hn : (if is_nop_read o.src0 then 1 else 0) +
          (if is_nop_read o.src1 then 1 else 0) = 2
      · simp [hn, alu_op_nop, src_r0]
      · simp [hn, h.1, h.2, alu_op_nop, src_r0]
    · by_cases hn : (if is_nop_read o.src0 then 1 else 0) +
          (if is_nop_read o.src1 then 1 else 0) = 2
      · simp [hn, alu_op_nop, src_r0]
      · by_cases hd : o.dst.num = 39 ∧ (if is_io_read o.src0 then 1 else 0) +
            (if is_io_read o.src1 then 1 else 0) = 0
        · simp [hn, hd.1, hd.2, alu_op_nop, src_r0]
        · simp [hn, hd, h, alu_op_nop, src_r0]
  · rw [if_neg h]
    simp only [not_or] at h
    obtain ⟨hn, hd, hc⟩ := h
    unfold alu_reduce_op
    simp only [reduce_src_spec, hn, hd, if_false]
    by_cases hdef : o.cond_code = CC_DEFAULT
    · have hne : ¬ CC_DEFAULT = CC_NEVER := by decide
      simp only [hdef, hne, if_false, if_true]
    · simp only [hc, hdef, if_false]

/-- A slot whose destination number is 39 and whose sources are no I/O reads is
reduced to the NOP. -/
theorem alu_reduce_op_nop_dst (o : op) (hd : o.dst.num = 39) (h0 : ¬ is_io_read o.src0)
    (h1 : ¬ is_io_read o.src1) :
    (alu_reduce_op o).2 =
      { type := o.type, code := 0, cond_code := CC_NEVER, dst := ⟨.RF_AB, 39⟩,
        src0 := src_r0, src1 := src_r0 } := by
  rw [alu_reduce_op_eq, if_pos]
  right; left
  simp [hd, h0, h1]

/-- Resolution does not turn a read that is no I/O register into an I/O read. -/
theorem src_resolved_not_io {s s' : src} (h : src_resolved s s')
    (hio : ∀ r, s = .ST_REG r → (r.rf = .RF_A ∨ r.rf = .RF_B ∨ r.rf = .RF_AB) →
      32 ≤ r.num → r.num = 39) : ¬ is_io_read s' := by
  rcases h with ⟨rfl, _⟩ | ⟨n, rfl, rfl | rfl⟩
  · cases s' with
    | ST_IMM32 v => simp [is_io_read]
    | ST_LABEL l => simp [is_io_read]
    | ST_REG r =>
      simp only [is_io_read, not_and, not_not]
      intro hf h32
      exact hio r rfl (by tauto) h32
  · simp only [is_io_read, not_and, not_not]
    intro _ h32
    exact hio _ rfl (by simp) h32
  · simp only [is_io_read, not_and, not_not]
    intro _ h32
    exact hio _ rfl (by simp) h32

/-- The words of a record whose two slots are NOPs, without `sf`. -/
theorem alu_gen_code_nop (j : instr) (t0 t1 : op_code_type) (sig : Nat)
    (h0 : j.op0 =
      { type := t0, code := 0, cond_code := CC_NEVER, dst := ⟨.RF_A, 0⟩,
        src0 := src_r0, src1 := src_r0 })
    (h1 : j.op1 =
      { type := t1, code := 0, cond_code := CC_NEVER, dst := ⟨.RF_B, 0⟩,
        src0 := src_r0, src1 := src_r0 })
    (hws : j.write_swap = 0) (hsf : j.set_flag = 0) (hsig : j.signal = sig) (hs : sig < 16) :
    alu_gen_code j = some { j with encoding0 := 0, encoding1 := sig * 2 ^ 28 } := by
  rw [alu_gen_code_eq j ⟨.RF_R, 0⟩ ⟨.RF_R, 0⟩ ⟨.RF_R, 0⟩ ⟨.RF_R, 0⟩ (by rw [h0]; rfl)
    (by rw [h0]; rfl) (by rw [h1]; rfl) (by rw [h1]; rfl) (by decide) (by decide) (by decide)
    (by decide) (by rw [h0]; exact (by decide : CC_NEVER ≠ CC_DEFAULT))
    (by rw [h1]; exact (by decide : CC_NEVER ≠ CC_DEFAULT))]
  simp [h0, h1, hws, hsf, hsig, bits_set_eq, mux, on_port_b, u32, ADD_A, ADD_B, MUL_A, MUL_B,
    RADDR_A, RADDR_B, MUL_OP, ADD_OP, ADD_DST, MUL_DST, ADD_COND, MUL_COND, SIG, CC_NEVER,
    Nat.shiftLeft_eq]
  omega

/-! ## The condition Default -/

theorem resolve_ab_srcs_set_cond (m : masks_t) (i : instr) (k : Nat) (c : cond_code) :
    resolve_ab_srcs m (set_cond i k c) =
      (resolve_ab_srcs m i).map fun r => (r.1, set_cond r.2 k c) := by
  by_cases hk : k = 0
  · unfold resolve_ab_srcs
    simp only [set_cond, set_op, get_op, hk, if_true]
    cases resolve_ab_src m i.op0.src0 with
    | none => rfl
    | some p0 =>
      simp only
      cases resolve_ab_src p0.1 i.op0.src1 with
      | none => rfl
      | some p1 =>
        simp only
        cases resolve_ab_src p1.1 i.op1.src0 with
        | none => rfl
        | some p2 =>
          simp only
          cases resolve_ab_src p2.1 i.op1.src1 with
          | none => rfl
          | some p3 => rfl
  · unfold resolve_ab_srcs
    simp only [set_cond, set_op, get_op, hk, if_false]
    cases resolve_ab_src m i.op0.src0 with
    | none => rfl
    | some p0 =>
      simp only
      cases resolve_ab_src p0.1 i.op0.src1 with
      | none => rfl
      | some p1 =>
        simp only
        cases resolve_ab_src p1.1 i.op1.src0 with
        | none => rfl
        | some p2 =>
          simp only
          cases resolve_ab_src p2.1 i.op1.src1 with
          | none => rfl
          | some p3 => rfl

theorem alu_resolve_src_regfiles_set_cond (i : instr) (k : Nat) (c : cond_code) :
    alu_resolve_src_regfiles (set_cond i k c) =
      (alu_resolve_src_regfiles i).map fun r => (r.1, set_cond r.2 k c) := by
  have hm : alu_src_masks (set_cond i k c) = alu_src_masks i := by
    unfold set_cond set_op get_op alu_src_masks
    split <;> rfl
  have hs : (set_cond i k c).signal = i.signal := by
    unfold set_cond set_op
    split <;> rfl
  have h13 : ({ set_cond i k c with signal := 13 } : instr) =
      set_cond { i with signal := 13 } k c := by
    unfold set_cond set_op get_op
    split <;> rfl
  unfold alu_resolve_src_regfiles
  rw [hm]
  cases alu_src_masks i with
  | none => rfl
  | some M =>
    simp only [hs]
    have hi1 : (if count_mask_bits (M .RF_SIMM) ≠ 0 then
          ({ set_cond i k c with signal := 13 } : instr) else set_cond i k c) =
        set_cond (if count_mask_bits (M .RF_SIMM) ≠ 0 then { i with signal := 13 } else i)
          k c := by
      split
      · exact h13
      · rfl
    rw [hi1]
    by_cases h1 : count_mask_bits (M .RF_SIMM) ≥ 2
    · rw [if_pos h1, if_pos h1]
      rfl
    · rw [if_neg h1, if_neg h1]
      by_cases h2 : count_mask_bits (M .RF_SIMM) ≠ 0 ∧ i.signal ≠ 1
      · rw [if_pos h2, if_pos h2]
        rfl
      · rw [if_neg h2, if_neg h2]
        by_cases h3 : M .RF_A &&& M .RF_AB ≠ 0
        · rw [if_pos h3, if_pos h3]
          rfl
        · rw [if_neg h3, if_neg h3]
          by_cases h4 : M .RF_B &&& M .RF_AB ≠ 0
          · rw [if_pos h4, if_pos h4]
            rfl
          · rw [if_neg h4, if_neg h4]
            by_cases h5 : count_mask_bits (M .RF_A) ≥ 2 ∨ count_mask_bits (M .RF_B) ≥ 2
            · rw [if_pos h5, if_pos h5]
              rfl
            · rw [if_neg h5, if_neg h5]
              by_cases h6 : M .RF_AB = 0
              · rw [if_pos h6, if_pos h6]
                rfl
              · rw [if_neg h6, if_neg h6]
                by_cases h7 : count_mask_bits (M .RF_A) ≠ 0 ∧ count_mask_bits (M .RF_B) ≠ 0
                · rw [if_pos h7, if_pos h7]
                  rfl
                · rw [if_neg h7, if_neg h7]
                  exact resolve_ab_srcs_set_cond _ _ _ _

/-- In `alu_reduce_op` the condition Default has the effect of Always. -/
theorem alu_reduce_op_default (o : op) (h : o.cond_code = CC_DEFAULT) :
    alu_reduce_op { o with cond_code := CC_ALWAYS } = alu_reduce_op o := by
  have hd : ¬ CC_DEFAULT = CC_NEVER := by decide
  have ha : ¬ CC_ALWAYS = CC_NEVER := by decide
  have had : ¬ CC_ALWAYS = CC_DEFAULT := by decide
  apply Prod.ext
  · rw [alu_reduce_op_err, alu_reduce_op_err]
  · rw [alu_reduce_op_eq, alu_reduce_op_eq]
    simp only [h, hd, ha, had, or_false, if_true, if_false]

theorem set_cond_words (r : instr) (k : Nat) (c : cond_code) :
    (set_cond r k c).encoding0 = r.encoding0 ∧ (set_cond r k c).encoding1 = r.encoding1 := by
  unfold set_cond set_op
  split <;> exact ⟨rfl, rfl⟩

theorem alu_resolve_instr_default (i : instr) (k : Nat)
    (hc : (get_op i k).cond_code = CC_DEFAULT) :
    alu_resolve_instr (set_cond i k CC_ALWAYS) = alu_resolve_instr i ∨
    ∃ e r, e ≠ .ERR_SUCCESS ∧ alu_resolve_instr i = some (e, r) ∧
      alu_resolve_instr (set_cond i k CC_ALWAYS) = some (e, set_cond r k CC_ALWAYS) := by
  unfold alu_resolve_instr
  rw [alu_resolve_src_regfiles_set_cond]
  cases h : alu_resolve_src_regfiles i with
  | none => left; rfl
  | some p =>
    obtain ⟨e, i1⟩ := p
    by_cases he : e = .ERR_SUCCESS
    · subst he
      left
      obtain ⟨sig, b0, b1, b2, b3, hf⟩ := alu_resolve_src_regfiles_frame h
      have hc1 : (get_op i1 k).cond_code = CC_DEFAULT := by
        rw [hf]
        unfold get_op with_srcs
        unfold get_op at hc
        split
        · rename_i hk; rw [if_pos hk] at hc; exact hc
        · rename_i hk; rw [if_neg hk] at hc; exact hc
      simp only [Option.map_some']
      by_cases hk : k = 0
      · subst hk
        simp only [get_op, if_true] at hc1
        simp only [set_cond, set_op, get_op, if_true, alu_reduce_op_default _ hc1,
          alu_reduce_op_err, ne_eq, not_true_eq_false, if_false]
      · simp only [get_op, hk, if_false] at hc1
        simp only [set_cond, set_op, get_op, hk, if_false, alu_reduce_op_default _ hc1,
          alu_reduce_op_err, ne_eq, not_true_eq_false]
    · right
      refine ⟨e, i1, he, ?_, ?_⟩
      · cases e <;> first | exact absurd rfl he | rfl
      · cases e <;> first | exact absurd rfl he | rfl

theorem set_cond_type (i : instr) (k : Nat) (c : cond_code) :
    (set_cond i k c).op0.type = i.op0.type := by
  unfold set_cond set_op get_op
  split <;> rfl

theorem resolve_dst_regfiles_set_cond (i : instr) (k : Nat) (c : cond_code) :
    resolve_dst_regfiles (set_cond i k c) =
      (resolve_dst_regfiles i).map fun r => (r.1, set_cond r.2 k c) := by
  by_cases hk : k = 0
  · unfold resolve_dst_regfiles
    simp only [set_cond, set_op, get_op, hk, if_true]
    split_ifs <;> rfl
  · unfold resolve_dst_regfiles
    simp only [set_cond, set_op, get_op, hk, if_false]
    split_ifs <;> rfl

theorem default_conds_always_set_cond (i : instr) (k : Nat)
    (hc : (get_op i k).cond_code = CC_DEFAULT) :
    default_conds_always (set_cond i k CC_ALWAYS) = default_conds_always i := by
  have had : ¬ CC_ALWAYS = CC_DEFAULT := by decide
  by_cases hk : k = 0
  · subst hk
    simp only [get_op, if_true] at hc
    simp only [default_conds_always, set_cond, set_op, get_op, if_true, hc, had, if_false]
  · simp only [get_op, hk, if_false] at hc
    simp only [default_conds_always, set_cond, set_op, get_op, hk, if_false, hc, had]
    split <;> rfl

theorem lisem_resolve_instr_default (i : instr) (k : Nat)
    (ht : i.op0.type ≠ .OP_TYPE_SEM) (hc : (get_op i k).cond_code = CC_DEFAULT) :
    lisem_resolve_instr (set_cond i k CC_ALWAYS) = lisem_resolve_instr i ∨
    ∃ e r, e ≠ .ERR_SUCCESS ∧ lisem_resolve_instr i = some (e, r) ∧
      lisem_resolve_instr (set_cond i k CC_ALWAYS) = some (e, set_cond r k CC_ALWAYS) := by
  unfold lisem_resolve_instr
  rw [set_cond_type, if_neg ht, if_neg ht, resolve_dst_regfiles_set_cond]
  rcases resolve_dst_regfiles_returns i with h | ⟨f0, f1, ws, h⟩
  · right
    exact ⟨.ERR_SYNTAX, i, by decide, by rw [h], by rw [h]; rfl⟩
  · left
    rw [h]
    simp only [Option.map_some']
    rw [default_conds_always_set_cond]
    unfold get_op at hc ⊢
    split
    · rename_i hk; rw [if_pos hk] at hc; exact hc
    · rename_i hk; rw [if_neg hk] at hc; exact hc

/-! ## Encoders of the load-immediate and branch families -/

theorem or_perm_lisem (g u c0 c1 s w a b : Nat) :
    g ||| u ||| c0 ||| c1 ||| s ||| w ||| a ||| b = b ||| a ||| w ||| s ||| c1 ||| c0 ||| u ||| g := by
  ac_rfl

theorem lisem_high_eq (d0 d1 ws sf c0 c1 un sig : Nat) (hws : ws ≤ 1) (hsf : sf ≤ 1)
    (hc0 : c0 ≤ 7) (hc1 : c1 ≤ 7) (hun : un ≤ 7) :
    (if ws ≠ 0 then
        (if sf ≠ 0 then
            bits_set SIG sig ||| bits_set UNPACK un ||| bits_set ADD_COND c0 |||
              bits_set MUL_COND c1 ||| bits_on SF
          else
            bits_set SIG sig ||| bits_set UNPACK un ||| bits_set ADD_COND c0 |||
              bits_set MUL_COND c1) ||| bits_on WS
      else
        (if sf ≠ 0 then
            bits_set SIG sig ||| bits_set UNPACK un ||| bits_set ADD_COND c0 |||
              bits_set MUL_COND c1 ||| bits_on SF
          else
            bits_set SIG sig ||| bits_set UNPACK un ||| bits_set ADD_COND c0 |||
              bits_set MUL_COND c1)) |||
      bits_set ADD_DST d0 ||| bits_set MUL_DST d1 =
    d1 % 64 ||| (d0 % 64) <<< 6 ||| ws <<< 12 ||| sf <<< 13 ||| c1 <<< 14 ||| c0 <<< 17 |||
      un <<< 25 ||| (sig % 16) <<< 28 := by
  have e0 : c0 % 2 ^ 3 = c0 := Nat.mod_eq_of_lt (by omega)
  have e1 : c1 % 2 ^ 3 = c1 := Nat.mod_eq_of_lt (by omega)
  have e2 : un % 2 ^ 3 = un := Nat.mod_eq_of_lt (by omega)
  rw [or_flag _ sf SF rfl hsf, or_flag _ ws WS rfl hws]
  simp only [bits_set_eq, ADD_DST, MUL_DST, WS, SF, ADD_COND, MUL_COND, UNPACK, SIG, e0, e1, e2,
    Nat.shiftLeft_zero]
  exact or_perm_lisem _ _ _ _ _ _ _ _

/-- The load-immediate high word as a sum of its fields. -/
theorem lisem_high_sum (d0 d1 ws sf c0 c1 un sig : Nat) (hws : ws ≤ 1) (hsf : sf ≤ 1)
    (hc0 : c0 ≤ 7) (hc1 : c1 ≤ 7) (hun : un ≤ 7) :
    d1 % 64 ||| (d0 % 64) <<< 6 ||| ws <<< 12 ||| sf <<< 13 ||| c1 <<< 14 ||| c0 <<< 17 |||
      un <<< 25 ||| (sig % 16) <<< 28 =
    d1 % 64 + (d0 % 64) * 2 ^ 6 + ws * 2 ^ 12 + sf * 2 ^ 13 + c1 * 2 ^ 14 + c0 * 2 ^ 17 +
      un * 2 ^ 25 + (sig % 16) * 2 ^ 28 := by
  simp (disch := omega) only [or_shl_eq_add]

/-- The semaphore low word for an index below 16. -/
theorem sem_low (imm : Nat) (h : imm ≤ 15) :
    imm &&& 0xf = imm ∧ (imm &&& 0xf) ||| (1 <<< 4) = imm + 16 := by
  have e : imm &&& 0xf = imm := by
    have := Nat.and_pow_two_sub_one_eq_mod imm 4
    norm_num at this
    rw [this]
    omega
  refine ⟨e, ?_⟩
  rw [e, or_shl_eq_add 1 4 (by omega)]
  norm_num

theorem or_perm_branch (g c a b w x y : Nat) :
    g ||| c ||| a ||| b ||| w ||| x ||| y = b ||| a ||| w ||| y ||| x ||| c ||| g := by
  ac_rfl

theorem or_perm_branch_rel (g c a b w x : Nat) :
    g ||| c ||| a ||| b ||| w ||| x = b ||| a ||| w ||| x ||| c ||| g := by
  ac_rfl

/-- The high word of a register-form branch. -/
theorem branch_high_reg (d0 d1 ws c sig n : Nat) (hws : ws ≤ 1) (hn : n < 32) :
    (if ws ≠ 0 then
        bits_set SIG sig ||| bits_set PACK c ||| bits_set ADD_DST d0 ||| bits_set MUL_DST d1 |||
          bits_on WS
      else bits_set SIG sig ||| bits_set PACK c ||| bits_set ADD_DST d0 ||| bits_set MUL_DST d1) |||
      bits_on BR_REG ||| bits_set BR_RADDR_A n =
    d1 % 64 + (d0 % 64) * 2 ^ 6 + ws * 2 ^ 12 + n * 2 ^ 13 + 1 * 2 ^ 18 + (c % 16) * 2 ^ 20 +
      (sig % 16) * 2 ^ 28 := by
  have e : n % 2 ^ 5 = n := Nat.mod_eq_of_lt (by omega)
  rw [or_flag _ ws WS rfl hws]
  simp only [bits_set_eq, bits_on_eq, ADD_DST, MUL_DST, WS, PACK, SIG, BR_REG, BR_RADDR_A, e,
    Nat.shiftLeft_zero, Nat.pow_one, Nat.add_one_sub_one]
  rw [or_perm_branch]
  simp (disch := omega) only [or_shl_eq_add]
  norm_num

/-- The high word of a relative branch. -/
theorem branch_high_rel (d0 d1 ws c sig : Nat) (hws : ws ≤ 1) :
    (if ws ≠ 0 then
        bits_set SIG sig ||| bits_set PACK c ||| bits_set ADD_DST d0 ||| bits_set MUL_DST d1 |||
          bits_on WS
      else bits_set SIG sig ||| bits_set PACK c ||| bits_set ADD_DST d0 ||| bits_set MUL_DST d1) |||
      bits_on BR_REL =
    d1 % 64 + (d0 % 64) * 2 ^ 6 + ws * 2 ^ 12 + 1 * 2 ^ 19 + (c % 16) * 2 ^ 20 +
      (sig % 16) * 2 ^ 28 := by
  rw [or_flag _ ws WS rfl hws]
  simp only [bits_set_eq, bits_on_eq, ADD_DST, MUL_DST, WS, PACK, SIG, BR_REL,
    Nat.shiftLeft_zero, Nat.pow_one, Nat.add_one_sub_one]
  rw [or_perm_branch_rel]
  simp (disch := omega) only [or_shl_eq_add]
  norm_num

/-! ## Tokens and the branch parser -/

/-- `get_next_token` writes nothing but the cursor. -/
theorem get_next_token_frame {i i1 : instr} {buf : List Char} {e : error} {tok : String}
    (h : get_next_token i buf = some (e, i1, tok)) :
    ∃ c, i1 = { i with curr_token := c } := by
  unfold get_next_token at h
  by_cases h0 : i.num_tokens ≤ 0
  · rw [if_pos h0] at h
    simp only [Option.some.injEq, Prod.mk.injEq] at h
    exact ⟨i.curr_token, h.2.1.symm⟩
  · rw [if_neg h0] at h
    simp only at h
    by_cases h1 : i.curr_token + 1 = i.num_tokens
    · rw [if_pos h1] at h
      simp only [Option.some.injEq, Prod.mk.injEq] at h
      exact ⟨_, h.2.1.symm⟩
    · rw [if_neg h1] at h
      split at h
      · simp at h
      · simp only [Option.some.injEq, Prod.mk.injEq] at h
        exact ⟨_, h.2.1.symm⟩

theorem next_token_success {i i' : instr} {buf : List Char} {k : instr → String → outcome}
    (h : next_token i buf k = some (.ERR_SUCCESS, i')) :
    ∃ i1 tok, get_next_token i buf = some (.ERR_SUCCESS, i1, tok) ∧
      k i1 tok = some (.ERR_SUCCESS, i') := by
  unfold next_token at h
  split at h
  · simp at h
  · rename_i i1 tok hg
    exact ⟨i1, tok, hg, h⟩
  · rename_i e i1 tok hne hg
    simp only [Option.some.injEq, Prod.mk.injEq] at h
    exact (hne h.1).elim

/-- A successful `branch_parse_head` has read a token and handed it to the rest, with
the type of the first slot as it was. -/
theorem branch_parse_head_success {i i' : instr} {buf : List Char}
    {k : instr → String → outcome}
    (h : branch_parse_head i buf k = some (.ERR_SUCCESS, i')) :
    ∃ i0 i1 tok, get_next_token i0 buf = some (.ERR_SUCCESS, i1, tok) ∧
      k i1 tok = some (.ERR_SUCCESS, i') ∧ i1.op0.type = i.op0.type := by
  have after : ∀ (is_all : Int) (i2 : instr) (token2 : String),
      (if token2 ≠ "," then
          some (error.ERR_SYNTAX,
            { i2 with op0 := { i2.op0 with cond_code := branch_cond i2.op0.code is_all } })
        else
          next_token
            { i2 with op0 := { i2.op0 with cond_code := branch_cond i2.op0.code is_all } }
            buf fun i4 token4 =>
            match parse_dst_reg token4 with
            | none => some (.ERR_SYNTAX, i4)
            | some d0 =>
              next_token { i4 with op0 := { i4.op0 with dst := d0 } } buf fun i6 token6 =>
              if token6 ≠ "," then some (.ERR_SYNTAX, i6)
              else
                next_token i6 buf fun i7 token7 =>
                match parse_dst_reg token7 with
                | none => some (.ERR_SYNTAX, i7)
                | some d1 =>
                  next_token { i7 with op1 := { i7.op1 with dst := d1 } } buf
                    fun i9 token9 =>
                    if token9 ≠ "," then some (.ERR_SYNTAX, i9)
                    else next_token i9 buf k) = some (.ERR_SUCCESS, i') →
      ∃ i0 i1 tok, get_next_token i0 buf = some (.ERR_SUCCESS, i1, tok) ∧
        k i1 tok = some (.ERR_SUCCESS, i') ∧ i1.op0.type = i2.op0.type := by
    intro is_all i2 token2 ha
    split at ha
    · simp at ha
    · obtain ⟨i4, t4, g4, ha⟩ := next_token_success ha
      obtain ⟨c4, rfl⟩ := get_next_token_frame g4
      split at ha
      · simp at ha
      · obtain ⟨i6, t6, g6, ha⟩ := next_token_success ha
        obtain ⟨c6, rfl⟩ := get_next_token_frame g6
        split at ha
        · simp at ha
        · obtain ⟨i7, t7, g7, ha⟩ := next_token_success ha
          obtain ⟨c7, rfl⟩ := get_next_token_frame g7
          split at ha
          · simp at ha
          · obtain ⟨i9, t9, g9, ha⟩ := next_token_success ha
            obtain ⟨c9, rfl⟩ := get_next_token_frame g9
            split at ha
            · simp at ha
            · obtain ⟨i10, t10, hg, ha⟩ := next_token_success ha
              obtain ⟨c10, e10⟩ := get_next_token_frame hg
              refine ⟨_, i10, t10, hg, ha, ?_⟩
              rw [e10]
  unfold branch_parse_head at h
  obtain ⟨i1, t1, g1, h⟩ := next_token_success h
  obtain ⟨c1, e1⟩ := get_next_token_frame g1
  have ty1 : i1.op0.type = i.op0.type := by rw [e1]
  simp only at h
  split at h
  · obtain ⟨i2, t2, g2, h⟩ := next_token_success h
    obtain ⟨c2, e2⟩ := get_next_token_frame g2
    have ty2 : i2.op0.type = i.op0.type := by rw [e2]; exact ty1
    split at h
    · obtain ⟨i3, t3, g3, h⟩ := next_token_success h
      obtain ⟨c3, e3⟩ := get_next_token_frame g3
      have ty3 : i3.op0.type = i.op0.type := by rw [e3]; exact ty2
      obtain ⟨j0, j1, tok, hg, hk, hty⟩ := after 1 i3 t3 h
      exact ⟨j0, j1, tok, hg, hk, hty.trans ty3⟩
    · split at h
      · obtain ⟨i3, t3, g3, h⟩ := next_token_success h
        obtain ⟨c3, e3⟩ := get_next_token_frame g3
        have ty3 : i3.op0.type = i.op0.type := by rw [e3]; exact ty2
        obtain ⟨j0, j1, tok, hg, hk, hty⟩ := after 0 i3 t3 h
        exact ⟨j0, j1, tok, hg, hk, hty.trans ty3⟩
      · simp at h
  · obtain ⟨j0, j1, tok, hg, hk, hty⟩ := after (-1) i1 t1 h
    exact ⟨j0, j1, tok, hg, hk, hty.trans ty1⟩

/-- What a successful `branch_parse_target` has stored. -/
theorem branch_parse_target_success {i i' : instr} {buf : List Char} {tok : String}
    (h : branch_parse_target i buf tok = some (.ERR_SUCCESS, i')) :
    (∃ e m c, find_name (g_src_regs_a.take 32) tok = some e ∧
      i' = { i with
        branch_rel := 0
        branch_reg := 1
        op0 := { i.op0 with src0 := .ST_REG { rf := .RF_A, num := e.2 }, src1 := .ST_IMM32 m }
        curr_token := c }) ∨
    (∃ c, find_name (g_src_regs_a.take 32) tok = none ∧
      i' = { i with
        branch_rel := 1
        branch_reg := 0
        op0 := { i.op0 with src0 := .ST_LABEL tok }
        curr_token := c }) := by
  have closing : ∀ j : instr,
      (next_token j buf fun i2 token2 =>
        if token2 ≠ ";" then some (.ERR_SYNTAX, i2) else some (.ERR_SUCCESS, i2)) =
        some (.ERR_SUCCESS, i') → ∃ c, i' = { j with curr_token := c } := by
    intro j hj
    obtain ⟨i2, t2, hg, hj⟩ := next_token_success hj
    split at hj
    · simp at hj
    · simp only [Option.some.injEq, Prod.mk.injEq, true_and] at hj
      subst hj
      exact get_next_token_frame hg
  unfold branch_parse_target at h
  simp only at h
  split at h
  · rename_i e he
    left
    obtain ⟨i2, t2, hg2, h⟩ := next_token_success h
    split at h
    · simp at h
    · obtain ⟨i3, t3, hg3, h⟩ := next_token_success h
      split at h
      · simp at h
      · rename_i m hm
        obtain ⟨c, hc⟩ := closing _ h
        obtain ⟨c2, e2⟩ := get_next_token_frame hg2
        obtain ⟨c3, e3⟩ := get_next_token_frame hg3
        subst e2 e3
        exact ⟨e, m, c, he, hc⟩
  · rename_i hn
    right
    obtain ⟨c, hc⟩ := closing _ h
    exact ⟨c, hn, hc⟩

theorem find_name_some {t : List reg_info} {s : String} {e : reg_info}
    (h : find_name t s = some e) : e ∈ t ∧ e.1 = s := by
  induction t with
  | nil => simp [find_name] at h
  | cons x xs ih =>
    unfold find_name at h
    split at h
    · rename_i hx
      simp only [Option.some.injEq] at h
      subst h
      exact ⟨List.mem_cons_self _ _, hx⟩
    · exact ⟨List.mem_cons_of_mem _ (ih h).1, (ih h).2⟩

theorem find_name_none {t : List reg_info} {s : String}
    (h : find_name t s = none) : ∀ e ∈ t, e.1 ≠ s := by
  induction t with
  | nil => simp
  | cons x xs ih =>
    unfold find_name at h
    split at h
    · simp at h
    · rename_i hx
      intro e he
      rcases List.mem_cons.1 he with rfl | he
      · exact hx
      · exact ih h e he

/-- The first 32 entries of `g_src_regs_a` are `a0` .. `a31` with the numbers 0 .. 31. -/
theorem a_regs_table :
    g_src_regs_a.take 32 = (List.range 32).map fun n => ("a" ++ toString n, n) := by
  decide

theorem a_regs_inj : ∀ a < 32, ∀ b < 32, "a" ++ toString a = "a" ++ toString b → a = b := by
  decide

/-- The lookup of the branch target among `a0` .. `a31`. -/
theorem find_a_reg (tok : String) :
    (∀ e, find_name (g_src_regs_a.take 32) tok = some e →
      e.2 < 32 ∧ tok = "a" ++ toString e.2) ∧
    (find_name (g_src_regs_a.take 32) tok = none → ¬ ∃ n, n < 32 ∧ tok = "a" ++ toString n) := by
  constructor
  · intro e he
    obtain ⟨hm, hn⟩ := find_name_some he
    rw [a_regs_table, List.mem_map] at hm
    obtain ⟨n, hr, rfl⟩ := hm
    exact ⟨List.mem_range.1 hr, hn.symm⟩
  · rintro hnone ⟨n, hn, rfl⟩
    refine find_name_none hnone ("a" ++ toString n, n) ?_ rfl
    rw [a_regs_table, List.mem_map]
    exact ⟨n, List.mem_range.2 hn, rfl⟩

/-! ## Whole-instruction parsers -/

/-- A successful `parse_flags` leaves the two slots as they were. -/
theorem parse_flags_ops (t : op_code_type) (buf : List Char) :
    ∀ (fuel : Nat) (i i' : instr), parse_flags t fuel i buf = some (.ERR_SUCCESS, i') →
      i'.op0 = i.op0 ∧ i'.op1 = i.op1 := by
  intro fuel
  induction fuel with
  | zero =>
    intro i i' h
    simp [parse_flags] at h
  | succ n ih =>
    intro i i' h
    unfold parse_flags at h
    obtain ⟨i1, tok, hg, h⟩ := next_token_success h
    obtain ⟨c, rfl⟩ := get_next_token_frame hg
    split at h
    · simp only [Option.some.injEq, Prod.mk.injEq, true_and] at h
      subst h
      exact ⟨rfl, rfl⟩
    · split at h
      · split at h
        · simp at h
        · (have hh := ih _ _ h; exact hh)
      · split at h
        · simp at h
        · split at h
          · simp at h
          · split at h
            · simp at h
            · (have hh := ih _ _ h; exact hh)

/-- What a successful `alu_parse_op_add_mul` has stored in the slot `op[k]`. -/
theorem alu_parse_op_add_mul_success {i i' : instr} {buf : List Char} {k : Nat}
    (h : alu_parse_op_add_mul i buf k = some (.ERR_SUCCESS, i')) :
    (∃ t, alu_parse_src t = some (get_op i' k).src0) ∧
      (∃ t, alu_parse_src t = some (get_op i' k).src1) ∧
      (get_op i' k).type = (get_op i k).type ∧
      (k = 0 → i'.op1 = i.op1) ∧ (k ≠ 0 → i'.op0 = i.op0) := by
  have after : ∀ (i2 : instr) (token2 : String),
      (if token2 ≠ "," then some (error.ERR_SYNTAX, i2)
        else
          next_token i2 buf fun i3 token3 =>
          match parse_dst_reg token3 with
          | none => some (.ERR_SYNTAX, i3)
          | some dst =>
            next_token (set_op i3 k { get_op i3 k with dst := dst }) buf fun i5 token5 =>
            if token5 ≠ "," then some (.ERR_SYNTAX, i5)
            else
              next_token i5 buf fun i6 token6 =>
              match alu_parse_src token6 with
              | none => some (.ERR_SYNTAX, i6)
              | some s0 =>
                next_token (set_op i6 k { get_op i6 k with src0 := s0 }) buf fun i8 token8 =>
                if token8 ≠ "," then some (.ERR_SYNTAX, i8)
                else
                  next_token i8 buf fun i9 token9 =>
                  match alu_parse_src token9 with
                  | none => some (.ERR_SYNTAX, i9)
                  | some s1 =>
                    some (.ERR_SUCCESS, set_op i9 k { get_op i9 k with src1 := s1 })) =
        some (.ERR_SUCCESS, i') →
      (∃ t, alu_parse_src t = some (get_op i' k).src0) ∧
        (∃ t, alu_parse_src t = some (get_op i' k).src1) ∧
        (get_op i' k).type = (get_op i2 k).type ∧
        (k = 0 → i'.op1 = i2.op1) ∧ (k ≠ 0 → i'.op0 = i2.op0) := by
    intro i2 token2 ha
    split at ha
    · simp at ha
    · obtain ⟨i3, t3, g3, ha⟩ := next_token_success ha
      obtain ⟨c3, rfl⟩ := get_next_token_frame g3
      split at ha
      · simp at ha
      · obtain ⟨i5, t5, g5, ha⟩ := next_token_success ha
        obtain ⟨c5, rfl⟩ := get_next_token_frame g5
        split at ha
        · simp at ha
        · obtain ⟨i6, t6, g6, ha⟩ := next_token_success ha
          obtain ⟨c6, rfl⟩ := get_next_token_frame g6
          split at ha
          · simp at ha
          · rename_i s0 hs0
            obtain ⟨i8, t8, g8, ha⟩ := next_token_success ha
            obtain ⟨c8, rfl⟩ := get_next_token_frame g8
            split at ha
            · simp at ha
            · obtain ⟨i9, t9, g9, ha⟩ := next_token_success ha
              obtain ⟨c9, rfl⟩ := get_next_token_frame g9
              split at ha
              · simp at ha
              · rename_i s1 hs1
                simp only [Option.some.injEq, Prod.mk.injEq, true_and] at ha
                subst ha
                by_cases hk : k = 0
                · subst hk
                  exact ⟨⟨t6, hs0⟩, ⟨t9, hs1⟩, rfl, fun _ => rfl, fun hne => absurd rfl hne⟩
                · refine ⟨⟨t6, ?_⟩, ⟨t9, ?_⟩, ?_, fun h0 => absurd h0 hk, fun _ => ?_⟩
                  · simp only [set_op, get_op, hk, if_false, hs0]
                  · simp only [set_op, get_op, hk, if_false, hs1]
                  · simp only [set_op, get_op, hk, if_false]
                  · simp only [set_op, get_op, hk, if_false]
  unfold alu_parse_op_add_mul at h
  split at h
  · simp at h
  · obtain ⟨i1, t1, g1, h⟩ := next_token_success h
    obtain ⟨c1, rfl⟩ := get_next_token_frame g1
    simp only at h
    split at h
    · obtain ⟨i2, t2, g2, h⟩ := next_token_success h
      obtain ⟨c2, rfl⟩ := get_next_token_frame g2
      split at h
      · simp at h
      · obtain ⟨i3, t3, g3, h⟩ := next_token_success h
        obtain ⟨c3, rfl⟩ := get_next_token_frame g3
        have hh := after _ _ h
        obtain ⟨a0, a1, a2, a3, a4⟩ := hh
        by_cases hk : k = 0
        · refine ⟨a0, a1, ?_, fun _ => ?_, fun hne => absurd hk hne⟩
          · simpa only [set_op, get_op, hk, if_true] using a2
          · simpa only [set_op, get_op, hk, if_true] using a3 hk
        · refine ⟨a0, a1, ?_, fun h0 => absurd h0 hk, fun _ => ?_⟩
          · simpa only [set_op, get_op, hk, if_false] using a2
          · simpa only [set_op, get_op, hk, if_false] using a4 hk
    · (have hh := after _ _ h; exact hh)

/-- The sources that `alu_op_nop` stores are values of `alu_parse_src`. -/
theorem alu_parse_src_r0 : alu_parse_src "r0" = some (.ST_REG { rf := .RF_R, num := 0 }) := by
  decide

/-- A successful `alu_parse_instr` leaves four parsed read operands and keeps the type of
the add slot. -/
theorem alu_parse_instr_success {i i' : instr} {buf : List Char}
    (h : alu_parse_instr i buf = some (.ERR_SUCCESS, i')) :
    alu_srcs_parsed i' ∧ i'.op0.type = i.op0.type := by
  have mul : ∀ j : instr, alu_parse_mul_slot j buf = some (.ERR_SUCCESS, i') →
      (∃ t, alu_parse_src t = some i'.op1.src0) ∧ (∃ t, alu_parse_src t = some i'.op1.src1) ∧
        i'.op0 = j.op0 := by
    intro j hj
    unfold alu_parse_mul_slot at hj
    obtain ⟨i1, t1, g1, hj⟩ := next_token_success hj
    obtain ⟨c1, rfl⟩ := get_next_token_frame g1
    split at hj
    · simp at hj
    · rename_i o1 ho1
      simp only at hj
      split at hj
      · simp only [Option.some.injEq, Prod.mk.injEq, true_and] at hj
        subst hj
        exact ⟨⟨"r0", alu_parse_src_r0⟩, ⟨"r0", alu_parse_src_r0⟩, rfl⟩
      · obtain ⟨s0, s1, _, _, e0⟩ := alu_parse_op_add_mul_success hj
        exact ⟨s0, s1, e0 (by decide)⟩
  unfold alu_parse_instr at h
  split at h
  · obtain ⟨s2, s3, e⟩ := mul _ h
    refine ⟨⟨?_, ?_, s2, s3⟩, ?_⟩
    · rw [e]; exact ⟨"r0", alu_parse_src_r0⟩
    · rw [e]; exact ⟨"r0", alu_parse_src_r0⟩
    · rw [e]; rfl
  · split at h
    · simp at h
    · rename_i i1 h1
      obtain ⟨s0, s1, ty, _, _⟩ := alu_parse_op_add_mul_success h1
      obtain ⟨s2, s3, e⟩ := mul _ h
      refine ⟨⟨?_, ?_, s2, s3⟩, ?_⟩
      · rw [e]; exact s0
      · rw [e]; exact s1
      · rw [e]; exact ty
    · rename_i e i1 hne h1
      simp only [Option.some.injEq, Prod.mk.injEq] at h
      exact (hne h.1).elim

theorem sem_parse_instr_type {i i' : instr} {buf : List Char}
    (h : sem_parse_instr i buf = some (.ERR_SUCCESS, i')) : i'.op0.type = i.op0.type := by
  unfold sem_parse_instr at h
  simp only at h
  split at h
  · simp at h
  · rename_i i1 t1 g1
    obtain ⟨c1, rfl⟩ := get_next_token_frame g1
    split at h
    · simp at h
    · split at h
      · simp at h
      · rename_i i2 t2 g2
        obtain ⟨c2, rfl⟩ := get_next_token_frame g2
        split at h
        · simp at h
        · simp only [Option.some.injEq, Prod.mk.injEq, true_and] at h
          subst h
          rfl
      · rename_i e i2 t2 hne g2
        simp only [Option.some.injEq, Prod.mk.injEq] at h
        exact (hne h.1).elim
  · rename_i e i1 t1 hne g1
    simp only [Option.some.injEq, Prod.mk.injEq] at h
    exact (hne h.1).elim

theorem li_fix_dst_type {o o' : op} (h : li_fix_dst o = some o') : o'.type = o.type := by
  unfold li_fix_dst at h
  split_ifs at h
  all_goals
    simp only [Option.some.injEq] at h
    subst h
    rfl

theorem li_parse_instr_type {i i' : instr} {buf : List Char}
    (h : li_parse_instr i buf = some (.ERR_SUCCESS, i')) : i'.op0.type = i.op0.type := by
  have dsts : ∀ (i3 : instr) (token3 : String),
      (if token3 ≠ "," then some (error.ERR_SYNTAX, i3)
        else
          next_token i3 buf fun i4 token4 =>
          match parse_dst_reg token4 with
          | none => some (.ERR_SYNTAX, i4)
          | some d0 =>
            next_token { i4 with op0 := { i4.op0 with dst := d0 } } buf fun i6 token6 =>
            match li_fix_dst i6.op0 with
            | none => none
            | some o0 =>
              if token6 ≠ "," then some (.ERR_SYNTAX, { i6 with op0 := o0 })
              else
                next_token { i6 with op0 := o0 } buf fun i8 token8 =>
                match parse_dst_reg token8 with
                | none => some (.ERR_SYNTAX, i8)
                | some d1 =>
                  next_token { i8 with op1 := { i8.op1 with dst := d1 } } buf
                    fun i10 token10 =>
                    match li_fix_dst i10.op1 with
                    | none => none
                    | some o1 =>
                      if token10 ≠ "," then some (.ERR_SYNTAX, { i10 with op1 := o1 })
                      else
                        next_token { i10 with op1 := o1 } buf fun i12 token12 =>
                        match parse_imm32 token12 with
                        | none => some (.ERR_SYNTAX, i12)
                        | some imm32 =>
                          some (.ERR_SUCCESS,
                            { i12 with op0 := { i12.op0 with src0 := .ST_IMM32 imm32 } })) =
        some (.ERR_SUCCESS, i') → i'.op0.type = i3.op0.type := by
    intro i3 token3 ha
    split at ha
    · simp at ha
    · obtain ⟨i4, t4, g4, ha⟩ := next_token_success ha
      obtain ⟨c4, rfl⟩ := get_next_token_frame g4
      split at ha
      · simp at ha
      · obtain ⟨i6, t6, g6, ha⟩ := next_token_success ha
        obtain ⟨c6, rfl⟩ := get_next_token_frame g6
        split at ha
        · simp at ha
        · rename_i o0 ho0
          have ty0 := li_fix_dst_type ho0
          split at ha
          · simp at ha
          · obtain ⟨i8, t8, g8, ha⟩ := next_token_success ha
            obtain ⟨c8, rfl⟩ := get_next_token_frame g8
            split at ha
            · simp at ha
            · obtain ⟨i10, t10, g10, ha⟩ := next_token_success ha
              obtain ⟨c10, rfl⟩ := get_next_token_frame g10
              split at ha
              · simp at ha
              · split at ha
                · simp at ha
                · obtain ⟨i12, t12, g12, ha⟩ := next_token_success ha
                  obtain ⟨c12, rfl⟩ := get_next_token_frame g12
                  split at ha
                  · simp at ha
                  · simp only [Option.some.injEq, Prod.mk.injEq, true_and] at ha
                    subst ha
                    exact ty0
  have unp : (if i.op0.code = OP_LIS then { i with unpack := 1 }
      else if i.op0.code = OP_LIU then { i with unpack := 3 } else i).op0 = i.op0 := by
    split_ifs <;> rfl
  unfold li_parse_instr at h
  obtain ⟨i1, t1, g1, h⟩ := next_token_success h
  obtain ⟨c1, rfl⟩ := get_next_token_frame g1
  simp only at h
  split at h
  · obtain ⟨i3, t3, g3, h⟩ := next_token_success h
    obtain ⟨c3, rfl⟩ := get_next_token_frame g3
    split at h
    · simp at h
    · obtain ⟨i5, t5, g5, h⟩ := next_token_success h
      obtain ⟨c5, rfl⟩ := get_next_token_frame g5
      split at h
      · simp at h
      · obtain ⟨i6, t6, g6, h⟩ := next_token_success h
        obtain ⟨c6, rfl⟩ := get_next_token_frame g6
        split at h
        · simp at h
        · obtain ⟨i7, t7, g7, h⟩ := next_token_success h
          obtain ⟨c7, rfl⟩ := get_next_token_frame g7
          have hh := dsts _ _ h
          simp only [unp] at hh
          exact hh
  · have hh := dsts _ _ h
    simp only [unp] at hh
    exact hh

theorem lisem_parse_instr_type {i i' : instr} {buf : List Char}
    (h : lisem_parse_instr i buf = some (.ERR_SUCCESS, i')) : i'.op0.type = i.op0.type := by
  unfold lisem_parse_instr at h
  simp only at h
  split at h
  · (have hh := li_parse_instr_type h; exact hh)
  · (have hh := sem_parse_instr_type h; exact hh)

theorem branch_parse_instr_type {i i' : instr} {buf : List Char}
    (h : branch_parse_instr i buf = some (.ERR_SUCCESS, i')) : i'.op0.type = i.op0.type := by
  unfold branch_parse_instr at h
  obtain ⟨j0, j1, tok, _, ht, hty⟩ := branch_parse_head_success h
  rcases branch_parse_target_success ht with ⟨e, m, c, _, rfl⟩ | ⟨c, _, rfl⟩
  · exact hty
  · exact hty

/-- The record of a successful `parse_instr` whose first slot has the type ADD went
through `alu_parse_instr`: its four read operands are parsed operands. -/
theorem parse_instr_alu {i0 i : instr} {buf : List Char}
    (h : parse_instr i0 buf = some (.ERR_SUCCESS, i)) (ht : i.op0.type = .OP_TYPE_ADD) :
    alu_srcs_parsed i := by
  unfold parse_instr at h
  obtain ⟨i1, t1, g1, h⟩ := next_token_success h
  split at h
  · simp at h
  · rename_i o0 ho0
    simp only at h
    cases hty : o0.type with
    | OP_TYPE_ADD =>
      simp only [hty, reduceCtorEq, if_false] at h
      split at h
      · simp at h
      · rename_i i3 h3
        obtain ⟨hp, _⟩ := alu_parse_instr_success h3
        obtain ⟨e0, e1⟩ := parse_flags_ops _ _ _ _ _ h
        unfold alu_srcs_parsed at hp ⊢
        rw [e0, e1]
        exact hp
      · rename_i e i3 hne h3
        simp only [Option.some.injEq, Prod.mk.injEq] at h
        exact (hne h.1).elim
    | OP_TYPE_MUL =>
      simp [hty] at h
    | OP_TYPE_LI =>
      simp only [hty, reduceCtorEq, if_false] at h
      split at h
      · simp at h
      · rename_i i3 h3
        have ty := lisem_parse_instr_type h3
        obtain ⟨e0, _⟩ := parse_flags_ops _ _ _ _ _ h
        rw [e0, ty] at ht
        simp only at ht
        rw [hty] at ht
        exact absurd ht (by decide)
      · rename_i e i3 hne h3
        simp only [Option.some.injEq, Prod.mk.injEq] at h
        exact (hne h.1).elim
    | OP_TYPE_SEM =>
      simp only [hty, reduceCtorEq, if_false] at h
      split at h
      · simp at h
      · rename_i i3 h3
        have ty := lisem_parse_instr_type h3
        obtain ⟨e0, _⟩ := parse_flags_ops _ _ _ _ _ h
        rw [e0, ty] at ht
        simp only at ht
        rw [hty] at ht
        exact absurd ht (by decide)
      · rename_i e i3 hne h3
        simp only [Option.some.injEq, Prod.mk.injEq] at h
        exact (hne h.1).elim
    | OP_TYPE_BRANCH =>
      simp only [hty, if_true] at h
      split at h
      · simp at h
      · rename_i i3 h3
        have ty := branch_parse_instr_type h3
        simp only [Option.some.injEq, Prod.mk.injEq, true_and] at h
        subst h
        rw [ty] at ht
        simp only at ht
        rw [hty] at ht
        exact absurd ht (by decide)
      · rename_i e i3 hne h3
        simp only [Option.some.injEq, Prod.mk.injEq] at h
        exact (hne h.1).elim

/-- A register operand that went through the last loop of `alu_resolve_src_regfiles` is
a register outside file AB. -/
theorem src_resolved_reg {s s' : src} (h : src_resolved s s') (hr : ∃ r, s = .ST_REG r) :
    ∃ r, s' = .ST_REG r ∧ r.rf ≠ .RF_AB := by
  obtain ⟨r, rfl⟩ := hr
  rcases h with ⟨rfl, h2⟩ | ⟨n, _, rfl | rfl⟩
  · exact ⟨r, rfl, h2 r rfl⟩
  · exact ⟨_, rfl, by simp⟩
  · exact ⟨_, rfl, by simp⟩

/-- `alu_reduce_op` keeps resolved register operands resolved and leaves no Default
condition. -/
theorem alu_reduce_op_resolved (o : op)
    (h0 : ∃ r, o.src0 = .ST_REG r ∧ r.rf ≠ .RF_AB)
    (h1 : ∃ r, o.src1 = .ST_REG r ∧ r.rf ≠ .RF_AB) :
    (∃ r, (alu_reduce_op o).2.src0 = .ST_REG r ∧ r.rf ≠ .RF_AB) ∧
    (∃ r, (alu_reduce_op o).2.src1 = .ST_REG r ∧ r.rf ≠ .RF_AB) ∧
    (alu_reduce_op o).2.cond_code ≠ CC_DEFAULT := by
  have hr0 : ∃ r, src_r0 = src.ST_REG r ∧ r.rf ≠ .RF_AB := ⟨⟨.RF_R, 0⟩, rfl, by decide⟩
  rw [alu_reduce_op_eq]
  by_cases hc : (if is_nop_read o.src0 then 1 else 0) + (if is_nop_read o.src1 then 1 else 0) = 2 ∨
      (o.dst.num = 39 ∧
        (if is_io_read o.src0 then 1 else 0) + (if is_io_read o.src1 then 1 else 0) = 0) ∨
      o.cond_code = CC_NEVER
  · rw [if_pos hc]
    exact ⟨hr0, hr0, (by decide : CC_NEVER ≠ CC_DEFAULT)⟩
  · rw [if_neg hc]
    refine ⟨?_, ?_, ?_⟩
    · show ∃ r, (if is_nop_read o.src0 then src_r0 else o.src0) = src.ST_REG r ∧ r.rf ≠ .RF_AB
      split
      · exact hr0
      · exact h0
    · show ∃ r, (if is_nop_read o.src1 then src_r0 else o.src1) = src.ST_REG r ∧ r.rf ≠ .RF_AB
      split
      · exact hr0
      · exact h1
    · show (if o.cond_code = CC_DEFAULT then CC_ALWAYS else o.cond_code) ≠ CC_DEFAULT
      split
      · decide
      · assumption

/-- The value of `branch_cond` on every entry of the branch table and every value of
`is_all`. -/
theorem branch_cond_table :
    ∀ e ∈ g_op_codes_branch, ∀ is_all ∈ [(-1 : Int), 0, 1],
      branch_cond e.2 is_all =
        (if e.1 = "b" then 15
          else br_flag_class e.1 <<< 2 ||| (if is_all = 0 then 1 else 0) <<< 1 ||| br_negate e.1) ∧
      (branch_cond e.2 is_all ≤ 11 ∨ branch_cond e.2 is_all = 15) := by
  decide

/-- A successful `branch_parse_head` hands over a record whose first slot has the old
opcode and the condition `branch_cond code is_all`, where `is_all` is -1 without a
suffix, 1 after `.all` and 0 after `.any`. -/
theorem branch_parse_head_cond {i i' : instr} {buf : List Char}
    {k : instr → String → outcome}
    (h : branch_parse_head i buf k = some (.ERR_SUCCESS, i')) :
    ∃ i1 t1, get_next_token { i with signal := 15 } buf = some (.ERR_SUCCESS, i1, t1) ∧
      ∃ (is_all : Int) (j1 : instr) (tok : String), k j1 tok = some (.ERR_SUCCESS, i') ∧
        j1.op0.code = i.op0.code ∧ j1.op0.cond_code = branch_cond i.op0.code is_all ∧
        ((t1 ≠ "." ∧ is_all = -1) ∨
          (t1 = "." ∧ ∃ i2 t2, get_next_token i1 buf = some (.ERR_SUCCESS, i2, t2) ∧
            ((t2 = "all" ∧ is_all = 1) ∨ (t2 = "any" ∧ is_all = 0)))) := by
  have after : ∀ (is_all : Int) (i2 : instr) (token2 : String),
      (if token2 ≠ "," then
          some (error.ERR_SYNTAX,
            { i2 with op0 := { i2.op0 with cond_code := branch_cond i2.op0.code is_all } })
        else
          next_token
            { i2 with op0 := { i2.op0 with cond_code := branch_cond i2.op0.code is_all } }
            buf fun i4 token4 =>
            match parse_dst_reg token4 with
            | none => some (.ERR_SYNTAX, i4)
            | some d0 =>
              next_token { i4 with op0 := { i4.op0 with dst := d0 } } buf fun i6 token6 =>
              if token6 ≠ "," then some (.ERR_SYNTAX, i6)
              else
                next_token i6 buf fun i7 token7 =>
                match parse_dst_reg token7 with
                | none => some (.ERR_SYNTAX, i7)
                | some d1 =>
                  next_token { i7 with op1 := { i7.op1 with dst := d1 } } buf
                    fun i9 token9 =>
                    if token9 ≠ "," then some (.ERR_SYNTAX, i9)
                    else next_token i9 buf k) = some (.ERR_SUCCESS, i') →
      ∃ (j1 : instr) (tok : String), k j1 tok = some (.ERR_SUCCESS, i') ∧
        j1.op0.code = i2.op0.code ∧ j1.op0.cond_code = branch_cond i2.op0.code is_all := by
    intro is_all i2 token2 ha
    split at ha
    · simp at ha
    · obtain ⟨i4, t4, g4, ha⟩ := next_token_success ha
      obtain ⟨c4, rfl⟩ := get_next_token_frame g4
      split at ha
      · simp at ha
      · obtain ⟨i6, t6, g6, ha⟩ := next_token_success ha
        obtain ⟨c6, rfl⟩ := get_next_token_frame g6
        split at ha
        · simp at ha
        · obtain ⟨i7, t7, g7, ha⟩ := next_token_success ha
          obtain ⟨c7, rfl⟩ := get_next_token_frame g7
          split at ha
          · simp at ha
          · obtain ⟨i9, t9, g9, ha⟩ := next_token_success ha
            obtain ⟨c9, rfl⟩ := get_next_token_frame g9
            split at ha
            · simp at ha
            · obtain ⟨i10, t10, hg, ha⟩ := next_token_success ha
              obtain ⟨c10, e10⟩ := get_next_token_frame hg
              refine ⟨i10, t10, ha, ?_, ?_⟩
              · rw [e10]
              · rw [e10]
  unfold branch_parse_head at h
  obtain ⟨i1, t1, g1, h⟩ := next_token_success h
  obtain ⟨c1, e1⟩ := get_next_token_frame g1
  have cd1 : i1.op0.code = i.op0.code := by rw [e1]
  refine ⟨i1, t1, g1, ?_⟩
  simp only at h
  split at h
  · rename_i hdot
    obtain ⟨i2, t2, g2, h⟩ := next_token_success h
    obtain ⟨c2, e2⟩ := get_next_token_frame g2
    have cd2 : i2.op0.code = i.op0.code := by rw [e2]; exact cd1
    split at h
    · rename_i hall
      obtain ⟨i3, t3, g3, h⟩ := next_token_success h
      obtain ⟨c3, e3⟩ := get_next_token_frame g3
      have cd3 : i3.op0.code = i.op0.code := by rw [e3]; exact cd2
      obtain ⟨j1, tok, hk, hc, hcc⟩ := after 1 i3 t3 h
      exact ⟨1, j1, tok, hk, hc.trans cd3, by rw [hcc, cd3],
        Or.inr ⟨hdot, i2, t2, g2, Or.inl ⟨hall, rfl⟩⟩⟩
    · split at h
      · rename_i hany
        obtain ⟨i3, t3, g3, h⟩ := next_token_success h
        obtain ⟨c3, e3⟩ := get_next_token_frame g3
        have cd3 : i3.op0.code = i.op0.code := by rw [e3]; exact cd2
        obtain ⟨j1, tok, hk, hc, hcc⟩ := after 0 i3 t3 h
        exact ⟨0, j1, tok, hk, hc.trans cd3, by rw [hcc, cd3],
          Or.inr ⟨hdot, i2, t2, g2, Or.inr ⟨hany, rfl⟩⟩⟩
      · simp at h
  · rename_i hdot
    obtain ⟨j1, tok, hk, hc, hcc⟩ := after (-1) i1 t1 h
    exact ⟨-1, j1, tok, hk, hc.trans cd1, by rw [hcc, cd1], Or.inl ⟨hdot, rfl⟩⟩

/-- A branch-typed result of `parse_op_code` comes from the branch table. -/
theorem parse_op_code_branch {m : String} {o o' : op} (h : parse_op_code m o = some o')
    (ht : o'.type = .OP_TYPE_BRANCH) : (m, o'.code) ∈ g_op_codes_branch := by
  unfold parse_op_code at h
  split at h
  · simp only [Option.some.injEq] at h; subst h; simp at ht
  · split at h
    · simp only [Option.some.injEq] at h; subst h; simp at ht
    · split at h
      · simp only [Option.some.injEq] at h; subst h; simp at ht
      · split at h
        · simp only [Option.some.injEq] at h; subst h; simp at ht
        · split at h
          · rename_i e he
            simp only [Option.some.injEq] at h
            subst h
            obtain ⟨hm, hn⟩ := find_name_some he
            rw [← hn]
            exact hm
          · simp at h

/-- What a successful `sem_parse_instr` has stored. -/
theorem sem_parse_instr_success {i i' : instr} {buf : List Char}
    (h : sem_parse_instr i buf = some (.ERR_SUCCESS, i')) :
    ∃ (c : Int) (t : String) (imm : Nat), parse_imm32 t = some imm ∧
      i' = { i with
        unpack := 4
        curr_token := c
        op0 := { i.op0 with src0 := .ST_IMM32 imm, cond_code := CC_ALWAYS,
                            dst := { rf := .RF_A, num := 39 } }
        op1 := { i.op1 with cond_code := CC_NEVER, dst := { rf := .RF_B, num := 0 } }
        write_swap := 0 } := by
  unfold sem_parse_instr at h
  simp only at h
  split at h
  · simp at h
  · rename_i i1 t1 g1
    obtain ⟨c1, rfl⟩ := get_next_token_frame g1
    split at h
    · simp at h
    · split at h
      · simp at h
      · rename_i i2 t2 g2
        obtain ⟨c2, rfl⟩ := get_next_token_frame g2
        split at h
        · simp at h
        · rename_i imm himm
          simp only [Option.some.injEq, Prod.mk.injEq, true_and] at h
          subst h
          exact ⟨c2, t2, imm, himm, rfl⟩
      · rename_i e i2 t2 hne g2
        simp only [Option.some.injEq, Prod.mk.injEq] at h
        exact (hne h.1).elim
  · rename_i e i1 t1 hne g1
    simp only [Option.some.injEq, Prod.mk.injEq] at h
    exact (hne h.1).elim

/-- A successful `parse_flags` writes nothing but `set_flag`, `signal` and the cursor. -/
theorem parse_flags_frame (t : op_code_type) (buf : List Char) :
    ∀ (fuel : Nat) (i i' : instr), parse_flags t fuel i buf = some (.ERR_SUCCESS, i') →
      i' = { i with set_flag := i'.set_flag, signal := i'.signal,
                    curr_token := i'.curr_token } := by
  intro fuel
  induction fuel with
  | zero =>
    intro i i' h
    simp [parse_flags] at h
  | succ n ih =>
    intro i i' h
    unfold parse_flags at h
    obtain ⟨i1, tok, hg, h⟩ := next_token_success h
    obtain ⟨c, rfl⟩ := get_next_token_frame hg
    split at h
    · simp only [Option.some.injEq, Prod.mk.injEq, true_and] at h
      subst h
      rfl
    · split at h
      · split at h
        · simp at h
        · have hh := ih _ _ h
          rw [hh]
      · split at h
        · simp at h
        · split at h
          · simp at h
          · split at h
            · simp at h
            · have hh := ih _ _ h
              rw [hh]

/-- The `unpack` member after a successful `li_parse_instr`. -/
theorem li_parse_instr_unpack {i i' : instr} {buf : List Char}
    (h : li_parse_instr i buf = some (.ERR_SUCCESS, i')) :
    i'.unpack =
      (if i.op0.code = OP_LIS then 1 else if i.op0.code = OP_LIU then 3 else i.unpack) ∧
    i'.op0.code = i.op0.code := by
  have dsts : ∀ (i3 : instr) (token3 : String),
      (if token3 ≠ "," then some (error.ERR_SYNTAX, i3)
        else
          next_token i3 buf fun i4 token4 =>
          match parse_dst_reg token4 with
          | none => some (.ERR_SYNTAX, i4)
          | some d0 =>
            next_token { i4 with op0 := { i4.op0 with dst := d0 } } buf fun i6 token6 =>
            match li_fix_dst i6.op0 with
            | none => none
            | some o0 =>
              if token6 ≠ "," then some (.ERR_SYNTAX, { i6 with op0 := o0 })
              else
                next_token { i6 with op0 := o0 } buf fun i8 token8 =>
                match parse_dst_reg token8 with
                | none => some (.ERR_SYNTAX, i8)
                | some d1 =>
                  next_token { i8 with op1 := { i8.op1 with dst := d1 } } buf
                    fun i10 token10 =>
                    match li_fix_dst i10.op1 with
                    | none => none
                    | some o1 =>
                      if token10 ≠ "," then some (.ERR_SYNTAX, { i10 with op1 := o1 })
                      else
                        next_token { i10 with op1 := o1 } buf fun i12 token12 =>
                        match parse_imm32 token12 with
                        | none => some (.ERR_SYNTAX, i12)
                        | some imm32 =>
                          some (.ERR_SUCCESS,
                            { i12 with op0 := { i12.op0 with src0 := .ST_IMM32 imm32 } })) =
        some (.ERR_SUCCESS, i') → i'.unpack = i3.unpack ∧ i'.op0.code = i3.op0.code := by
    intro i3 token3 ha
    split at ha
    · simp at ha
    · obtain ⟨i4, t4, g4, ha⟩ := next_token_success ha
      obtain ⟨c4, rfl⟩ := get_next_token_frame g4
      split at ha
      · simp at ha
      · obtain ⟨i6, t6, g6, ha⟩ := next_token_success ha
        obtain ⟨c6, rfl⟩ := get_next_token_frame g6
        split at ha
        · simp at ha
        · rename_i o0 ho0
          have cd0 : o0.code = i3.op0.code := by
            unfold li_fix_dst at ho0
            split_ifs at ho0
            all_goals
              simp only [Option.some.injEq] at ho0
              subst ho0
              rfl
          split at ha
          · simp at ha
          · obtain ⟨i8, t8, g8, ha⟩ := next_token_success ha
            obtain ⟨c8, rfl⟩ := get_next_token_frame g8
            split at ha
            · simp at ha
            · obtain ⟨i10, t10, g10, ha⟩ := next_token_success ha
              obtain ⟨c10, rfl⟩ := get_next_token_frame g10
              split at ha
              · simp at ha
              · split at ha
                · simp at ha
                · obtain ⟨i12, t12, g12, ha⟩ := next_token_success ha
                  obtain ⟨c12, rfl⟩ := get_next_token_frame g12
                  split at ha
                  · simp at ha
                  · simp only [Option.some.injEq, Prod.mk.injEq, true_and] at ha
                    subst ha
                    exact ⟨rfl, cd0⟩
  have unp0 : (if i.op0.code = OP_LIS then { i with unpack := 1 }
      else if i.op0.code = OP_LIU then { i with unpack := 3 } else i).op0 = i.op0 := by
    split_ifs <;> rfl
  have unp : (if i.op0.code = OP_LIS then { i with unpack := 1 }
      else if i.op0.code = OP_LIU then { i with unpack := 3 } else i).unpack =
      (if i.op0.code = OP_LIS then 1 else if i.op0.code = OP_LIU then 3 else i.unpack) := by
    split_ifs <;> rfl
  unfold li_parse_instr at h
  obtain ⟨i1, t1, g1, h⟩ := next_token_success h
  obtain ⟨c1, rfl⟩ := get_next_token_frame g1
  simp only at h
  split at h
  · obtain ⟨i3, t3, g3, h⟩ := next_token_success h
    obtain ⟨c3, rfl⟩ := get_next_token_frame g3
    split at h
    · simp at h
    · obtain ⟨i5, t5, g5, h⟩ := next_token_success h
      obtain ⟨c5, rfl⟩ := get_next_token_frame g5
      split at h
      · simp at h
      · obtain ⟨i6, t6, g6, h⟩ := next_token_success h
        obtain ⟨c6, rfl⟩ := get_next_token_frame g6
        split at h
        · simp at h
        · obtain ⟨i7, t7, g7, h⟩ := next_token_success h
          obtain ⟨c7, rfl⟩ := get_next_token_frame g7
          have hh := dsts _ _ h
          simp only [unp0, unp] at hh
          exact hh
  · have hh := dsts _ _ h
    simp only [unp0, unp] at hh
    exact hh

/-- The `unpack` member after a successful `parse_instr`, by the type and code that
`parse_op_code` stored for the mnemonic. -/
theorem parse_instr_lisem {i0 i : instr} {buf : List Char}
    (h : parse_instr i0 buf = some (.ERR_SUCCESS, i)) :
    ∃ i1 m o0,
      get_next_token
        { i0 with
          unpack := 0
          signal := 1
          set_flag := 0
          write_swap := 0
          op0 := { i0.op0 with cond_code := CC_DEFAULT }
          op1 := { i0.op1 with cond_code := CC_DEFAULT } } buf = some (.ERR_SUCCESS, i1, m) ∧
      parse_op_code m i1.op0 = some o0 ∧
      (o0.type = .OP_TYPE_LI →
        i.unpack = (if o0.code = OP_LIS then 1 else if o0.code = OP_LIU then 3 else 0)) ∧
      (o0.type = .OP_TYPE_SEM → i.unpack = 4) := by
  unfold parse_instr at h
  obtain ⟨i1, m, g1, h⟩ := next_token_success h
  obtain ⟨c1, e1⟩ := get_next_token_frame g1
  have hu : i1.unpack = 0 := by rw [e1]
  split at h
  · simp at h
  · rename_i o0 ho0
    refine ⟨i1, m, o0, g1, ho0, ?_, ?_⟩
    · intro hty
      simp only [hty, reduceCtorEq, if_false] at h
      split at h
      · simp at h
      · rename_i i3 h3
        have fr := parse_flags_frame _ _ _ _ _ h
        unfold lisem_parse_instr at h3
        simp only [hty, if_true] at h3
        obtain ⟨u3, _⟩ := li_parse_instr_unpack h3
        rw [fr]
        simp only at u3 ⊢
        rw [u3, hu]
      · rename_i e i3 hne h3
        simp only [Option.some.injEq, Prod.mk.injEq] at h
        exact (hne h.1).elim
    · intro hty
      simp only [hty, reduceCtorEq, if_false] at h
      split at h
      · simp at h
      · rename_i i3 h3
        have fr := parse_flags_frame _ _ _ _ _ h
        unfold lisem_parse_instr at h3
        simp only [hty, reduceCtorEq, if_false] at h3
        obtain ⟨c, t, imm, _, e3⟩ := sem_parse_instr_success h3
        rw [fr, e3]
      · rename_i e i3 hne h3
        simp only [Option.some.injEq, Prod.mk.injEq] at h
        exact (hne h.1).elim

theorem array_set_getD_same (a : List Nat) (k v : Nat) : (array_set a k v).getD k 0 = v := by
  unfold array_set
  split
  · rename_i h
    simp [List.getD_eq_getElem?_getD, List.getElem?_set, h]
  · rename_i h
    have h1 : a.length ≤ k := Nat.le_of_not_lt h
    simp [List.getD_eq_getElem?_getD, List.getElem?_append_right, h1]

theorem array_set_getD_other (a : List Nat) (k v j : Nat) (h : j ≠ k) :
    (array_set a k v).getD j 0 = a.getD j 0 := by
  unfold array_set
  split
  · rename_i hk
    simp [List.getD_eq_getElem?_getD, List.getElem?_set, Ne.symm h]
  · rename_i hk
    have h1 : a.length ≤ k := Nat.le_of_not_lt hk
    simp only [List.getD_eq_getElem?_getD]
    by_cases hj : j < a.length
    · rw [List.append_assoc, List.getElem?_append_left hj]
    · have hj1 : a.length ≤ j := Nat.le_of_not_lt hj
      rw [List.append_assoc, List.getElem?_append_right hj1, List.getElem?_eq_none hj1]
      by_cases hj2 : j - a.length < k - a.length
      · rw [List.getElem?_append_left (by simpa using hj2)]
        simp [List.getElem?_replicate, hj2]
      · have : k - a.length < j - a.length := by omega
        rw [List.getElem?_append_right (by simpa using Nat.le_of_not_lt hj2)]
        have h3 : j - a.length - (List.replicate (k - a.length) 0).length ≠ 0 := by
          simp; omega
        cases hq : j - a.length - (List.replicate (k - a.length) 0).length with
        | zero => exact absurd hq h3
        | succ q => simp

/-- Without a `;` ahead the loop of `tokenize_instr` never leaves through its `break`. -/
theorem tokenize_scan_no_semicolon (buf : List Char) :
    ∀ (n i : Nat) (ts : Option Nat) (k : Nat) (ins : instr) (r : Bool × Nat × instr),
      (∀ j, i ≤ j → j < i + n → buf.getD j (Char.ofNat 0) ≠ ';') →
      tokenize_scan buf n i ts k ins = some r → r.1 = false := by
  intro n
  induction n with
  | zero =>
    intro i ts k ins r _ h
    cases ts <;> simp [tokenize_scan] at h <;> subst h <;> rfl
  | succ n ih =>
    intro i ts k ins r hs h
    have hs1 : ∀ j, i + 1 ≤ j → j < i + 1 + n → buf.getD j (Char.ofNat 0) ≠ ';' :=
      fun j h1 h2 => hs j (by omega) (by omega)
    have hi : buf.getD i (Char.ofNat 0) ≠ ';' := hs i (le_refl i) (by omega)
    cases ts with
    | none =>
      unfold tokenize_scan at h
      split at h
      · exact ih _ _ _ _ _ hs1 h
      · exact ih _ _ _ _ _ hs1 h
    | some t =>
      unfold tokenize_scan at h
      simp only at h
      split at h
      · split at h
        · simp at h
        · split at h
          · split at h
            · simp at h
            · exact ih _ _ _ _ _ hs1 h
          · exact ih _ _ _ _ _ hs1 h
      · exact ih _ _ _ _ _ hs1 h

/-- The loop of `tokenize_instr` passes its two asserts as long as the tokens recorded,
the token being scanned and the characters left are at most `MAX_TOKENS_PER_LINE`
together. -/
theorem tokenize_scan_returns (buf : List Char) :
    ∀ (n i : Nat) (ts : Option Nat) (k : Nat) (ins : instr),
      k + (if ts.isSome then 1 else 0) + n ≤ MAX_TOKENS_PER_LINE →
      ∃ r, tokenize_scan buf n i ts k ins = some r := by
  intro n
  induction n with
  | zero =>
    intro i ts k ins _
    cases ts <;> exact ⟨(false, k, ins), by simp [tokenize_scan]⟩
  | succ n ih =>
    intro i ts k ins hb
    cases ts with
    | none =>
      simp only [Option.isSome_none, Bool.false_eq_true, if_false] at hb
      unfold tokenize_scan
      split
      · exact ih _ _ _ _ (by simp; omega)
      · exact ih _ _ _ _ (by simp; omega)
    | some t =>
      simp only [Option.isSome_some, if_true] at hb
      unfold tokenize_scan
      simp only
      split
      · rw [if_neg (by omega)]
        split
        · rw [if_neg (by omega)]
          split
          · exact ⟨_, rfl⟩
          · exact ih _ _ _ _ (by simp; omega)
        · exact ih _ _ _ _ (by simp; omega)
      · exact ih _ _ _ _ (by simp; omega)

theorem set_token_frame (ins : instr) (k s e : Nat) :
    set_token ins k s e = { ins with token_start := (set_token ins k s e).token_start,
                                     token_end := (set_token ins k s e).token_end } := rfl

/-- From a state of the loop of `tokenize_instr` that reaches the first `;` at index `p`
while a token is being scanned, the loop leaves through its `break` with the token before
the `;` and the token `;` recorded last. -/
theorem tokenize_scan_semicolon (buf : List Char) (p : Nat)
    (hp : buf.getD p (Char.ofNat 0) = ';') :
    ∀ (n i : Nat) (ts : Option Nat) (k : Nat) (ins : instr),
      i ≤ p → p < i + n → (∀ j, i ≤ j → j < p → buf.getD j (Char.ofNat 0) ≠ ';') →
      (i = p → ts.isSome) → (i < p → token_char (buf.getD (p - 1) (Char.ofNat 0))) →
      (∀ t, ts = some t → t < i) →
      k + (if ts.isSome then 1 else 0) + (p - i) + 1 ≤ MAX_TOKENS_PER_LINE →
      ∃ k1 ins1 s, tokenize_scan buf n i ts k ins = some (true, k1 + 2, ins1) ∧
        k1 + 2 ≤ MAX_TOKENS_PER_LINE ∧
        ins1.token_start.getD k1 0 = s ∧ s < p ∧ ins1.token_end.getD k1 0 = p ∧
        ins1.token_start.getD (k1 + 1) 0 = p ∧ ins1.token_end.getD (k1 + 1) 0 = p + 1 ∧
        ins1 = { ins with token_start := ins1.token_start, token_end := ins1.token_end } := by
  intro n
  induction n with
  | zero =>
    intro i ts k ins h1 h2
    omega
  | succ n ih =>
    intro i ts k ins h1 h2 hs hst htc hlt hb
    by_cases hip : i = p
    · subst hip
      obtain ⟨t, rfl⟩ := Option.isSome_iff_exists.mp (hst rfl)
      simp only [Option.isSome_some, if_true] at hb
      have hnsp : isspace ';' = false := by decide
      unfold tokenize_scan
      simp only [hp, or_true, if_true, hnsp, Bool.not_false]
      rw [if_neg (by omega), if_neg (by omega)]
      refine ⟨k, _, t, rfl, by omega, ?_, hlt t rfl, ?_, ?_, ?_, rfl⟩
      · show (array_set (array_set ins.token_start k t) (k + 1) i).getD k 0 = t
        rw [array_set_getD_other _ _ _ _ (by omega), array_set_getD_same]
      · show (array_set (array_set ins.token_end k i) (k + 1) (i + 1)).getD k 0 = i
        rw [array_set_getD_other _ _ _ _ (by omega), array_set_getD_same]
      · show (array_set (array_set ins.token_start k t) (k + 1) i).getD (k + 1) 0 = i
        rw [array_set_getD_same]
      · show (array_set (array_set ins.token_end k i) (k + 1) (i + 1)).getD (k + 1) 0 = i + 1
        rw [array_set_getD_same]
    · have hlt1 : i < p := by omega
      have hc : buf.getD i (Char.ofNat 0) ≠ ';' := hs i (le_refl i) hlt1
      have hs1 : ∀ j, i + 1 ≤ j → j < p → buf.getD j (Char.ofNat 0) ≠ ';' :=
        fun j a b => hs j (by omega) b
      have htc1 : i + 1 < p → token_char (buf.getD (p - 1) (Char.ofNat 0)) := fun _ => htc hlt1
      -- the character before the `;` is part of a token
      have hlast : i + 1 = p → token_char (buf.getD i (Char.ofNat 0)) := by
        intro e
        have := htc hlt1
        rw [← e] at this
        simpa using this
      cases ts with
      | none =>
        simp only [Option.isSome_none, Bool.false_eq_true, if_false] at hb
        unfold tokenize_scan
        by_cases hsp : isspace (buf.getD i (Char.ofNat 0)) = true
        · simp only [hsp, Bool.not_true, Bool.false_eq_true, if_false]
          have hne : i + 1 ≠ p := by
            intro e
            have := (hlast e).1
            rw [hsp] at this
            exact absurd this (by decide)
          obtain ⟨k1, ins1, s, e, r⟩ := ih (i + 1) none k ins (by omega) (by omega) hs1
            (fun e => absurd e hne) htc1 (by simp) (by simp; omega)
          exact ⟨k1, ins1, s, e, r⟩
        · simp only [Bool.not_eq_true] at hsp
          simp only [hsp, Bool.not_false, if_true]
          obtain ⟨k1, ins1, s, e, r⟩ := ih (i + 1) (some i) k ins (by omega) (by omega) hs1
            (fun _ => rfl) htc1 (by intro t ht; cases ht; omega) (by simp; omega)
          exact ⟨k1, ins1, s, e, r⟩
      | some t =>
        simp only [Option.isSome_some, if_true] at hb
        unfold tokenize_scan
        simp only
        by_cases hd : isspace (buf.getD i (Char.ofNat 0)) = true ∨
            buf.getD i (Char.ofNat 0) = '.' ∨ buf.getD i (Char.ofNat 0) = ',' ∨
            buf.getD i (Char.ofNat 0) = ';'
        · have hne : i + 1 ≠ p := by
            intro e
            obtain ⟨a, b, c, d⟩ := hlast e
            rcases hd with hd | hd | hd | hd
            · rw [a] at hd; exact absurd hd (by decide)
            · exact b hd
            · exact c hd
            · exact d hd
          rw [if_pos hd, if_neg (by omega)]
          by_cases hsp : isspace (buf.getD i (Char.ofNat 0)) = true
          · simp only [hsp, Bool.not_true, Bool.false_eq_true, if_false]
            obtain ⟨k1, ins1, s, e, r1, r2, r3, r4, r5, r6, r7⟩ :=
              ih (i + 1) none (k + 1) (set_token ins k t i) (by omega) (by omega) hs1
                (fun e => absurd e hne) htc1 (by simp) (by simp; omega)
            exact ⟨k1, ins1, s, e, r1, r2, r3, r4, r5, r6, r7⟩
          · simp only [Bool.not_eq_true] at hsp
            simp only [hsp, Bool.not_false, if_true]
            rw [if_neg (by omega), if_neg hc]
            obtain ⟨k1, ins1, s, e, r1, r2, r3, r4, r5, r6, r7⟩ :=
              ih (i + 1) none (k + 2) (set_token (set_token ins k t i) (k + 1) i (i + 1))
                (by omega) (by omega) hs1 (fun e => absurd e hne) htc1 (by simp)
                (by simp; omega)
            exact ⟨k1, ins1, s, e, r1, r2, r3, r4, r5, r6, r7⟩
        · rw [if_neg hd]
          obtain ⟨k1, ins1, s, e, r⟩ := ih (i + 1) (some t) k ins (by omega) (by omega) hs1
            (fun _ => rfl) htc1
            (by intro t1 ht; cases ht; have := hlt t rfl; omega) (by simp; omega)
          exact ⟨k1, ins1, s, e, r⟩

/-- A failed assert of the loop of `tokenize_instr` stays failed when the span is made
longer. -/
theorem tokenize_scan_none_mono (buf : List Char) (m : Nat) :
    ∀ (n i : Nat) (ts : Option Nat) (k : Nat) (ins : instr),
      tokenize_scan buf n i ts k ins = none → tokenize_scan buf (n + m) i ts k ins = none := by
  intro n
  induction n with
  | zero =>
    intro i ts k ins h
    cases ts <;> simp [tokenize_scan] at h
  | succ n ih =>
    intro i ts k ins h
    rw [Nat.add_right_comm]
    cases ts with
    | none =>
      unfold tokenize_scan at h ⊢
      split
      · rename_i hc
        rw [if_pos hc] at h
        exact ih _ _ _ _ h
      · rename_i hc
        rw [if_neg hc] at h
        exact ih _ _ _ _ h
    | some t =>
      unfold tokenize_scan at h ⊢
      simp only at h ⊢
      split
      · rename_i hc
        rw [if_pos hc] at h
        split
        · rfl
        · rename_i hk
          rw [if_neg hk] at h
          split
          · rename_i hsp
            rw [if_pos hsp] at h
            split
            · rfl
            · rename_i hk1
              rw [if_neg hk1] at h
              split
              · rename_i hsc
                rw [if_pos hsc] at h
                simp at h
              · rename_i hsc
                rw [if_neg hsc] at h
                exact ih _ _ _ _ h
          · rename_i hsp
            rw [if_neg hsp] at h
            exact ih _ _ _ _ h
      · rename_i hc
        rw [if_neg hc] at h
        exact ih _ _ _ _ h

/-- On a run of commas every two characters record two tokens (a token `,` begun by the
first comma and closed by the second, and the closing comma itself), so the run fails the
assert once `MAX_TOKENS_PER_LINE` tokens are recorded and two more commas follow. -/
theorem tokenize_scan_commas (buf : List Char) :
    ∀ (m k i : Nat) (ins : instr),
      (∀ j, i ≤ j → j < i + 2 * m + 2 → buf.getD j (Char.ofNat 0) = ',') →
      k + 2 * m = MAX_TOKENS_PER_LINE →
      tokenize_scan buf (2 * m + 2) i none k ins = none := by
  intro m
  have hsp : isspace ',' = false := by decide
  induction m with
  | zero =>
    intro k i ins hc hk
    have h0 := hc i (le_refl i) (by omega)
    have h1 := hc (i + 1) (by omega) (by omega)
    simp only [Nat.mul_zero, Nat.add_zero] at hk
    show tokenize_scan buf (1 + 1) i none k ins = none
    unfold tokenize_scan
    simp only [h0, hsp, Bool.not_false, if_true]
    unfold tokenize_scan
    simp only [h1, hsp, Bool.false_eq_true, true_or, or_true, if_true]
    rw [if_pos (by omega)]
  | succ m ih =>
    intro k i ins hc hk
    have h0 := hc i (le_refl i) (by omega)
    have h1 := hc (i + 1) (by omega) (by omega)
    show tokenize_scan buf ((2 * m + 2) + 1 + 1) i none k ins = none
    unfold tokenize_scan
    simp only [h0, hsp, Bool.not_false, if_true]
    unfold tokenize_scan
    simp only [h1, hsp, Bool.false_eq_true, true_or, or_true, if_true, Bool.not_false]
    have hk0 : k < MAX_TOKENS_PER_LINE := by omega
    have hk1 : k + 1 < MAX_TOKENS_PER_LINE := by omega
    rw [if_neg (by omega), if_neg (by omega), if_neg (by decide)]
    exact ih (k + 2) (i + 1 + 1) _ (fun j a b => hc j (by omega) (by omega)) (by omega)

theorem replicate_append_getD (n j : Nat) (c d : Char) (l : List Char) (h : j < n) :
    (List.replicate n c ++ l).getD j d = c := by
  rw [List.getD_eq_getElem?_getD, List.getElem?_append_left (by simpa using h)]
  simp [List.getElem?_replicate, h]

theorem replicate_append_getD_end (n : Nat) (c d x : Char) :
    (List.replicate n c ++ [x]).getD n d = x := by
  rw [List.getD_eq_getElem?_getD, List.getElem?_append_right (by simp)]
  simp

theorem many_commas_getD (j : Nat) (h : j < 514) :
    many_commas_text.getD j (Char.ofNat 0) = ',' :=
  replicate_append_getD 514 j ',' _ _ h

/-- A failed assert in the loop is a failed assert of `tokenize_instr`. -/
theorem tokenize_instr_scan_none (ins : instr) (buf : List Char) (pos end_ : Nat)
    (h : tokenize_scan buf (end_ - pos) pos none 0 { ins with curr_token := -1 } = none) :
    tokenize_instr ins buf pos end_ = none := by
  unfold tokenize_instr
  simp only [h]

/-- On `many_commas_text` the loop fails its assert within the first 514 characters. -/
theorem many_commas_scan (n : Nat) (hn : 514 ≤ n) (ins : instr) :
    tokenize_scan many_commas_text n 0 none 0 ins = none := by
  obtain ⟨k, rfl⟩ := Nat.exists_eq_add_of_le hn
  exact tokenize_scan_none_mono _ k _ _ _ _ _
    (tokenize_scan_commas many_commas_text 256 0 0 ins
      (fun j _ b => many_commas_getD j (by omega)) (by decide))

theorem nop_nop_line_tokenized :
    tokenize_instr blank_line nop_nop_text 0 4 = some (.ERR_SUCCESS, nop_nop_line) := by
  decide

/-- A call of `get_next_token` with the cursor before the last token succeeds with the
text of the next span, if that span is shorter than 512 characters. -/
theorem get_next_token_next (i : instr) (buf : List Char) (j : Nat)
    (hc : i.curr_token + 1 = (j : Int)) (hj : (j : Int) < i.num_tokens)
    (hs : i.token_start.getD j 0 ≤ i.token_end.getD j 0 ∧
      i.token_end.getD j 0 - i.token_start.getD j 0 < 512) :
    get_next_token i buf =
      some (.ERR_SUCCESS, { i with curr_token := (j : Int) }, token_text i buf j) := by
  unfold get_next_token
  rw [if_neg (by omega)]
  simp only [hc]
  rw [if_neg (by omega)]
  simp only [Int.toNat_ofNat]
  rw [if_neg (by omega)]
  rfl

/-- A call of `get_next_token` with the cursor on the last token returns `ERR_SYNTAX`. -/
theorem get_next_token_end (i : instr) (buf : List Char) (hn : 0 < i.num_tokens)
    (hc : i.curr_token + 1 = i.num_tokens) :
    get_next_token i buf = some (.ERR_SYNTAX, { i with curr_token := i.num_tokens }, "") := by
  unfold get_next_token
  rw [if_neg (by omega)]
  simp only [hc]
  rw [if_pos trivial]

theorem after_calls_spans (buf : List Char) (i : instr) (n : Nat) (hn : i.num_tokens = (n : Int))
    (hc : i.curr_token = -1)
    (hs : ∀ j < n, i.token_start.getD j 0 ≤ i.token_end.getD j 0 ∧
      i.token_end.getD j 0 - i.token_start.getD j 0 < 512) :
    ∀ m, m ≤ n → after_calls buf m i = some { i with curr_token := (m : Int) - 1 } := by
  have gen : ∀ (m : Nat) (c : Nat), c + m ≤ n →
      after_calls buf m { i with curr_token := (c : Int) - 1 } =
        some { i with curr_token := ((c + m : Nat) : Int) - 1 } := by
    intro m
    induction m with
    | zero =>
      intro c _
      rfl
    | succ m ih =>
      intro c hcm
      unfold after_calls
      rw [get_next_token_next { i with curr_token := (c : Int) - 1 } buf c (by simp)
        (by simp only [hn]; omega) (hs c (by omega))]
      simp only
      have := ih (c + 1) (by omega)
      simp only [Nat.cast_add, Nat.cast_one, add_sub_cancel_right] at this ⊢
      rw [this]
      congr 2
      omega
  intro m hm
  have h := gen m 0 (by omega)
  simp only [Nat.cast_zero, zero_sub, Nat.zero_add] at h
  rw [← h]
  congr 1
  rw [← hc]

theorem tok_frame_refl (i : instr) : tok_frame i i := ⟨rfl, rfl, rfl, id⟩

theorem tok_frame_trans {a b c : instr} (h1 : tok_frame a b) (h2 : tok_frame b c) :
    tok_frame a c :=
  ⟨h2.1.trans h1.1, h2.2.1.trans h1.2.1, h2.2.2.1.trans h1.2.2.1,
    fun h => h2.2.2.2 (h1.2.2.2 h)⟩

theorem get_next_token_cursor {i i1 : instr} {buf : List Char} {tok : String}
    (h : get_next_token i buf = some (.ERR_SUCCESS, i1, tok)) :
    i1 = { i with curr_token := i.curr_token + 1 } ∧ 0 < i.num_tokens ∧
      i.curr_token + 1 ≠ i.num_tokens := by
  unfold get_next_token at h
  by_cases h0 : i.num_tokens ≤ 0
  · rw [if_pos h0] at h
    simp at h
  · rw [if_neg h0] at h
    simp only at h
    by_cases h1 : i.curr_token + 1 = i.num_tokens
    · rw [if_pos h1] at h
      simp at h
    · rw [if_neg h1] at h
      split at h
      · simp at h
      · simp only [Option.some.injEq, Prod.mk.injEq, true_and] at h
        exact ⟨h.1.symm, by omega, h1⟩

theorem tok_frame_get {i i1 : instr} {buf : List Char} {tok : String}
    (h : get_next_token i buf = some (.ERR_SUCCESS, i1, tok)) : tok_frame i i1 := by
  obtain ⟨e, h0, h1⟩ := get_next_token_cursor h
  subst e
  refine ⟨rfl, rfl, rfl, fun hc => ?_⟩
  show i.curr_token + 1 < i.num_tokens
  omega

theorem tok_frame_set_op (i : instr) (k : Nat) (o : op) : tok_frame i (set_op i k o) := by
  unfold set_op
  split <;> exact ⟨rfl, rfl, rfl, id⟩

theorem tok_frame_ops (i : instr) (o0 o1 : op) : tok_frame i { i with op0 := o0, op1 := o1 } :=
  ⟨rfl, rfl, rfl, id⟩

theorem next_token_frame {i i' : instr} {buf : List Char} {k : instr → String → outcome}
    (h : next_token i buf k = some (.ERR_SUCCESS, i')) :
    ∃ i1 tok, tok_frame i i1 ∧ k i1 tok = some (.ERR_SUCCESS, i') := by
  obtain ⟨i1, tok, g, h⟩ := next_token_success h
  exact ⟨i1, tok, tok_frame_get g, h⟩

theorem alu_parse_op_add_mul_frame {i i' : instr} {buf : List Char} {k : Nat}
    (h : alu_parse_op_add_mul i buf k = some (.ERR_SUCCESS, i')) : tok_frame i i' := by
  have after : ∀ (i2 : instr) (token2 : String),
      (if token2 ≠ "," then some (error.ERR_SYNTAX, i2)
        else
          next_token i2 buf fun i3 token3 =>
          match parse_dst_reg token3 with
          | none => some (.ERR_SYNTAX, i3)
          | some dst =>
            next_token (set_op i3 k { get_op i3 k with dst := dst }) buf fun i5 token5 =>
            if token5 ≠ "," then some (.ERR_SYNTAX, i5)
            else
              next_token i5 buf fun i6 token6 =>
              match alu_parse_src token6 with
              | none => some (.ERR_SYNTAX, i6)
              | some s0 =>
                next_token (set_op i6 k { get_op i6 k with src0 := s0 }) buf fun i8 token8 =>
                if token8 ≠ "," then some (.ERR_SYNTAX, i8)
                else
                  next_token i8 buf fun i9 token9 =>
                  match alu_parse_src token9 with
                  | none => some (.ERR_SYNTAX, i9)
                  | some s1 =>
                    some (.ERR_SUCCESS, set_op i9 k { get_op i9 k with src1 := s1 })) =
        some (.ERR_SUCCESS, i') → tok_frame i2 i' := by
    intro i2 token2 ha
    split at ha
    · simp at ha
    · obtain ⟨i3, t3, f3, ha⟩ := next_token_frame ha
      split at ha
      · simp at ha
      · obtain ⟨i5, t5, f5, ha⟩ := next_token_frame ha
        split at ha
        · simp at ha
        · obtain ⟨i6, t6, f6, ha⟩ := next_token_frame ha
          split at ha
          · simp at ha
          · obtain ⟨i8, t8, f8, ha⟩ := next_token_frame ha
            split at ha
            · simp at ha
            · obtain ⟨i9, t9, f9, ha⟩ := next_token_frame ha
              split at ha
              · simp at ha
              · simp only [Option.some.injEq, Prod.mk.injEq, true_and] at ha
                subst ha
                exact tok_frame_trans f3 (tok_frame_trans (tok_frame_set_op _ _ _)
                  (tok_frame_trans f5 (tok_frame_trans f6 (tok_frame_trans (tok_frame_set_op _ _ _)
                    (tok_frame_trans f8 (tok_frame_trans f9 (tok_frame_set_op _ _ _)))))))
  unfold alu_parse_op_add_mul at h
  split at h
  · simp at h
  · obtain ⟨i1, t1, f1, h⟩ := next_token_frame h
    simp only at h
    split at h
    · obtain ⟨i2, t2, f2, h⟩ := next_token_frame h
      split at h
      · simp at h
      · obtain ⟨i3, t3, f3, h⟩ := next_token_frame h
        have hh := after _ _ h
        exact tok_frame_trans f1 (tok_frame_trans f2 (tok_frame_trans (tok_frame_set_op _ _ _)
          (tok_frame_trans f3 hh)))
    · have hh := after _ _ h
      exact tok_frame_trans f1 hh

theorem alu_parse_instr_frame {i i' : instr} {buf : List Char}
    (h : alu_parse_instr i buf = some (.ERR_SUCCESS, i')) : tok_frame i i' := by
  have mul : ∀ j : instr, alu_parse_mul_slot j buf = some (.ERR_SUCCESS, i') → tok_frame j i' := by
    intro j hj
    unfold alu_parse_mul_slot at hj
    obtain ⟨i1, t1, f1, hj⟩ := next_token_frame hj
    split at hj
    · simp at hj
    · simp only at hj
      split at hj
      · simp only [Option.some.injEq, Prod.mk.injEq, true_and] at hj
        subst hj
        exact tok_frame_trans f1 (tok_frame_ops i1 _ _)
      · have f2 := alu_parse_op_add_mul_frame hj
        exact tok_frame_trans f1 (tok_frame_trans (tok_frame_ops i1 _ _) f2)
  unfold alu_parse_instr at h
  split at h
  · have f2 := mul _ h
    exact tok_frame_trans (tok_frame_ops i _ _) f2
  · split at h
    · simp at h
    · rename_i i1 h1
      exact tok_frame_trans (alu_parse_op_add_mul_frame h1) (mul _ h)
    · rename_i e i1 hne h1
      simp only [Option.some.injEq, Prod.mk.injEq] at h
      exact (hne h.1).elim

theorem signals_not_one : ∀ e ∈ g_signals, e.2 ≠ 1 ∧ e.1 ≠ "sf" ∧ parse_signal e.1 = some e.2 := by
  decide

theorem parse_signal_some {t : String} {n : Nat} (h : parse_signal t = some n) :
    (t, n) ∈ g_signals ∧ n ≠ 1 ∧ t ≠ "sf" := by
  unfold parse_signal at h
  cases hf : find_name g_signals t with
  | none => rw [hf] at h; simp at h
  | some e =>
    rw [hf] at h
    simp only [Option.map_some', Option.some.injEq] at h
    obtain ⟨hm, hn⟩ := find_name_some hf
    have := signals_not_one e hm
    subst h
    subst hn
    exact ⟨hm, this.1, this.2.1⟩

theorem next_token_eq {i i1 : instr} {buf : List Char} {t : String}
    (k : instr → String → outcome)
    (g : get_next_token i buf = some (.ERR_SUCCESS, i1, t)) : next_token i buf k = k i1 t := by
  unfold next_token
  rw [g]

theorem get_next_token_same {a b a1 : instr} {buf : List Char} {t : String}
    (h1 : b.token_start = a.token_start) (h2 : b.token_end = a.token_end)
    (h3 : b.num_tokens = a.num_tokens) (h4 : b.curr_token = a.curr_token)
    (g : get_next_token a buf = some (.ERR_SUCCESS, a1, t)) :
    get_next_token b buf = some (.ERR_SUCCESS, { b with curr_token := b.curr_token + 1 }, t) := by
  unfold get_next_token at g ⊢
  simp only [h1, h2, h3, h4]
  by_cases c0 : a.num_tokens ≤ 0
  · rw [if_pos c0] at g
    simp at g
  · rw [if_neg c0] at g ⊢
    simp only at g
    by_cases c1 : a.curr_token + 1 = a.num_tokens
    · rw [if_pos c1] at g
      simp at g
    · rw [if_neg c1] at g ⊢
      split at g
      · simp at g
      · rename_i c2
        rw [if_neg c2]
        simp only [Option.some.injEq, Prod.mk.injEq, true_and] at g
        rw [g.2]

theorem trailing_tokens_same (buf : List Char) :
    ∀ (ts : List String) (a b : instr), b.token_start = a.token_start →
      b.token_end = a.token_end → b.num_tokens = a.num_tokens → b.curr_token = a.curr_token →
      trailing_tokens buf ts a → trailing_tokens buf ts b := by
  intro ts
  induction ts with
  | nil =>
    intro a b h1 h2 h3 h4 h
    obtain ⟨a1, g⟩ := h
    exact ⟨_, get_next_token_same h1 h2 h3 h4 g⟩
  | cons t ts ih =>
    intro a b h1 h2 h3 h4 h
    obtain ⟨hne, a1, g, hr⟩ := h
    obtain ⟨e1, _, _⟩ := get_next_token_cursor g
    refine ⟨hne, _, get_next_token_same h1 h2 h3 h4 g, ?_⟩
    refine ih a1 _ ?_ ?_ ?_ ?_ hr
    · rw [e1]; exact h1
    · rw [e1]; exact h2
    · rw [e1]; exact h3
    · rw [e1]; show b.curr_token + 1 = a.curr_token + 1; rw [h4]

/-- The loop at the end of `parse_instr` on the trailing tokens `ts` of an ALU
instruction, from a record whose flag and signal may already be set. -/
theorem parse_flags_trailing (buf : List Char) :
    ∀ (ts : List String) (fuel : Nat) (i : instr), trailing_tokens buf ts i →
      ts.length + 1 ≤ fuel → (i.set_flag = 0 ∨ i.set_flag = 1) →
      ((2 ≤ ts.count "sf" + (if i.set_flag ≠ 0 then 1 else 0) ∨
          2 ≤ (ts.filter is_signal).length + (if i.signal ≠ 1 then 1 else 0)) →
        ∃ i', parse_flags .OP_TYPE_ADD fuel i buf = some (.ERR_SYNTAX, i')) ∧
      ((∀ t ∈ ts, t = "sf" ∨ is_signal t = true) →
        ts.count "sf" + (if i.set_flag ≠ 0 then 1 else 0) ≤ 1 →
        (ts.filter is_signal).length + (if i.signal ≠ 1 then 1 else 0) ≤ 1 →
        ∃ i', parse_flags .OP_TYPE_ADD fuel i buf = some (.ERR_SUCCESS, i') ∧
          (i'.set_flag = 1 ↔ ("sf" ∈ ts ∨ i.set_flag = 1)) ∧
          (i'.set_flag = 0 ∨ i'.set_flag = 1) ∧
          (∀ t ∈ ts, ∀ n, parse_signal t = some n → i'.signal = n) ∧
          ((∀ t ∈ ts, is_signal t = false) → i'.signal = i.signal)) := by
  intro ts
  induction ts with
  | nil =>
    intro fuel i ht hf hsf
    obtain ⟨i1, g⟩ := ht
    obtain ⟨e1, _, _⟩ := get_next_token_cursor g
    subst e1
    cases fuel with
    | zero => simp at hf
    | succ fuel =>
      unfold parse_flags
      rw [next_token_eq _ g]
      simp only [if_true]
      constructor
      · intro h
        simp only [List.count_nil, List.filter_nil, List.length_nil, Nat.zero_add] at h
        rcases h with h | h <;> split at h <;> omega
      · intro _ _ _
        refine ⟨_, rfl, ?_, hsf, ?_, ?_⟩
        · simp
        · intro t ht; simp at ht
        · intro _; rfl
  | cons t ts ih =>
    intro fuel i ht hf hsf
    obtain ⟨hne, i1, g, hrest⟩ := ht
    obtain ⟨e1, _, _⟩ := get_next_token_cursor g
    subst e1
    cases fuel with
    | zero => simp at hf
    | succ fuel =>
      have hf1 : ts.length + 1 ≤ fuel := by simpa using hf
      unfold parse_flags
      rw [next_token_eq _ g]
      simp only [if_neg hne]
      by_cases hsft : t = "sf"
      · subst hsft
        have hnsig : is_signal "sf" = false := by decide
        simp only [if_true, List.count_cons_self, List.filter_cons, hnsig,
          Bool.false_eq_true, if_false]
        by_cases hset : i.set_flag ≠ 0
        · simp only [if_pos hset]
          constructor
          · intro _; exact ⟨_, rfl⟩
          · intro _ hc _
            omega
        · simp only [if_neg hset]
          have hset0 : i.set_flag = 0 := by simpa using hset
          obtain ⟨p1, p2⟩ := ih fuel { i with curr_token := i.curr_token + 1, set_flag := 1 }
            (trailing_tokens_same buf ts { i with curr_token := i.curr_token + 1 } _ rfl rfl rfl rfl
              hrest) hf1 (Or.inr rfl)
          simp only [ne_eq, one_ne_zero, not_false_eq_true, if_true] at p1 p2
          simp only [hset0, ne_eq, not_true_eq_false, if_false, Nat.add_zero]
          constructor
          · intro h
            exact p1 (by omega)
          · intro hall hc hg
            obtain ⟨i', r1, r2, r3, r4, r5⟩ := p2
              (fun x hx => hall x (List.mem_cons_of_mem _ hx)) (by omega) hg
            refine ⟨i', r1, ?_, r3, ?_, ?_⟩
            · simp only [List.mem_cons, true_or, iff_true]
              exact r2.2 (Or.inr trivial)
            · intro x hx n hn
              rcases List.mem_cons.1 hx with rfl | hx
              · exact absurd rfl (parse_signal_some hn).2.2
              · exact r4 x hx n hn
            · intro hno
              exact r5 (fun x hx => hno x (List.mem_cons_of_mem _ hx))
      · have hcount : List.count "sf" (t :: ts) = List.count "sf" ts :=
          List.count_cons_of_ne (Ne.symm hsft) ts
        simp only [if_neg hsft, hcount]
        cases hps : parse_signal t with
        | none =>
          have hnsig : is_signal t = false := by simp [is_signal, hps]
          simp only
          constructor
          · intro _; exact ⟨_, rfl⟩
          · intro hall _ _
            rcases hall t (List.mem_cons_self _ _) with h | h
            · exact absurd h hsft
            · rw [hnsig] at h; simp at h
        | some n =>
          have hsig : is_signal t = true := by simp [is_signal, hps]
          obtain ⟨_, hn1, _⟩ := parse_signal_some hps
          simp only [reduceCtorEq, or_self, if_false, List.filter_cons, hsig, if_true,
            List.length_cons]
          by_cases hsg : i.signal ≠ 1
          · simp only [if_pos hsg]
            constructor
            · intro _; exact ⟨_, rfl⟩
            · intro _ _ hg
              omega
          · simp only [if_neg hsg]
            have hsg1 : i.signal = 1 := by simpa using hsg
            obtain ⟨p1, p2⟩ := ih fuel { i with curr_token := i.curr_token + 1, signal := n }
              (trailing_tokens_same buf ts { i with curr_token := i.curr_token + 1 } _ rfl rfl rfl rfl
              hrest) hf1 hsf
            simp only [ne_eq, hn1, not_false_eq_true, if_true] at p1 p2
            simp only [hsg1, ne_eq, not_true_eq_false, if_false, Nat.add_zero]
            constructor
            · intro h
              exact p1 (by omega)
            · intro hall hc hg
              have hlen : (ts.filter is_signal).length = 0 := by omega
              have hnone : ∀ x ∈ ts, is_signal x = false := by
                intro x hx
                by_contra hc1
                have : x ∈ ts.filter is_signal := List.mem_filter.2 ⟨hx, by simpa using hc1⟩
                rw [List.length_eq_zero.1 hlen] at this
                simp at this
              obtain ⟨i', r1, r2, r3, r4, r5⟩ := p2
                (fun x hx => hall x (List.mem_cons_of_mem _ hx)) hc (by omega)
              refine ⟨i', r1, ?_, r3, ?_, ?_⟩
              · rw [r2]
                simp only [List.mem_cons]
                constructor
                · rintro (h | h)
                  · exact Or.inl (Or.inr h)
                  · exact Or.inr h
                · rintro ((h | h) | h)
                  · exact absurd h.symm hsft
                  · exact Or.inl h
                  · exact Or.inr h
              · intro x hx m hm
                rcases List.mem_cons.1 hx with rfl | hx
                · rw [hps] at hm
                  simp only [Option.some.injEq] at hm
                  rw [r5 hnone, hm]
                · have := hnone x hx
                  simp [is_signal, hm] at this
              · intro hno
                have := hno t (List.mem_cons_self _ _)
                rw [hsig] at this
                simp at this

theorem trailing_tokens_length (buf : List Char) :
    ∀ (ts : List String) (i : instr), trailing_tokens buf ts i →
      i.curr_token < i.num_tokens → i.curr_token + ts.length + 1 < i.num_tokens := by
  intro ts
  induction ts with
  | nil =>
    intro i h hc
    obtain ⟨i1, g⟩ := h
    obtain ⟨_, _, hne⟩ := get_next_token_cursor g
    simp only [List.length_nil, Nat.cast_zero, add_zero]
    omega
  | cons t ts ih =>
    intro i h hc
    obtain ⟨_, i1, g, hr⟩ := h
    obtain ⟨e1, _, hne⟩ := get_next_token_cursor g
    subst e1
    have := ih _ hr (by show i.curr_token + 1 < i.num_tokens; omega)
    simp only [List.length_cons, Nat.cast_add, Nat.cast_one] at this ⊢
    omega

theorem src_tables_lookup : ∀ p ∈ src_tables, ∀ e ∈ p.2,
    alu_parse_src e.1 = some (.ST_REG { rf := p.1, num := e.2 }) := by
  decide!

theorem dst_tables_lookup : ∀ p ∈ dst_tables, ∀ e ∈ p.2,
    parse_dst_reg e.1 = some { rf := p.1, num := e.2 } := by
  decide!

theorem alu_parse_src_none_iff (s : String) :
    alu_parse_src s = none ↔ ∀ p ∈ src_tables, ∀ e ∈ p.2, e.1 ≠ s := by
  constructor
  · intro h p hp e he hes
    have := src_tables_lookup p hp e he
    rw [hes, h] at this
    simp at this
  · intro h
    have ha := h (.RF_A, g_src_regs_a) (by simp [src_tables])
    have hb := h (.RF_B, g_src_regs_b) (by simp [src_tables])
    have hab := h (.RF_AB, g_src_regs_ab) (by simp [src_tables])
    have hr := h (.RF_R, g_src_regs_r) (by simp [src_tables])
    have hs := h (.RF_SIMM, g_src_regs_simm) (by simp [src_tables])
    have none_of : ∀ t : List reg_info, (∀ e ∈ t, e.1 ≠ s) → find_name t s = none := by
      intro t ht
      cases hf : find_name t s with
      | none => rfl
      | some e => exact absurd (find_name_some hf).2 (ht e (find_name_some hf).1)
    unfold alu_parse_src
    rw [none_of _ ha, none_of _ hb, none_of _ hab, none_of _ hr, none_of _ hs]

theorem parse_dst_reg_none_iff (s : String) :
    parse_dst_reg s = none ↔ ∀ p ∈ dst_tables, ∀ e ∈ p.2, e.1 ≠ s := by
  constructor
  · intro h p hp e he hes
    have := dst_tables_lookup p hp e he
    rw [hes, h] at this
    simp at this
  · intro h
    have ha := h (.RF_A, g_dst_regs_a) (by simp [dst_tables])
    have hb := h (.RF_B, g_dst_regs_b) (by simp [dst_tables])
    have hab := h (.RF_AB, g_dst_regs_ab) (by simp [dst_tables])
    have none_of : ∀ t : List reg_info, (∀ e ∈ t, e.1 ≠ s) → find_name t s = none := by
      intro t ht
      cases hf : find_name t s with
      | none => rfl
      | some e => exact absurd (find_name_some hf).2 (ht e (find_name_some hf).1)
    unfold parse_dst_reg
    rw [none_of _ ha, none_of _ hb, none_of _ hab]

theorem lookup_tables_some {l : List (reg_file × List reg_info)} {s : String} {r : reg}
    (h : lookup_tables l s = some r) :
    ∃ p ∈ l, ∃ e ∈ p.2, e.1 = s ∧ r = { rf := p.1, num := e.2 } := by
  induction l with
  | nil => simp [lookup_tables] at h
  | cons p rest ih =>
    obtain ⟨f, t⟩ := p
    unfold lookup_tables at h
    split at h
    · rename_i e he
      simp only [Option.some.injEq] at h
      exact ⟨(f, t), List.mem_cons_self _ _, e, (find_name_some he).1, (find_name_some he).2,
        h.symm⟩
    · obtain ⟨p, hp, r⟩ := ih h
      exact ⟨p, List.mem_cons_of_mem _ hp, r⟩

theorem lookup_tables_none {l : List (reg_file × List reg_info)} {s : String}
    (h : lookup_tables l s = none) : ∀ p ∈ l, ∀ e ∈ p.2, e.1 ≠ s := by
  induction l with
  | nil => simp
  | cons p rest ih =>
    obtain ⟨f, t⟩ := p
    unfold lookup_tables at h
    split at h
    · simp at h
    · rename_i hn
      intro q hq
      rcases List.mem_cons.1 hq with rfl | hq
      · exact find_name_none hn
      · exact ih h q hq

theorem ab_fits_skip {m : masks_t} {s : src} {L : List src}
    (hs : ∀ n, s ≠ .ST_REG ⟨.RF_AB, n⟩) : ab_fits m (s :: L) ↔ ab_fits m L := by
  unfold ab_fits
  constructor
  · rintro ⟨u, v, h, a, b⟩
    exact ⟨u, v, fun n hn => h n (List.mem_cons_of_mem _ hn), a, b⟩
  · rintro ⟨u, v, h, a, b⟩
    refine ⟨u, v, fun n hn => ?_, a, b⟩
    rcases List.mem_cons.1 hn with e | hn
    · exact absurd e.symm (hs n)
    · exact h n hn

/-- The last loop of `alu_resolve_src_regfiles` passes exactly when the AB-file reads fit
the ports, provided each port mask is zero or one bit and, while port A is free, port B
holds none of the AB-file numbers. -/
theorem ab_run_iff :
    ∀ (L : List src) (m : masks_t),
      (m .RF_A = 0 ∨ ∃ p < 64, m .RF_A = mask_of p) →
      (m .RF_B = 0 ∨ ∃ q < 64, m .RF_B = mask_of q) →
      (∀ n, src.ST_REG ⟨.RF_AB, n⟩ ∈ L → n < 64) →
      (m .RF_A = 0 → ∀ n, src.ST_REG ⟨.RF_AB, n⟩ ∈ L → m .RF_B ≠ mask_of n) →
      ((ab_run m L).isSome ↔ ab_fits m L) := by
  intro L
  induction L with
  | nil =>
    intro m hA hB _ _
    simp only [ab_run, Option.isSome_some, true_iff]
    have ha : ∃ u, m .RF_A ≠ 0 → m .RF_A = mask_of u := by
      rcases hA with h | ⟨p, _, h⟩
      · exact ⟨0, fun c => absurd h c⟩
      · exact ⟨p, fun _ => h⟩
    have hb : ∃ v, m .RF_B ≠ 0 → m .RF_B = mask_of v := by
      rcases hB with h | ⟨p, _, h⟩
      · exact ⟨0, fun c => absurd h c⟩
      · exact ⟨p, fun _ => h⟩
    obtain ⟨u, hu⟩ := ha
    obtain ⟨v, hv⟩ := hb
    exact ⟨u, v, fun n hn => by simp at hn, hu, hv⟩
  | cons s L ih =>
    intro m hA hB hL h0
    have hL1 : ∀ n, src.ST_REG ⟨.RF_AB, n⟩ ∈ L → n < 64 :=
      fun n hn => hL n (List.mem_cons_of_mem _ hn)
    have h01 : m .RF_A = 0 → ∀ n, src.ST_REG ⟨.RF_AB, n⟩ ∈ L → m .RF_B ≠ mask_of n :=
      fun h n hn => h0 h n (List.mem_cons_of_mem _ hn)
    -- an operand that is not an AB-file register is passed over
    have skip : (∀ n, s ≠ .ST_REG ⟨.RF_AB, n⟩) → resolve_ab_src m s = some (m, s) →
        ((ab_run m (s :: L)).isSome ↔ ab_fits m (s :: L)) := by
      intro hs hr
      rw [ab_fits_skip hs]
      unfold ab_run
      rw [hr]
      exact ih m hA hB hL1 h01
    cases s with
    | ST_IMM32 v => exact skip (fun n => by simp) rfl
    | ST_LABEL l => exact skip (fun n => by simp) rfl
    | ST_REG r =>
      obtain ⟨f, x⟩ := r
      by_cases hf : f = .RF_AB
      · subst hf
        have hx : x < 64 := hL x (List.mem_cons_self _ _)
        have hmx : mask_of x ≠ 0 := mask_of_ne_zero hx
        unfold ab_run
        by_cases cA : m .RF_A = 0 ∨ m .RF_A = mask_of x
        · -- the register goes to port A
          have hr : resolve_ab_src m (.ST_REG ⟨.RF_AB, x⟩) =
              some (Function.update m .RF_A (mask_of x), .ST_REG ⟨.RF_A, x⟩) := by
            simp [resolve_ab_src, cA]
          rw [hr]
          simp only
          rw [ih (Function.update m .RF_A (mask_of x)) (Or.inr ⟨x, hx, by simp⟩)
            (by simpa using hB) hL1 (fun h => by simp [hmx] at h)]
          unfold ab_fits
          simp only [Function.update_same, ne_eq, hmx, not_false_eq_true, true_implies,
            Function.update_noteq (show reg_file.RF_B ≠ reg_file.RF_A by decide)]
          constructor
          · rintro ⟨u, v, h, a, b⟩
            have hux : x = u := mask_of_inj hx a
            refine ⟨u, v, fun n hn => ?_, fun hne => ?_, b⟩
            · rcases List.mem_cons.1 hn with e | hn
              · simp only [src.ST_REG.injEq, reg.mk.injEq, true_and] at e
                exact Or.inl (e.trans hux)
              · exact h n hn
            · rcases cA with c | c
              · exact absurd c hne
              · rw [c, hux]
          · rintro ⟨u, v, h, a, b⟩
            rcases h x (List.mem_cons_self _ _) with e | e
            · exact ⟨u, v, fun n hn => h n (List.mem_cons_of_mem _ hn), by rw [e], b⟩
            · by_cases hA0 : m .RF_A = 0
              · have hB0 : m .RF_B = 0 := by
                  by_contra hne
                  have := b hne
                  rw [← e] at this
                  exact h0 hA0 x (List.mem_cons_self _ _) this
                refine ⟨x, u, fun n hn => ?_, rfl, fun hne => absurd hB0 hne⟩
                rcases h n (List.mem_cons_of_mem _ hn) with c | c
                · exact Or.inr c
                · exact Or.inl (c.trans e.symm)
              · rcases cA with c | c
                · exact absurd c hA0
                · have := a hA0
                  rw [c] at this
                  have hxu : x = u := mask_of_inj hx this
                  exact ⟨u, v, fun n hn => h n (List.mem_cons_of_mem _ hn), by rw [hxu], b⟩
        · have hA0 : m .RF_A ≠ 0 := fun c => cA (Or.inl c)
          have hAx : m .RF_A ≠ mask_of x := fun c => cA (Or.inr c)
          by_cases cB : m .RF_B = 0 ∨ m .RF_B = mask_of x
          · -- the register goes to port B
            have hr : resolve_ab_src m (.ST_REG ⟨.RF_AB, x⟩) =
                some (Function.update m .RF_B (mask_of x), .ST_REG ⟨.RF_B, x⟩) := by
              simp [resolve_ab_src, cA, cB]
            rw [hr]
            simp only
            rw [ih (Function.update m .RF_B (mask_of x)) (by simpa using hA)
              (Or.inr ⟨x, hx, by simp⟩) hL1 (fun h => by simp [hA0] at h)]
            unfold ab_fits
            simp only [Function.update_same, ne_eq, hmx, not_false_eq_true, true_implies,
              Function.update_noteq (show reg_file.RF_A ≠ reg_file.RF_B by decide)]
            constructor
            · rintro ⟨u, v, h, a, b⟩
              have hvx : x = v := mask_of_inj hx b
              refine ⟨u, v, fun n hn => ?_, a, fun hne => ?_⟩
              · rcases List.mem_cons.1 hn with e | hn
                · simp only [src.ST_REG.injEq, reg.mk.injEq, true_and] at e
                  exact Or.inr (e.trans hvx)
                · exact h n hn
              · rcases cB with c | c
                · exact absurd c hne
                · rw [c, hvx]
            · rintro ⟨u, v, h, a, b⟩
              rcases h x (List.mem_cons_self _ _) with e | e
              · exact absurd (by rw [a hA0, e]) hAx
              · exact ⟨u, v, fun n hn => h n (List.mem_cons_of_mem _ hn), a, by rw [e]⟩
          · -- no port is left
            have hr : resolve_ab_src m (.ST_REG ⟨.RF_AB, x⟩) = none := by
              simp [resolve_ab_src, cA, cB]
            rw [hr]
            simp only [Option.isSome_none, Bool.false_eq_true, false_iff]
            rintro ⟨u, v, h, a, b⟩
            have hB0 : m .RF_B ≠ 0 := fun c => cB (Or.inl c)
            rcases h x (List.mem_cons_self _ _) with e | e
            · exact hAx (by rw [a hA0, e])
            · exact cB (Or.inr (by rw [b hB0, e]))
      · exact skip (fun n => by simp [hf]) (by simp [resolve_ab_src, hf])

theorem resolve_ab_srcs_iff (m : masks_t) (i : instr) :
    (∃ i', resolve_ab_srcs m i = some (.ERR_SUCCESS, i')) ↔ (ab_run m (alu_srcs i)).isSome := by
  unfold resolve_ab_srcs alu_srcs
  simp only [ab_run]
  cases h0 : resolve_ab_src m i.op0.src0 with
  | none => simp
  | some r0 =>
    obtain ⟨m1, s0⟩ := r0
    simp only
    cases h1 : resolve_ab_src m1 i.op0.src1 with
    | none => simp
    | some r1 =>
      obtain ⟨m2, s1⟩ := r1
      simp only
      cases h2 : resolve_ab_src m2 i.op1.src0 with
      | none => simp
      | some r2 =>
        obtain ⟨m3, s2⟩ := r2
        simp only
        cases h3 : resolve_ab_src m3 i.op1.src1 with
        | none => simp
        | some r3 =>
          obtain ⟨m4, s3⟩ := r3
          simp

theorem read_nums_mem (i : instr) (f : reg_file) (n : Nat) :
    n ∈ read_nums i f ↔ src.ST_REG ⟨f, n⟩ ∈ alu_srcs i := by
  unfold read_nums
  simp only [List.mem_toFinset, List.mem_filterMap]
  constructor
  · rintro ⟨s, hs, h⟩
    cases s with
    | ST_REG r =>
      simp only at h
      split at h
      · rename_i hf
        simp only [Option.some.injEq] at h
        obtain ⟨f', n'⟩ := r
        simp only at hf h
        subst hf
        subst h
        exact hs
      · simp at h
    | ST_IMM32 v => simp at h
    | ST_LABEL l => simp at h
  · intro h
    exact ⟨_, h, by simp⟩

/-- For parsed operands the mask of a register file has exactly the bits of the numbers
read from that file. -/
theorem mask_bits (i : instr) (M : masks_t) (hM : alu_src_masks i = some M)
    (hnum : ∀ r, src.ST_REG r ∈ alu_srcs i → r.num < 64) (f : reg_file) (hf : f ≠ .RF_R)
    (n : Nat) : (M f).testBit n = true ↔ n ∈ read_nums i f := by
  rw [read_nums_mem, (alu_src_masks_spec hM).2.1 f n]
  constructor
  · rintro ⟨_, _, h⟩; exact h
  · intro h; exact ⟨hnum _ h, hf, h⟩

theorem mask_zero_iff (i : instr) (M : masks_t) (hM : alu_src_masks i = some M)
    (hnum : ∀ r, src.ST_REG r ∈ alu_srcs i → r.num < 64) (f : reg_file) (hf : f ≠ .RF_R) :
    M f = 0 ↔ distinct_reads i f = 0 := by
  unfold distinct_reads
  rw [Finset.card_eq_zero]
  constructor
  · intro h
    ext n
    rw [← mask_bits i M hM hnum f hf n, h]
    simp
  · intro h
    apply Nat.eq_of_testBit_eq
    intro n
    rw [Nat.zero_testBit]
    by_contra hc
    have : n ∈ read_nums i f := (mask_bits i M hM hnum f hf n).1 (by simpa using hc)
    rw [h] at this
    simp at this

theorem mask_two_iff (i : instr) (M : masks_t) (hM : alu_src_masks i = some M)
    (hnum : ∀ r, src.ST_REG r ∈ alu_srcs i → r.num < 64) (f : reg_file) (hf : f ≠ .RF_R) :
    two_bits (M f) ↔ 2 ≤ distinct_reads i f := by
  unfold distinct_reads two_bits
  rw [show (2 ≤ (read_nums i f).card) ↔ 1 < (read_nums i f).card from Iff.rfl,
    Finset.one_lt_card_iff]
  constructor
  · rintro ⟨a, b, hab, ha, hb⟩
    exact ⟨a, b, (mask_bits i M hM hnum f hf a).1 ha, (mask_bits i M hM hnum f hf b).1 hb, hab⟩
  · rintro ⟨a, b, ha, hb, hab⟩
    exact ⟨a, b, hab, (mask_bits i M hM hnum f hf a).2 ha, (mask_bits i M hM hnum f hf b).2 hb⟩

/-- A mask with a bit set and no two bits set is the mask of one number, which is read. -/
theorem mask_single (i : instr) (M : masks_t) (hM : alu_src_masks i = some M)
    (hnum : ∀ r, src.ST_REG r ∈ alu_srcs i → r.num < 64) (f : reg_file) (hf : f ≠ .RF_R)
    (h2 : ¬ two_bits (M f)) (h0 : M f ≠ 0) :
    ∃ p, p < 64 ∧ M f = mask_of p ∧ src.ST_REG ⟨f, p⟩ ∈ alu_srcs i := by
  have : ∃ n, (M f).testBit n = true := by
    by_contra hc
    apply h0
    apply Nat.eq_of_testBit_eq
    intro n
    rw [Nat.zero_testBit]
    by_contra hn
    exact hc ⟨n, by simpa using hn⟩
  obtain ⟨p, hp⟩ := this
  have hmem := (read_nums_mem i f p).1 ((mask_bits i M hM hnum f hf p).1 hp)
  have h64 := hnum _ hmem
  exact ⟨p, h64, not_two_bits_eq h2 hp h64, hmem⟩

/-- When `alu_resolve_src_regfiles` succeeds on parsed operands, in terms of the masks. -/
theorem alu_resolve_src_regfiles_iff_masks {i : instr} {M : masks_t} (hp : alu_srcs_parsed i)
    (hM : alu_src_masks i = some M) :
    (∃ i', alu_resolve_src_regfiles i = some (.ERR_SUCCESS, i')) ↔
      ¬ two_bits (M .RF_SIMM) ∧ (M .RF_SIMM ≠ 0 → i.signal = 1) ∧
      ¬ two_bits (M .RF_A) ∧ ¬ two_bits (M .RF_B) ∧
      (M .RF_AB = 0 ∨ (¬ (M .RF_A ≠ 0 ∧ M .RF_B ≠ 0) ∧ (ab_run M (alu_srcs i)).isSome)) := by
  obtain ⟨d1, d2⟩ := alu_src_masks_disjoint hp hM
  obtain ⟨_, _, hlt⟩ := alu_src_masks_spec hM
  have c2 : ∀ f, 2 ≤ count_mask_bits (M f) ↔ two_bits (M f) := fun f =>
    count_mask_bits_two (hlt f)
  have c0 : ∀ f, (count_mask_bits (M f) = 0) = (M f = 0) := fun f =>
    propext (count_mask_bits_eq_zero (hlt f))
  unfold alu_resolve_src_regfiles
  rw [hM]
  simp only [d1, d2, ne_eq, not_true_eq_false, if_false, ge_iff_le, c0]
  by_cases hS2 : 2 ≤ count_mask_bits (M .RF_SIMM)
  · simp only [hS2, if_true]
    constructor
    · rintro ⟨_, h⟩; simp at h
    · rintro ⟨h, _⟩
      exact absurd ((c2 _).mp hS2) h
  · simp only [hS2, if_false]
    have hS : ¬ two_bits (M .RF_SIMM) := fun h => hS2 ((c2 _).mpr h)
    simp only [hS, not_false_eq_true, true_and]
    by_cases hS1 : ¬ M .RF_SIMM = 0 ∧ ¬ i.signal = 1
    · simp only [hS1, and_self, if_true]
      constructor
      · rintro ⟨_, h⟩; simp at h
      · rintro ⟨h, _⟩
        exact (h not_false).elim
    · simp only [hS1, if_false]
      have hsig : ¬ M .RF_SIMM = 0 → i.signal = 1 := by
        intro h
        by_contra hc
        exact hS1 ⟨h, hc⟩
      have hsigT : (¬ M .RF_SIMM = 0 → i.signal = 1) = True := eq_true hsig
      simp only [hsigT, true_and]
      by_cases hAB2 : 2 ≤ count_mask_bits (M .RF_A) ∨ 2 ≤ count_mask_bits (M .RF_B)
      · simp only [hAB2, if_true]
        constructor
        · rintro ⟨_, h⟩; simp at h
        · rintro ⟨ha, hb, _⟩
          rcases hAB2 with h | h
          · exact absurd ((c2 _).mp h) ha
          · exact absurd ((c2 _).mp h) hb
      · simp only [hAB2, if_false]
        have ha : ¬ two_bits (M .RF_A) := fun h => hAB2 (Or.inl ((c2 _).mpr h))
        have hb : ¬ two_bits (M .RF_B) := fun h => hAB2 (Or.inr ((c2 _).mpr h))
        simp only [ha, hb, not_false_eq_true, true_and]
        by_cases hz : M .RF_AB = 0
        · simp [hz]
        · simp only [hz, if_false, false_or]
          by_cases hfull : ¬ M .RF_A = 0 ∧ ¬ M .RF_B = 0
          · simp [hfull]
          · simp only [hfull, if_false, not_false_eq_true, true_and]
            rw [resolve_ab_srcs_iff]
            have : alu_srcs (if ¬ M .RF_SIMM = 0 then { i with signal := 13 } else i) =
                alu_srcs i := by
              split <;> rfl
            rw [this]

theorem card_le_two_iff (X : Finset Nat) : X.card ≤ 2 ↔ ∃ u v, ∀ n ∈ X, n = u ∨ n = v := by
  constructor
  · intro h
    by_cases he : X = ∅
    · exact ⟨0, 0, fun n hn => by rw [he] at hn; simp at hn⟩
    · obtain ⟨a, ha⟩ := Finset.nonempty_iff_ne_empty.2 he
      have h1 : (X.erase a).card ≤ 1 := by
        rw [Finset.card_erase_of_mem ha]
        omega
      obtain ⟨v, hv⟩ := Finset.card_le_one_iff_subset_singleton.1 h1
      refine ⟨a, v, fun n hn => ?_⟩
      by_cases hna : n = a
      · exact Or.inl hna
      · right
        have := hv (Finset.mem_erase.2 ⟨hna, hn⟩)
        simpa using this
  · rintro ⟨u, v, h⟩
    have hsub : X ⊆ {u, v} := by
      intro n hn
      rcases h n hn with e | e <;> simp [e]
    exact (Finset.card_le_card hsub).trans Finset.card_le_two

theorem card_le_one_iff_eq (X : Finset Nat) : X.card ≤ 1 ↔ ∃ v, ∀ n ∈ X, n = v := by
  rw [Finset.card_le_one_iff_subset_singleton]
  constructor
  · rintro ⟨v, h⟩
    exact ⟨v, fun n hn => by simpa using h hn⟩
  · rintro ⟨v, h⟩
    exact ⟨v, fun n hn => by simpa using h n hn⟩

/-- The facts about the masks of parsed operands that the count of distinct reads needs:
each of `masks[RF_A]`, `masks[RF_B]` without two bits is zero or the mask of the one
number read from that file, and no number is read both from file AB and from file A or
B. -/
theorem parsed_masks {i : instr} (hp : alu_srcs_parsed i) :
    (∀ r, src.ST_REG r ∈ alu_srcs i → r.num < 64) ∧
    (∀ n, src.ST_REG ⟨.RF_AB, n⟩ ∈ alu_srcs i → src.ST_REG ⟨.RF_A, n⟩ ∉ alu_srcs i ∧
      src.ST_REG ⟨.RF_B, n⟩ ∉ alu_srcs i) := by
  have hs := alu_srcs_parsed_spec hp
  refine ⟨alu_srcs_parsed_num hp, fun n hn => ⟨fun ha => ?_, fun hb => ?_⟩⟩
  · obtain ⟨r, e, _, h1, _⟩ := hs _ hn
    obtain ⟨r', e', _, _, h2⟩ := hs _ ha
    simp only [src.ST_REG.injEq] at e e'
    subst e
    subst e'
    exact h2 (Or.inl rfl) (h1 rfl)
  · obtain ⟨r, e, _, h1, _⟩ := hs _ hn
    obtain ⟨r', e', _, _, h2⟩ := hs _ hb
    simp only [src.ST_REG.injEq] at e e'
    subst e
    subst e'
    exact h2 (Or.inr rfl) (h1 rfl)

/-- With at most one file-A and one file-B number and some AB-file read, the two tests
before and in the last loop of `alu_resolve_src_regfiles` pass exactly when the distinct
numbers of the three files are at most two together. -/
theorem ab_loop_count {i : instr} {M : masks_t} (hp : alu_srcs_parsed i)
    (hM : alu_src_masks i = some M) (ha : distinct_reads i .RF_A ≤ 1)
    (hb : distinct_reads i .RF_B ≤ 1) (hab : distinct_reads i .RF_AB ≠ 0) :
    (¬ (¬ M .RF_A = 0 ∧ ¬ M .RF_B = 0) ∧ (ab_run M (alu_srcs i)).isSome) ↔
      distinct_reads i .RF_A + distinct_reads i .RF_B + distinct_reads i .RF_AB ≤ 2 := by
  obtain ⟨hnum, hdis⟩ := parsed_masks hp
  have zA := mask_zero_iff i M hM hnum .RF_A (by decide)
  have zB := mask_zero_iff i M hM hnum .RF_B (by decide)
  have hA2 : ¬ two_bits (M .RF_A) := by
    rw [mask_two_iff i M hM hnum .RF_A (by decide)]; omega
  have hB2 : ¬ two_bits (M .RF_B) := by
    rw [mask_two_iff i M hM hnum .RF_B (by decide)]; omega
  have IA : M .RF_A = 0 ∨ ∃ p < 64, M .RF_A = mask_of p := by
    by_cases h : M .RF_A = 0
    · exact Or.inl h
    · obtain ⟨p, h64, e, _⟩ := mask_single i M hM hnum .RF_A (by decide) hA2 h
      exact Or.inr ⟨p, h64, e⟩
  have IB : M .RF_B = 0 ∨ ∃ p < 64, M .RF_B = mask_of p := by
    by_cases h : M .RF_B = 0
    · exact Or.inl h
    · obtain ⟨p, h64, e, _⟩ := mask_single i M hM hnum .RF_B (by decide) hB2 h
      exact Or.inr ⟨p, h64, e⟩
  have IL : ∀ n, src.ST_REG ⟨.RF_AB, n⟩ ∈ alu_srcs i → n < 64 := fun n hn => hnum _ hn
  have notB : ∀ n, src.ST_REG ⟨.RF_AB, n⟩ ∈ alu_srcs i → M .RF_B ≠ mask_of n := by
    intro n hn e
    have hbit : (M .RF_B).testBit n = true := by
      rw [e, mask_of_testBit]
      simp [IL n hn]
    have := (read_nums_mem i .RF_B n).1 ((mask_bits i M hM hnum .RF_B (by decide) n).1 hbit)
    exact (hdis n hn).2 this
  have notA : ∀ n, src.ST_REG ⟨.RF_AB, n⟩ ∈ alu_srcs i → M .RF_A ≠ mask_of n := by
    intro n hn e
    have hbit : (M .RF_A).testBit n = true := by
      rw [e, mask_of_testBit]
      simp [IL n hn]
    have := (read_nums_mem i .RF_A n).1 ((mask_bits i M hM hnum .RF_A (by decide) n).1 hbit)
    exact (hdis n hn).1 this
  rw [ab_run_iff _ _ IA IB IL (fun _ => notB)]
  have hX : ∀ n, n ∈ read_nums i .RF_AB ↔ src.ST_REG ⟨.RF_AB, n⟩ ∈ alu_srcs i :=
    read_nums_mem i .RF_AB
  constructor
  · rintro ⟨hnf, u, v, hfit, hu, hv⟩
    by_cases a0 : M .RF_A = 0
    · by_cases b0 : M .RF_B = 0
      · have : (read_nums i .RF_AB).card ≤ 2 :=
          (card_le_two_iff _).2 ⟨u, v, fun n hn => hfit n ((hX n).1 hn)⟩
        have := zA.1 a0
        have := zB.1 b0
        unfold distinct_reads at *
        omega
      · have : (read_nums i .RF_AB).card ≤ 1 := by
          rw [card_le_one_iff_eq]
          refine ⟨u, fun n hn => ?_⟩
          rcases hfit n ((hX n).1 hn) with e | e
          · exact e
          · exact absurd (by rw [hv b0, e]) (notB n ((hX n).1 hn))
        have := zA.1 a0
        unfold distinct_reads at *
        omega
    · have b0 : M .RF_B = 0 := by
        by_contra hc
        exact hnf ⟨a0, hc⟩
      have : (read_nums i .RF_AB).card ≤ 1 := by
        rw [card_le_one_iff_eq]
        refine ⟨v, fun n hn => ?_⟩
        rcases hfit n ((hX n).1 hn) with e | e
        · exact absurd (by rw [hu a0, e]) (notA n ((hX n).1 hn))
        · exact e
      have := zB.1 b0
      unfold distinct_reads at *
      omega
  · intro h
    by_cases a0 : M .RF_A = 0
    · by_cases b0 : M .RF_B = 0
      · refine ⟨fun c => c.1 a0, ?_⟩
        have hc : (read_nums i .RF_AB).card ≤ 2 := by
          unfold distinct_reads at h
          omega
        obtain ⟨u, v, huv⟩ := (card_le_two_iff _).1 hc
        exact ⟨u, v, fun n hn => huv n ((hX n).2 hn), fun c => absurd a0 c,
          fun c => absurd b0 c⟩
      · refine ⟨fun c => c.1 a0, ?_⟩
        have hb1 : distinct_reads i .RF_B ≠ 0 := fun c => b0 (zB.2 c)
        have hc : (read_nums i .RF_AB).card ≤ 1 := by
          unfold distinct_reads at h hb1
          omega
        obtain ⟨u, hu⟩ := (card_le_one_iff_eq _).1 hc
        obtain ⟨q, _, e, _⟩ := mask_single i M hM hnum .RF_B (by decide) hB2 b0
        exact ⟨u, q, fun n hn => Or.inl (hu n ((hX n).2 hn)), fun c => absurd a0 c, fun _ => e⟩
    · have ha1 : distinct_reads i .RF_A ≠ 0 := fun c => a0 (zA.2 c)
      have b0 : M .RF_B = 0 := by
        by_contra hc
        have hb1 : distinct_reads i .RF_B ≠ 0 := fun c => hc (zB.2 c)
        omega
      refine ⟨fun c => c.2 b0, ?_⟩
      have hc : (read_nums i .RF_AB).card ≤ 1 := by
        unfold distinct_reads at h ha1
        omega
      obtain ⟨v, hv⟩ := (card_le_one_iff_eq _).1 hc
      obtain ⟨p, _, e, _⟩ := mask_single i M hM hnum .RF_A (by decide) hA2 a0
      exact ⟨p, v, fun n hn => Or.inr (hv n ((hX n).2 hn)), fun _ => e, fun c => absurd b0 c⟩

/-- Packed register reads meet the three conditions on the file-A, file-B and AB-file
reads. -/
theorem reads_packed_counts {i : instr} (hp : alu_srcs_parsed i) (hk : reads_packed i) :
    distinct_reads i .RF_A ≤ 1 ∧ distinct_reads i .RF_B ≤ 1 ∧
      (distinct_reads i .RF_AB = 0 ∨
        distinct_reads i .RF_A + distinct_reads i .RF_B + distinct_reads i .RF_AB ≤ 2) := by
  obtain ⟨u, v, h⟩ := hk
  obtain ⟨_, hdis⟩ := parsed_masks hp
  have hA : ∀ n ∈ read_nums i .RF_A, n = u := fun n hn =>
    (h _ ((read_nums_mem i .RF_A n).1 hn)).1 rfl
  have hB : ∀ n ∈ read_nums i .RF_B, n = v := fun n hn =>
    (h _ ((read_nums_mem i .RF_B n).1 hn)).2.1 rfl
  have hX : ∀ n ∈ read_nums i .RF_AB, n = u ∨ n = v := fun n hn =>
    (h _ ((read_nums_mem i .RF_AB n).1 hn)).2.2 rfl
  have a1 : (read_nums i .RF_A).card ≤ 1 := (card_le_one_iff_eq _).2 ⟨u, hA⟩
  have b1 : (read_nums i .RF_B).card ≤ 1 := (card_le_one_iff_eq _).2 ⟨v, hB⟩
  have x2 : (read_nums i .RF_AB).card ≤ 2 := (card_le_two_iff _).2 ⟨u, v, hX⟩
  -- a file-A read takes the value `u` away from the AB-file reads, a file-B read `v`
  have xa : (read_nums i .RF_A).card ≠ 0 → ∀ n ∈ read_nums i .RF_AB, n = v := by
    intro hne n hn
    obtain ⟨p, hp1⟩ := Finset.card_pos.1 (Nat.pos_of_ne_zero hne)
    rcases hX n hn with e | e
    · have hpu := hA p hp1
      rw [hpu, ← e] at hp1
      exact absurd ((read_nums_mem i .RF_A n).1 hp1)
        (hdis n ((read_nums_mem i .RF_AB n).1 hn)).1
    · exact e
  have xb : (read_nums i .RF_B).card ≠ 0 → ∀ n ∈ read_nums i .RF_AB, n = u := by
    intro hne n hn
    obtain ⟨q, hq1⟩ := Finset.card_pos.1 (Nat.pos_of_ne_zero hne)
    rcases hX n hn with e | e
    · exact e
    · have hqv := hB q hq1
      rw [hqv, ← e] at hq1
      exact absurd ((read_nums_mem i .RF_B n).1 hq1)
        (hdis n ((read_nums_mem i .RF_AB n).1 hn)).2
  refine ⟨a1, b1, ?_⟩
  unfold distinct_reads
  by_cases ha : (read_nums i .RF_A).card = 0
  · by_cases hb : (read_nums i .RF_B).card = 0
    · right; omega
    · have : (read_nums i .RF_AB).card ≤ 1 := (card_le_one_iff_eq _).2 ⟨u, xb hb⟩
      right; omega
  · by_cases hb : (read_nums i .RF_B).card = 0
    · have : (read_nums i .RF_AB).card ≤ 1 := (card_le_one_iff_eq _).2 ⟨v, xa ha⟩
      right; omega
    · left
      rw [Finset.card_eq_zero]
      ext n
      simp only [Finset.not_mem_empty, iff_false]
      intro hn
      obtain ⟨p, hp1⟩ := Finset.card_pos.1 (Nat.pos_of_ne_zero ha)
      have e1 := xb hb n hn
      have hpu := hA p hp1
      rw [hpu, ← e1] at hp1
      exact absurd ((read_nums_mem i .RF_A n).1 hp1)
        (hdis n ((read_nums_mem i .RF_AB n).1 hn)).1

theorem add_mask_keeps (o : Earlier.op) (m : Earlier.masks) (k : Nat) (f : Earlier.reg_file)
    (h : ∃ b, (m f).testBit b = true) : ∃ b, (Earlier.add_mask o m k f).testBit b = true := by
  obtain ⟨b, hb⟩ := h
  refine ⟨b, ?_⟩
  unfold Earlier.add_mask
  split
  · exact hb
  · by_cases hf : f = (Earlier.get_src o k).rf
    · subst hf
      simp [hb]
    · rw [Function.update_noteq hf]
      exact hb

theorem add_mask_sets (o : Earlier.op) (m : Earlier.masks) (k : Nat)
    (hr : (Earlier.get_src o k).rf ≠ .RF_IMM) (hn : (Earlier.get_src o k).num < 64) :
    ∃ b, (Earlier.add_mask o m k (Earlier.get_src o k).rf).testBit b = true := by
  refine ⟨(Earlier.get_src o k).num, ?_⟩
  unfold Earlier.add_mask
  rw [if_neg hr]
  simp [mask_of_testBit, hn]

/-- A source of `src[0..3]` that is not `RF_IMM` and has a number below 64 leaves the mask
of its file non-zero after the first loop of `verify_alu`. -/
theorem src_masks_ne_zero (o : Earlier.op) (k : Nat) (hk : k < 4)
    (hr : (Earlier.get_src o k).rf ≠ .RF_IMM) (hn : (Earlier.get_src o k).num < 64) :
    Earlier.src_masks o (Earlier.get_src o k).rf ≠ 0 := by
  have key : ∃ b, (Earlier.src_masks o (Earlier.get_src o k).rf).testBit b = true := by
    unfold Earlier.src_masks
    simp only [List.foldl]
    interval_cases k
    · exact add_mask_keeps _ _ _ _ (add_mask_keeps _ _ _ _ (add_mask_keeps _ _ _ _
        (add_mask_sets o _ 0 hr hn)))
    · exact add_mask_keeps _ _ _ _ (add_mask_keeps _ _ _ _ (add_mask_sets o _ 1 hr hn))
    · exact add_mask_keeps _ _ _ _ (add_mask_sets o _ 2 hr hn)
    · exact add_mask_sets o _ 3 hr hn
  obtain ⟨b, hb⟩ := key
  intro h0
  rw [h0] at hb
  simp at hb

/-- The earlier revision's half of C29: for a mul opcode in the rotate range
`rotr5 .. rot15`, `verify_alu` returns `-EINVAL` whenever a source is a file-B register (of
a number below 64, as all table numbers are) or one of the two mul sources `src[2]`,
`src[3]` is not an accumulator read. -/
theorem verify_alu_rotation (rotr5 rot15 : Nat) (ins : Earlier.instr)
    (hrot : rotr5 ≤ ins.op.code1 ∧ ins.op.code1 ≤ rot15)
    (h : (∃ k < 4, (Earlier.get_src ins.op k).rf = .RF_B ∧ (Earlier.get_src ins.op k).num < 64) ∨
      ins.op.src2.rf ≠ .RF_ACC ∨ ins.op.src3.rf ≠ .RF_ACC) :
    (Earlier.verify_alu rotr5 rot15 ins).1 = -Earlier.EINVAL := by
  -- `resolve_dst_regs` leaves the code and the sources as they are
  have hsrc : ∀ k, Earlier.get_src (Earlier.resolve_dst_regs ins).op k = Earlier.get_src ins.op k := by
    intro k
    unfold Earlier.resolve_dst_regs Earlier.get_src
    simp only
    split <;> split <;> rfl
  have hcode : (Earlier.resolve_dst_regs ins).op.code1 = ins.op.code1 := by
    unfold Earlier.resolve_dst_regs
    simp only
    split <;> rfl
  have hmask : Earlier.src_masks (Earlier.resolve_dst_regs ins).op = Earlier.src_masks ins.op := by
    unfold Earlier.src_masks Earlier.add_mask
    simp only [hsrc]
  have h2 : (Earlier.resolve_dst_regs ins).op.src2 = ins.op.src2 := hsrc 2
  have h3 : (Earlier.resolve_dst_regs ins).op.src3 = ins.op.src3 := hsrc 3
  have hr : decide (rotr5 ≤ ins.op.code1 ∧ ins.op.code1 ≤ rot15) = true := by simpa using hrot
  unfold Earlier.verify_alu
  simp only [hcode, hmask, h2, h3, ge_iff_le, hr, true_and]
  split
  · rfl
  · split
    · rfl
    · rcases h with ⟨k, hk, hb, hn⟩ | hacc
      · have hne := src_masks_ne_zero ins.op k hk (by rw [hb]; decide) hn
        rw [hb] at hne
        rw [if_pos (Or.inr hne)]
      · split
        · rfl
        · rfl

/-- The earlier revision at concrete records, with the rotate range at the places 58..73
of `enum op_code` (`OP_MUL_V8ADDS_ROTR5` .. `OP_MUL_V8ADDS_ROT15`): a rotate opcode with the mul sources `r1`, `r2` passes `verify_alu`,
and the same with `b1` as a mul source is rejected. -/
theorem verify_alu_rotation_samples :
    (Earlier.verify_alu 58 73 ⟨0, ⟨1, 59, 1, 1, ⟨.RF_AB, 32⟩, ⟨.RF_AB, 33⟩,
      ⟨.RF_ACC, 0⟩, ⟨.RF_ACC, 0⟩, ⟨.RF_ACC, 1⟩, ⟨.RF_ACC, 2⟩⟩⟩).1 = Earlier.ESUCC ∧
    (Earlier.verify_alu 58 73 ⟨0, ⟨1, 59, 1, 1, ⟨.RF_AB, 32⟩, ⟨.RF_AB, 33⟩,
      ⟨.RF_ACC, 0⟩, ⟨.RF_ACC, 0⟩, ⟨.RF_B, 1⟩, ⟨.RF_ACC, 2⟩⟩⟩).1 = -Earlier.EINVAL := by
  decide

/-! ## Lemmas for the later claims -/

/-- The loop of `branch_resolve_instr` stops at the first instruction that carries the
label. -/
theorem find_target_first (l : String) :
    ∀ (instrs : List instr) (k : Nat) (t : instr), instrs[k]? = some t → l ∈ t.labels →
      (∀ j < k, ∀ t', instrs[j]? = some t' → l ∉ t'.labels) →
      find_target l instrs = some t := by
  intro instrs
  induction instrs with
  | nil => intro k t h; simp at h
  | cons x xs ih =>
    intro k t h hl hmin
    unfold find_target
    cases k with
    | zero =>
      simp only [List.getElem?_cons_zero, Option.some.injEq] at h
      subst h
      rw [if_pos ((has_label_iff _ _).2 hl)]
    | succ n =>
      have hx : ¬ has_label l x.labels = true := fun hc =>
        hmin 0 (Nat.succ_pos n) x (by simp) ((has_label_iff _ _).1 hc)
      rw [if_neg hx]
      refine ih n t (by simpa using h) hl fun j hj t' ht' => ?_
      exact hmin (j + 1) (Nat.succ_lt_succ hj) t' (by simpa using ht')

/-- A source rewritten by `alu_reduce_op` is no read of the reserved register 39. -/
theorem nop_read_reduced (s : src) : ¬ is_nop_read (if is_nop_read s then src_r0 else s) := by
  by_cases h : is_nop_read s
  · rw [if_pos h]
    simp [is_nop_read, src_r0]
  · rw [if_neg h]
    exact h

/-- Rewriting a source in `alu_reduce_op` keeps it an I/O read or not. -/
theorem io_read_reduced (s : src) :
    is_io_read (if is_nop_read s then src_r0 else s) ↔ is_io_read s := by
  by_cases h : is_nop_read s
  · rw [if_pos h]
    cases s with
    | ST_REG r =>
      simp only [is_nop_read] at h
      simp [is_io_read, src_r0, h.2]
    | ST_IMM32 v => simp [is_nop_read] at h
    | ST_LABEL l => simp [is_nop_read] at h
  · rw [if_neg h]

theorem fold_ab_steps (st : Earlier.masks × Earlier.op) :
    Earlier.fold_ab st = fold_ab_step (fold_ab_step (fold_ab_step (fold_ab_step st 0) 1) 2) 3 :=
  rfl

theorem place_ab_steps (st : Earlier.masks × Earlier.op) :
    Earlier.place_ab st =
      place_ab_step (place_ab_step (place_ab_step (place_ab_step (true, st) 0) 1) 2) 3 := by
  have h : Earlier.place_ab st = [0, 1, 2, 3].foldl place_ab_step (true, st) := rfl
  rw [h]
  simp only [List.foldl]

theorem earlier_rf_inj {f g : reg_file} (h : earlier_rf f = earlier_rf g) : f = g := by
  cases f <;> cases g <;> first | rfl | exact absurd h (by decide)

theorem mask_and_self (p x : Nat) (hx : x < 64) :
    mask_of p &&& mask_of x ≠ 0 ↔ mask_of p = mask_of x := by
  constructor
  · intro h
    by_contra hne
    apply h
    apply Nat.eq_of_testBit_eq
    intro j
    rw [Nat.testBit_and, mask_of_testBit, mask_of_testBit, Nat.zero_testBit]
    by_cases hj : p = j
    · subst hj
      have : ¬ x = p := fun e => hne (by rw [e])
      simp [this]
    · simp [hj]
  · intro h
    rw [h, Nat.and_self]
    exact mask_of_ne_zero hx

theorem port_test (v x : Nat) (iv : v = 0 ∨ ∃ p < 64, v = mask_of p) (hx : x < 64) :
    (v = 0 ∨ v &&& mask_of x ≠ 0) ↔ (v = 0 ∨ v = mask_of x) := by
  rcases iv with h0 | ⟨p, _, hp⟩
  · simp [h0]
  · rw [hp, mask_and_self p x hx]

theorem port_or (v x : Nat) (h : v = 0 ∨ v = mask_of x) : v ||| mask_of x = mask_of x := by
  rcases h with h | h
  · rw [h, Nat.zero_or]
  · rw [h, Nat.or_self]

theorem get_set_src (o : Earlier.op) (k j : Nat) (f : Earlier.reg_file) (hk : k < 4)
    (hj : j < 4) :
    Earlier.get_src (Earlier.set_src_rf o k f) j =
      if j = k then { Earlier.get_src o k with rf := f } else Earlier.get_src o j := by
  interval_cases k <;> interval_cases j <;> rfl

theorem place_ab_step_false (st : Earlier.masks × Earlier.op) (k : Nat) :
    place_ab_step (false, st) k = (false, st) := by
  simp [place_ab_step]

/-- One iteration of the second `RF_AB` loop of `verify_alu` against one iteration of the
last loop of `alu_resolve_src_regfiles`, on port masks that agree and hold at most one
number each. -/
theorem place_ab_step_sim (M : masks_t) (m : Earlier.masks) (o : Earlier.op) (k : Nat)
    (r : reg) (hk4 : k < 4) (hk : Earlier.get_src o k = earlier_reg r)
    (hA : m .RF_A = M .RF_A) (hB : m .RF_B = M .RF_B)
    (iA : M .RF_A = 0 ∨ ∃ p < 64, M .RF_A = mask_of p)
    (iB : M .RF_B = 0 ∨ ∃ p < 64, M .RF_B = mask_of p) (hn : r.num < 64) :
    (resolve_ab_src M (.ST_REG r) = none ∧ place_ab_step (true, m, o) k = (false, m, o)) ∨
    ∃ M1 f m1 o1, resolve_ab_src M (.ST_REG r) = some (M1, .ST_REG ⟨f, r.num⟩) ∧
      place_ab_step (true, m, o) k = (true, m1, o1) ∧
      m1 .RF_A = M1 .RF_A ∧ m1 .RF_B = M1 .RF_B ∧
      (M1 .RF_A = 0 ∨ ∃ p < 64, M1 .RF_A = mask_of p) ∧
      (M1 .RF_B = 0 ∨ ∃ p < 64, M1 .RF_B = mask_of p) ∧
      Earlier.get_src o1 k = earlier_reg ⟨f, r.num⟩ ∧
      ∀ j, j < 4 → j ≠ k → Earlier.get_src o1 j = Earlier.get_src o j := by
  have tA := port_test (M .RF_A) r.num iA hn
  have tB := port_test (M .RF_B) r.num iB hn
  by_cases hab : r.rf = .RF_AB
  · have hrf : (Earlier.get_src o k).rf = .RF_AB := by rw [hk]; simp [earlier_reg, earlier_rf, hab]
    have hnum : (Earlier.get_src o k).num = r.num := by rw [hk]; rfl
    by_cases cA : M .RF_A = 0 ∨ M .RF_A = mask_of r.num
    · refine Or.inr ⟨Function.update M .RF_A (mask_of r.num), .RF_A,
        Function.update m .RF_A (m .RF_A ||| mask_of r.num), Earlier.set_src_rf o k .RF_A,
        ?_, ?_, ?_, ?_, Or.inr ⟨r.num, hn, by simp⟩, by simpa using iB, ?_, ?_⟩
      · simp [resolve_ab_src, hab, cA]
      · simp only [place_ab_step, hrf, hnum, hA, tA.2 cA]
        simp
      · simp [hA, port_or _ _ cA]
      · simp [hB]
      · rw [get_set_src o k k _ hk4 hk4, if_pos rfl, hk]
        simp [earlier_reg, earlier_rf]
      · intro j hj hjk
        rw [get_set_src o k j _ hk4 hj, if_neg hjk]
    · have cA' : ¬ (M .RF_A = 0 ∨ M .RF_A &&& mask_of r.num ≠ 0) := fun h => cA (tA.1 h)
      by_cases cB : M .RF_B = 0 ∨ M .RF_B = mask_of r.num
      · refine Or.inr ⟨Function.update M .RF_B (mask_of r.num), .RF_B,
          Function.update m .RF_B (m .RF_B ||| mask_of r.num), Earlier.set_src_rf o k .RF_B,
          ?_, ?_, ?_, ?_, by simpa using iA, Or.inr ⟨r.num, hn, by simp⟩, ?_, ?_⟩
        · simp [resolve_ab_src, hab, cA, cB]
        · simp only [place_ab_step, hrf, hnum, hA, hB, cA', tB.2 cB]
          simp
        · simp [hA]
        · simp [hB, port_or _ _ cB]
        · rw [get_set_src o k k _ hk4 hk4, if_pos rfl, hk]
          simp [earlier_reg, earlier_rf]
        · intro j hj hjk
          rw [get_set_src o k j _ hk4 hj, if_neg hjk]
      · have cB' : ¬ (M .RF_B = 0 ∨ M .RF_B &&& mask_of r.num ≠ 0) := fun h => cB (tB.1 h)
        refine Or.inl ⟨?_, ?_⟩
        · simp [resolve_ab_src, hab, cA, cB]
        · simp only [place_ab_step, hrf, hnum, hA, hB, cA', cB']
          simp
  · have hrf : (Earlier.get_src o k).rf ≠ .RF_AB := by
      rw [hk]
      intro h
      exact hab (earlier_rf_inj (f := r.rf) (g := .RF_AB) h)
    refine Or.inr ⟨M, r.rf, m, o, ?_, ?_, hA, hB, iA, iB, ?_, fun _ _ _ => rfl⟩
    · simp [resolve_ab_src, hab]
    · simp [place_ab_step, hrf]
    · rw [hk]

theorem ab_chain_run {m0 m4 : masks_t} {a0 a1 a2 a3 b0 b1 b2 b3 : src}
    (h : ab_chain m0 m4 a0 a1 a2 a3 b0 b1 b2 b3) : ab_run m0 [a0, a1, a2, a3] = some m4 := by
  obtain ⟨m1, m2, m3, e0, e1, e2, e3⟩ := h
  simp [ab_run, e0, e1, e2, e3]

theorem ab_chain_unique {m0 m4 m4' : masks_t} {a0 a1 a2 a3 b0 b1 b2 b3 c0 c1 c2 c3 : src}
    (h : ab_chain m0 m4 a0 a1 a2 a3 b0 b1 b2 b3)
    (h' : ab_chain m0 m4' a0 a1 a2 a3 c0 c1 c2 c3) :
    b0 = c0 ∧ b1 = c1 ∧ b2 = c2 ∧ b3 = c3 := by
  obtain ⟨m1, m2, m3, e0, e1, e2, e3⟩ := h
  obtain ⟨k1, k2, k3, g0, g1, g2, g3⟩ := h'
  rw [e0] at g0
  simp only [Option.some.injEq, Prod.mk.injEq] at g0
  obtain ⟨rfl, rfl⟩ := g0
  rw [e1] at g1
  simp only [Option.some.injEq, Prod.mk.injEq] at g1
  obtain ⟨rfl, rfl⟩ := g1
  rw [e2] at g2
  simp only [Option.some.injEq, Prod.mk.injEq] at g2
  obtain ⟨rfl, rfl⟩ := g2
  rw [e3] at g3
  simp only [Option.some.injEq, Prod.mk.injEq] at g3
  exact ⟨rfl, rfl, rfl, g3.2⟩

/-- The second `RF_AB` loop of `verify_alu` against the last loop of
`alu_resolve_src_regfiles` on the same four reads: both fail, or both pass and leave every
read in the same file. -/
theorem place_ab_sim (M : masks_t) (m : Earlier.masks) (o : Earlier.op) (r0 r1 r2 r3 : reg)
    (h0 : o.src0 = earlier_reg r0) (h1 : o.src1 = earlier_reg r1)
    (h2 : o.src2 = earlier_reg r2) (h3 : o.src3 = earlier_reg r3)
    (hA : m .RF_A = M .RF_A) (hB : m .RF_B = M .RF_B)
    (iA : M .RF_A = 0 ∨ ∃ p < 64, M .RF_A = mask_of p)
    (iB : M .RF_B = 0 ∨ ∃ p < 64, M .RF_B = mask_of p)
    (n0 : r0.num < 64) (n1 : r1.num < 64) (n2 : r2.num < 64) (n3 : r3.num < 64) :
    (ab_run M [.ST_REG r0, .ST_REG r1, .ST_REG r2, .ST_REG r3] = none ∧
      (Earlier.place_ab (m, o)).1 = false) ∨
    ∃ m4 f0 f1 f2 f3,
      ab_chain M m4 (.ST_REG r0) (.ST_REG r1) (.ST_REG r2) (.ST_REG r3)
        (.ST_REG ⟨f0, r0.num⟩) (.ST_REG ⟨f1, r1.num⟩) (.ST_REG ⟨f2, r2.num⟩)
        (.ST_REG ⟨f3, r3.num⟩) ∧
      (Earlier.place_ab (m, o)).1 = true ∧
      (Earlier.place_ab (m, o)).2.2.src0 = earlier_reg ⟨f0, r0.num⟩ ∧
      (Earlier.place_ab (m, o)).2.2.src1 = earlier_reg ⟨f1, r1.num⟩ ∧
      (Earlier.place_ab (m, o)).2.2.src2 = earlier_reg ⟨f2, r2.num⟩ ∧
      (Earlier.place_ab (m, o)).2.2.src3 = earlier_reg ⟨f3, r3.num⟩ := by
  rw [place_ab_steps]
  rcases place_ab_step_sim M m o 0 r0 (by decide) h0 hA hB iA iB n0 with
    ⟨e0, s0⟩ | ⟨M1, f0, m1, o1, e0, s0, hA1, hB1, iA1, iB1, g0, fr0⟩
  · left
    rw [s0]
    simp [ab_run, e0, place_ab_step_false]
  have k1 : Earlier.get_src o1 1 = earlier_reg r1 := by
    rw [fr0 1 (by decide) (by decide)]; exact h1
  rcases place_ab_step_sim M1 m1 o1 1 r1 (by decide) k1 hA1 hB1 iA1 iB1 n1 with
    ⟨e1, s1⟩ | ⟨M2, f1, m2, o2, e1, s1, hA2, hB2, iA2, iB2, g1, fr1⟩
  · left
    rw [s0, s1]
    simp [ab_run, e0, e1, place_ab_step_false]
  have k2 : Earlier.get_src o2 2 = earlier_reg r2 := by
    rw [fr1 2 (by decide) (by decide), fr0 2 (by decide) (by decide)]; exact h2
  rcases place_ab_step_sim M2 m2 o2 2 r2 (by decide) k2 hA2 hB2 iA2 iB2 n2 with
    ⟨e2, s2⟩ | ⟨M3, f2, m3, o3, e2, s2, hA3, hB3, iA3, iB3, g2, fr2⟩
  · left
    rw [s0, s1, s2]
    simp [ab_run, e0, e1, e2, place_ab_step_false]
  have k3 : Earlier.get_src o3 3 = earlier_reg r3 := by
    rw [fr2 3 (by decide) (by decide), fr1 3 (by decide) (by decide),
      fr0 3 (by decide) (by decide)]
    exact h3
  rcases place_ab_step_sim M3 m3 o3 3 r3 (by decide) k3 hA3 hB3 iA3 iB3 n3 with
    ⟨e3, s3⟩ | ⟨M4, f3, m4, o4, e3, s3, hA4, hB4, iA4, iB4, g3, fr3⟩
  · left
    rw [s0, s1, s2, s3]
    simp [ab_run, e0, e1, e2, e3]
  right
  refine ⟨M4, f0, f1, f2, f3, ⟨M1, M2, M3, e0, e1, e2, e3⟩, ?_, ?_, ?_, ?_, ?_⟩
  · rw [s0, s1, s2, s3]
  · rw [s0, s1, s2, s3]
    show Earlier.get_src o4 0 = _
    rw [fr3 0 (by decide) (by decide), fr2 0 (by decide) (by decide),
      fr1 0 (by decide) (by decide)]
    exact g0
  · rw [s0, s1, s2, s3]
    show Earlier.get_src o4 1 = _
    rw [fr3 1 (by decide) (by decide), fr2 1 (by decide) (by decide)]
    exact g1
  · rw [s0, s1, s2, s3]
    show Earlier.get_src o4 2 = _
    rw [fr3 2 (by decide) (by decide)]
    exact g2
  · rw [s0, s1, s2, s3]
    exact g3

theorem earlier_rf_ne_imm (f : reg_file) : earlier_rf f ≠ .RF_IMM := by
  cases f <;> decide

theorem add_mask_conv (M M1 : masks_t) (m : Earlier.masks) (o : Earlier.op) (k : Nat) (r : reg)
    (hm : ∀ f, f ≠ .RF_R → m (earlier_rf f) = M f)
    (h : add_src_mask M (.ST_REG r) = some M1) (hk : Earlier.get_src o k = earlier_reg r) :
    ∀ f, f ≠ .RF_R → Earlier.add_mask o m k (earlier_rf f) = M1 f := by
  intro f hf
  unfold Earlier.add_mask
  rw [hk]
  simp only [earlier_reg, earlier_rf_ne_imm, if_false]
  unfold add_src_mask at h
  simp only at h
  by_cases hr : r.rf = .RF_R
  · rw [if_pos hr] at h
    simp only [Option.some.injEq] at h
    subst h
    have : earlier_rf f ≠ earlier_rf r.rf := fun e => hf (by rw [earlier_rf_inj e, hr])
    rw [Function.update_noteq this]
    exact hm f hf
  · rw [if_neg hr] at h
    simp only [Option.some.injEq] at h
    subst h
    by_cases hfr : f = r.rf
    · subst hfr
      simp [hm _ hf]
    · have : earlier_rf f ≠ earlier_rf r.rf := fun e => hfr (earlier_rf_inj e)
      rw [Function.update_noteq this, Function.update_noteq hfr]
      exact hm f hf

/-- The masks of the first loop of `verify_alu` are those of the first loop of
`alu_resolve_src_regfiles` on the same reads. -/
theorem src_masks_conv {i : instr} {o : Earlier.op} {M : masks_t}
    (hM : alu_src_masks i = some M) (hr : same_reads i o) :
    ∀ f, f ≠ .RF_R → Earlier.src_masks o (earlier_rf f) = M f := by
  obtain ⟨r0, r1, r2, r3, s0, s1, s2, s3, t0, t1, t2, t3⟩ := hr
  unfold alu_src_masks at hM
  simp only [Option.bind_eq_some] at hM
  obtain ⟨m0, e0, m1, e1, m2, e2, e3⟩ := hM
  rw [s0] at e0
  rw [s1] at e1
  rw [s2] at e2
  rw [s3] at e3
  unfold Earlier.src_masks
  simp only [List.foldl]
  exact add_mask_conv m2 M _ o 3 r3
    (add_mask_conv m1 m2 _ o 2 r2
      (add_mask_conv m0 m1 _ o 1 r1
        (add_mask_conv (fun _ => 0) m0 (fun _ => 0) o 0 r0 (fun _ _ => rfl) e0 t0) e1 t1) e2 t2)
    e3 t3

theorem fold_ab_step_id (m : Earlier.masks) (o : Earlier.op) (k : Nat)
    (h : (Earlier.get_src o k).rf = .RF_AB →
      m .RF_A &&& mask_of (Earlier.get_src o k).num = 0 ∧
      m .RF_B &&& mask_of (Earlier.get_src o k).num = 0) :
    fold_ab_step (m, o) k = (m, o) := by
  unfold fold_ab_step
  by_cases hr : (Earlier.get_src o k).rf = .RF_AB
  · simp [hr, (h hr).1, (h hr).2]
  · simp [hr]

/-- The first `RF_AB` loop of `verify_alu` changes nothing when no `RF_AB` source has a
number that file A or file B already holds. -/
theorem fold_ab_id (m : Earlier.masks) (o : Earlier.op)
    (h : ∀ k < 4, (Earlier.get_src o k).rf = .RF_AB →
      m .RF_A &&& mask_of (Earlier.get_src o k).num = 0 ∧
      m .RF_B &&& mask_of (Earlier.get_src o k).num = 0) :
    Earlier.fold_ab (m, o) = (m, o) := by
  rw [fold_ab_steps, fold_ab_step_id m o 0 (h 0 (by decide)),
    fold_ab_step_id m o 1 (h 1 (by decide)), fold_ab_step_id m o 2 (h 2 (by decide)),
    fold_ab_step_id m o 3 (h 3 (by decide))]

/-- On parsed operands no AB-file read has a number that file A or file B holds. -/
theorem ab_bit_free {i : instr} {M : masks_t} (hp : alu_srcs_parsed i)
    (hM : alu_src_masks i = some M) (n : Nat) (hn : src.ST_REG ⟨.RF_AB, n⟩ ∈ alu_srcs i) :
    M .RF_A &&& mask_of n = 0 ∧ M .RF_B &&& mask_of n = 0 := by
  obtain ⟨_, hdis⟩ := parsed_masks hp
  obtain ⟨_, hbit, _⟩ := alu_src_masks_spec hM
  constructor
  · apply Nat.eq_of_testBit_eq
    intro j
    rw [Nat.testBit_and, mask_of_testBit, Nat.zero_testBit]
    by_cases hj : n = j
    · subst hj
      have : (M .RF_A).testBit n = false := by
        by_contra hc
        exact (hdis n hn).1 ((hbit .RF_A n).1 (by simpa using hc)).2.2
      simp [this]
    · simp [hj]
  · apply Nat.eq_of_testBit_eq
    intro j
    rw [Nat.testBit_and, mask_of_testBit, Nat.zero_testBit]
    by_cases hj : n = j
    · subst hj
      have : (M .RF_B).testBit n = false := by
        by_contra hc
        exact (hdis n hn).2 ((hbit .RF_B n).1 (by simpa using hc)).2.2
      simp [this]
    · simp [hj]

theorem resolve_dst_regs_keeps (e : Earlier.instr) :
    (Earlier.resolve_dst_regs e).op.src0 = e.op.src0 ∧
    (Earlier.resolve_dst_regs e).op.src1 = e.op.src1 ∧
    (Earlier.resolve_dst_regs e).op.src2 = e.op.src2 ∧
    (Earlier.resolve_dst_regs e).op.src3 = e.op.src3 ∧
    (Earlier.resolve_dst_regs e).op.cc0 = e.op.cc0 ∧
    (Earlier.resolve_dst_regs e).op.cc1 = e.op.cc1 ∧
    (Earlier.resolve_dst_regs e).op.code1 = e.op.code1 ∧
    (Earlier.resolve_dst_regs e).op.dst0.num = e.op.dst0.num ∧
    (Earlier.resolve_dst_regs e).op.dst1.num = e.op.dst1.num := by
  unfold Earlier.resolve_dst_regs
  simp only
  split <;> exact ⟨rfl, rfl, rfl, rfl, rfl, rfl, rfl, rfl, rfl⟩

/-- Outside the rotate range, with ALU conditions and no destination collision,
`verify_alu` is its part on the read operands. -/
theorem verify_alu_non_rot (rotr5 rot15 : Nat) (e : Earlier.instr)
    (hrot : ¬ (rotr5 ≤ e.op.code1 ∧ e.op.code1 ≤ rot15))
    (hcc : e.op.cc0 < Earlier.CC_ALL_Z ∧ e.op.cc1 < Earlier.CC_ALL_Z)
    (hdst : ¬ (e.op.dst0.num = e.op.dst1.num ∧ e.op.dst0.num > 31 ∧ e.op.dst0.num ≠ 39)) :
    Earlier.verify_alu rotr5 rot15 e =
      Earlier.verify_alu_srcs (Earlier.resolve_dst_regs e) false
        (Earlier.src_masks (Earlier.resolve_dst_regs e).op) := by
  obtain ⟨_, _, _, _, c0, c1, cd, d0, d1⟩ := resolve_dst_regs_keeps e
  have hr : decide (rotr5 ≤ e.op.code1 ∧ e.op.code1 ≤ rot15) = false := by simpa using hrot
  have hc : ¬ (Earlier.CC_ALL_Z ≤ e.op.cc0 ∨ Earlier.CC_ALL_Z ≤ e.op.cc1) := by
    have h0 := hcc.1
    have h1 := hcc.2
    intro h
    rcases h with h | h
    · exact absurd h (Nat.not_le.2 h0)
    · exact absurd h (Nat.not_le.2 h1)
  unfold Earlier.verify_alu
  simp only [c0, c1, cd, d0, d1, ge_iff_le, hc, if_false, hdst, hr, Bool.false_eq_true,
    false_and]

theorem set_cc0_srcs (o : Earlier.op) (c : Prop) [Decidable c] (v : Nat) :
    (if c then { o with cc0 := v } else o).src0 = o.src0 ∧
    (if c then { o with cc0 := v } else o).src1 = o.src1 ∧
    (if c then { o with cc0 := v } else o).src2 = o.src2 ∧
    (if c then { o with cc0 := v } else o).src3 = o.src3 := by
  split <;> exact ⟨rfl, rfl, rfl, rfl⟩

theorem set_cc1_srcs (o : Earlier.op) (c : Prop) [Decidable c] (v : Nat) :
    (if c then { o with cc1 := v } else o).src0 = o.src0 ∧
    (if c then { o with cc1 := v } else o).src1 = o.src1 ∧
    (if c then { o with cc1 := v } else o).src2 = o.src2 ∧
    (if c then { o with cc1 := v } else o).src3 = o.src3 := by
  split <;> exact ⟨rfl, rfl, rfl, rfl⟩

theorem verify_alu_srcs_plain (ins : Earlier.instr) (m : Earlier.masks) :
    ((Earlier.verify_alu_srcs ins false m).1 = Earlier.ESUCC ↔
      ¬ Earlier.count_ones (m .RF_SIMM) > 1 ∧ ¬ Earlier.count_ones (m .RF_A) > 1 ∧
      ¬ Earlier.count_ones (m .RF_B) > 1 ∧
      (Earlier.place_ab (Earlier.fold_ab (m, ins.op))).1 = true) ∧
    ((Earlier.verify_alu_srcs ins false m).1 = Earlier.ESUCC ∨
      (Earlier.verify_alu_srcs ins false m).1 = -Earlier.EINVAL) ∧
    ((Earlier.verify_alu_srcs ins false m).1 = Earlier.ESUCC →
      (Earlier.verify_alu_srcs ins false m).2.op.src0 =
        (Earlier.place_ab (Earlier.fold_ab (m, ins.op))).2.2.src0 ∧
      (Earlier.verify_alu_srcs ins false m).2.op.src1 =
        (Earlier.place_ab (Earlier.fold_ab (m, ins.op))).2.2.src1 ∧
      (Earlier.verify_alu_srcs ins false m).2.op.src2 =
        (Earlier.place_ab (Earlier.fold_ab (m, ins.op))).2.2.src2 ∧
      (Earlier.verify_alu_srcs ins false m).2.op.src3 =
        (Earlier.place_ab (Earlier.fold_ab (m, ins.op))).2.2.src3) := by
  have hne : ¬ (-Earlier.EINVAL = Earlier.ESUCC) := by decide
  unfold Earlier.verify_alu_srcs
  simp only [Bool.false_eq_true, false_and, if_false]
  by_cases h1 : Earlier.count_ones (m .RF_SIMM) > 1
  · simp [h1, hne]
  by_cases h2 : Earlier.count_ones (m .RF_A) > 1
  · simp [h1, h2, hne]
  by_cases h3 : Earlier.count_ones (m .RF_B) > 1
  · simp [h1, h2, h3, hne]
  by_cases h4 : (Earlier.place_ab (Earlier.fold_ab (m, ins.op))).1 = false
  · simp [h1, h2, h3, h4, hne]
  · have h4' : (Earlier.place_ab (Earlier.fold_ab (m, ins.op))).1 = true := by simpa using h4
    simp only [h1, h2, h3, h4', if_false, Bool.true_eq_false, not_false_eq_true, true_and,
      true_iff, true_or, forall_const]
    exact ⟨(set_cc1_srcs _ _ _).1.trans (set_cc0_srcs _ _ _).1,
      (set_cc1_srcs _ _ _).2.1.trans (set_cc0_srcs _ _ _).2.1,
      (set_cc1_srcs _ _ _).2.2.1.trans (set_cc0_srcs _ _ _).2.2.1,
      (set_cc1_srcs _ _ _).2.2.2.trans (set_cc0_srcs _ _ _).2.2.2⟩

theorem mask_eq_read {i : instr} {M : masks_t} (hM : alu_src_masks i = some M)
    (f : reg_file) (n : Nat) (hn : n < 64) (h : M f = mask_of n) :
    src.ST_REG ⟨f, n⟩ ∈ alu_srcs i := by
  obtain ⟨_, hbit, _⟩ := alu_src_masks_spec hM
  have : (M f).testBit n = true := by
    rw [h, mask_of_testBit]
    simp [hn]
  exact ((hbit f n).1 this).2.2

/-- When the last loop of `alu_resolve_src_regfiles` passes on parsed operands with some
AB-file read, file A or file B was unused before it. -/
theorem ab_run_both_full {i : instr} {M : masks_t} (hp : alu_srcs_parsed i)
    (hM : alu_src_masks i = some M)
    (iA : M .RF_A = 0 ∨ ∃ p < 64, M .RF_A = mask_of p)
    (iB : M .RF_B = 0 ∨ ∃ p < 64, M .RF_B = mask_of p)
    (h : (ab_run M (alu_srcs i)).isSome) (hab : M .RF_AB ≠ 0) :
    ¬ (M .RF_A ≠ 0 ∧ M .RF_B ≠ 0) := by
  obtain ⟨hnum, hdis⟩ := parsed_masks hp
  obtain ⟨_, hbit, _⟩ := alu_src_masks_spec hM
  have hfit := (ab_run_iff (alu_srcs i) M iA iB (fun n hn => hnum _ hn)
    (fun _ n hn hB => (hdis n hn).2 (mask_eq_read hM .RF_B n (hnum _ hn) hB))).1 h
  obtain ⟨u, v, hall, hu, hv⟩ := hfit
  rintro ⟨ha, hb⟩
  have hex : ∃ n, (M .RF_AB).testBit n = true := by
    by_contra hc
    apply hab
    apply Nat.eq_of_testBit_eq
    intro n
    rw [Nat.zero_testBit]
    by_contra hn
    exact hc ⟨n, by simpa using hn⟩
  obtain ⟨n, hn⟩ := hex
  have hmem := ((hbit .RF_AB n).1 hn).2.2
  have h64 := hnum _ hmem
  rcases hall n hmem with e | e
  · subst e
    exact (hdis n hmem).1 (mask_eq_read hM .RF_A n h64 (hu ha))
  · subst e
    exact (hdis n hmem).2 (mask_eq_read hM .RF_B n h64 (hv hb))

theorem count_ones_two {v : Nat} (hv : v < 2 ^ 64) : Earlier.count_ones v > 1 ↔ two_bits v :=
  count_mask_bits_two hv

/-- What a successful `alu_resolve_instr` leaves in the two slots: the operation that
`alu_reduce_op` returns for the slot with its reads resolved, up to the destination, and
the signal 13 when a small immediate is read. -/
theorem alu_resolve_instr_shape {i i' : instr} (hp : alu_srcs_parsed i)
    (h : alu_resolve_instr i = some (.ERR_SUCCESS, i')) :
    ∃ M m4 b0 b1 b2 b3, alu_src_masks i = some M ∧
      ab_chain M m4 i.op0.src0 i.op0.src1 i.op1.src0 i.op1.src1 b0 b1 b2 b3 ∧
      ¬ two_bits (M .RF_SIMM) ∧ ¬ two_bits (M .RF_A) ∧ ¬ two_bits (M .RF_B) ∧
      (∃ d0, i'.op0 = { (alu_reduce_op { i.op0 with src0 := b0, src1 := b1 }).2 with dst := d0 }) ∧
      (∃ d1, i'.op1 = { (alu_reduce_op { i.op1 with src0 := b2, src1 := b3 }).2 with dst := d1 }) ∧
      i'.signal = (if M .RF_SIMM ≠ 0 then 13 else i.signal) ∧
      i'.set_flag = i.set_flag := by
  have hnum := alu_srcs_parsed_num hp
  obtain ⟨i1, i4, h1, h4, rfl⟩ := alu_resolve_instr_success h
  obtain ⟨M, m4, b0, b1, b2, b3, hM, a1, a3, a4, _, hc, rfl⟩ :=
    alu_resolve_src_regfiles_success hnum h1
  refine ⟨M, m4, b0, b1, b2, b3, hM, hc, a1, a3, a4, ?_⟩
  rcases resolve_dst_regfiles_returns
    { with_srcs { i with signal := if M .RF_SIMM ≠ 0 then 13 else i.signal } b0 b1 b2 b3 with
      op0 := (alu_reduce_op (with_srcs { i with signal := if M .RF_SIMM ≠ 0 then 13
        else i.signal } b0 b1 b2 b3).op0).2,
      op1 := (alu_reduce_op (with_srcs { i with signal := if M .RF_SIMM ≠ 0 then 13
        else i.signal } b0 b1 b2 b3).op1).2 } with hd | ⟨f0, f1, ws, hd⟩
  · rw [hd] at h4
    simp at h4
  · rw [hd] at h4
    simp only [Option.some.injEq, Prod.mk.injEq, true_and] at h4
    subst h4
    unfold zero_never_dsts
    simp only
    split_ifs <;> exact ⟨⟨_, rfl⟩, ⟨_, rfl⟩, rfl, rfl⟩

/-- After a successful `alu_resolve_instr` on parsed operands the four reads are
registers outside file AB, no condition is Default, and `alu_gen_code` returns. -/
theorem alu_resolve_instr_gen {i i' : instr} (hp : alu_srcs_parsed i)
    (h : alu_resolve_instr i = some (.ERR_SUCCESS, i')) :
    ∃ r0 r1 r2 r3 j, i'.op0.src0 = .ST_REG r0 ∧ i'.op0.src1 = .ST_REG r1 ∧
      i'.op1.src0 = .ST_REG r2 ∧ i'.op1.src1 = .ST_REG r3 ∧
      r0.rf ≠ .RF_AB ∧ r1.rf ≠ .RF_AB ∧ r2.rf ≠ .RF_AB ∧ r3.rf ≠ .RF_AB ∧
      i'.op0.cond_code ≠ CC_DEFAULT ∧ i'.op1.cond_code ≠ CC_DEFAULT ∧
      alu_gen_code i' = some j := by
  have hreg := alu_srcs_parsed_reg hp
  obtain ⟨M, m4, b0, b1, b2, b3, _, hc, _, _, _, ⟨d0, e0⟩, ⟨d1, e1⟩, _⟩ :=
    alu_resolve_instr_shape hp h
  obtain ⟨q0, q1, q2, q3⟩ := ab_chain_rel hc
  obtain ⟨⟨r0, s0, n0⟩, ⟨r1, s1, n1⟩, c0⟩ := alu_reduce_op_resolved
    { i.op0 with src0 := b0, src1 := b1 }
    (src_resolved_reg q0 (hreg _ (by simp [alu_srcs])))
    (src_resolved_reg q1 (hreg _ (by simp [alu_srcs])))
  obtain ⟨⟨r2, s2, n2⟩, ⟨r3, s3, n3⟩, c1⟩ := alu_reduce_op_resolved
    { i.op1 with src0 := b2, src1 := b3 }
    (src_resolved_reg q2 (hreg _ (by simp [alu_srcs])))
    (src_resolved_reg q3 (hreg _ (by simp [alu_srcs])))
  have t0 : i'.op0.src0 = .ST_REG r0 := by rw [e0]; exact s0
  have t1 : i'.op0.src1 = .ST_REG r1 := by rw [e0]; exact s1
  have t2 : i'.op1.src0 = .ST_REG r2 := by rw [e1]; exact s2
  have t3 : i'.op1.src1 = .ST_REG r3 := by rw [e1]; exact s3
  have k0 : i'.op0.cond_code ≠ CC_DEFAULT := by rw [e0]; exact c0
  have k1 : i'.op1.cond_code ≠ CC_DEFAULT := by rw [e1]; exact c1
  exact ⟨r0, r1, r2, r3, _, t0, t1, t2, t3, n0, n1, n2, n3, k0, k1,
    alu_gen_code_eq i' r0 r1 r2 r3 t0 t1 t2 t3 n0 n1 n2 n3 k0 k1⟩

theorem bits_set_lt (f : bitfield) (v : Nat) : bits_set f v < 2 ^ (f.pos + f.bits) := by
  rw [bits_set_eq, Nat.shiftLeft_eq, Nat.pow_add, Nat.mul_comm]
  exact Nat.mul_lt_mul_of_pos_left (Nat.mod_lt _ (Nat.two_pow_pos _)) (Nat.two_pow_pos _)

theorem FILL_SLOT_lt {slot : bitfield} {r : reg} {st st' : Nat × Nat × Nat}
    (h : FILL_SLOT slot r st = some st') (hs : slot.pos + slot.bits ≤ 12)
    (hst : st.1 < 2 ^ 12) : st'.1 < 2 ^ 12 := by
  have hb : ∀ v, bits_set slot v < 2 ^ 12 := fun v =>
    lt_of_lt_of_le (bits_set_lt slot v) (Nat.pow_le_pow_right (by decide) hs)
  unfold FILL_SLOT at h
  split_ifs at h <;> simp only [Option.some.injEq] at h <;> subst h <;>
    exact Nat.or_lt_two_pow hst (hb _)

/-- The low word that `alu_gen_code` writes: the four mux fields below bit 12, then
`raddr_b`, `raddr_a` and the two opcodes. -/
theorem alu_gen_code_low {i j : instr} (h : alu_gen_code i = some j) :
    ∃ v ra rb, v < 2 ^ 12 ∧
      j.encoding0 =
        u32 (v ||| bits_set RADDR_A ra ||| bits_set RADDR_B rb ||| bits_set MUL_OP i.op1.code |||
          bits_set ADD_OP i.op0.code) := by
  unfold alu_gen_code at h
  simp only at h
  split at h
  · simp at h
  · split at h
    · simp only [Option.bind_eq_some] at h
      obtain ⟨st0, f0, st1, f1, st2, f2, st3, f3, h⟩ := h
      simp only [Option.some.injEq] at h
      subst h
      have b0 := FILL_SLOT_lt f0 (by decide) (by decide)
      have b1 := FILL_SLOT_lt f1 (by decide) b0
      have b2 := FILL_SLOT_lt f2 (by decide) b1
      have b3 := FILL_SLOT_lt f3 (by decide) b2
      exact ⟨st3.1, st3.2.1, st3.2.2, b3, rfl⟩
    · simp at h

/-- The field `mul_op` (bits 31:29 of the low word) that `alu_gen_code` writes is the mul
opcode reduced modulo 8, whatever the operands. -/
theorem alu_gen_code_mul_op {i j : instr} (h : alu_gen_code i = some j) :
    bits_get j.encoding0 MUL_OP = i.op1.code % 8 := by
  obtain ⟨v, ra, rb, hv, e⟩ := alu_gen_code_low h
  rw [e]
  have ha := bits_set_lt RADDR_A ra
  have hb := bits_set_lt RADDR_B rb
  have hx : v ||| bits_set RADDR_A ra ||| bits_set RADDR_B rb < 2 ^ 24 :=
    Nat.or_lt_two_pow (Nat.or_lt_two_pow (lt_of_lt_of_le hv (by decide)) ha)
      (lt_of_lt_of_le hb (by decide))
  generalize v ||| bits_set RADDR_A ra ||| bits_set RADDR_B rb = X at hx
  have e2 : X ||| bits_set MUL_OP i.op1.code ||| bits_set ADD_OP i.op0.code =
      X ||| (i.op0.code % 32) <<< 24 ||| (i.op1.code % 8) <<< 29 := by
    rw [bits_set_eq, bits_set_eq]
    show X ||| (i.op1.code % 2 ^ 3) <<< 29 ||| (i.op0.code % 2 ^ 5) <<< 24 = _
    rw [Nat.lor_assoc, Nat.lor_comm ((i.op1.code % 2 ^ 3) <<< 29), ← Nat.lor_assoc]
    rfl
  rw [e2, or_shl_eq_add _ 24 hx, or_shl_eq_add _ 29 (by omega), bits_get_eq]
  simp only [u32, MUL_OP]
  omega

/-- The code that `parse_op_code` stores does not depend on the operation it is stored
in. -/
theorem parse_op_code_code (s : String) (o o0 : op) :
    (parse_op_code s o).map (fun x => x.code) = (parse_op_code s o0).map (fun x => x.code) := by
  unfold parse_op_code
  cases find_name g_op_codes_add s with
  | some e => rfl
  | none =>
    cases find_name g_op_codes_mul s with
    | some e => rfl
    | none =>
      cases find_name g_op_codes_li s with
      | some e => rfl
      | none =>
        cases find_name g_op_codes_sem s with
        | some e => rfl
        | none =>
          cases find_name g_op_codes_branch s with
          | some e => rfl
          | none => rfl

/-- What `parse_op_code` stores for the mnemonics of `g_op_codes_mul`: the add-table
codes 30 and 31 for `v8adds` and `v8subs`, the mul-table code otherwise, and in every
case a code that is the mul-table code modulo 8. -/
theorem mul_table_codes :
    ∀ e ∈ g_op_codes_mul,
      (parse_op_code e.1 mul_nop_slot).map (fun x => x.code) =
        some (if e.1 = "v8adds" then 30 else if e.1 = "v8subs" then 31 else e.2) ∧
      (if e.1 = "v8adds" then 30 else if e.1 = "v8subs" then 31 else e.2) % 8 = e.2 := by
  decide

/-- An operation that `alu_reduce_op` does not turn into a NOP keeps its opcode. -/
theorem alu_reduce_op_code (o : op) (h : (alu_reduce_op o).2.cond_code ≠ CC_NEVER) :
    (alu_reduce_op o).2.code = o.code := by
  rw [alu_reduce_op_eq] at h ⊢
  by_cases hc : (if is_nop_read o.src0 then 1 else 0) +
      (if is_nop_read o.src1 then 1 else 0) = 2 ∨
      (o.dst.num = 39 ∧
        (if is_io_read o.src0 then 1 else 0) + (if is_io_read o.src1 then 1 else 0) = 0) ∨
      o.cond_code = CC_NEVER
  · rw [if_pos hc] at h
    exact absurd rfl h
  · rw [if_neg hc]

theorem li_fix_dst_never {o o' : op} (h : li_fix_dst o = some o')
    (hc : o'.cond_code = CC_NEVER) : o'.dst = ⟨.RF_AB, 39⟩ := by
  unfold li_fix_dst at h
  by_cases h1 : o.cond_code = CC_NEVER
  · rw [if_pos h1] at h
    simp only [Option.some.injEq] at h
    subst h
    rfl
  · rw [if_neg h1] at h
    by_cases h2 : o.dst.num = 39
    · rw [if_pos h2] at h
      by_cases h3 : o.dst.rf ≠ .RF_AB
      · rw [if_pos h3] at h
        simp at h
      · rw [if_neg h3] at h
        simp only [Option.some.injEq] at h
        subst h
        simp only [ne_eq, Decidable.not_not] at h3
        show o.dst = _
        cases hd : o.dst with
        | mk rf n =>
          rw [hd] at h2 h3
          simp only at h2 h3
          rw [h2, h3]
    · rw [if_neg h2] at h
      simp only [Option.some.injEq] at h
      subst h
      exact absurd hc h1

/-- A successful `li_parse_instr` keeps `set_flag`, and a slot that it leaves with the
condition Never has the destination `(AB, 39)`. -/
theorem li_parse_instr_never {i i' : instr} {buf : List Char}
    (h : li_parse_instr i buf = some (.ERR_SUCCESS, i')) :
    i'.set_flag = i.set_flag ∧
    (i'.op0.cond_code = CC_NEVER → i'.op0.dst = ⟨.RF_AB, 39⟩) ∧
    (i'.op1.cond_code = CC_NEVER → i'.op1.dst = ⟨.RF_AB, 39⟩) := by
  have dsts : ∀ (i3 : instr) (token3 : String),
      (if token3 ≠ "," then some (error.ERR_SYNTAX, i3)
        else
          next_token i3 buf fun i4 token4 =>
          match parse_dst_reg token4 with
          | none => some (.ERR_SYNTAX, i4)
          | some d0 =>
            next_token { i4 with op0 := { i4.op0 with dst := d0 } } buf fun i6 token6 =>
            match li_fix_dst i6.op0 with
            | none => none
            | some o0 =>
              if token6 ≠ "," then some (.ERR_SYNTAX, { i6 with op0 := o0 })
              else
                next_token { i6 with op0 := o0 } buf fun i8 token8 =>
                match parse_dst_reg token8 with
                | none => some (.ERR_SYNTAX, i8)
                | some d1 =>
                  next_token { i8 with op1 := { i8.op1 with dst := d1 } } buf
                    fun i10 token10 =>
                    match li_fix_dst i10.op1 with
                    | none => none
                    | some o1 =>
                      if token10 ≠ "," then some (.ERR_SYNTAX, { i10 with op1 := o1 })
                      else
                        next_token { i10 with op1 := o1 } buf fun i12 token12 =>
                        match parse_imm32 token12 with
                        | none => some (.ERR_SYNTAX, i12)
                        | some imm32 =>
                          some (.ERR_SUCCESS,
                            { i12 with op0 := { i12.op0 with src0 := .ST_IMM32 imm32 } })) =
        some (.ERR_SUCCESS, i') →
        i'.set_flag = i3.set_flag ∧
        (i'.op0.cond_code = CC_NEVER → i'.op0.dst = ⟨.RF_AB, 39⟩) ∧
        (i'.op1.cond_code = CC_NEVER → i'.op1.dst = ⟨.RF_AB, 39⟩) := by
    intro i3 token3 ha
    split at ha
    · simp at ha
    · obtain ⟨i4, t4, g4, ha⟩ := next_token_success ha
      obtain ⟨c4, rfl⟩ := get_next_token_frame g4
      split at ha
      · simp at ha
      · obtain ⟨i6, t6, g6, ha⟩ := next_token_success ha
        obtain ⟨c6, rfl⟩ := get_next_token_frame g6
        split at ha
        · simp at ha
        · rename_i o0 ho0
          have n0 := li_fix_dst_never ho0
          split at ha
          · simp at ha
          · obtain ⟨i8, t8, g8, ha⟩ := next_token_success ha
            obtain ⟨c8, rfl⟩ := get_next_token_frame g8
            split at ha
            · simp at ha
            · obtain ⟨i10, t10, g10, ha⟩ := next_token_success ha
              obtain ⟨c10, rfl⟩ := get_next_token_frame g10
              split at ha
              · simp at ha
              · rename_i o1 ho1
                have n1 := li_fix_dst_never ho1
                split at ha
                · simp at ha
                · obtain ⟨i12, t12, g12, ha⟩ := next_token_success ha
                  obtain ⟨c12, rfl⟩ := get_next_token_frame g12
                  split at ha
                  · simp at ha
                  · simp only [Option.some.injEq, Prod.mk.injEq, true_and] at ha
                    subst ha
                    exact ⟨rfl, n0, n1⟩
  have unp : (if i.op0.code = OP_LIS then { i with unpack := 1 }
      else if i.op0.code = OP_LIU then { i with unpack := 3 } else i).set_flag = i.set_flag := by
    split_ifs <;> rfl
  unfold li_parse_instr at h
  obtain ⟨i1, t1, g1, h⟩ := next_token_success h
  obtain ⟨c1, rfl⟩ := get_next_token_frame g1
  simp only at h
  split at h
  · obtain ⟨i3, t3, g3, h⟩ := next_token_success h
    obtain ⟨c3, rfl⟩ := get_next_token_frame g3
    split at h
    · simp at h
    · obtain ⟨i5, t5, g5, h⟩ := next_token_success h
      obtain ⟨c5, rfl⟩ := get_next_token_frame g5
      split at h
      · simp at h
      · obtain ⟨i6, t6, g6, h⟩ := next_token_success h
        obtain ⟨c6, rfl⟩ := get_next_token_frame g6
        split at h
        · simp at h
        · obtain ⟨i7, t7, g7, h⟩ := next_token_success h
          obtain ⟨c7, rfl⟩ := get_next_token_frame g7
          have hh := dsts _ _ h
          simp only [unp] at hh
          exact hh
  · have hh := dsts _ _ h
    simp only [unp] at hh
    exact hh

theorem parse_flags_set_flag (t : op_code_type) (buf : List Char) :
    ∀ (fuel : Nat) (i i' : instr), parse_flags t fuel i buf = some (.ERR_SUCCESS, i') →
      i.set_flag ≤ 1 → i'.set_flag ≤ 1 := by
  intro fuel
  induction fuel with
  | zero =>
    intro i i' h
    simp [parse_flags] at h
  | succ n ih =>
    intro i i' h hs
    unfold parse_flags at h
    obtain ⟨i1, tok, hg, h⟩ := next_token_success h
    obtain ⟨c, rfl⟩ := get_next_token_frame hg
    split at h
    · simp only [Option.some.injEq, Prod.mk.injEq, true_and] at h
      subst h
      exact hs
    · split at h
      · split at h
        · simp at h
        · exact ih _ _ h (Nat.le_refl 1)
      · split at h
        · simp at h
        · split at h
          · simp at h
          · split at h
            · simp at h
            · exact ih _ _ h hs

/-- After a successful `parse_instr` of a load-immediate line, `set_flag` is 0 or 1 and a
slot with the condition Never has the destination `(AB, 39)`. -/
theorem parse_instr_li {i0 i : instr} {buf : List Char}
    (h : parse_instr i0 buf = some (.ERR_SUCCESS, i)) (ht : i.op0.type = .OP_TYPE_LI) :
    i.set_flag ≤ 1 ∧
    (i.op0.cond_code = CC_NEVER → i.op0.dst = ⟨.RF_AB, 39⟩) ∧
    (i.op1.cond_code = CC_NEVER → i.op1.dst = ⟨.RF_AB, 39⟩) := by
  unfold parse_instr at h
  obtain ⟨i1, t1, g1, h⟩ := next_token_success h
  obtain ⟨c1, rfl⟩ := get_next_token_frame g1
  split at h
  · simp at h
  · rename_i o0 ho0
    simp only at h
    cases hty : o0.type with
    | OP_TYPE_ADD =>
      simp only [hty, reduceCtorEq, if_false] at h
      split at h
      · simp at h
      · rename_i i3 h3
        obtain ⟨_, ty⟩ := alu_parse_instr_success h3
        obtain ⟨e0, _⟩ := parse_flags_ops _ _ _ _ _ h
        rw [e0, ty] at ht
        simp only at ht
        rw [hty] at ht
        exact absurd ht (by decide)
      · rename_i e i3 hne h3
        simp only [Option.some.injEq, Prod.mk.injEq] at h
        exact (hne h.1).elim
    | OP_TYPE_MUL =>
      simp [hty] at h
    | OP_TYPE_LI =>
      simp only [hty, reduceCtorEq, if_false] at h
      split at h
      · simp at h
      · rename_i i3 h3
        unfold lisem_parse_instr at h3
        simp only [hty, if_true] at h3
        obtain ⟨sf, n0, n1⟩ := li_parse_instr_never h3
        simp only at sf
        obtain ⟨e0, e1⟩ := parse_flags_ops _ _ _ _ _ h
        have hs := parse_flags_set_flag _ _ _ _ _ h (by rw [sf]; exact Nat.zero_le 1)
        rw [e0, e1]
        exact ⟨hs, n0, n1⟩
      · rename_i e i3 hne h3
        simp only [Option.some.injEq, Prod.mk.injEq] at h
        exact (hne h.1).elim
    | OP_TYPE_SEM =>
      simp only [hty, reduceCtorEq, if_false] at h
      split at h
      · simp at h
      · rename_i i3 h3
        have ty := lisem_parse_instr_type h3
        obtain ⟨e0, _⟩ := parse_flags_ops _ _ _ _ _ h
        rw [e0, ty] at ht
        simp only at ht
        rw [hty] at ht
        exact absurd ht (by decide)
      · rename_i e i3 hne h3
        simp only [Option.some.injEq, Prod.mk.injEq] at h
        exact (hne h.1).elim
    | OP_TYPE_BRANCH =>
      simp only [hty, if_true] at h
      split at h
      · simp at h
      · rename_i i3 h3
        have ty := branch_parse_instr_type h3
        simp only [Option.some.injEq, Prod.mk.injEq, true_and] at h
        subst h
        rw [ty] at ht
        simp only at ht
        rw [hty] at ht
        exact absurd ht (by decide)
      · rename_i e i3 hne h3
        simp only [Option.some.injEq, Prod.mk.injEq] at h
        exact (hne h.1).elim

/-- `alu_gen_code` on the canonical NOP with signal 1: the low word is 0 and the high
word holds the signal and the `sf` bit. -/
theorem alu_gen_code_nop_sf (j : instr)
    (h0 : j.op0 =
      { type := .OP_TYPE_ADD, code := 0, cond_code := CC_NEVER, dst := ⟨.RF_A, 0⟩,
        src0 := src_r0, src1 := src_r0 })
    (h1 : j.op1 =
      { type := .OP_TYPE_ADD, code := 0, cond_code := CC_NEVER, dst := ⟨.RF_B, 0⟩,
        src0 := src_r0, src1 := src_r0 })
    (hws : j.write_swap = 0) (hsf : j.set_flag ≤ 1) (hsig : j.signal = 1) :
    alu_gen_code j =
      some { j with encoding0 := 0, encoding1 := 0x10000000 ||| j.set_flag <<< 13 } := by
  rw [alu_gen_code_eq j ⟨.RF_R, 0⟩ ⟨.RF_R, 0⟩ ⟨.RF_R, 0⟩ ⟨.RF_R, 0⟩ (by rw [h0]; rfl)
    (by rw [h0]; rfl) (by rw [h1]; rfl) (by rw [h1]; rfl) (by decide) (by decide) (by decide)
    (by decide) (by rw [h0]; exact (by decide : CC_NEVER ≠ CC_DEFAULT))
    (by rw [h1]; exact (by decide : CC_NEVER ≠ CC_DEFAULT))]
  have hs : j.set_flag = 0 ∨ j.set_flag = 1 := by omega
  rcases hs with hs | hs
  · simp [h0, h1, hws, hs, hsig, bits_set_eq, mux, on_port_b, u32, ADD_A, ADD_B, MUL_A, MUL_B,
      RADDR_A, RADDR_B, MUL_OP, ADD_OP, ADD_DST, MUL_DST, ADD_COND, MUL_COND, SIG, CC_NEVER,
      Nat.shiftLeft_eq]
  · simp [h0, h1, hws, hs, hsig, bits_set_eq, bits_on_eq, mux, on_port_b, u32, ADD_A, ADD_B,
      MUL_A, MUL_B, RADDR_A, RADDR_B, MUL_OP, ADD_OP, ADD_DST, MUL_DST, ADD_COND, MUL_COND, SIG,
      SF, CC_NEVER, Nat.shiftLeft_eq]

/-- `lisem_resolve_instr` and `gen_code` on a load-immediate record whose two slots have
the condition Never and the destination `(AB, 39)`. -/
theorem lisem_never_words (i : instr) (instrs : List instr)
    (ht : i.op0.type = .OP_TYPE_LI)
    (hc0 : i.op0.cond_code = CC_NEVER) (hc1 : i.op1.cond_code = CC_NEVER)
    (hd0 : i.op0.dst = ⟨.RF_AB, 39⟩) (hd1 : i.op1.dst = ⟨.RF_AB, 39⟩)
    (hsf : i.set_flag ≤ 1) :
    lisem_resolve_instr i =
      some (.ERR_SUCCESS,
        { i with op0 := alu_nop_slot .RF_A, op1 := alu_nop_slot .RF_B, signal := 1,
                 write_swap := 0 }) ∧
    gen_code instrs i =
      some (.ERR_SUCCESS,
        { i with op0 := alu_nop_slot .RF_A, op1 := alu_nop_slot .RF_B, signal := 1,
                 write_swap := 0, encoding0 := 0,
                 encoding1 := 0x10000000 ||| i.set_flag <<< 13 }) := by
  have hr : lisem_resolve_instr i =
      some (.ERR_SUCCESS,
        { i with op0 := alu_nop_slot .RF_A, op1 := alu_nop_slot .RF_B, signal := 1,
                 write_swap := 0 }) := by
    unfold lisem_resolve_instr
    rw [if_neg (by rw [ht]; decide)]
    unfold resolve_dst_regfiles
    simp only [hd0, hd1, ne_eq, not_true_eq_false, and_false, if_false, reduceCtorEq, or_self,
      if_true, default_conds_always, hc0, hc1, zero_never_dsts, li_reduce_alu_nop,
      (by decide : ¬ CC_NEVER = CC_DEFAULT), and_self, alu_nop_slot, src_r0]
  refine ⟨hr, ?_⟩
  have hg := alu_gen_code_nop_sf
    { i with op0 := alu_nop_slot .RF_A, op1 := alu_nop_slot .RF_B, signal := 1, write_swap := 0 }
    rfl rfl rfl hsf rfl
  unfold gen_code
  simp only [ht, hr]
  show Option.map _ (alu_gen_code _) = _
  rw [hg]
  rfl

theorem isdigit_iff (c : Char) : isdigit c = true ↔ 48 ≤ c.toNat ∧ c.toNat ≤ 57 := by
  simp [isdigit]

theorem digits_value_mod (b : Nat) :
    ∀ (cs : List Char) (a : Nat),
      digits_value b cs a % 2 ^ 32 = digits_value b cs (a % 2 ^ 32) % 2 ^ 32 := by
  intro cs
  induction cs with
  | nil => intro a; simp [digits_value]
  | cons c cs ih =>
    intro a
    have e : ∀ x, digits_value b (c :: cs) x = digits_value b cs (x * b + digit_value c) :=
      fun _ => rfl
    rw [e, e, ih (a * b + digit_value c), ih (a % 2 ^ 32 * b + digit_value c)]
    congr 2
    exact ((Nat.mod_modEq a (2 ^ 32)).symm.mul_right b).add_right (digit_value c)

/-- The decimal loop of `parse_imm32` on digits: the number they denote, modulo 2^32. -/
theorem parse_imm32_loop_dec :
    ∀ (cs : List Char) (imm : Nat), imm < 2 ^ 32 → (∀ c ∈ cs, isdigit c = true) →
      parse_imm32_loop false cs imm = some (digits_value 10 cs imm % 2 ^ 32) := by
  intro cs
  induction cs with
  | nil =>
    intro imm h _
    simp only [parse_imm32_loop, digits_value, List.foldl]
    rw [Nat.mod_eq_of_lt h]
  | cons c cs ih =>
    intro imm h hd
    have hc := hd c (List.mem_cons_self _ _)
    have hc' := (isdigit_iff c).1 hc
    unfold parse_imm32_loop
    simp only [Bool.not_false, hc, Bool.not_true, Bool.and_false, Bool.false_eq_true, if_false,
      Bool.false_and, if_true, Bool.true_and]
    rw [ih _ (Nat.mod_lt _ (by decide)) fun x hx => hd x (List.mem_cons_of_mem _ hx)]
    have e : digits_value 10 (c :: cs) imm = digits_value 10 cs (imm * 10 + digit_value c) := rfl
    have dv : digit_value c = c.toNat - 48 := by
      unfold digit_value
      rw [if_pos hc'.2]
    rw [e, digits_value_mod 10 cs (imm * 10 + digit_value c), dv]
    congr 3
    omega

theorem parse_imm32_loop_dec_none :
    ∀ (cs : List Char) (imm : Nat), ¬ (∀ c ∈ cs, isdigit c = true) →
      parse_imm32_loop false cs imm = none := by
  intro cs
  induction cs with
  | nil => intro imm h; simp at h
  | cons c cs ih =>
    intro imm h
    unfold parse_imm32_loop
    by_cases hc : isdigit c = true
    · simp only [Bool.not_false, hc, Bool.not_true, Bool.and_false, Bool.false_eq_true, if_false,
        Bool.false_and, if_true, Bool.true_and]
      apply ih
      intro hall
      apply h
      intro x hx
      rcases List.mem_cons.1 hx with rfl | hx
      · exact hc
      · exact hall x hx
    · simp [hc]

theorem or_low4 (x d : Nat) (hx : x % 16 = 0) (hd : d < 16) : x ||| d = x + d := by
  have e : x = (x / 16) <<< 4 := by
    rw [Nat.shiftLeft_eq]
    omega
  have h := or_shl_eq_add (x := d) (x / 16) 4 (by omega)
  rw [← e] at h
  rw [Nat.lor_comm, h]
  omega

theorem ishexdigit_iff (c : Char) :
    ishexdigit c = true ↔
      (48 ≤ c.toNat ∧ c.toNat ≤ 57) ∨ (97 ≤ c.toNat ∧ c.toNat ≤ 102) ∨
        (65 ≤ c.toNat ∧ c.toNat ≤ 70) := by
  simp [ishexdigit, or_assoc]

theorem lower_hex_is_hex {c : Char} (h : lower_hex c) : ishexdigit c = true := by
  rw [ishexdigit_iff]
  rcases h with h | h
  · exact Or.inl ((isdigit_iff c).1 h)
  · exact Or.inr (Or.inl h)

/-- One step of the hexadecimal loop of `parse_imm32`. -/
theorem parse_imm32_loop_hex_step (c : Char) (cs : List Char) (imm : Nat)
    (hc : ishexdigit c = true) :
    parse_imm32_loop true (c :: cs) imm =
      parse_imm32_loop true cs
        (if 48 ≤ c.toNat ∧ c.toNat ≤ 57 then (imm <<< 4) % 2 ^ 32 ||| (c.toNat - 48)
          else (imm <<< 4) % 2 ^ 32 ||| ((10 + (c.toNat : Int) - 97) % 2 ^ 32).toNat) := by
  rw [parse_imm32_loop]
  simp only [Bool.not_true, Bool.false_and, Bool.false_eq_true, if_false, hc, Bool.and_false]
  split <;> rfl

/-- The hexadecimal loop of `parse_imm32` on digits of either case returns. -/
theorem parse_imm32_loop_hex_some :
    ∀ (cs : List Char) (imm : Nat), (∀ c ∈ cs, ishexdigit c = true) →
      (parse_imm32_loop true cs imm).isSome = true := by
  intro cs
  induction cs with
  | nil => intro imm _; simp [parse_imm32_loop]
  | cons c cs ih =>
    intro imm hd
    rw [parse_imm32_loop_hex_step c cs imm (hd c (List.mem_cons_self _ _))]
    exact ih _ fun x hx => hd x (List.mem_cons_of_mem _ hx)

theorem parse_imm32_loop_hex_none :
    ∀ (cs : List Char) (imm : Nat), ¬ (∀ c ∈ cs, ishexdigit c = true) →
      parse_imm32_loop true cs imm = none := by
  intro cs
  induction cs with
  | nil => intro imm h; simp at h
  | cons c cs ih =>
    intro imm h
    by_cases hc : ishexdigit c = true
    · rw [parse_imm32_loop_hex_step c cs imm hc]
      apply ih
      intro hall
      apply h
      intro x hx
      rcases List.mem_cons.1 hx with rfl | hx
      · exact hc
      · exact hall x hx
    · rw [parse_imm32_loop]
      simp [hc]

/-- The hexadecimal loop of `parse_imm32` on the digits `0`..`9`, `a`..`f`: the number
they denote, modulo 2^32. -/
theorem parse_imm32_loop_hex_lower :
    ∀ (cs : List Char) (imm : Nat), imm < 2 ^ 32 → (∀ c ∈ cs, lower_hex c) →
      parse_imm32_loop true cs imm = some (digits_value 16 cs imm % 2 ^ 32) := by
  intro cs
  induction cs with
  | nil =>
    intro imm h _
    simp only [parse_imm32_loop, digits_value, List.foldl]
    rw [Nat.mod_eq_of_lt h]
  | cons c cs ih =>
    intro imm h hd
    have hl := hd c (List.mem_cons_self _ _)
    rw [parse_imm32_loop_hex_step c cs imm (lower_hex_is_hex hl)]
    have e : digits_value 16 (c :: cs) imm = digits_value 16 cs (imm * 16 + digit_value c) := rfl
    have hsh : (imm <<< 4) % 2 ^ 32 = (imm * 16) % 2 ^ 32 := by
      rw [Nat.shiftLeft_eq]
    have key : (if 48 ≤ c.toNat ∧ c.toNat ≤ 57 then (imm <<< 4) % 2 ^ 32 ||| (c.toNat - 48)
        else (imm <<< 4) % 2 ^ 32 ||| ((10 + (c.toNat : Int) - 97) % 2 ^ 32).toNat) =
        (imm * 16) % 2 ^ 32 + digit_value c ∧ digit_value c < 16 := by
      rw [hsh]
      by_cases hdig : 48 ≤ c.toNat ∧ c.toNat ≤ 57
      · have dv : digit_value c = c.toNat - 48 := by
          unfold digit_value
          rw [if_pos hdig.2]
        rw [if_pos hdig, dv]
        exact ⟨or_low4 _ _ (by omega) (by omega), by omega⟩
      · have hlet : 97 ≤ c.toNat ∧ c.toNat ≤ 102 := by
          rcases hl with h1 | h1
          · exact absurd ((isdigit_iff c).1 h1) hdig
          · exact h1
        have dv : digit_value c = c.toNat - 87 := by
          unfold digit_value
          rw [if_neg (by omega), if_pos hlet.1]
        have hv : ((10 + (c.toNat : Int) - 97) % 2 ^ 32).toNat = c.toNat - 87 := by
          omega
        rw [if_neg hdig, hv, dv]
        exact ⟨or_low4 _ _ (by omega) (by omega), by omega⟩
    rw [key.1, ih _ (by omega) fun x hx => hd x (List.mem_cons_of_mem _ hx), e,
      digits_value_mod 16 cs (imm * 16 + digit_value c)]
    congr 3
    omega

theorem char_eq_of_toNat {c : Char} {n : Nat} (h : c.toNat = n) : c = Char.ofNat n := by
  rw [← h, Char.ofNat_toNat]

/-- `parse_imm32` on a string of at least two characters. -/
theorem parse_imm32_cons2 (c0 c1 : Char) (rest1 : List Char) :
    parse_imm32 ⟨c0 :: c1 :: rest1⟩ =
      if isdigit c0 = false then none
      else if c1 = 'x' then
        (if c0.toNat - 48 ≠ 0 then none
          else if rest1 = [] then none else parse_imm32_loop true rest1 (c0.toNat - 48))
      else parse_imm32_loop false (c1 :: rest1) (c0.toNat - 48) := by
  unfold parse_imm32
  simp only
  by_cases h0 : isdigit c0 = true
  · simp only [h0, Bool.not_true, Bool.false_eq_true, if_false, Bool.true_eq_false]
    have hx : Char.ofNat 120 = 'x' := rfl
    rw [hx]
    by_cases h1 : c1 = 'x'
    · simp only [h1, if_true]
      split
      · rfl
      · cases rest1 with
        | nil => simp
        | cons a l => simp
    · simp only [h1, if_false]
  · simp [h0]

/-- `parse_imm32` succeeds exactly on the decimal literals and on `0x` followed by
hexadecimal digits of either case; the value of a decimal literal, and of a hexadecimal
literal without the digits `A`..`F`, is the number it denotes modulo 2^32. -/
theorem parse_imm32_literals (s : String) :
    ((parse_imm32 s).isSome = true ↔ dec_literal s.data ∨ hex_literal s.data) ∧
    (dec_literal s.data → parse_imm32 s = some (digits_value 10 s.data 0 % 2 ^ 32)) ∧
    (∀ ds, s.data = '0' :: 'x' :: ds → ds ≠ [] → (∀ c ∈ ds, lower_hex c) →
      parse_imm32 s = some (digits_value 16 ds 0 % 2 ^ 32)) := by
  obtain ⟨cs⟩ := s
  simp only
  have hxd : isdigit 'x' = false := by decide
  have h0d : isdigit '0' = true := by decide
  cases cs with
  | nil =>
    refine ⟨?_, ?_, ?_⟩
    · simp [parse_imm32, dec_literal, hex_literal]
    · intro h
      exact absurd rfl h.1
    · intro ds h
      simp at h
  | cons c0 rest =>
    cases rest with
    | nil =>
      have hp : parse_imm32 ⟨[c0]⟩ = if isdigit c0 = true then some (c0.toNat - 48) else none := by
        unfold parse_imm32
        simp only
        by_cases h0 : isdigit c0 = true <;> simp [h0]
      rw [hp]
      refine ⟨?_, ?_, ?_⟩
      · by_cases h0 : isdigit c0 = true
        · simp [h0, dec_literal]
        · simp [h0, dec_literal, hex_literal]
      · intro h
        have h0 := h.2 c0 (List.mem_cons_self _ _)
        have hc := (isdigit_iff c0).1 h0
        rw [if_pos h0]
        simp only [digits_value, List.foldl, digit_value, if_pos hc.2, Nat.zero_mul, Nat.zero_add]
        congr 1
        omega
      · intro ds h
        simp at h
    | cons c1 rest1 =>
      rw [parse_imm32_cons2]
      by_cases h0 : isdigit c0 = true
      · have hc := (isdigit_iff c0).1 h0
        have hlt : c0.toNat - 48 < 2 ^ 32 := by omega
        simp only [h0, Bool.true_eq_false, if_false]
        by_cases h1 : c1 = 'x'
        · subst h1
          have ndec : ¬ dec_literal (c0 :: 'x' :: rest1) := by
            intro h
            have := h.2 'x' (by simp)
            rw [hxd] at this
            exact absurd this (by decide)
          simp only [if_true]
          by_cases hz : c0.toNat - 48 ≠ 0
          · have hne : c0 ≠ '0' := by
              intro e
              rw [e] at hz
              exact hz (by decide)
            rw [if_pos hz]
            refine ⟨?_, fun h => absurd h ndec, ?_⟩
            · simp only [Option.isSome_none, Bool.false_eq_true, false_iff, not_or]
              refine ⟨ndec, ?_⟩
              rintro ⟨ds, e, _⟩
              simp only [List.cons.injEq] at e
              exact hne e.1
            · intro ds e
              simp only [List.cons.injEq] at e
              exact absurd e.1 hne
          · rw [if_neg hz]
            have hz' : c0.toNat - 48 = 0 := by simpa using hz
            have e0 : c0 = '0' := char_eq_of_toNat (n := 48) (by omega)
            subst e0
            rw [hz']
            by_cases hr : rest1 = []
            · subst hr
              simp only [if_true]
              refine ⟨?_, fun h => absurd h ndec, ?_⟩
              · simp only [Option.isSome_none, Bool.false_eq_true, false_iff, not_or]
                refine ⟨ndec, ?_⟩
                rintro ⟨ds, e, hne, _⟩
                simp only [List.cons.injEq, true_and] at e
                exact hne e.symm
              · intro ds e hne
                simp only [List.cons.injEq, true_and] at e
                exact absurd e.symm hne
            · rw [if_neg hr]
              refine ⟨?_, fun h => absurd h ndec, ?_⟩
              · constructor
                · intro hs
                  right
                  refine ⟨rest1, rfl, hr, ?_⟩
                  by_contra hc
                  rw [parse_imm32_loop_hex_none rest1 0 hc] at hs
                  simp at hs
                · rintro (h | ⟨ds, e, _, hall⟩)
                  · exact absurd h ndec
                  · simp only [List.cons.injEq, true_and] at e
                    subst e
                    exact parse_imm32_loop_hex_some _ 0 hall
              · intro ds e _ hall
                simp only [List.cons.injEq, true_and] at e
                subst e
                exact parse_imm32_loop_hex_lower _ 0 (by decide) hall
        · simp only [h1, if_false]
          have nhex : ¬ hex_literal (c0 :: c1 :: rest1) := by
            rintro ⟨ds, e, _⟩
            simp only [List.cons.injEq] at e
            exact h1 e.2.1
          have dv : digits_value 10 (c0 :: c1 :: rest1) 0 =
              digits_value 10 (c1 :: rest1) (c0.toNat - 48) := by
            show digits_value 10 (c1 :: rest1) (0 * 10 + digit_value c0) = _
            unfold digit_value
            rw [if_pos hc.2, Nat.zero_mul, Nat.zero_add]
          refine ⟨?_, ?_, ?_⟩
          · constructor
            · intro hs
              left
              refine ⟨by simp, ?_⟩
              by_contra hcn
              have : ¬ ∀ c ∈ c1 :: rest1, isdigit c = true := by
                intro hall
                apply hcn
                intro x hx
                rcases List.mem_cons.1 hx with rfl | hx
                · exact h0
                · exact hall x hx
              rw [parse_imm32_loop_dec_none _ _ this] at hs
              simp at hs
            · rintro (h | h)
              · rw [parse_imm32_loop_dec _ _ hlt fun x hx => h.2 x (List.mem_cons_of_mem _ hx)]
                rfl
              · exact absurd h nhex
          · intro h
            rw [parse_imm32_loop_dec _ _ hlt fun x hx => h.2 x (List.mem_cons_of_mem _ hx), dv]
          · intro ds e
            simp only [List.cons.injEq] at e
            exact absurd e.2.1 h1
      · have h0' : isdigit c0 = false := by simpa using h0
        simp only [h0', if_true]
        refine ⟨?_, ?_, ?_⟩
        · simp only [Option.isSome_none, Bool.false_eq_true, false_iff, not_or]
          constructor
          · intro h
            exact h0 (h.2 c0 (List.mem_cons_self _ _))
          · rintro ⟨ds, e, _⟩
            simp only [List.cons.injEq] at e
            rw [e.1] at h0
            exact h0 h0d
        · intro h
          exact absurd (h.2 c0 (List.mem_cons_self _ _)) h0
        · intro ds e
          simp only [List.cons.injEq] at e
          rw [e.1] at h0
          exact absurd h0d h0

/-- An accumulator operand that `alu_parse_src` returns is one of `r0`..`r5`. -/
theorem alu_parse_src_acc {t : String} {r : reg} (h : alu_parse_src t = some (.ST_REG r))
    (hr : r.rf = .RF_R) : r.num ≤ 5 := by
  unfold alu_parse_src at h
  split at h
  · simp only [Option.some.injEq, src.ST_REG.injEq] at h; subst h
    simp at hr
  · split at h
    · simp only [Option.some.injEq, src.ST_REG.injEq] at h; subst h
      simp at hr
    · split at h
      · simp only [Option.some.injEq, src.ST_REG.injEq] at h; subst h
        simp at hr
      · split at h
        · rename_i e he
          simp only [Option.some.injEq, src.ST_REG.injEq] at h; subst h
          have hm := find_name_mem he
          have : ∀ e ∈ g_src_regs_r, e.2 ≤ 5 := by decide
          exact this e hm
        · split at h
          · simp only [Option.some.injEq, src.ST_REG.injEq] at h; subst h
            simp at hr
          · simp at h

theorem alu_srcs_parsed_acc {i : instr} (hp : alu_srcs_parsed i) :
    ∀ r, src.ST_REG r ∈ alu_srcs i → r.rf = .RF_R → r.num ≤ 5 := by
  obtain ⟨⟨t0, h0⟩, ⟨t1, h1⟩, ⟨t2, h2⟩, ⟨t3, h3⟩⟩ := hp
  intro r hr hf
  simp only [alu_srcs, List.mem_cons, List.mem_singleton, List.not_mem_nil, or_false] at hr
  rcases hr with hr | hr | hr | hr
  · rw [← hr] at h0; exact alu_parse_src_acc h0 hf
  · rw [← hr] at h1; exact alu_parse_src_acc h1 hf
  · rw [← hr] at h2; exact alu_parse_src_acc h2 hf
  · rw [← hr] at h3; exact alu_parse_src_acc h3 hf

/-- `alu_reduce_op` leaves each source as it is or replaces it by `r0`. -/
theorem alu_reduce_op_srcs (o : op) :
    ((alu_reduce_op o).2.src0 = src_r0 ∨ (alu_reduce_op o).2.src0 = o.src0) ∧
    ((alu_reduce_op o).2.src1 = src_r0 ∨ (alu_reduce_op o).2.src1 = o.src1) := by
  rw [alu_reduce_op_eq]
  by_cases hc : (if is_nop_read o.src0 then 1 else 0) +
      (if is_nop_read o.src1 then 1 else 0) = 2 ∨
      (o.dst.num = 39 ∧
        (if is_io_read o.src0 then 1 else 0) + (if is_io_read o.src1 then 1 else 0) = 0) ∨
      o.cond_code = CC_NEVER
  · rw [if_pos hc]
    exact ⟨Or.inl rfl, Or.inl rfl⟩
  · rw [if_neg hc]
    constructor
    · show (if is_nop_read o.src0 then src_r0 else o.src0) = _ ∨ _
      split
      · exact Or.inl rfl
      · exact Or.inr rfl
    · show (if is_nop_read o.src1 then src_r0 else o.src1) = _ ∨ _
      split
      · exact Or.inl rfl
      · exact Or.inr rfl

/-- The fields of the low word that `alu_gen_code` writes for resolved reads. -/
theorem alu_gen_code_low_fields (i : instr) (r0 r1 r2 r3 : reg)
    (hs0 : i.op0.src0 = .ST_REG r0) (hs1 : i.op0.src1 = .ST_REG r1)
    (hs2 : i.op1.src0 = .ST_REG r2) (hs3 : i.op1.src1 = .ST_REG r3)
    (hrf : ∀ r ∈ [r0, r1, r2, r3], r.rf ≠ .RF_AB ∧ (r.rf = .RF_R → r.num ≤ 5) ∧ r.num < 64)
    (hc0 : i.op0.cond_code ≠ CC_DEFAULT) (hc1 : i.op1.cond_code ≠ CC_DEFAULT) :
    ∃ j, alu_gen_code i = some j ∧
      bits_get j.encoding0 MUL_B = mux r3 ∧ bits_get j.encoding0 MUL_A = mux r2 ∧
      bits_get j.encoding0 ADD_B = mux r1 ∧ bits_get j.encoding0 ADD_A = mux r0 ∧
      bits_get j.encoding0 RADDR_A =
        (if r3.rf = .RF_A then r3.num else if r2.rf = .RF_A then r2.num
          else if r1.rf = .RF_A then r1.num else if r0.rf = .RF_A then r0.num else 0) ∧
      bits_get j.encoding0 RADDR_B =
        (if on_port_b r3 then r3.num else if on_port_b r2 then r2.num
          else if on_port_b r1 then r1.num else if on_port_b r0 then r0.num else 0) := by
  obtain ⟨n0, a0, b0⟩ := hrf r0 (by simp)
  obtain ⟨n1, a1, b1⟩ := hrf r1 (by simp)
  obtain ⟨n2, a2, b2⟩ := hrf r2 (by simp)
  obtain ⟨n3, a3, b3⟩ := hrf r3 (by simp)
  have m0 := mux_lt a0
  have m1 := mux_lt a1
  have m2 := mux_lt a2
  have m3 := mux_lt a3
  refine ⟨_, alu_gen_code_eq i r0 r1 r2 r3 hs0 hs1 hs2 hs3 n0 n1 n2 n3 hc0 hc1, ?_⟩
  have hra : (if r3.rf = .RF_A then r3.num else if r2.rf = .RF_A then r2.num
      else if r1.rf = .RF_A then r1.num else if r0.rf = .RF_A then r0.num else 0) < 64 := by
    split_ifs <;> omega
  have hrb : (if on_port_b r3 then r3.num else if on_port_b r2 then r2.num
      else if on_port_b r1 then r1.num else if on_port_b r0 then r0.num else 0) < 64 := by
    split_ifs <;> omega
  simp only
  rw [alu_low_eq _ _ _ _ _ _ _ _ m0 m1 m2 m3 hra hrb]
  generalize (if r3.rf = .RF_A then r3.num else if r2.rf = .RF_A then r2.num
      else if r1.rf = .RF_A then r1.num else if r0.rf = .RF_A then r0.num else 0) = ra at hra ⊢
  generalize (if on_port_b r3 then r3.num else if on_port_b r2 then r2.num
      else if on_port_b r1 then r1.num else if on_port_b r0 then r0.num else 0) = rb at hrb ⊢
  have lo := alu_low_sum (mux r0) (mux r1) (mux r2) (mux r3) ra rb i.op0.code i.op1.code
    m0 m1 m2 m3 hra hrb
  generalize (mux r3 ||| mux r2 <<< 3 ||| mux r1 <<< 6 ||| mux r0 <<< 9 ||| rb <<< 12 |||
    ra <<< 18 ||| (i.op0.code % 32) <<< 24 ||| (i.op1.code % 8) <<< 29) = L at lo ⊢
  have uL : u32 L = L := by unfold u32; omega
  rw [uL]
  simp only [bits_get_eq, MUL_B, MUL_A, ADD_B, ADD_A, RADDR_B, RADDR_A]
  refine ⟨?_, ?_, ?_, ?_, ?_, ?_⟩ <;> omega

/-- The encoding of the four reads of an instruction that `alu_resolve_instr` accepted:
`alu_gen_code` returns, each input-mux field holds the selector of its read (6 exactly
for a file-A read, 7 exactly for a file-B or small-immediate read), every file-A read has
the number in `raddr_a`, and every file-B or small-immediate read has the number in
`raddr_b` provided no file-B read meets a small immediate of another number. -/
theorem alu_gen_code_read_ports {i i' : instr} (hp : alu_srcs_parsed i)
    (h : alu_resolve_instr i = some (.ERR_SUCCESS, i')) :
    ∃ r0 r1 r2 r3 j, i'.op0.src0 = .ST_REG r0 ∧ i'.op0.src1 = .ST_REG r1 ∧
      i'.op1.src0 = .ST_REG r2 ∧ i'.op1.src1 = .ST_REG r3 ∧ alu_gen_code i' = some j ∧
      bits_get j.encoding0 ADD_A = mux r0 ∧ bits_get j.encoding0 ADD_B = mux r1 ∧
      bits_get j.encoding0 MUL_A = mux r2 ∧ bits_get j.encoding0 MUL_B = mux r3 ∧
      (∀ r ∈ [r0, r1, r2, r3], (mux r = 6 ↔ r.rf = .RF_A) ∧ (mux r = 7 ↔ on_port_b r)) ∧
      (∀ r ∈ [r0, r1, r2, r3], r.rf = .RF_A → bits_get j.encoding0 RADDR_A = r.num) ∧
      ((∀ r ∈ [r0, r1, r2, r3], ∀ r' ∈ [r0, r1, r2, r3],
          r.rf = .RF_B → r'.rf = .RF_SIMM → r.num = r'.num) →
        ∀ r ∈ [r0, r1, r2, r3], on_port_b r → bits_get j.encoding0 RADDR_B = r.num) := by
  have hnum := alu_srcs_parsed_num hp
  have hreg := alu_srcs_parsed_reg hp
  have hacc := alu_srcs_parsed_acc hp
  obtain ⟨M, m4, b0, b1, b2, b3, hM, hc, nS, nA, nB, ⟨d0, e0⟩, ⟨d1, e1⟩, _⟩ :=
    alu_resolve_instr_shape hp h
  obtain ⟨_, hbit, _⟩ := alu_src_masks_spec hM
  have hcons := ab_chain_consistent (ports_consistent_init hM hnum nA nB) hc
  obtain ⟨q0, q1, q2, q3⟩ := ab_chain_rel hc
  obtain ⟨x0, y0, z0⟩ := src_resolved_reg q0 (hreg _ (by simp [alu_srcs]))
  obtain ⟨x1, y1, z1⟩ := src_resolved_reg q1 (hreg _ (by simp [alu_srcs]))
  obtain ⟨x2, y2, z2⟩ := src_resolved_reg q2 (hreg _ (by simp [alu_srcs]))
  obtain ⟨x3, y3, z3⟩ := src_resolved_reg q3 (hreg _ (by simp [alu_srcs]))
  -- what holds of every read left by the last loop
  have inB : ∀ r : reg, src.ST_REG r ∈ [b0, b1, b2, b3] →
      r.rf ≠ .RF_AB ∧ (r.rf = .RF_R → r.num ≤ 5) ∧ r.num < 64 := by
    intro r hr
    refine ⟨?_, ?_, (hcons r hr).1⟩
    · simp only [List.mem_cons, List.mem_singleton, List.not_mem_nil, or_false] at hr
      rcases hr with hr | hr | hr | hr
      · rw [y0] at hr; simp only [src.ST_REG.injEq] at hr; rw [hr]; exact z0
      · rw [y1] at hr; simp only [src.ST_REG.injEq] at hr; rw [hr]; exact z1
      · rw [y2] at hr; simp only [src.ST_REG.injEq] at hr; rw [hr]; exact z2
      · rw [y3] at hr; simp only [src.ST_REG.injEq] at hr; rw [hr]; exact z3
    · intro hf
      rcases ab_chain_origin hc hr with ⟨hm, _⟩ | ⟨_, h2⟩
      · exact hacc r hm hf
      · rw [hf] at h2
        simp at h2
  have simm : ∀ r : reg, src.ST_REG r ∈ [b0, b1, b2, b3] → r.rf = .RF_SIMM →
      (M .RF_SIMM).testBit r.num = true := by
    intro r hr hf
    rcases ab_chain_origin hc hr with ⟨hm, _⟩ | ⟨_, h2⟩
    · exact (hbit .RF_SIMM r.num).2 ⟨hnum r hm, by decide, by rw [← hf]; exact hm⟩
    · rw [hf] at h2
      simp at h2
  -- the reads of the resolved record
  have fin : ∀ (o : op) (s : src), (s = src_r0 ∨ s = o.src0 ∨ s = o.src1) →
      (∃ r, o.src0 = .ST_REG r ∧ src.ST_REG r ∈ [b0, b1, b2, b3]) →
      (∃ r, o.src1 = .ST_REG r ∧ src.ST_REG r ∈ [b0, b1, b2, b3]) →
      ∃ r, s = .ST_REG r ∧ (r = ⟨.RF_R, 0⟩ ∨ src.ST_REG r ∈ [b0, b1, b2, b3]) := by
    intro o s hs ⟨ra, ea, ma⟩ ⟨rb, eb, mb⟩
    rcases hs with hs | hs | hs
    · exact ⟨⟨.RF_R, 0⟩, hs, Or.inl rfl⟩
    · exact ⟨ra, hs.trans ea, Or.inr ma⟩
    · exact ⟨rb, hs.trans eb, Or.inr mb⟩
  obtain ⟨s00, s01⟩ := alu_reduce_op_srcs { i.op0 with src0 := b0, src1 := b1 }
  obtain ⟨s10, s11⟩ := alu_reduce_op_srcs { i.op1 with src0 := b2, src1 := b3 }
  have t0 : i'.op0.src0 = (alu_reduce_op { i.op0 with src0 := b0, src1 := b1 }).2.src0 := by
    rw [e0]
  have t1 : i'.op0.src1 = (alu_reduce_op { i.op0 with src0 := b0, src1 := b1 }).2.src1 := by
    rw [e0]
  have t2 : i'.op1.src0 = (alu_reduce_op { i.op1 with src0 := b2, src1 := b3 }).2.src0 := by
    rw [e1]
  have t3 : i'.op1.src1 = (alu_reduce_op { i.op1 with src0 := b2, src1 := b3 }).2.src1 := by
    rw [e1]
  obtain ⟨r0, u0, v0⟩ := fin { i.op0 with src0 := b0, src1 := b1 } i'.op0.src0
    (by rw [t0]; rcases s00 with e | e
        · exact Or.inl e
        · exact Or.inr (Or.inl e))
    ⟨x0, y0, by rw [← y0]; simp⟩ ⟨x1, y1, by rw [← y1]; simp⟩
  obtain ⟨r1, u1, v1⟩ := fin { i.op0 with src0 := b0, src1 := b1 } i'.op0.src1
    (by rw [t1]; rcases s01 with e | e
        · exact Or.inl e
        · exact Or.inr (Or.inr e))
    ⟨x0, y0, by rw [← y0]; simp⟩ ⟨x1, y1, by rw [← y1]; simp⟩
  obtain ⟨r2, u2, v2⟩ := fin { i.op1 with src0 := b2, src1 := b3 } i'.op1.src0
    (by rw [t2]; rcases s10 with e | e
        · exact Or.inl e
        · exact Or.inr (Or.inl e))
    ⟨x2, y2, by rw [← y2]; simp⟩ ⟨x3, y3, by rw [← y3]; simp⟩
  obtain ⟨r3, u3, v3⟩ := fin { i.op1 with src0 := b2, src1 := b3 } i'.op1.src1
    (by rw [t3]; rcases s11 with e | e
        · exact Or.inl e
        · exact Or.inr (Or.inr e))
    ⟨x2, y2, by rw [← y2]; simp⟩ ⟨x3, y3, by rw [← y3]; simp⟩
  have hQ : ∀ r ∈ [r0, r1, r2, r3], r = ⟨.RF_R, 0⟩ ∨ src.ST_REG r ∈ [b0, b1, b2, b3] := by
    intro r hr
    simp only [List.mem_cons, List.mem_singleton, List.not_mem_nil, or_false] at hr
    rcases hr with rfl | rfl | rfl | rfl
    · exact v0
    · exact v1
    · exact v2
    · exact v3
  have hP : ∀ r ∈ [r0, r1, r2, r3],
      r.rf ≠ .RF_AB ∧ (r.rf = .RF_R → r.num ≤ 5) ∧ r.num < 64 := by
    intro r hr
    rcases hQ r hr with rfl | hm
    · exact ⟨by decide, fun _ => by decide, by decide⟩
    · exact inB r hm
  have memB : ∀ r ∈ [r0, r1, r2, r3], r.rf ≠ .RF_R → src.ST_REG r ∈ [b0, b1, b2, b3] := by
    intro r hr hne
    rcases hQ r hr with rfl | hm
    · exact absurd rfl hne
    · exact hm
  have uA : ∀ r ∈ [r0, r1, r2, r3], ∀ r' ∈ [r0, r1, r2, r3],
      r.rf = .RF_A → r'.rf = .RF_A → r.num = r'.num := by
    intro r hr r' hr' hf hf'
    obtain ⟨hn, e, _⟩ := hcons r (memB r hr (by rw [hf]; decide))
    obtain ⟨_, e', _⟩ := hcons r' (memB r' hr' (by rw [hf']; decide))
    exact mask_of_inj hn ((e hf).symm.trans (e' hf'))
  have uB : ∀ r ∈ [r0, r1, r2, r3], ∀ r' ∈ [r0, r1, r2, r3],
      r.rf = .RF_B → r'.rf = .RF_B → r.num = r'.num := by
    intro r hr r' hr' hf hf'
    obtain ⟨hn, _, e⟩ := hcons r (memB r hr (by rw [hf]; decide))
    obtain ⟨_, _, e'⟩ := hcons r' (memB r' hr' (by rw [hf']; decide))
    exact mask_of_inj hn ((e hf).symm.trans (e' hf'))
  have uS : ∀ r ∈ [r0, r1, r2, r3], ∀ r' ∈ [r0, r1, r2, r3],
      r.rf = .RF_SIMM → r'.rf = .RF_SIMM → r.num = r'.num := by
    intro r hr r' hr' hf hf'
    by_contra hne
    exact nS ⟨r.num, r'.num, hne, simm r (memB r hr (by rw [hf]; decide)) hf,
      simm r' (memB r' hr' (by rw [hf']; decide)) hf'⟩
  obtain ⟨_, _, _, _, _, _, _, _, _, _, _, _, _, c0, c1, _⟩ := alu_resolve_instr_gen hp h
  obtain ⟨j, hj, f3, f2, f1, f0, fa, fb⟩ :=
    alu_gen_code_low_fields i' r0 r1 r2 r3 u0 u1 u2 u3 hP c0 c1
  refine ⟨r0, r1, r2, r3, j, u0, u1, u2, u3, hj, f0, f1, f2, f3, ?_, ?_, ?_⟩
  · intro r hr
    obtain ⟨p1, p2, _⟩ := hP r hr
    unfold mux on_port_b
    cases hf : r.rf
    · simp
    · simp
    · exact absurd hf p1
    · have := p2 hf
      simp
      omega
    · simp
  · intro r hr hf
    rw [fa]
    have k0 := uA r hr r0 (by simp) hf
    have k1 := uA r hr r1 (by simp) hf
    have k2 := uA r hr r2 (by simp) hf
    have k3 := uA r hr r3 (by simp) hf
    simp only [List.mem_cons, List.mem_singleton, List.not_mem_nil, or_false] at hr
    split_ifs with g3 g2 g1 g0
    · exact (k3 g3).symm
    · exact (k2 g2).symm
    · exact (k1 g1).symm
    · exact (k0 g0).symm
    · rcases hr with rfl | rfl | rfl | rfl <;> contradiction
  · intro hmix r hr hf
    have uP : ∀ r ∈ [r0, r1, r2, r3], ∀ r' ∈ [r0, r1, r2, r3],
        on_port_b r → on_port_b r' → r.num = r'.num := by
      intro a ha b hb pa pb
      rcases pa with pa | pa <;> rcases pb with pb | pb
      · exact uB a ha b hb pa pb
      · exact hmix a ha b hb pa pb
      · exact (hmix b hb a ha pb pa).symm
      · exact uS a ha b hb pa pb
    rw [fb]
    have k0 := uP r hr r0 (by simp) hf
    have k1 := uP r hr r1 (by simp) hf
    have k2 := uP r hr r2 (by simp) hf
    have k3 := uP r hr r3 (by simp) hf
    simp only [List.mem_cons, List.mem_singleton, List.not_mem_nil, or_false] at hr
    split_ifs with g3 g2 g1 g0
    · exact (k3 g3).symm
    · exact (k2 g2).symm
    · exact (k1 g1).symm
    · exact (k0 g0).symm
    · rcases hr with rfl | rfl | rfl | rfl <;> contradiction

/-! ## Token counts of the tokenizer and the semaphore assignment -/

/-- A semaphore record that `parse_instr` returns carries the fixed assignment of
`sem_parse_instr`: the trailing-token loop changes neither the slots nor `write_swap`. -/
theorem parse_instr_sem_banks {i0 i : instr} {buf : List Char}
    (h : parse_instr i0 buf = some (.ERR_SUCCESS, i)) (ht : i.op0.type = .OP_TYPE_SEM) :
    i.op0.dst = ⟨.RF_A, 39⟩ ∧ i.op1.dst = ⟨.RF_B, 0⟩ ∧ i.write_swap = 0 := by
  unfold parse_instr at h
  obtain ⟨i1, t1, g1, h⟩ := next_token_success h
  obtain ⟨c1, rfl⟩ := get_next_token_frame g1
  split at h
  · simp at h
  · rename_i o0 ho0
    simp only at h
    cases hty : o0.type with
    | OP_TYPE_ADD =>
      simp only [hty, reduceCtorEq, if_false] at h
      split at h
      · simp at h
      · rename_i i3 h3
        obtain ⟨_, ty⟩ := alu_parse_instr_success h3
        obtain ⟨e0, _⟩ := parse_flags_ops _ _ _ _ _ h
        rw [e0, ty] at ht
        simp only at ht
        rw [hty] at ht
        exact absurd ht (by decide)
      · rename_i e i3 hne h3
        simp only [Option.some.injEq, Prod.mk.injEq] at h
        exact (hne h.1).elim
    | OP_TYPE_MUL =>
      simp [hty] at h
    | OP_TYPE_LI =>
      simp only [hty, reduceCtorEq, if_false] at h
      split at h
      · simp at h
      · rename_i i3 h3
        have ty := lisem_parse_instr_type h3
        obtain ⟨e0, _⟩ := parse_flags_ops _ _ _ _ _ h
        rw [e0, ty] at ht
        simp only at ht
        rw [hty] at ht
        exact absurd ht (by decide)
      · rename_i e i3 hne h3
        simp only [Option.some.injEq, Prod.mk.injEq] at h
        exact (hne h.1).elim
    | OP_TYPE_SEM =>
      simp only [hty, reduceCtorEq, if_false] at h
      split at h
      · simp at h
      · rename_i i3 h3
        unfold lisem_parse_instr at h3
        simp only [hty, reduceCtorEq, if_false] at h3
        obtain ⟨b0, b1, b2⟩ := sem_parse_instr_banks h3
        obtain ⟨e0, e1⟩ := parse_flags_ops _ _ _ _ _ h
        have fr := parse_flags_frame _ _ _ _ _ h
        refine ⟨by rw [e0]; exact b0, by rw [e1]; exact b1, ?_⟩
        rw [fr]
        exact b2
      · rename_i e i3 hne h3
        simp only [Option.some.injEq, Prod.mk.injEq] at h
        exact (hne h.1).elim
    | OP_TYPE_BRANCH =>
      simp only [hty, if_true] at h
      split at h
      · simp at h
      · rename_i i3 h3
        have ty := branch_parse_instr_type h3
        simp only [Option.some.injEq, Prod.mk.injEq, true_and] at h
        subst h
        rw [ty] at ht
        simp only at ht
        rw [hty] at ht
        exact absurd ht (by decide)
      · rename_i e i3 hne h3
        simp only [Option.some.injEq, Prod.mk.injEq] at h
        exact (hne h.1).elim

/-- A span of `n` characters closes at most `n` tokens, and one more when it begins inside
a token. -/
theorem span_tokens_le (buf : List Char) :
    ∀ (n i : Nat) (b : Bool), span_tokens buf n i b ≤ n + (if b then 1 else 0) := by
  intro n
  induction n with
  | zero => intro i b; cases b <;> simp [span_tokens]
  | succ n ih =>
    intro i b
    cases b with
    | false =>
      have h := ih (i + 1) (!isspace (buf.getD i (Char.ofNat 0)))
      simp only [span_tokens, Bool.false_eq_true, if_false, Nat.add_zero]
      split at h <;> omega
    | true =>
      have h0 := ih (i + 1) false
      have h1 := ih (i + 1) true
      simp only [Bool.false_eq_true, if_false, if_true, Nat.add_zero] at h0 h1
      simp only [span_tokens, if_true]
      split
      · omega
      · split
        · omega
        · split
          · omega
          · omega

/-- Characters that neither are white space nor end a token close no token. -/
theorem span_tokens_word (buf : List Char) :
    ∀ (n i : Nat) (b : Bool),
      (∀ j, i ≤ j → j < i + n → token_char (buf.getD j (Char.ofNat 0))) →
      span_tokens buf n i b = 0 := by
  intro n
  induction n with
  | zero => intro i b _; cases b <;> simp [span_tokens]
  | succ n ih =>
    intro i b hw
    have hw1 : ∀ j, i + 1 ≤ j → j < i + 1 + n → token_char (buf.getD j (Char.ofNat 0)) :=
      fun j a c => hw j (by omega) (by omega)
    obtain ⟨c0, c1, c2, c3⟩ := hw i (le_refl i) (by omega)
    cases b with
    | false =>
      simp only [span_tokens]
      exact ih _ _ hw1
    | true =>
      simp only [span_tokens, c0, Bool.false_eq_true, if_false, c1, c2, c3, or_self]
      exact ih _ _ hw1

/-- Without a `;` ahead, the loop of `tokenize_instr` runs to the end with
`span_tokens` more tokens when these fit into `MAX_TOKENS_PER_LINE`, and one of its two
asserts fails when they do not. -/
theorem tokenize_scan_count (buf : List Char) :
    ∀ (n i : Nat) (ts : Option Nat) (k : Nat) (ins : instr),
      (∀ j, i ≤ j → j < i + n → buf.getD j (Char.ofNat 0) ≠ ';') →
      k ≤ MAX_TOKENS_PER_LINE →
      (k + span_tokens buf n i ts.isSome ≤ MAX_TOKENS_PER_LINE →
        ∃ ins', tokenize_scan buf n i ts k ins =
          some (false, k + span_tokens buf n i ts.isSome, ins')) ∧
      (MAX_TOKENS_PER_LINE < k + span_tokens buf n i ts.isSome →
        tokenize_scan buf n i ts k ins = none) := by
  intro n
  induction n with
  | zero =>
    intro i ts k ins _ hk
    cases ts <;> simp [tokenize_scan, span_tokens] <;> omega
  | succ n ih =>
    intro i ts k ins hs hk
    have hs1 : ∀ j, i + 1 ≤ j → j < i + 1 + n → buf.getD j (Char.ofNat 0) ≠ ';' :=
      fun j h1 h2 => hs j (by omega) (by omega)
    have hi : buf.getD i (Char.ofNat 0) ≠ ';' := hs i (le_refl i) (by omega)
    cases ts with
    | none =>
      simp only [Option.isSome_none, span_tokens]
      cases hsp : isspace (buf.getD i (Char.ofNat 0)) with
      | true =>
        have e : tokenize_scan buf (n + 1) i none k ins =
            tokenize_scan buf n (i + 1) none k ins := by
          rw [tokenize_scan]
          simp only [hsp, Bool.not_true, Bool.false_eq_true, if_false]
        rw [e]
        exact ih (i + 1) none k ins hs1 hk
      | false =>
        have e : tokenize_scan buf (n + 1) i none k ins =
            tokenize_scan buf n (i + 1) (some i) k ins := by
          rw [tokenize_scan]
          simp only [hsp, Bool.not_false, if_true]
        rw [e]
        exact ih (i + 1) (some i) k ins hs1 hk
    | some t =>
      simp only [Option.isSome_some, span_tokens]
      cases hsp : isspace (buf.getD i (Char.ofNat 0)) with
      | true =>
        simp only [if_true]
        by_cases hlt : k < MAX_TOKENS_PER_LINE
        · have e : tokenize_scan buf (n + 1) i (some t) k ins =
              tokenize_scan buf n (i + 1) none (k + 1) (set_token ins k t i) := by
            rw [tokenize_scan]
            simp only [hsp, true_or, if_true, hlt, not_true_eq_false, if_false,
              Bool.not_true, Bool.false_eq_true]
          rw [e]
          have := ih (i + 1) none (k + 1) (set_token ins k t i) hs1 hlt
          simp only [Option.isSome_none] at this
          rw [show k + (1 + span_tokens buf n (i + 1) false) =
            k + 1 + span_tokens buf n (i + 1) false by omega]
          exact this
        · have e : tokenize_scan buf (n + 1) i (some t) k ins = none := by
            rw [tokenize_scan]
            simp only [hsp, true_or, if_true, hlt, not_false_eq_true]
          rw [e]
          exact ⟨fun h => by omega, fun _ => rfl⟩
      | false =>
        simp only [Bool.false_eq_true, if_false]
        by_cases hd : buf.getD i (Char.ofNat 0) = '.' ∨ buf.getD i (Char.ofNat 0) = ','
        · simp only [hd, if_true]
          have hd' : (isspace (buf.getD i (Char.ofNat 0)) = true ∨
              buf.getD i (Char.ofNat 0) = '.' ∨ buf.getD i (Char.ofNat 0) = ',' ∨
              buf.getD i (Char.ofNat 0) = ';') := by
            rcases hd with hd | hd
            · exact Or.inr (Or.inl hd)
            · exact Or.inr (Or.inr (Or.inl hd))
          by_cases hlt : k + 1 < MAX_TOKENS_PER_LINE
          · have hlt0 : k < MAX_TOKENS_PER_LINE := by omega
            have e : tokenize_scan buf (n + 1) i (some t) k ins =
                tokenize_scan buf n (i + 1) none (k + 2)
                  (set_token (set_token ins k t i) (k + 1) i (i + 1)) := by
              rw [tokenize_scan]
              dsimp only
              rw [if_pos hd']
              simp only [if_true, hlt0, not_true_eq_false, if_false, hsp,
                Bool.not_false, hlt, hi]
            rw [e]
            have := ih (i + 1) none (k + 2)
              (set_token (set_token ins k t i) (k + 1) i (i + 1)) hs1 hlt
            simp only [Option.isSome_none] at this
            rw [show k + (2 + span_tokens buf n (i + 1) false) =
              k + 2 + span_tokens buf n (i + 1) false by omega]
            exact this
          · have e : tokenize_scan buf (n + 1) i (some t) k ins = none := by
              rw [tokenize_scan]
              dsimp only
              rw [if_pos hd']
              by_cases hlt0 : k < MAX_TOKENS_PER_LINE
              · simp only [if_true, hlt0, not_true_eq_false, if_false, hsp,
                  Bool.not_false, hlt, not_false_eq_true]
              · simp only [if_true, hlt0, not_false_eq_true]
            rw [e]
            exact ⟨fun h => by omega, fun _ => rfl⟩
        · simp only [hd, if_false, hi]
          have hd' : ¬ (isspace (buf.getD i (Char.ofNat 0)) = true ∨
              buf.getD i (Char.ofNat 0) = '.' ∨ buf.getD i (Char.ofNat 0) = ',' ∨
              buf.getD i (Char.ofNat 0) = ';') := by
            rintro (h | h | h | h)
            · rw [hsp] at h
              exact Bool.false_ne_true h
            · exact hd (Or.inl h)
            · exact hd (Or.inr h)
            · exact hi h
          have e : tokenize_scan buf (n + 1) i (some t) k ins =
              tokenize_scan buf n (i + 1) (some t) k ins := by
            rw [tokenize_scan]
            dsimp only
            rw [if_neg hd']
          rw [e]
          have := ih (i + 1) (some t) k ins hs1 hk
          simp only [Option.isSome_some] at this
          exact this

theorem replicate_getD (n j : Nat) (c d : Char) (h : j < n) :
    (List.replicate n c).getD j d = c := by
  rw [List.getD_eq_getElem?_getD]
  simp [List.getElem?_replicate, h]

theorem long_word_getD (j : Nat) (h : j < 600) :
    long_word_text.getD j (Char.ofNat 0) = 'a' :=
  replicate_getD 600 j 'a' _ h

theorem long_word_tokens : span_tokens long_word_text (600 - 0) 0 false = 0 := by
  apply span_tokens_word
  intro j _ h
  rw [long_word_getD j (by omega)]
  unfold token_char
  decide

/-- A `;` that directly follows a character of a token. If the first `;` of the span
`[pos, end_)` is at index `p`, among the first `MAX_TOKENS_PER_LINE` = 512 characters of
the span, and the character before it is part of a token (not white space and not `.` or
`,`), then `tokenize_instr` succeeds with at least two tokens; the last one is the
one-character token `;` at `p`, and the token before it ends at `p`, closed by the `;`.
The other members of the record are kept, with the cursor at -1. -/
theorem tokenize_instr_semicolon (ins : instr) (buf : List Char) (pos end_ p : Nat)
    (h1 : pos < p) (h2 : p < end_) (hp : buf.getD p (Char.ofNat 0) = ';')
    (hfirst : ∀ j, pos ≤ j → j < p → buf.getD j (Char.ofNat 0) ≠ ';')
    (htc : token_char (buf.getD (p - 1) (Char.ofNat 0)))
    (hlen : p - pos < MAX_TOKENS_PER_LINE) :
    ∃ (i' : instr) (k s : Nat), tokenize_instr ins buf pos end_ = some (.ERR_SUCCESS, i') ∧
      i'.num_tokens = ((k + 2 : Nat) : Int) ∧ i'.curr_token = -1 ∧
      i'.token_start.getD k 0 = s ∧ s < p ∧ i'.token_end.getD k 0 = p ∧
      i'.token_start.getD (k + 1) 0 = p ∧ i'.token_end.getD (k + 1) 0 = p + 1 ∧
      i' = { ins with curr_token := -1, num_tokens := ((k + 2 : Nat) : Int),
                      token_start := i'.token_start, token_end := i'.token_end } := by
  obtain ⟨k, ins1, s, hscan, hk, r1, r2, r3, r4, r5, r6⟩ :=
    tokenize_scan_semicolon buf p hp (end_ - pos) pos none 0 { ins with curr_token := -1 }
      (by omega) (by omega) hfirst (fun e => by omega) (fun _ => htc) (by simp)
      (by simp; omega)
  refine ⟨{ ins1 with num_tokens := k + 2 }, k, s, ?_, ?_, ?_, r1, r2, r3, r4, r5, ?_⟩
  · have hk1 : k + 2 ≤ MAX_TOKENS_PER_LINE := hk
    simp [tokenize_instr, hscan, hk1]
  · simp
  · rw [r6]
  · cases ins1
    simp only [instr.mk.injEq] at r6
    simp only [instr.mk.injEq]
    simp [r6]

/-- The line `- -;`: the `;` directly follows the second `-`. -/
theorem tokenize_instr_semicolon_nop_nop :
    ∃ (i' : instr) (k s : Nat), tokenize_instr blank_line nop_nop_text 0 4 = some (.ERR_SUCCESS, i') ∧
      i'.num_tokens = ((k + 2 : Nat) : Int) ∧ i'.curr_token = -1 ∧
      i'.token_start.getD k 0 = s ∧ s < 3 ∧ i'.token_end.getD k 0 = 3 ∧
      i'.token_start.getD (k + 1) 0 = 3 ∧ i'.token_end.getD (k + 1) 0 = 3 + 1 ∧
      i' = { blank_line with curr_token := -1, num_tokens := ((k + 2 : Nat) : Int),
                             token_start := i'.token_start, token_end := i'.token_end } :=
  tokenize_instr_semicolon blank_line nop_nop_text 0 4 3 (by decide) (by decide) (by decide)
    (by intro j _ h; interval_cases j <;> decide) (by unfold token_char; decide) (by decide)

/-! ## The claims -/

/-- C1. For an instruction whose two destinations are in register file A, B or AB (as
`parse_dst_reg` or the fixed semaphore assignment of `sem_parse_instr` leave them),
whenever resolution succeeds, through `resolve_dst_regfiles` itself, `alu_resolve_instr`,
`lisem_resolve_instr` (with its semaphore bypass) or `branch_resolve_instr`, the add-slot
bank, mul-slot bank and `write_swap` are `(A, B, 0)` or `(B, A, 1)`. A semaphore record
is one whose slots and `write_swap` are those of a record that `parse_instr` returned
(after its trailing-token loop), or that `sem_parse_instr` returned. -/
theorem dst_banks_after_resolution (i i' : instr) (instrs : List instr)
    (h0 : is_dst_rf i.op0.dst.rf) (h1 : is_dst_rf i.op1.dst.rf)
    (hsem : i.op0.type = .OP_TYPE_SEM →
      ∃ i0 buf ip,
        (parse_instr i0 buf = some (.ERR_SUCCESS, ip) ∨
          sem_parse_instr i0 buf = some (.ERR_SUCCESS, ip)) ∧
        i.op0 = ip.op0 ∧ i.op1 = ip.op1 ∧ i.write_swap = ip.write_swap)
    (h : resolve_dst_regfiles i = some (.ERR_SUCCESS, i') ∨
      alu_resolve_instr i = some (.ERR_SUCCESS, i') ∨
      lisem_resolve_instr i = some (.ERR_SUCCESS, i') ∨
      branch_resolve_instr instrs i = some (.ERR_SUCCESS, i')) :
    dst_banks_resolved i' := by
  rcases h with h | h | h | h
  · exact resolve_dst_regfiles_banks h0 h1 h
  · exact alu_resolve_instr_banks h0 h1 h
  · refine lisem_resolve_instr_banks h0 h1 ?_ h
    intro ht
    obtain ⟨i0, buf, ip, hp, q0, q1, q2⟩ := hsem ht
    have hb : ip.op0.dst = ⟨.RF_A, 39⟩ ∧ ip.op1.dst = ⟨.RF_B, 0⟩ ∧ ip.write_swap = 0 := by
      rcases hp with hp | hp
      · exact parse_instr_sem_banks hp (by rw [← q0]; exact ht)
      · exact sem_parse_instr_banks hp
    obtain ⟨e0, e1, e2⟩ := hb
    exact Or.inl ⟨by rw [q0, e0], by rw [q1, e1], by rw [q2, e2]⟩
  · exact branch_resolve_instr_banks h0 h1 h

/-- C1 at two concrete inputs. The line `add, b1, r1, r2 fmul, r0, r1, r2;` goes through
`resolve_dst_regfiles` inside `alu_resolve_instr`: the destinations `(B, 1)` and
`(AB, 32)` end as `(B, A, 1)`. The line `semup, 12;`, as `parse_instr` returns it, goes
through the semaphore bypass of `lisem_resolve_instr`. -/
theorem dst_banks_after_resolution_witness :
    (parse_instr add_b1_fmul_r0_line add_b1_fmul_r0_text =
        some (.ERR_SUCCESS, add_b1_fmul_r0_parsed) ∧
      alu_resolve_instr add_b1_fmul_r0_parsed = some (.ERR_SUCCESS, add_b1_fmul_r0_resolved) ∧
      add_b1_fmul_r0_parsed.op1.dst.rf = .RF_AB ∧
      dst_banks_resolved add_b1_fmul_r0_resolved ∧ add_b1_fmul_r0_resolved.write_swap = 1) ∧
    (parse_instr semup_12_line semup_12_text = some (.ERR_SUCCESS, semup_12_parsed) ∧
      lisem_resolve_instr semup_12_parsed = some (.ERR_SUCCESS, semup_12_parsed) ∧
      dst_banks_resolved semup_12_parsed) :=
  ⟨⟨by decide, by decide, by decide,
    dst_banks_after_resolution add_b1_fmul_r0_parsed add_b1_fmul_r0_resolved []
      (by decide) (by decide) (fun h => absurd h (by decide))
      (Or.inr (Or.inl (by decide))), by decide⟩,
   ⟨by decide, by decide,
    dst_banks_after_resolution semup_12_parsed semup_12_parsed []
      (by decide) (by decide)
      (fun _ => ⟨semup_12_line, semup_12_text, semup_12_parsed, Or.inl (by decide),
        rfl, rfl, rfl⟩)
      (Or.inr (Or.inr (Or.inl (by decide))))⟩⟩

/-- C2. For an ALU instruction whose four read operands are registers produced by
`alu_parse_src`, after a successful `alu_resolve_src_regfiles` no read operand is
AB-file any more, and the file-A reads, the file-B reads and the small-immediate reads
each carry at most one distinct number. -/
theorem alu_resolve_src_regfiles_ports (i i' : instr) (hp : alu_srcs_parsed i)
    (h : alu_resolve_src_regfiles i = some (.ERR_SUCCESS, i')) :
    read_ports_resolved i' := by
  have hnum := alu_srcs_parsed_num hp
  obtain ⟨M, m4, b0, b1, b2, b3, hM, hS, hA, hB, _, hc, he⟩ :=
    alu_resolve_src_regfiles_success hnum h
  obtain ⟨hreg, hbit, _⟩ := alu_src_masks_spec hM
  have hcons := ab_chain_consistent (ports_consistent_init hM hnum hA hB) hc
  have hsrcs : alu_srcs i' = [b0, b1, b2, b3] := by rw [he]; rfl
  unfold read_ports_resolved
  rw [hsrcs]
  have hrel := ab_chain_rel hc
  refine ⟨?_, ?_, ?_, ?_⟩
  · have key : ∀ a b, a ∈ alu_srcs i → src_resolved a b → ∃ r, b = .ST_REG r ∧ r.rf ≠ .RF_AB := by
      intro a b ha hab
      rcases hab with ⟨h1, h2⟩ | ⟨n, _, h2 | h2⟩
      · obtain ⟨r, e⟩ := hreg a ha
        exact ⟨r, h1.trans e, h2 r e⟩
      · exact ⟨_, h2, by simp⟩
      · exact ⟨_, h2, by simp⟩
    intro s hs
    simp only [List.mem_cons, List.mem_singleton, List.not_mem_nil, or_false] at hs
    rcases hs with hs | hs | hs | hs <;> subst hs
    · exact key _ _ (by simp [alu_srcs]) hrel.1
    · exact key _ _ (by simp [alu_srcs]) hrel.2.1
    · exact key _ _ (by simp [alu_srcs]) hrel.2.2.1
    · exact key _ _ (by simp [alu_srcs]) hrel.2.2.2
  · intro r r' hr hr' hf hf'
    obtain ⟨hn, e, _⟩ := hcons r hr
    obtain ⟨_, e', _⟩ := hcons r' hr'
    exact mask_of_inj hn ((e hf).symm.trans (e' hf'))
  · intro r r' hr hr' hf hf'
    obtain ⟨hn, _, e⟩ := hcons r hr
    obtain ⟨_, _, e'⟩ := hcons r' hr'
    exact mask_of_inj hn ((e hf).symm.trans (e' hf'))
  · intro r r' hr hr' hf hf'
    have orig : ∀ r : reg, src.ST_REG r ∈ [b0, b1, b2, b3] → r.rf = .RF_SIMM →
        (M .RF_SIMM).testBit r.num = true := by
      intro r hr hf
      rcases ab_chain_origin hc hr with ⟨hm, _⟩ | ⟨_, h2⟩
      · exact (hbit .RF_SIMM r.num).2 ⟨hnum r hm, by decide, by rw [← hf]; exact hm⟩
      · rw [hf] at h2; simp at h2
    by_contra hne
    exact hS ⟨r.num, r'.num, hne, orig r hr hf, orig r' hr' hf'⟩

/-- C2 at a concrete input: `add r0, unif, vary  fmul r1, unif, r2`. -/
theorem alu_resolve_src_regfiles_ports_witness :
    alu_resolve_src_regfiles unif_vary_unif = some (.ERR_SUCCESS, unif_vary_unif_resolved) ∧
    read_ports_resolved unif_vary_unif_resolved :=
  ⟨by decide,
   alu_resolve_src_regfiles_ports unif_vary_unif unif_vary_unif_resolved
     ⟨⟨"unif", by decide⟩, ⟨"vary", by decide⟩, ⟨"unif", by decide⟩, ⟨"r2", by decide⟩⟩
     (by decide)⟩
/-- C3. If two of the four read operands of an ALU instruction are AB-file with the
same register number, then after a successful `alu_resolve_src_regfiles` both are in the
same register file, which is A or B, with the number unchanged. -/
theorem alu_resolve_src_regfiles_same_ab (i i' : instr) (j k n : Nat)
    (hp : alu_srcs_parsed i) (hjk : j ≠ k)
    (hj : (alu_srcs i)[j]? = some (.ST_REG ⟨.RF_AB, n⟩))
    (hk : (alu_srcs i)[k]? = some (.ST_REG ⟨.RF_AB, n⟩))
    (h : alu_resolve_src_regfiles i = some (.ERR_SUCCESS, i')) :
    ∃ f, (f = .RF_A ∨ f = .RF_B) ∧ (alu_srcs i')[j]? = some (.ST_REG ⟨f, n⟩) ∧
      (alu_srcs i')[k]? = some (.ST_REG ⟨f, n⟩) := by
  have hnum := alu_srcs_parsed_num hp
  obtain ⟨M, m4, b0, b1, b2, b3, _, _, _, _, _, hc, he⟩ :=
    alu_resolve_src_regfiles_success hnum h
  have hsrcs : alu_srcs i' = [b0, b1, b2, b3] := by rw [he]; rfl
  have hn : n < 64 := hnum ⟨.RF_AB, n⟩ (List.getElem?_mem hj)
  rw [hsrcs]
  rcases Nat.lt_or_gt_of_ne hjk with hlt | hlt
  · exact ab_chain_same hc hn hlt hj hk
  · obtain ⟨f, hf, e1, e2⟩ := ab_chain_same hc hn hlt hk hj
    exact ⟨f, hf, e2, e1⟩

/-- C3 at a concrete input: the two reads of `unif` in
`add r0, unif, vary  fmul r1, unif, r2` (operands 0 and 2). -/
theorem alu_resolve_src_regfiles_same_ab_witness :
    ∃ f, (f = reg_file.RF_A ∨ f = reg_file.RF_B) ∧
      (alu_srcs unif_vary_unif_resolved)[0]? = some (.ST_REG ⟨f, 32⟩) ∧
      (alu_srcs unif_vary_unif_resolved)[2]? = some (.ST_REG ⟨f, 32⟩) :=
  alu_resolve_src_regfiles_same_ab unif_vary_unif unif_vary_unif_resolved 0 2 32
    ⟨⟨"unif", by decide⟩, ⟨"vary", by decide⟩, ⟨"unif", by decide⟩, ⟨"r2", by decide⟩⟩
    (by decide) (by decide) (by decide) (by decide)
/-- C4. An ALU instruction whose four read operands (registers produced by
`alu_parse_src`) contain three pairwise different AB-file registers is rejected by
`alu_resolve_src_regfiles` with `ERR_SYNTAX`. -/
theorem alu_resolve_src_regfiles_three_ab (i : instr) (n1 n2 n3 : Nat)
    (hp : alu_srcs_parsed i) (h12 : n1 ≠ n2) (h13 : n1 ≠ n3) (h23 : n2 ≠ n3)
    (m1 : src.ST_REG ⟨.RF_AB, n1⟩ ∈ alu_srcs i)
    (m2 : src.ST_REG ⟨.RF_AB, n2⟩ ∈ alu_srcs i)
    (m3 : src.ST_REG ⟨.RF_AB, n3⟩ ∈ alu_srcs i) :
    ∃ i', alu_resolve_src_regfiles i = some (.ERR_SYNTAX, i') := by
  obtain ⟨e, i', hres, he | he⟩ := alu_resolve_src_regfiles_returns hp
  · exfalso
    subst he
    have hnum := alu_srcs_parsed_num hp
    obtain ⟨M, m4, b0, b1, b2, b3, hM, _, hA, hB, _, hc, _⟩ :=
      alu_resolve_src_regfiles_success hnum hres
    have hcons := ab_chain_consistent (ports_consistent_init hM hnum hA hB) hc
    have eqA : ∀ a b, src.ST_REG ⟨.RF_A, a⟩ ∈ [b0, b1, b2, b3] →
        src.ST_REG ⟨.RF_A, b⟩ ∈ [b0, b1, b2, b3] → a = b := by
      intro a b ha hb
      obtain ⟨hn, e, _⟩ := hcons _ ha
      obtain ⟨_, e', _⟩ := hcons _ hb
      exact mask_of_inj hn ((e rfl).symm.trans (e' rfl))
    have eqB : ∀ a b, src.ST_REG ⟨.RF_B, a⟩ ∈ [b0, b1, b2, b3] →
        src.ST_REG ⟨.RF_B, b⟩ ∈ [b0, b1, b2, b3] → a = b := by
      intro a b ha hb
      obtain ⟨hn, _, e⟩ := hcons _ ha
      obtain ⟨_, _, e'⟩ := hcons _ hb
      exact mask_of_inj hn ((e rfl).symm.trans (e' rfl))
    rcases ab_chain_image hc m1 with i1 | i1 <;> rcases ab_chain_image hc m2 with i2 | i2 <;>
      rcases ab_chain_image hc m3 with i3 | i3
    · exact h12 (eqA _ _ i1 i2)
    · exact h12 (eqA _ _ i1 i2)
    · exact h13 (eqA _ _ i1 i3)
    · exact h23 (eqB _ _ i2 i3)
    · exact h23 (eqA _ _ i2 i3)
    · exact h13 (eqB _ _ i1 i3)
    · exact h12 (eqB _ _ i1 i2)
    · exact h12 (eqB _ _ i1 i2)
  · subst he
    exact ⟨i', hres⟩

/-- C4 at a concrete input: `add r0, unif, vary  fmul r1, vpm, unif`. -/
theorem alu_resolve_src_regfiles_three_ab_witness :
    ∃ i', alu_resolve_src_regfiles (instr_of_ops [] 0 add_r0_unif_vary fmul_r1_vpm_unif) =
      some (.ERR_SYNTAX, i') :=
  alu_resolve_src_regfiles_three_ab (instr_of_ops [] 0 add_r0_unif_vary fmul_r1_vpm_unif)
    32 35 48
    ⟨⟨"unif", by decide⟩, ⟨"vary", by decide⟩, ⟨"vpm", by decide⟩, ⟨"unif", by decide⟩⟩
    (by decide) (by decide) (by decide) (by decide) (by decide) (by decide)
/-- C5. `alu_resolve_src_regfiles` returns `ERR_SYNTAX` whenever two of the four read
operands are small immediates with different values; when all small-immediate reads
carry one value the count `n[RF_SIMM]` stays below 2, so the check does not fire; the
instructions reading `a1, 3` and `a2, 5` resolve when taken separately (the read-port
pass and the whole of `alu_resolve_instr`), and the instruction with 3 in the add slot
and 5 in the mul slot is rejected. -/
theorem alu_resolve_src_regfiles_simm_exclusive :
    (∀ (i : instr) (v w : Nat), alu_srcs_parsed i → v ≠ w →
      src.ST_REG ⟨.RF_SIMM, v⟩ ∈ alu_srcs i → src.ST_REG ⟨.RF_SIMM, w⟩ ∈ alu_srcs i →
      alu_resolve_src_regfiles i = some (.ERR_SYNTAX, i)) ∧
    (∀ i : instr, alu_srcs_parsed i →
      (∀ v w, src.ST_REG ⟨.RF_SIMM, v⟩ ∈ alu_srcs i →
        src.ST_REG ⟨.RF_SIMM, w⟩ ∈ alu_srcs i → v = w) →
      ∃ M, alu_src_masks i = some M ∧ count_mask_bits (M .RF_SIMM) < 2) ∧
    alu_resolve_src_regfiles (instr_of_ops [] 0 add_r0_a1_3 mul_nop_slot) =
      some (.ERR_SUCCESS, { instr_of_ops [] 0 add_r0_a1_3 mul_nop_slot with signal := 13 }) ∧
    alu_resolve_src_regfiles (instr_of_ops [] 8 add_r1_a2_5 mul_nop_slot) =
      some (.ERR_SUCCESS, { instr_of_ops [] 8 add_r1_a2_5 mul_nop_slot with signal := 13 }) ∧
    (alu_resolve_instr (instr_of_ops [] 0 add_r0_a1_3 mul_nop_slot)).map (fun r => r.1) =
      some .ERR_SUCCESS ∧
    (alu_resolve_instr (instr_of_ops [] 8 add_r1_a2_5 mul_nop_slot)).map (fun r => r.1) =
      some .ERR_SUCCESS ∧
    alu_resolve_src_regfiles (instr_of_ops [] 0 add_r0_a1_3 fmul_r1_a1_5) =
      some (.ERR_SYNTAX, instr_of_ops [] 0 add_r0_a1_3 fmul_r1_a1_5) := by
  refine ⟨?_, ?_, by decide, by decide, by decide, by decide, by decide⟩
  · intro i v w hp hvw hv hw
    have hnum := alu_srcs_parsed_num hp
    obtain ⟨M, hM⟩ := alu_src_masks_some (alu_srcs_parsed_reg hp)
    have h2 : 2 ≤ count_mask_bits (M .RF_SIMM) :=
      (count_mask_bits_two ((alu_src_masks_spec hM).2.2 _)).2
        ⟨v, w, hvw, simm_bit hM hnum hv, simm_bit hM hnum hw⟩
    unfold alu_resolve_src_regfiles
    rw [hM]
    simp only [ge_iff_le, h2, if_true]
  · intro i hp hall
    obtain ⟨M, hM⟩ := alu_src_masks_some (alu_srcs_parsed_reg hp)
    refine ⟨M, hM, ?_⟩
    by_contra hc
    have hc2 : 2 ≤ count_mask_bits (M .RF_SIMM) := by omega
    obtain ⟨a, b, hab, ha, hb⟩ :=
      (count_mask_bits_two ((alu_src_masks_spec hM).2.2 _)).1 hc2
    obtain ⟨_, _, ma⟩ := ((alu_src_masks_spec hM).2.1 .RF_SIMM a).1 ha
    obtain ⟨_, _, mb⟩ := ((alu_src_masks_spec hM).2.1 .RF_SIMM b).1 hb
    exact hab (hall a b ma mb)

/-- C5 at a concrete input: `add r0, a1, 3  fmul r1, a1, 5`. -/
theorem alu_resolve_src_regfiles_simm_exclusive_witness :
    alu_resolve_src_regfiles (instr_of_ops [] 0 add_r0_a1_3 fmul_r1_a1_5) =
      some (.ERR_SYNTAX, instr_of_ops [] 0 add_r0_a1_3 fmul_r1_a1_5) :=
  alu_resolve_src_regfiles_simm_exclusive.1 (instr_of_ops [] 0 add_r0_a1_3 fmul_r1_a1_5) 3 5
    ⟨⟨"a1", by decide⟩, ⟨"3", by decide⟩, ⟨"a1", by decide⟩, ⟨"5", by decide⟩⟩
    (by decide) (by decide) (by decide)
/-- C6. With a small immediate among the four read operands: a successful
`alu_resolve_src_regfiles` on a record whose signal is still 1 leaves signal 13, and a
record with another signal is rejected with `ERR_SYNTAX`. With no small-immediate read,
a successful call leaves the signal unchanged. -/
theorem alu_resolve_src_regfiles_signal (i : instr) (hp : alu_srcs_parsed i) :
    ((∃ v, src.ST_REG ⟨.RF_SIMM, v⟩ ∈ alu_srcs i) →
      (i.signal = 1 → ∀ i', alu_resolve_src_regfiles i = some (.ERR_SUCCESS, i') →
        i'.signal = 13) ∧
      (i.signal ≠ 1 → alu_resolve_src_regfiles i = some (.ERR_SYNTAX, i))) ∧
    ((¬ ∃ v, src.ST_REG ⟨.RF_SIMM, v⟩ ∈ alu_srcs i) →
      ∀ i', alu_resolve_src_regfiles i = some (.ERR_SUCCESS, i') → i'.signal = i.signal) := by
  have hnum := alu_srcs_parsed_num hp
  obtain ⟨M, hM⟩ := alu_src_masks_some (alu_srcs_parsed_reg hp)
  have hlt := (alu_src_masks_spec hM).2.2
  constructor
  · rintro ⟨v, hv⟩
    have hbit := simm_bit hM hnum hv
    have hne : M .RF_SIMM ≠ 0 := by
      intro hz; rw [hz] at hbit; simp at hbit
    constructor
    · intro _ i' h
      obtain ⟨M', m4, b0, b1, b2, b3, hM', _, _, _, _, _, he⟩ :=
        alu_resolve_src_regfiles_success hnum h
      rw [hM] at hM'
      simp only [Option.some.injEq] at hM'
      subst hM'
      rw [he]
      simp [with_srcs, hne]
    · intro hsig
      have hc : count_mask_bits (M .RF_SIMM) ≠ 0 := fun h0 =>
        hne ((count_mask_bits_eq_zero (hlt _)).1 h0)
      unfold alu_resolve_src_regfiles
      rw [hM]
      simp only
      split
      · rfl
      · rw [if_pos ⟨hc, hsig⟩]
  · intro hno i' h
    obtain ⟨M', m4, b0, b1, b2, b3, hM', _, _, _, _, _, he⟩ :=
      alu_resolve_src_regfiles_success hnum h
    rw [hM] at hM'
    simp only [Option.some.injEq] at hM'
    subst hM'
    have hz : M .RF_SIMM = 0 := by
      by_contra hne
      obtain ⟨a, ha⟩ := Nat.ne_zero_implies_bit_true hne
      obtain ⟨_, _, ma⟩ := ((alu_src_masks_spec hM).2.1 .RF_SIMM a).1 ha
      exact hno ⟨a, ma⟩
    rw [he]
    simp [with_srcs, hz]

/-- C6 at a concrete input: `add r0, a1, 3  -` with no signal token and with the
signal `endp` (3). -/
theorem alu_resolve_src_regfiles_signal_witness :
    ({ instr_of_ops [] 0 add_r0_a1_3 mul_nop_slot with signal := 13 } : instr).signal = 13 ∧
    alu_resolve_src_regfiles
        { instr_of_ops [] 0 add_r0_a1_3 mul_nop_slot with signal := 3 } =
      some (.ERR_SYNTAX, { instr_of_ops [] 0 add_r0_a1_3 mul_nop_slot with signal := 3 }) :=
  ⟨((alu_resolve_src_regfiles_signal (instr_of_ops [] 0 add_r0_a1_3 mul_nop_slot)
      ⟨⟨"a1", by decide⟩, ⟨"3", by decide⟩, ⟨"r0", by decide⟩, ⟨"r0", by decide⟩⟩).1
      ⟨3, by decide⟩).1 (by decide) _ (by decide),
   ((alu_resolve_src_regfiles_signal
      { instr_of_ops [] 0 add_r0_a1_3 mul_nop_slot with signal := 3 }
      ⟨⟨"a1", by decide⟩, ⟨"3", by decide⟩, ⟨"r0", by decide⟩, ⟨"r0", by decide⟩⟩).1
      ⟨3, by decide⟩).2 (by decide)⟩
/-- C7. On a pair of destinations in files A, B or AB on which `resolve_dst_regfiles`
succeeds: `write_swap` becomes 1 exactly when the add-slot destination was file B or the
mul-slot destination was file A (and 0 otherwise); an AB destination becomes B (add
slot) / A (mul slot) when `write_swap` is 1 and A / B when it is 0; an explicit A or B
destination keeps its file; both register numbers are unchanged. -/
theorem resolve_dst_regfiles_write_swap (i i' : instr)
    (h0 : is_dst_rf i.op0.dst.rf) (h1 : is_dst_rf i.op1.dst.rf)
    (h : resolve_dst_regfiles i = some (.ERR_SUCCESS, i')) :
    (i'.write_swap = 1 ↔ (i.op0.dst.rf = .RF_B ∨ i.op1.dst.rf = .RF_A)) ∧
    (i'.write_swap = 0 ∨ i'.write_swap = 1) ∧
    (i.op0.dst.rf = .RF_AB →
      i'.op0.dst.rf = if i'.write_swap = 1 then .RF_B else .RF_A) ∧
    (i.op1.dst.rf = .RF_AB →
      i'.op1.dst.rf = if i'.write_swap = 1 then .RF_A else .RF_B) ∧
    (i.op0.dst.rf ≠ .RF_AB → i'.op0.dst.rf = i.op0.dst.rf) ∧
    (i.op1.dst.rf ≠ .RF_AB → i'.op1.dst.rf = i.op1.dst.rf) ∧
    i'.op0.dst.num = i.op0.dst.num ∧ i'.op1.dst.num = i.op1.dst.num := by
  unfold resolve_dst_regfiles at h
  rcases h0 with h0 | h0 | h0 <;> rcases h1 with h1 | h1 | h1 <;>
    simp [h0, h1] at h <;> subst h <;> simp [h0, h1]

/-- C7 at a concrete input: `add r0, r1, r2  fmul a3, r1, r2`. -/
theorem resolve_dst_regfiles_write_swap_witness :
    resolve_dst_regfiles r0_a3_dsts = some (.ERR_SUCCESS, r0_a3_dsts_resolved) ∧
    ((r0_a3_dsts_resolved.write_swap = 1 ↔
        (r0_a3_dsts.op0.dst.rf = .RF_B ∨ r0_a3_dsts.op1.dst.rf = .RF_A)) ∧
      (r0_a3_dsts_resolved.write_swap = 0 ∨ r0_a3_dsts_resolved.write_swap = 1) ∧
      (r0_a3_dsts.op0.dst.rf = .RF_AB →
        r0_a3_dsts_resolved.op0.dst.rf =
          if r0_a3_dsts_resolved.write_swap = 1 then .RF_B else .RF_A) ∧
      (r0_a3_dsts.op1.dst.rf = .RF_AB →
        r0_a3_dsts_resolved.op1.dst.rf =
          if r0_a3_dsts_resolved.write_swap = 1 then .RF_A else .RF_B) ∧
      (r0_a3_dsts.op0.dst.rf ≠ .RF_AB →
        r0_a3_dsts_resolved.op0.dst.rf = r0_a3_dsts.op0.dst.rf) ∧
      (r0_a3_dsts.op1.dst.rf ≠ .RF_AB →
        r0_a3_dsts_resolved.op1.dst.rf = r0_a3_dsts.op1.dst.rf) ∧
      r0_a3_dsts_resolved.op0.dst.num = r0_a3_dsts.op0.dst.num ∧
      r0_a3_dsts_resolved.op1.dst.num = r0_a3_dsts.op1.dst.num) :=
  ⟨by decide,
   resolve_dst_regfiles_write_swap r0_a3_dsts r0_a3_dsts_resolved
     (by decide) (by decide) (by decide)⟩

/-- C8. On a pair of destinations in files A, B or AB, `resolve_dst_regfiles` returns
`ERR_SYNTAX` exactly when both destinations are file A or both are file B; in every
other case it returns `ERR_SUCCESS`; on the error return the record (both destinations
and `write_swap` included) is unchanged. -/
theorem resolve_dst_regfiles_error_iff (i : instr)
    (h0 : is_dst_rf i.op0.dst.rf) (h1 : is_dst_rf i.op1.dst.rf) :
    ((∃ i', resolve_dst_regfiles i = some (.ERR_SYNTAX, i')) ↔
      ((i.op0.dst.rf = .RF_A ∧ i.op1.dst.rf = .RF_A) ∨
        (i.op0.dst.rf = .RF_B ∧ i.op1.dst.rf = .RF_B))) ∧
    (¬ ((i.op0.dst.rf = .RF_A ∧ i.op1.dst.rf = .RF_A) ∨
        (i.op0.dst.rf = .RF_B ∧ i.op1.dst.rf = .RF_B)) →
      ∃ i', resolve_dst_regfiles i = some (.ERR_SUCCESS, i')) ∧
    (∀ i', resolve_dst_regfiles i = some (.ERR_SYNTAX, i') →
      i' = i ∧ i'.op0.dst = i.op0.dst ∧ i'.op1.dst = i.op1.dst ∧
        i'.write_swap = i.write_swap) := by
  unfold resolve_dst_regfiles
  rcases h0 with h0 | h0 | h0 <;> rcases h1 with h1 | h1 | h1 <;> simp [h0, h1]

/-- C8 at a concrete input: `add a1, r1, r2  fmul a3, r1, r2`. -/
theorem resolve_dst_regfiles_error_iff_witness :
    ∃ i', resolve_dst_regfiles (instr_of_ops [] 0 add_a1_r1_r2 fmul_a3_r1_r2) =
      some (.ERR_SYNTAX, i') :=
  (resolve_dst_regfiles_error_iff (instr_of_ops [] 0 add_a1_r1_r2 fmul_a3_r1_r2)
    (by decide) (by decide)).1.2 (Or.inl ⟨by decide, by decide⟩)

/-- C9 (the code at the failing input). The instruction `add r0, r1, r2  fmul r0, r1, r2`
is accepted by `alu_resolve_instr`: both slots stay executed (condition Always) and both
write register number 32, the accumulator `r0`, one through port A and one through
port B. -/
theorem alu_resolve_instr_same_dst_accepted :
    alu_resolve_instr (instr_of_ops [] 0 add_r0_r1_r2 fmul_r0_r1_r2) =
      some (.ERR_SUCCESS,
        instr_of_ops [] 0
          { add_r0_r1_r2 with cond_code := CC_ALWAYS, dst := ⟨.RF_A, 32⟩ }
          { fmul_r0_r1_r2 with cond_code := CC_ALWAYS, dst := ⟨.RF_B, 32⟩ }) := by
  decide

/-- C10 (counterexample). The label-form branch `b a0, a1, L` is rejected with
`ERR_SYNTAX` although the instruction at address 24 carries the label `L`: both link
destinations are in file A. -/
theorem branch_resolve_instr_dst_conflict :
    has_label "L" (nop_at ["L"] 24).labels = true ∧
    branch_resolve_instr
        [branch_to_label [] 0 ⟨.RF_A, 0⟩ ⟨.RF_A, 1⟩ "L", nop_at [] 8, nop_at [] 16,
          nop_at ["L"] 24]
        (branch_to_label [] 0 ⟨.RF_A, 0⟩ ⟨.RF_A, 1⟩ "L") =
      some (.ERR_SYNTAX, branch_to_label [] 0 ⟨.RF_A, 0⟩ ⟨.RF_A, 1⟩ "L") := by
  decide

/-- C10 (amended). For a label-form branch at address `pc` whose two destinations, in
files A, B or AB, are not both file A and not both file B, and an instruction list in
which some instruction carries the referenced label, `branch_resolve_instr` succeeds and
replaces the Label operand `op[0].src[0]` by an Immediate32 whose value is
`target.pc - (pc + 32)` reduced modulo 2^32, `target` being the first instruction of the
list that carries the label; `branch_gen_code` emits that value as the low word; for
`pc = 0` and a target at address 24 the word is 0xFFFFFFF8, that is -8. -/
theorem branch_resolve_instr_displacement (instrs : List instr) (i : instr) (l : String)
    (hl : i.op0.src0 = .ST_LABEL l) (hrel : i.branch_rel = 1)
    (h0 : is_dst_rf i.op0.dst.rf) (h1 : is_dst_rf i.op1.dst.rf)
    (hd : ¬ ((i.op0.dst.rf = .RF_A ∧ i.op1.dst.rf = .RF_A) ∨
        (i.op0.dst.rf = .RF_B ∧ i.op1.dst.rf = .RF_B)))
    (hex : ∃ t ∈ instrs, l ∈ t.labels) :
    ∃ target i' i'', find_target l instrs = some target ∧ target ∈ instrs ∧
      l ∈ target.labels ∧
      branch_resolve_instr instrs i = some (.ERR_SUCCESS, i') ∧
      i'.op0.src0 = .ST_IMM32 ((target.pc - (i.pc + 32)) % 2 ^ 32).toNat ∧
      branch_gen_code i' = some i'' ∧
      i''.encoding0 = ((target.pc - (i.pc + 32)) % 2 ^ 32).toNat ∧
      (i.pc = 0 → target.pc = 24 → i''.encoding0 = 0xFFFFFFF8) := by
  obtain ⟨target, ht, hmem, hlab⟩ := find_target_some hex
  have hne : ¬ (i.op0.dst.rf = i.op1.dst.rf ∧ i.op0.dst.rf ≠ .RF_AB) := by
    rintro ⟨e, ne⟩
    rcases h0 with a | a | a
    · exact hd (Or.inl ⟨a, e ▸ a⟩)
    · exact hd (Or.inr ⟨a, e ▸ a⟩)
    · exact ne a
  have enc : ∀ j : instr, j.branch_rel = 1 → ∀ v, j.op0.src0 = .ST_IMM32 v →
      ∃ j', branch_gen_code j = some j' ∧ j'.encoding0 = v := by
    intro j hj v hv
    unfold branch_gen_code
    simp only [hj, hv]
    exact ⟨_, rfl, rfl⟩
  have fin : ∀ i1 : instr, resolve_dst_regfiles i = some (.ERR_SUCCESS, i1) →
      i1.op0.src0 = .ST_LABEL l → i1.pc = i.pc → i1.branch_rel = 1 →
      ∃ i' i'', branch_resolve_instr instrs i = some (.ERR_SUCCESS, i') ∧
      i'.op0.src0 = .ST_IMM32 ((target.pc - (i.pc + 32)) % 2 ^ 32).toNat ∧
      branch_gen_code i' = some i'' ∧
      i''.encoding0 = ((target.pc - (i.pc + 32)) % 2 ^ 32).toNat ∧
      (i.pc = 0 → target.pc = 24 → i''.encoding0 = 0xFFFFFFF8) := by
    intro i1 hr hs hpc hbr
    obtain ⟨j', g1, g2⟩ := enc
      { i1 with op0 := { i1.op0 with
          src0 := .ST_IMM32 ((target.pc - (i1.pc + 4 * 8)) % 2 ^ 32).toNat } }
      hbr _ rfl
    refine ⟨_, j', ?_, ?_, g1, ?_, ?_⟩
    · unfold branch_resolve_instr
      rw [hr]
      simp only [hs, ht]
    · simp only [hpc]; norm_num
    · rw [g2, hpc]; norm_num
    · intro p0 p24
      rw [g2, hpc, p0, p24]
      decide
  rcases resolve_dst_regfiles_cases i h0 h1 with ⟨c, _⟩ | ⟨_, ⟨_, e⟩ | ⟨_, e⟩⟩
  · exact absurd c hne
  · obtain ⟨i', i'', r⟩ := fin _ e hl rfl hrel
    exact ⟨target, i', i'', ht, hmem, hlab, r⟩
  · obtain ⟨i', i'', r⟩ := fin _ e hl rfl hrel
    exact ⟨target, i', i'', ht, hmem, hlab, r⟩

/-- C10 (amended) at a concrete input: `b r0, r1, L` at address 0 with `L` on the
instruction at address 24; the low word evaluates to 0xFFFFFFF8. -/
theorem branch_resolve_instr_displacement_witness :
    (∃ target i' i'', find_target "L" branch_program = some target ∧
      target ∈ branch_program ∧ "L" ∈ target.labels ∧
      branch_resolve_instr branch_program
        (branch_to_label [] 0 ⟨.RF_AB, 32⟩ ⟨.RF_AB, 33⟩ "L") = some (.ERR_SUCCESS, i') ∧
      i'.op0.src0 = .ST_IMM32 ((target.pc - ((0 : Int) + 32)) % 2 ^ 32).toNat ∧
      branch_gen_code i' = some i'' ∧
      i''.encoding0 = ((target.pc - ((0 : Int) + 32)) % 2 ^ 32).toNat ∧
      ((0 : Int) = 0 → target.pc = 24 → i''.encoding0 = 0xFFFFFFF8)) ∧
    (branch_resolve_instr branch_program
        (branch_to_label [] 0 ⟨.RF_AB, 32⟩ ⟨.RF_AB, 33⟩ "L")).map
      (fun r => (r.1, r.2.op0.src0, (branch_gen_code r.2).map fun j => j.encoding0)) =
      some (.ERR_SUCCESS, .ST_IMM32 0xFFFFFFF8, some 0xFFFFFFF8) :=
  ⟨branch_resolve_instr_displacement branch_program
    (branch_to_label [] 0 ⟨.RF_AB, 32⟩ ⟨.RF_AB, 33⟩ "L") "L" rfl rfl (by decide) (by decide)
    (by decide) ⟨nop_at ["L"] 24, by decide, by decide⟩, by decide⟩
/-- C11 (counterexample). The branch to the label `missing`, which no instruction of
the program carries, is rejected with `ERR_SYNTAX`, whose code is 2, and not with
`ERR_NOT_FOUND`, whose code is 3. -/
theorem branch_resolve_instr_missing_label_code :
    has_label "missing" (nop_at [] 8).labels = false ∧
    branch_resolve_instr missing_label_program
        (branch_to_label [] 0 ⟨.RF_AB, 32⟩ ⟨.RF_AB, 33⟩ "missing") =
      some (.ERR_SYNTAX, branch_to_label [] 0 ⟨.RF_A, 32⟩ ⟨.RF_B, 33⟩ "missing") ∧
    error.ERR_SYNTAX.toNat = 2 ∧ error.ERR_NOT_FOUND.toNat = 3 := by
  decide

/-- C11 (amended). For a label-form branch and an instruction list in which no
instruction's label set contains the referenced name, `branch_resolve_instr` fails with
`ERR_SYNTAX` (code 2), the code of a syntax error, and leaves the Label operand in
place. -/
theorem branch_resolve_instr_missing_label (instrs : List instr) (i : instr) (l : String)
    (hl : i.op0.src0 = .ST_LABEL l) (hno : ∀ t ∈ instrs, l ∉ t.labels) :
    ∃ i', branch_resolve_instr instrs i = some (.ERR_SYNTAX, i') ∧
      i'.op0.src0 = .ST_LABEL l ∧ error.ERR_SYNTAX.toNat = 2 := by
  unfold branch_resolve_instr
  rcases resolve_dst_regfiles_returns i with e | ⟨f0, f1, ws, e⟩
  · rw [e]
    exact ⟨i, rfl, hl, rfl⟩
  · rw [e]
    simp only [hl, find_target_none hno]
    exact ⟨_, rfl, rfl, rfl⟩

/-- C11 (amended) at a concrete input: the branch to `missing` in a program without
labels. -/
theorem branch_resolve_instr_missing_label_witness :
    ∃ i', branch_resolve_instr missing_label_program
        (branch_to_label [] 0 ⟨.RF_AB, 32⟩ ⟨.RF_AB, 33⟩ "missing") = some (.ERR_SYNTAX, i') ∧
      i'.op0.src0 = .ST_LABEL "missing" ∧ error.ERR_SYNTAX.toNat = 2 :=
  branch_resolve_instr_missing_label missing_label_program
    (branch_to_label [] 0 ⟨.RF_AB, 32⟩ ⟨.RF_AB, 33⟩ "missing") "missing" rfl (by decide)

/-- C12. `alu_reduce_op` returns `ERR_SUCCESS`. With `n_nops` the number of the two
sources read from file A or B with number 39 and `n_ios` the number read from file A or
B with number at least 32 other than 39: if `n_nops = 2`, or the destination number is 39
and `n_ios = 0`, or the condition is already Never, the result is the canonical NOP
(opcode 0, condition Never, destination `(AB, 39)`, both sources accumulator `r0`);
otherwise opcode and destination are unchanged, each source counted in `n_nops` is
replaced by accumulator `r0` and the other sources are unchanged, and the condition is
Always if it was Default and unchanged if it was explicit. -/
theorem alu_reduce_op_spec (o : op) :
    (alu_reduce_op o).1 = .ERR_SUCCESS ∧
    (((if is_nop_read o.src0 then 1 else 0) + (if is_nop_read o.src1 then 1 else 0) = 2 ∨
        (o.dst.num = 39 ∧
          (if is_io_read o.src0 then 1 else 0) + (if is_io_read o.src1 then 1 else 0) = 0) ∨
        o.cond_code = CC_NEVER) →
      (alu_reduce_op o).2 =
        { type := o.type, code := 0, cond_code := CC_NEVER, dst := ⟨.RF_AB, 39⟩,
          src0 := src_r0, src1 := src_r0 }) ∧
    (¬ ((if is_nop_read o.src0 then 1 else 0) + (if is_nop_read o.src1 then 1 else 0) = 2 ∨
        (o.dst.num = 39 ∧
          (if is_io_read o.src0 then 1 else 0) + (if is_io_read o.src1 then 1 else 0) = 0) ∨
        o.cond_code = CC_NEVER) →
      (alu_reduce_op o).2 =
        { type := o.type, code := o.code,
          cond_code := if o.cond_code = CC_DEFAULT then CC_ALWAYS else o.cond_code,
          dst := o.dst,
          src0 := if is_nop_read o.src0 then src_r0 else o.src0,
          src1 := if is_nop_read o.src1 then src_r0 else o.src1 }) := by
  refine ⟨alu_reduce_op_err o, fun h => ?_, fun h => ?_⟩
  · rw [alu_reduce_op_eq, if_pos h]
  · rw [alu_reduce_op_eq, if_neg h]

/-- C13 (the code). For an ALU instruction without `sf` and with signal still 1, whose
two destination numbers are 39 and none of whose four sources is a file-A/B/AB register
numbered 32 or more other than 39: whenever `alu_resolve_instr` succeeds, `alu_gen_code`
returns with low word 0, and the high word is 0x10000000 only if no source is a small
immediate; with a small-immediate source the high word is 0xD0000000 (signal 13). -/
theorem alu_nop_words_signal (i i' : instr) (hp : alu_srcs_parsed i)
    (hsf : i.set_flag = 0) (hsig : i.signal = 1)
    (hd0 : i.op0.dst.num = 39) (hd1 : i.op1.dst.num = 39)
    (hio : ∀ r, src.ST_REG r ∈ alu_srcs i →
      (r.rf = .RF_A ∨ r.rf = .RF_B ∨ r.rf = .RF_AB) → 32 ≤ r.num → r.num = 39)
    (h : alu_resolve_instr i = some (.ERR_SUCCESS, i')) :
    ∃ j, alu_gen_code i' = some j ∧ j.encoding0 = 0 ∧
      ((∃ v, src.ST_REG ⟨.RF_SIMM, v⟩ ∈ alu_srcs i) → j.encoding1 = 0xD0000000) ∧
      ((¬ ∃ v, src.ST_REG ⟨.RF_SIMM, v⟩ ∈ alu_srcs i) → j.encoding1 = 0x10000000) := by
  have hnum := alu_srcs_parsed_num hp
  obtain ⟨i1, i4, h1, h4, rfl⟩ := alu_resolve_instr_success h
  obtain ⟨M, m4, b0, b1, b2, b3, hM, _, _, _, _, hc, he⟩ :=
    alu_resolve_src_regfiles_success hnum h1
  obtain ⟨r0, r1, r2, r3⟩ := ab_chain_rel hc
  have n0 := src_resolved_not_io r0 fun r e => hio r (by simp [alu_srcs, e])
  have n1 := src_resolved_not_io r1 fun r e => hio r (by simp [alu_srcs, e])
  have n2 := src_resolved_not_io r2 fun r e => hio r (by simp [alu_srcs, e])
  have n3 := src_resolved_not_io r3 fun r e => hio r (by simp [alu_srcs, e])
  subst he
  rw [alu_reduce_op_nop_dst _ (by simpa [with_srcs] using hd0) (by simpa [with_srcs] using n0)
      (by simpa [with_srcs] using n1),
    alu_reduce_op_nop_dst _ (by simpa [with_srcs] using hd1) (by simpa [with_srcs] using n2)
      (by simpa [with_srcs] using n3)] at h4
  unfold resolve_dst_regfiles at h4
  simp only [reduceCtorEq, ne_eq, not_true_eq_false, and_false, if_false, false_or, if_true,
    Option.some.injEq, Prod.mk.injEq, true_and, or_self, not_false_eq_true] at h4
  subst h4
  have hsimm : (M .RF_SIMM ≠ 0) ↔ ∃ v, src.ST_REG ⟨.RF_SIMM, v⟩ ∈ alu_srcs i := by
    constructor
    · intro hne
      obtain ⟨a, ha⟩ := Nat.ne_zero_implies_bit_true hne
      obtain ⟨_, _, ma⟩ := ((alu_src_masks_spec hM).2.1 .RF_SIMM a).1 ha
      exact ⟨a, ma⟩
    · rintro ⟨v, hv⟩ hz
      have hbit := simm_bit hM hnum hv
      rw [hz] at hbit
      simp at hbit
  by_cases hs : ∃ v, src.ST_REG ⟨.RF_SIMM, v⟩ ∈ alu_srcs i
  · refine ⟨_, alu_gen_code_nop _ i.op0.type i.op1.type 13 ?_ ?_ ?_ ?_ ?_ (by decide), rfl, fun _ => rfl,
      fun hn => absurd hs hn⟩
    · simp [zero_never_dsts, with_srcs]
    · simp [zero_never_dsts, with_srcs]
    · simp [zero_never_dsts, with_srcs]
    · simpa [zero_never_dsts, with_srcs] using hsf
    · simp [zero_never_dsts, with_srcs, hsimm.2 hs]
  · have hz : M .RF_SIMM = 0 := by
      by_contra hne
      exact hs (hsimm.1 hne)
    refine ⟨_, alu_gen_code_nop _ i.op0.type i.op1.type 1 ?_ ?_ ?_ ?_ ?_ (by decide), rfl,
      fun hn => absurd hn hs, fun _ => rfl⟩
    · simp [zero_never_dsts, with_srcs]
    · simp [zero_never_dsts, with_srcs]
    · simp [zero_never_dsts, with_srcs]
    · simpa [zero_never_dsts, with_srcs] using hsf
    · simpa [zero_never_dsts, with_srcs, hz] using hsig

/-- C13 at the failing input `add, -, a1, 3 -;`: it parses, resolves and encodes to the
words 0 and 0xD0000000, while `- -;` encodes to 0 and 0x10000000. -/
theorem alu_nop_words_signal_witness :
    alu_parse_instr add_nop_a1_3_tokens add_nop_a1_3_text =
      some (.ERR_SUCCESS, add_nop_a1_3_parsed) ∧
    (∃ j, alu_resolve_instr add_nop_a1_3_parsed = some (.ERR_SUCCESS, add_nop_a1_3_resolved) ∧
      alu_gen_code add_nop_a1_3_resolved = some j ∧ j.encoding0 = 0 ∧
      j.encoding1 = 0xD0000000) ∧
    (gen_code [] add_nop_a1_3_parsed).map (fun r => (r.1, r.2.encoding0, r.2.encoding1)) =
      some (.ERR_SUCCESS, 0, 0xD0000000) ∧
    (gen_code [] (nop_at [] 0)).map (fun r => (r.1, r.2.encoding0, r.2.encoding1)) =
      some (.ERR_SUCCESS, 0, 0x10000000) := by
  refine ⟨by decide, ?_, by decide, by decide⟩
  obtain ⟨j, hj, h0, h1, _⟩ :=
    alu_nop_words_signal add_nop_a1_3_parsed add_nop_a1_3_resolved
      ⟨⟨"a1", by decide⟩, ⟨"3", by decide⟩, ⟨"r0", by decide⟩, ⟨"r0", by decide⟩⟩
      rfl rfl rfl rfl
      (by
        intro r hr _ h32
        simp only [alu_srcs, add_nop_a1_3_parsed, add_nop_a1_3, add_nop_slot, alu_op_nop,
          List.mem_cons, List.mem_singleton, List.not_mem_nil, or_false,
          src.ST_REG.injEq] at hr
        rcases hr with rfl | rfl | rfl | rfl <;> simp at h32)
      (by decide)
  exact ⟨j, by decide, hj, h0, h1 ⟨3, by decide⟩⟩

/-- C14. For a record of the ALU family (type ADD) or of the load-immediate family
(type LI) in which the condition of slot `k` (0 the add slot, otherwise the mul slot) is
Default, `gen_code` gives the same outcome, error code and the two encoding words, as for
the record that differs only in having that condition set to Always. -/
theorem gen_code_default_cond (instrs : List instr) (i : instr) (k : Nat)
    (ht : i.op0.type = .OP_TYPE_ADD ∨ i.op0.type = .OP_TYPE_LI)
    (hc : (get_op i k).cond_code = CC_DEFAULT) :
    words (gen_code instrs (set_cond i k CC_ALWAYS)) = words (gen_code instrs i) := by
  have key : ∀ R : instr → outcome,
      (R (set_cond i k CC_ALWAYS) = R i ∨
        ∃ e r, e ≠ .ERR_SUCCESS ∧ R i = some (e, r) ∧
          R (set_cond i k CC_ALWAYS) = some (e, set_cond r k CC_ALWAYS)) →
      words (match R (set_cond i k CC_ALWAYS) with
        | none => none
        | some (.ERR_SUCCESS, i1) =>
          match i1.op0.type with
          | .OP_TYPE_ADD => (alu_gen_code i1).map fun i2 => (.ERR_SUCCESS, i2)
          | .OP_TYPE_LI => (lisem_gen_code i1).map fun i2 => (.ERR_SUCCESS, i2)
          | .OP_TYPE_SEM => (lisem_gen_code i1).map fun i2 => (.ERR_SUCCESS, i2)
          | .OP_TYPE_BRANCH => (branch_gen_code i1).map fun i2 => (.ERR_SUCCESS, i2)
          | .OP_TYPE_MUL => some (.ERR_SYNTAX, i1)
        | some (e, i1) => some (e, i1)) =
      words (match R i with
        | none => none
        | some (.ERR_SUCCESS, i1) =>
          match i1.op0.type with
          | .OP_TYPE_ADD => (alu_gen_code i1).map fun i2 => (.ERR_SUCCESS, i2)
          | .OP_TYPE_LI => (lisem_gen_code i1).map fun i2 => (.ERR_SUCCESS, i2)
          | .OP_TYPE_SEM => (lisem_gen_code i1).map fun i2 => (.ERR_SUCCESS, i2)
          | .OP_TYPE_BRANCH => (branch_gen_code i1).map fun i2 => (.ERR_SUCCESS, i2)
          | .OP_TYPE_MUL => some (.ERR_SYNTAX, i1)
        | some (e, i1) => some (e, i1)) := by
    intro R hR
    rcases hR with h | ⟨e, r, he, h1, h2⟩
    · rw [h]
    · rw [h1, h2]
      cases e
      · exact absurd rfl he
      all_goals simp only [words, Option.map_some', (set_cond_words r k CC_ALWAYS).1,
        (set_cond_words r k CC_ALWAYS).2]
  unfold gen_code
  rw [set_cond_type]
  rcases ht with ht | ht
  · simp only [ht]
    exact key _ (alu_resolve_instr_default i k hc)
  · simp only [ht]
    exact key _ (lisem_resolve_instr_default i k (by rw [ht]; decide) hc)

/-- C14 at concrete inputs: `add r0, a1, 3  fmul r1, a1, 3` with the add condition
written `.a`, and `li r0, r1, 16` with the mul condition written `.a`. -/
theorem gen_code_default_cond_witness :
    words (gen_code [] (set_cond (instr_of_ops [] 0 add_r0_a1_3 fmul_r1_a1_3) 0 CC_ALWAYS)) =
      words (gen_code [] (instr_of_ops [] 0 add_r0_a1_3 fmul_r1_a1_3)) ∧
    words (gen_code [] (instr_of_ops [] 0 add_r0_a1_3 fmul_r1_a1_3)) =
      some (.ERR_SUCCESS, 0x2c043df7, 0xd0024821) ∧
    words (gen_code [] (set_cond li_r0_r1_16 1 CC_ALWAYS)) = words (gen_code [] li_r0_r1_16) ∧
    words (gen_code [] li_r0_r1_16) = some (.ERR_SUCCESS, 16, 0xe0024821) :=
  ⟨gen_code_default_cond [] (instr_of_ops [] 0 add_r0_a1_3 fmul_r1_a1_3) 0 (Or.inl rfl) rfl,
   by decide,
   gen_code_default_cond [] li_r0_r1_16 1 (Or.inr rfl) rfl,
   by decide⟩

/-- C15. For a resolved ALU instruction (sources in files accumulator, A, B or small
immediate, accumulator numbers 0..5, other numbers below 64, one number on each read
port, conditions 0..7, `write_swap` and `set_flag` 0 or 1), `alu_gen_code` returns with
the low word `mux(mul src1) | mux(mul src0)<<3 | mux(add src1)<<6 | mux(add src0)<<9 |
raddr_b<<12 | raddr_a<<18 | (add opcode mod 32)<<24 | (mul opcode mod 8)<<29` and the
high word `(mul dst mod 64) | (add dst mod 64)<<6 | write_swap<<12 | set_flag<<13 |
mul_cond<<14 | add_cond<<17 | (signal mod 16)<<28`, where `raddr_a` is the number of
the file-A read (0 if none) and `raddr_b` that of the file-B / small-immediate read (0 if
none); `bits_get` recovers every field, and the pack, pack-mode and unpack fields are 0. -/
theorem alu_gen_code_layout (i : instr) (r0 r1 r2 r3 : reg)
    (hs0 : i.op0.src0 = .ST_REG r0) (hs1 : i.op0.src1 = .ST_REG r1)
    (hs2 : i.op1.src0 = .ST_REG r2) (hs3 : i.op1.src1 = .ST_REG r3)
    (hrf : ∀ r ∈ [r0, r1, r2, r3], r.rf ≠ .RF_AB ∧ (r.rf = .RF_R → r.num ≤ 5) ∧ r.num < 64)
    (hA : ∀ r ∈ [r0, r1, r2, r3], ∀ r' ∈ [r0, r1, r2, r3],
      r.rf = .RF_A → r'.rf = .RF_A → r.num = r'.num)
    (hB : ∀ r ∈ [r0, r1, r2, r3], ∀ r' ∈ [r0, r1, r2, r3],
      on_port_b r → on_port_b r' → r.num = r'.num)
    (hc0 : i.op0.cond_code ≤ 7) (hc1 : i.op1.cond_code ≤ 7)
    (hws : i.write_swap ≤ 1) (hsf : i.set_flag ≤ 1) :
    ∃ i' ra rb, alu_gen_code i = some i' ∧
      (∀ r ∈ [r0, r1, r2, r3], r.rf = .RF_A → ra = r.num) ∧
      ((∀ r ∈ [r0, r1, r2, r3], r.rf ≠ .RF_A) → ra = 0) ∧
      (∀ r ∈ [r0, r1, r2, r3], on_port_b r → rb = r.num) ∧
      ((∀ r ∈ [r0, r1, r2, r3], ¬ on_port_b r) → rb = 0) ∧
      i'.encoding0 =
        mux r3 ||| mux r2 <<< 3 ||| mux r1 <<< 6 ||| mux r0 <<< 9 ||| rb <<< 12 ||| ra <<< 18 |||
          (i.op0.code % 32) <<< 24 ||| (i.op1.code % 8) <<< 29 ∧
      i'.encoding1 =
        i.op1.dst.num % 64 ||| (i.op0.dst.num % 64) <<< 6 ||| i.write_swap <<< 12 |||
          i.set_flag <<< 13 ||| i.op1.cond_code <<< 14 ||| i.op0.cond_code <<< 17 |||
          (i.signal % 16) <<< 28 ∧
      bits_get i'.encoding0 MUL_B = mux r3 ∧ bits_get i'.encoding0 MUL_A = mux r2 ∧
      bits_get i'.encoding0 ADD_B = mux r1 ∧ bits_get i'.encoding0 ADD_A = mux r0 ∧
      bits_get i'.encoding0 RADDR_B = rb ∧ bits_get i'.encoding0 RADDR_A = ra ∧
      bits_get i'.encoding0 ADD_OP = i.op0.code % 32 ∧
      bits_get i'.encoding0 MUL_OP = i.op1.code % 8 ∧
      bits_get i'.encoding1 MUL_DST = i.op1.dst.num % 64 ∧
      bits_get i'.encoding1 ADD_DST = i.op0.dst.num % 64 ∧
      bits_get i'.encoding1 WS = i.write_swap ∧ bits_get i'.encoding1 SF = i.set_flag ∧
      bits_get i'.encoding1 MUL_COND = i.op1.cond_code ∧
      bits_get i'.encoding1 ADD_COND = i.op0.cond_code ∧
      bits_get i'.encoding1 PACK = 0 ∧ bits_get i'.encoding1 PM = 0 ∧
      bits_get i'.encoding1 UNPACK = 0 ∧ bits_get i'.encoding1 SIG = i.signal % 16 := by
  obtain ⟨n0, a0, b0⟩ := hrf r0 (by simp)
  obtain ⟨n1, a1, b1⟩ := hrf r1 (by simp)
  obtain ⟨n2, a2, b2⟩ := hrf r2 (by simp)
  obtain ⟨n3, a3, b3⟩ := hrf r3 (by simp)
  have hc0 : @LE.le Nat _ i.op0.cond_code 7 := hc0
  have hc1 : @LE.le Nat _ i.op1.cond_code 7 := hc1
  have hd0 : i.op0.cond_code ≠ CC_DEFAULT := by
    intro h
    rw [h] at hc0
    exact absurd hc0 (by decide)
  have hd1 : i.op1.cond_code ≠ CC_DEFAULT := by
    intro h
    rw [h] at hc1
    exact absurd hc1 (by decide)
  have m0 := mux_lt a0
  have m1 := mux_lt a1
  have m2 := mux_lt a2
  have m3 := mux_lt a3
  refine ⟨_,
    (if r3.rf = .RF_A then r3.num else if r2.rf = .RF_A then r2.num
      else if r1.rf = .RF_A then r1.num else if r0.rf = .RF_A then r0.num else 0),
    (if on_port_b r3 then r3.num else if on_port_b r2 then r2.num
      else if on_port_b r1 then r1.num else if on_port_b r0 then r0.num else 0),
    alu_gen_code_eq i r0 r1 r2 r3 hs0 hs1 hs2 hs3 n0 n1 n2 n3 hd0 hd1, ?_, ?_, ?_, ?_, ?_⟩
  · intro r hr hf
    have k0 := hA r hr r0 (by simp) hf
    have k1 := hA r hr r1 (by simp) hf
    have k2 := hA r hr r2 (by simp) hf
    have k3 := hA r hr r3 (by simp) hf
    simp only [List.mem_cons, List.mem_singleton, List.not_mem_nil, or_false] at hr
    split_ifs with c3 c2 c1 c0
    · exact (k3 c3).symm
    · exact (k2 c2).symm
    · exact (k1 c1).symm
    · exact (k0 c0).symm
    · rcases hr with rfl | rfl | rfl | rfl <;> contradiction
  · intro hno
    simp [hno r0 (by simp), hno r1 (by simp), hno r2 (by simp), hno r3 (by simp)]
  · intro r hr hf
    have k0 := hB r hr r0 (by simp) hf
    have k1 := hB r hr r1 (by simp) hf
    have k2 := hB r hr r2 (by simp) hf
    have k3 := hB r hr r3 (by simp) hf
    simp only [List.mem_cons, List.mem_singleton, List.not_mem_nil, or_false] at hr
    split_ifs with c3 c2 c1 c0
    · exact (k3 c3).symm
    · exact (k2 c2).symm
    · exact (k1 c1).symm
    · exact (k0 c0).symm
    · rcases hr with rfl | rfl | rfl | rfl <;> contradiction
  · intro hno
    simp [hno r0 (by simp), hno r1 (by simp), hno r2 (by simp), hno r3 (by simp)]
  · have hra : (if r3.rf = .RF_A then r3.num else if r2.rf = .RF_A then r2.num
        else if r1.rf = .RF_A then r1.num else if r0.rf = .RF_A then r0.num else 0) < 64 := by
      split_ifs <;> omega
    have hrb : (if on_port_b r3 then r3.num else if on_port_b r2 then r2.num
        else if on_port_b r1 then r1.num else if on_port_b r0 then r0.num else 0) < 64 := by
      split_ifs <;> omega
    simp only
    rw [alu_low_eq _ _ _ _ _ _ _ _ m0 m1 m2 m3 hra hrb, alu_high_eq _ _ _ _ _ _ _ hws hsf hc0 hc1]
    generalize (if r3.rf = .RF_A then r3.num else if r2.rf = .RF_A then r2.num
        else if r1.rf = .RF_A then r1.num else if r0.rf = .RF_A then r0.num else 0) = ra at hra ⊢
    generalize (if on_port_b r3 then r3.num else if on_port_b r2 then r2.num
        else if on_port_b r1 then r1.num else if on_port_b r0 then r0.num else 0) = rb at hrb ⊢
    have lo := alu_low_sum (mux r0) (mux r1) (mux r2) (mux r3) ra rb i.op0.code i.op1.code
      m0 m1 m2 m3 hra hrb
    have hi := alu_high_sum i.op0.dst.num i.op1.dst.num i.write_swap i.set_flag
      i.op0.cond_code i.op1.cond_code i.signal hws hsf hc0 hc1
    generalize (mux r3 ||| mux r2 <<< 3 ||| mux r1 <<< 6 ||| mux r0 <<< 9 ||| rb <<< 12 |||
      ra <<< 18 ||| (i.op0.code % 32) <<< 24 ||| (i.op1.code % 8) <<< 29) = L at lo ⊢
    generalize (i.op1.dst.num % 64 ||| (i.op0.dst.num % 64) <<< 6 ||| i.write_swap <<< 12 |||
      i.set_flag <<< 13 ||| i.op1.cond_code <<< 14 ||| i.op0.cond_code <<< 17 |||
      (i.signal % 16) <<< 28) = H at hi ⊢
    have uL : u32 L = L := by unfold u32; omega
    have uH : u32 H = H := by unfold u32; omega
    rw [uL, uH]
    simp only [bits_get_eq, MUL_B, MUL_A, ADD_B, ADD_A, RADDR_B, RADDR_A, ADD_OP, MUL_OP,
      MUL_DST, ADD_DST, WS, SF, MUL_COND, ADD_COND, PACK, PM, UNPACK, SIG]
    refine ⟨trivial, trivial, ?_, ?_, ?_, ?_, ?_, ?_, ?_, ?_, ?_, ?_, ?_, ?_, ?_, ?_, ?_, ?_, ?_, ?_⟩ <;>
      omega

/-- C15 at a concrete input: `add r0, a1, 3  fmul r1, a1, 3` resolves to a record whose
words are 0x2c043df7 and 0xd0024821. -/
theorem alu_gen_code_layout_witness :
    alu_resolve_instr (instr_of_ops [] 0 add_r0_a1_3 fmul_r1_a1_3) =
      some (.ERR_SUCCESS, add_fmul_a1_3_resolved) ∧
    ∃ i', alu_gen_code add_fmul_a1_3_resolved = some i' ∧
      i'.encoding0 = 0x2c043df7 ∧ i'.encoding1 = 0xd0024821 ∧
      bits_get i'.encoding0 RADDR_A = 1 ∧ bits_get i'.encoding0 RADDR_B = 3 ∧
      bits_get i'.encoding1 SIG = 13 := by
  refine ⟨by decide, ?_⟩
  obtain ⟨i', ra, rb, h, hA, _, hB, _, e0, e1, _, _, _, _, gb, ga, _, _, _, _, _, _, _, _, _,
      _, _, gs⟩ :=
    alu_gen_code_layout add_fmul_a1_3_resolved ⟨.RF_A, 1⟩ ⟨.RF_SIMM, 3⟩ ⟨.RF_A, 1⟩
      ⟨.RF_SIMM, 3⟩ rfl rfl rfl rfl (by decide) (by decide) (by decide) (by decide)
      (by decide) (by decide) (by decide)
  have ha : ra = 1 := hA ⟨.RF_A, 1⟩ (by simp) rfl
  have hb : rb = 3 := hB ⟨.RF_SIMM, 3⟩ (by simp) (Or.inr rfl)
  subst ha hb
  exact ⟨i', h, by rw [e0]; decide, by rw [e1]; decide, ga, gb, by rw [gs]; decide⟩

/-- C16. For a record of the load-immediate family whose first source is the immediate
`imm` (below 2^32), with conditions and unpack 0..7, `write_swap` and `set_flag` 0 or 1
and signal 14, `lisem_gen_code` returns with the high word `(mul dst mod 64) |
(add dst mod 64)<<6 | write_swap<<12 | set_flag<<13 | mul_cond<<14 | add_cond<<17 |
unpack<<25 | 14<<28`; the low word is `imm` for type LI (li, lis, liu), and for type SEM
with `imm` in 0..15 it is `imm` for semup and `imm + 16` for semdn; `bits_get` recovers
every field of the high word. -/
theorem lisem_gen_code_layout (i : instr) (imm : Nat)
    (hs : i.op0.src0 = .ST_IMM32 imm) (himm : imm < 2 ^ 32)
    (hc0 : i.op0.cond_code ≤ 7) (hc1 : i.op1.cond_code ≤ 7) (hun : i.unpack ≤ 7)
    (hws : i.write_swap ≤ 1) (hsf : i.set_flag ≤ 1) (hsig : i.signal = 14) :
    ∃ i', lisem_gen_code i = some i' ∧
      i'.encoding1 =
        i.op1.dst.num % 64 ||| (i.op0.dst.num % 64) <<< 6 ||| i.write_swap <<< 12 |||
          i.set_flag <<< 13 ||| i.op1.cond_code <<< 14 ||| i.op0.cond_code <<< 17 |||
          i.unpack <<< 25 ||| 14 <<< 28 ∧
      (i.op0.type = .OP_TYPE_LI → i'.encoding0 = imm) ∧
      (i.op0.type = .OP_TYPE_SEM → imm ≤ 15 →
        (i.op0.code = OP_SEMUP → i'.encoding0 = imm) ∧
        (i.op0.code = OP_SEMDN → i'.encoding0 = imm + 16)) ∧
      bits_get i'.encoding1 MUL_DST = i.op1.dst.num % 64 ∧
      bits_get i'.encoding1 ADD_DST = i.op0.dst.num % 64 ∧
      bits_get i'.encoding1 WS = i.write_swap ∧ bits_get i'.encoding1 SF = i.set_flag ∧
      bits_get i'.encoding1 MUL_COND = i.op1.cond_code ∧
      bits_get i'.encoding1 ADD_COND = i.op0.cond_code ∧
      bits_get i'.encoding1 PACK = 0 ∧ bits_get i'.encoding1 PM = 0 ∧
      bits_get i'.encoding1 UNPACK = i.unpack ∧ bits_get i'.encoding1 SIG = 14 := by
  have hc0 : @LE.le Nat _ i.op0.cond_code 7 := hc0
  have hc1 : @LE.le Nat _ i.op1.cond_code 7 := hc1
  unfold lisem_gen_code
  simp only [hs]
  refine ⟨_, rfl, ?_, ?_, ?_, ?_⟩
  · simp only
    rw [lisem_high_eq _ _ _ _ _ _ _ _ hws hsf hc0 hc1 hun, hsig]
    have hi := lisem_high_sum i.op0.dst.num i.op1.dst.num i.write_swap i.set_flag
      i.op0.cond_code i.op1.cond_code i.unpack 14 hws hsf hc0 hc1 hun
    norm_num at hi ⊢
    rw [hi]
    unfold u32
    omega
  · intro ht
    simp only [ht, reduceCtorEq, if_false]
    unfold u32
    omega
  · intro ht h15
    obtain ⟨e1, e2⟩ := sem_low imm h15
    constructor
    · intro hcode
      have hne : ¬ OP_SEMUP = OP_SEMDN := by decide
      simp only [ht, hcode, hne, if_true, if_false, e1]
      unfold u32
      omega
    · intro hcode
      simp only [ht, hcode, if_true, e2]
      unfold u32
      omega
  · simp only
    rw [lisem_high_eq _ _ _ _ _ _ _ _ hws hsf hc0 hc1 hun, hsig]
    have hi := lisem_high_sum i.op0.dst.num i.op1.dst.num i.write_swap i.set_flag
      i.op0.cond_code i.op1.cond_code i.unpack 14 hws hsf hc0 hc1 hun
    generalize (i.op1.dst.num % 64 ||| (i.op0.dst.num % 64) <<< 6 ||| i.write_swap <<< 12 |||
      i.set_flag <<< 13 ||| i.op1.cond_code <<< 14 ||| i.op0.cond_code <<< 17 |||
      i.unpack <<< 25 ||| (14 % 16) <<< 28) = H at hi ⊢
    have uH : u32 H = H := by unfold u32; omega
    rw [uH]
    simp only [bits_get_eq, MUL_DST, ADD_DST, WS, SF, MUL_COND, ADD_COND, PACK, PM, UNPACK, SIG]
    refine ⟨?_, ?_, ?_, ?_, ?_, ?_, ?_, ?_, ?_, ?_⟩ <;> omega

/-- C16 at concrete inputs: `li r0, r1, 16` resolves to a record with the words 16 and
0xe0024821; `semup 3` has the low word 3 and `semdn 3` the low word 19. -/
theorem lisem_gen_code_layout_witness :
    lisem_resolve_instr li_r0_r1_16 = some (.ERR_SUCCESS, li_r0_r1_16_resolved) ∧
    (∃ i', lisem_gen_code li_r0_r1_16_resolved = some i' ∧ i'.encoding0 = 16 ∧
      i'.encoding1 = 0xe0024821) ∧
    (lisem_gen_code semup_3).map (fun j => (j.encoding0, j.encoding1)) =
      some (3, 0xe80209c0) ∧
    (lisem_gen_code { semup_3 with op0 := { semup_3.op0 with code := OP_SEMDN } }).map
      (fun j => (j.encoding0, j.encoding1)) = some (19, 0xe80209c0) := by
  refine ⟨by decide, ?_, by decide, by decide⟩
  obtain ⟨i', h, e1, e0, _⟩ :=
    lisem_gen_code_layout li_r0_r1_16_resolved 16 rfl (by decide) (by decide) (by decide)
      (by decide) (by decide) (by decide) rfl
  exact ⟨i', h, e0 rfl, by rw [e1]; decide⟩

/-- C17 (counterexample). The resolved register-form branch `b r0, r1, a5, 0` is encoded
with low word 0, the immediate operand: the register index 5 and the mode bits
(register 1, relative 0) are in the high word 0xf0f4a821; with the immediate 0x100 the
low word is 0x100 and the high word is the same. -/
theorem branch_gen_code_reg_low_word :
    branch_parse_instr b_a5_tokens b_a5_text = some (.ERR_SUCCESS, b_a5_parsed) ∧
    branch_resolve_instr [] b_a5_parsed = some (.ERR_SUCCESS, b_a5_resolved) ∧
    (branch_gen_code b_a5_resolved).map (fun j => (j.encoding0, j.encoding1,
        bits_get j.encoding1 BR_RADDR_A, bits_get j.encoding1 BR_REG,
        bits_get j.encoding1 BR_REL)) = some (0, 0xf0f4a821, 5, 1, 0) ∧
    (branch_gen_code
        { b_a5_resolved with op0 := { b_a5_resolved.op0 with src1 := .ST_IMM32 0x100 } }).map
      (fun j => (j.encoding0, j.encoding1)) = some (0x100, 0xf0f4a821) := by
  decide

/-- C17 (amended). For a resolved branch record (`write_swap` 0 or 1): in the register
form (`branch_rel = 0`, `branch_reg` set, `op[0].src[0]` the file-A register `n < 32`,
`op[0].src[1]` the immediate `m`) `branch_gen_code` returns with the low word `m`, and
the register index and the mode bits are fields of the high word (`BR_RADDR_A` = `n`,
`BR_REG` = 1, `BR_REL` = 0); in the label form (`branch_rel` set, `op[0].src[0]` the
relocated displacement `d`) the low word is `d` and the high word has `BR_REL` = 1,
`BR_REG` = 0. -/
theorem branch_gen_code_words (i : instr) (hws : i.write_swap ≤ 1) :
    (∀ n m, i.branch_rel = 0 → i.branch_reg ≠ 0 → i.op0.src0 = .ST_REG ⟨.RF_A, n⟩ → n < 32 →
      i.op0.src1 = .ST_IMM32 m →
      ∃ i', branch_gen_code i = some i' ∧ i'.encoding0 = m ∧
        bits_get i'.encoding1 BR_RADDR_A = n ∧ bits_get i'.encoding1 BR_REG = 1 ∧
        bits_get i'.encoding1 BR_REL = 0) ∧
    (∀ d, i.branch_rel ≠ 0 → i.op0.src0 = .ST_IMM32 d →
      ∃ i', branch_gen_code i = some i' ∧ i'.encoding0 = d ∧
        bits_get i'.encoding1 BR_RADDR_A = 0 ∧ bits_get i'.encoding1 BR_REG = 0 ∧
        bits_get i'.encoding1 BR_REL = 1) := by
  constructor
  · intro n m hrel hreg h0 hn h1
    unfold branch_gen_code
    simp only [hrel, hreg, h0, h1, ne_eq, not_true_eq_false, not_false_eq_true, if_true, if_false]
    refine ⟨_, rfl, rfl, ?_⟩
    simp only
    rw [branch_high_reg _ _ _ _ _ _ hws hn]
    simp only [bits_get_eq, u32, BR_RADDR_A, BR_REG, BR_REL]
    refine ⟨?_, ?_, ?_⟩ <;> omega
  · intro d hrel h0
    unfold branch_gen_code
    simp only [hrel, h0, ne_eq, not_false_eq_true, if_true]
    refine ⟨_, rfl, rfl, ?_⟩
    simp only
    rw [branch_high_rel _ _ _ _ _ hws]
    simp only [bits_get_eq, u32, BR_RADDR_A, BR_REG, BR_REL]
    refine ⟨?_, ?_, ?_⟩ <;> omega

/-- C17 (amended) at concrete inputs: `b r0, r1, a5, 0` and `b r0, r1, L` resolved with
displacement 0xFFFFFFF8. -/
theorem branch_gen_code_words_witness :
    (∃ i', branch_gen_code b_a5_resolved = some i' ∧ i'.encoding0 = 0 ∧
      bits_get i'.encoding1 BR_RADDR_A = 5 ∧ bits_get i'.encoding1 BR_REG = 1 ∧
      bits_get i'.encoding1 BR_REL = 0) ∧
    (∃ i', branch_gen_code b_L_resolved = some i' ∧ i'.encoding0 = 0xFFFFFFF8 ∧
      bits_get i'.encoding1 BR_RADDR_A = 0 ∧ bits_get i'.encoding1 BR_REG = 0 ∧
      bits_get i'.encoding1 BR_REL = 1) :=
  ⟨(branch_gen_code_words b_a5_resolved (by decide)).1 5 0 rfl (by decide) rfl (by decide) rfl,
   (branch_gen_code_words b_L_resolved (by decide)).2 0xFFFFFFF8 (by decide) rfl⟩

/-- C18. For a record `i` that a successful `parse_instr` produced and whose first slot
has the type ADD (the ALU family), no `assert` of the ALU path fails: the four read
operands are register-typed; the masks exist and `masks[A] & masks[AB]` and
`masks[B] & masks[AB]` are 0; `alu_resolve_src_regfiles` and `alu_resolve_instr` return;
and whenever `alu_resolve_instr` succeeds with `i'`, both conditions of `i'` differ from
Default, its four read operands are registers in file accumulator, A, B or small
immediate (never AB), and `alu_gen_code` returns on `i'`. -/
theorem alu_path_asserts (i0 i : instr) (buf : List Char)
    (hp : parse_instr i0 buf = some (.ERR_SUCCESS, i)) (ht : i.op0.type = .OP_TYPE_ADD) :
    (∀ s ∈ alu_srcs i, ∃ r, s = .ST_REG r) ∧
    (∃ M, alu_src_masks i = some M ∧ M .RF_A &&& M .RF_AB = 0 ∧ M .RF_B &&& M .RF_AB = 0) ∧
    (∃ e i', alu_resolve_src_regfiles i = some (e, i')) ∧
    (∃ e i', alu_resolve_instr i = some (e, i')) ∧
    (∀ i', alu_resolve_instr i = some (.ERR_SUCCESS, i') →
      i'.op0.cond_code ≠ CC_DEFAULT ∧ i'.op1.cond_code ≠ CC_DEFAULT ∧
      (∀ s ∈ alu_srcs i', ∃ r, s = .ST_REG r ∧
        (r.rf = .RF_R ∨ r.rf = .RF_A ∨ r.rf = .RF_B ∨ r.rf = .RF_SIMM)) ∧
      ∃ j, alu_gen_code i' = some j) := by
  have hpar := parse_instr_alu hp ht
  have hreg := alu_srcs_parsed_reg hpar
  have hnum := alu_srcs_parsed_num hpar
  obtain ⟨M, hM⟩ := alu_src_masks_some hreg
  obtain ⟨d1, d2⟩ := alu_src_masks_disjoint hpar hM
  obtain ⟨e, i1, h1, he⟩ := alu_resolve_src_regfiles_returns hpar
  have post : ∀ i1, alu_resolve_src_regfiles i = some (.ERR_SUCCESS, i1) →
      ∀ i4, resolve_dst_regfiles
          { i1 with op0 := (alu_reduce_op i1.op0).2, op1 := (alu_reduce_op i1.op1).2 } =
          some (.ERR_SUCCESS, i4) →
      (zero_never_dsts i4).op0.cond_code ≠ CC_DEFAULT ∧
      (zero_never_dsts i4).op1.cond_code ≠ CC_DEFAULT ∧
      (∃ r, (zero_never_dsts i4).op0.src0 = .ST_REG r ∧ r.rf ≠ .RF_AB) ∧
      (∃ r, (zero_never_dsts i4).op0.src1 = .ST_REG r ∧ r.rf ≠ .RF_AB) ∧
      (∃ r, (zero_never_dsts i4).op1.src0 = .ST_REG r ∧ r.rf ≠ .RF_AB) ∧
      (∃ r, (zero_never_dsts i4).op1.src1 = .ST_REG r ∧ r.rf ≠ .RF_AB) := by
    intro i1 h1 i4 h4
    obtain ⟨M', m4, b0, b1, b2, b3, _, _, _, _, _, hc, rfl⟩ :=
      alu_resolve_src_regfiles_success hnum h1
    obtain ⟨r0, r1, r2, r3⟩ := ab_chain_rel hc
    obtain ⟨a0, a1, ac⟩ := alu_reduce_op_resolved
      (with_srcs { i with signal := if M' .RF_SIMM ≠ 0 then 13 else i.signal } b0 b1 b2 b3).op0
      (src_resolved_reg r0 (hreg _ (by simp [alu_srcs])))
      (src_resolved_reg r1 (hreg _ (by simp [alu_srcs])))
    obtain ⟨a2, a3, ad⟩ := alu_reduce_op_resolved
      (with_srcs { i with signal := if M' .RF_SIMM ≠ 0 then 13 else i.signal } b0 b1 b2 b3).op1
      (src_resolved_reg r2 (hreg _ (by simp [alu_srcs])))
      (src_resolved_reg r3 (hreg _ (by simp [alu_srcs])))
    rcases resolve_dst_regfiles_returns
      { with_srcs { i with signal := if M' .RF_SIMM ≠ 0 then 13 else i.signal } b0 b1 b2 b3 with
        op0 := (alu_reduce_op (with_srcs { i with signal := if M' .RF_SIMM ≠ 0 then 13
          else i.signal } b0 b1 b2 b3).op0).2,
        op1 := (alu_reduce_op (with_srcs { i with signal := if M' .RF_SIMM ≠ 0 then 13
          else i.signal } b0 b1 b2 b3).op1).2 } with hd | ⟨f0, f1, ws, hd⟩
    · rw [hd] at h4
      simp at h4
    · rw [hd] at h4
      simp only [Option.some.injEq, Prod.mk.injEq, true_and] at h4
      subst h4
      unfold zero_never_dsts
      simp only
      split_ifs <;> exact ⟨ac, ad, a0, a1, a2, a3⟩
  refine ⟨hreg, ⟨M, hM, d1, d2⟩, ⟨e, i1, h1⟩, ?_, ?_⟩
  · unfold alu_resolve_instr
    rw [h1]
    rcases he with rfl | rfl
    · simp only [alu_reduce_op_err, ne_eq, not_true_eq_false, if_false]
      rcases resolve_dst_regfiles_returns
        { i1 with op0 := (alu_reduce_op i1.op0).2, op1 := (alu_reduce_op i1.op1).2 } with
        hd | ⟨f0, f1, ws, hd⟩
      · rw [hd]
        exact ⟨_, _, rfl⟩
      · rw [hd]
        exact ⟨_, _, rfl⟩
    · exact ⟨_, _, rfl⟩
  · intro i' hi'
    obtain ⟨j1, j4, g1, g4, rfl⟩ := alu_resolve_instr_success hi'
    obtain ⟨c0, c1, ⟨r0, s0, n0⟩, ⟨r1, s1, n1⟩, ⟨r2, s2, n2⟩, ⟨r3, s3, n3⟩⟩ := post j1 g1 j4 g4
    have rf4 : ∀ r : reg, r.rf ≠ .RF_AB →
        (r.rf = .RF_R ∨ r.rf = .RF_A ∨ r.rf = .RF_B ∨ r.rf = .RF_SIMM) := by
      intro r hr
      cases hrf : r.rf <;> first | exact absurd hrf hr | simp
    refine ⟨c0, c1, ?_, ?_⟩
    · intro s hs
      simp only [alu_srcs, List.mem_cons, List.mem_singleton, List.not_mem_nil, or_false] at hs
      rcases hs with rfl | rfl | rfl | rfl
      · exact ⟨r0, s0, rf4 r0 n0⟩
      · exact ⟨r1, s1, rf4 r1 n1⟩
      · exact ⟨r2, s2, rf4 r2 n2⟩
      · exact ⟨r3, s3, rf4 r3 n3⟩
    · exact ⟨_, alu_gen_code_eq _ r0 r1 r2 r3 s0 s1 s2 s3 n0 n1 n2 n3 c0 c1⟩

/-- C18 at a concrete input: the line `add, r0, unif, vary fmul, r1, unif, r2;` parses,
resolves and is encoded as 0x2c823df2, 0x10024821. -/
theorem alu_path_asserts_witness :
    parse_instr unif_vary_line unif_vary_text = some (.ERR_SUCCESS, unif_vary_parsed) ∧
    (∃ e i', alu_resolve_instr unif_vary_parsed = some (e, i')) ∧
    (∀ i', alu_resolve_instr unif_vary_parsed = some (.ERR_SUCCESS, i') →
      ∃ j, alu_gen_code i' = some j) ∧
    words (gen_code [] unif_vary_parsed) = some (.ERR_SUCCESS, 0x2c823df2, 0x10024821) := by
  obtain ⟨_, _, _, hr, hg⟩ :=
    alu_path_asserts unif_vary_line unif_vary_parsed unif_vary_text (by decide) rfl
  exact ⟨by decide, hr, fun i' h => (hg i' h).2.2.2, by decide⟩

/-- C19. For a record `i` that a successful `branch_parse_instr` produced, whenever
`branch_resolve_instr` succeeds with `i'`: `op[0].src[0]` of `i'` is not a Label; for the
label form (`branch_rel = 1`) it is an Immediate32; for the register form
(`branch_reg = 1`) it is a file-A register with number below 32 and `op[0].src[1]` is an
Immediate32; and `branch_gen_code` returns on `i'` (none of its assertions fails). -/
theorem branch_no_label_after_resolve (instrs : List instr) (i0 i i' : instr)
    (buf : List Char)
    (hp : branch_parse_instr i0 buf = some (.ERR_SUCCESS, i))
    (hr : branch_resolve_instr instrs i = some (.ERR_SUCCESS, i')) :
    (∀ l, i'.op0.src0 ≠ .ST_LABEL l) ∧
    (i.branch_rel = 1 → ∃ d, i'.op0.src0 = .ST_IMM32 d) ∧
    (i.branch_reg = 1 → ∃ n m, n < 32 ∧ i'.op0.src0 = .ST_REG ⟨.RF_A, n⟩ ∧
      i'.op0.src1 = .ST_IMM32 m) ∧
    ∃ j, branch_gen_code i' = some j := by
  unfold branch_parse_instr at hp
  obtain ⟨j0, j1, tok, _, ht, _⟩ := branch_parse_head_success hp
  unfold branch_resolve_instr at hr
  rcases resolve_dst_regfiles_returns i with hd | ⟨f0, f1, ws, hd⟩
  · rw [hd] at hr
    simp at hr
  · rw [hd] at hr
    simp only at hr
    rcases branch_parse_target_success ht with ⟨e, m, c, he, rfl⟩ | ⟨c, hn, rfl⟩
    · obtain ⟨hlt, _⟩ := (find_a_reg tok).1 e he
      simp only [Option.some.injEq, Prod.mk.injEq, true_and] at hr
      subst hr
      refine ⟨fun l => by simp, fun h01 => by simp at h01, fun _ => ⟨e.2, m, hlt, rfl, rfl⟩, ?_⟩
      unfold branch_gen_code
      simp
    · simp only at hr
      split at hr
      · simp at hr
      · rename_i ti hti
        simp only [Option.some.injEq, Prod.mk.injEq, true_and] at hr
        subst hr
        refine ⟨fun l => by simp, fun _ => ⟨_, rfl⟩, fun h01 => by simp at h01, ?_⟩
        unfold branch_gen_code
        simp

/-- C19 at concrete inputs: `b, r0, r1, a5, 0;` and `b, r0, r1, L;` with `L` at
address 24. -/
theorem branch_no_label_after_resolve_witness :
    ((∀ l, b_a5_resolved.op0.src0 ≠ .ST_LABEL l) ∧
      (b_a5_parsed.branch_rel = 1 → ∃ d, b_a5_resolved.op0.src0 = .ST_IMM32 d) ∧
      (b_a5_parsed.branch_reg = 1 → ∃ n m, n < 32 ∧
        b_a5_resolved.op0.src0 = .ST_REG ⟨.RF_A, n⟩ ∧ b_a5_resolved.op0.src1 = .ST_IMM32 m) ∧
      ∃ j, branch_gen_code b_a5_resolved = some j) ∧
    ((∀ l, b_L_resolved.op0.src0 ≠ .ST_LABEL l) ∧
      (b_L_parsed.branch_rel = 1 → ∃ d, b_L_resolved.op0.src0 = .ST_IMM32 d) ∧
      (b_L_parsed.branch_reg = 1 → ∃ n m, n < 32 ∧
        b_L_resolved.op0.src0 = .ST_REG ⟨.RF_A, n⟩ ∧ b_L_resolved.op0.src1 = .ST_IMM32 m) ∧
      ∃ j, branch_gen_code b_L_resolved = some j) :=
  ⟨branch_no_label_after_resolve [] b_a5_tokens b_a5_parsed b_a5_resolved b_a5_text
      (by decide) (by decide),
   branch_no_label_after_resolve branch_program b_L_tokens b_L_parsed b_L_resolved b_L_text
      (by decide) (by decide)⟩

/-- C20. Whenever `branch_parse_instr` succeeds, the target token `tok` (the last token
that the common part reads with `get_next_token` before the target is examined) decides
the form: exactly one of `branch_reg`, `branch_rel` is 1 and the other is 0; `branch_reg`
is 1 exactly when `tok` is one of `a0` .. `a31`, and then `op[0].src[0]` is that file-A
register; `branch_rel` is 1 exactly otherwise, and then `op[0].src[0]` is the Label
`tok`. -/
theorem branch_parse_instr_modes (i i' : instr) (buf : List Char)
    (h : branch_parse_instr i buf = some (.ERR_SUCCESS, i')) :
    ∃ i0 i1 tok, get_next_token i0 buf = some (.ERR_SUCCESS, i1, tok) ∧
      branch_parse_target i1 buf tok = some (.ERR_SUCCESS, i') ∧
      ((i'.branch_reg = 1 ∧ i'.branch_rel = 0) ∨ (i'.branch_reg = 0 ∧ i'.branch_rel = 1)) ∧
      (i'.branch_reg = 1 ↔ ∃ n, n < 32 ∧ tok = "a" ++ toString n) ∧
      (∀ n, n < 32 → tok = "a" ++ toString n → i'.op0.src0 = .ST_REG ⟨.RF_A, n⟩) ∧
      (i'.branch_rel = 1 ↔ ¬ ∃ n, n < 32 ∧ tok = "a" ++ toString n) ∧
      ((¬ ∃ n, n < 32 ∧ tok = "a" ++ toString n) → i'.op0.src0 = .ST_LABEL tok) := by
  unfold branch_parse_instr at h
  obtain ⟨i0, i1, tok, hg, ht, _⟩ := branch_parse_head_success h
  refine ⟨i0, i1, tok, hg, ht, ?_⟩
  obtain ⟨hsome, hnone⟩ := find_a_reg tok
  rcases branch_parse_target_success ht with ⟨e, m, c, he, rfl⟩ | ⟨c, hn, rfl⟩
  · obtain ⟨hlt, hname⟩ := hsome e he
    have hex : ∃ n, n < 32 ∧ tok = "a" ++ toString n := ⟨e.2, hlt, hname⟩
    refine ⟨Or.inl ⟨rfl, rfl⟩, ⟨fun _ => hex, fun _ => rfl⟩, ?_, ?_, fun hno => absurd hex hno⟩
    · intro n hn hn'
      have : e.2 = n := a_regs_inj _ hlt _ hn (hname.symm.trans hn')
      subst this
      rfl
    · constructor
      · intro h01
        simp at h01
      · intro hno
        exact absurd hex hno
  · have hno := hnone hn
    refine ⟨Or.inr ⟨rfl, rfl⟩, ⟨fun h01 => ?_, fun hex => absurd hex hno⟩, ?_,
      ⟨fun _ => hno, fun _ => rfl⟩, fun _ => rfl⟩
    · simp at h01
    · intro n hn hn'
      exact absurd ⟨n, hn, hn'⟩ hno

/-- C20 at concrete inputs: `b, r0, r1, a5, 0;` (register form) and `b, r0, r1, L;`
(label form). -/
theorem branch_parse_instr_modes_witness :
    (b_a5_parsed.branch_reg = 1 ∧ b_a5_parsed.op0.src0 = .ST_REG ⟨.RF_A, 5⟩) ∧
    (b_L_parsed.branch_rel = 1 ∧ b_L_parsed.op0.src0 = .ST_LABEL "L") ∧
    ((b_a5_parsed.branch_reg = 1 ∧ b_a5_parsed.branch_rel = 0) ∨
      (b_a5_parsed.branch_reg = 0 ∧ b_a5_parsed.branch_rel = 1)) ∧
    ((b_L_parsed.branch_reg = 1 ∧ b_L_parsed.branch_rel = 0) ∨
      (b_L_parsed.branch_reg = 0 ∧ b_L_parsed.branch_rel = 1)) := by
  obtain ⟨_, _, _, _, _, ha, _⟩ :=
    branch_parse_instr_modes b_a5_tokens b_a5_parsed b_a5_text (by decide)
  obtain ⟨_, _, _, _, _, hl, _⟩ :=
    branch_parse_instr_modes b_L_tokens b_L_parsed b_L_text (by decide)
  exact ⟨by decide, by decide, ha, hl⟩

/-- C21. For a record whose first slot is what `parse_op_code` stores for the branch
mnemonic `m`, whenever `branch_parse_instr` succeeds the stored condition is 15 for
`b` (with or without a suffix) and `(flag class)<<2 | any<<1 | negate` for a conditional
mnemonic, where `any` is 1 exactly when the token after the mnemonic is `.` and the next
one is `any`; the value is in 0..11 or is 15. -/
theorem branch_parse_instr_cond (i i' : instr) (buf : List Char) (m : String) (o : op)
    (hm : parse_op_code m o = some i.op0) (hty : i.op0.type = .OP_TYPE_BRANCH)
    (h : branch_parse_instr i buf = some (.ERR_SUCCESS, i')) :
    ∃ i1 t1, get_next_token { i with signal := 15 } buf = some (.ERR_SUCCESS, i1, t1) ∧
      ∃ any : Nat, (any = 0 ∨ any = 1) ∧
        (any = 1 ↔ (t1 = "." ∧ ∃ i2, get_next_token i1 buf = some (.ERR_SUCCESS, i2, "any"))) ∧
        (m = "b" → i'.op0.cond_code = 15) ∧
        (m ≠ "b" →
          i'.op0.cond_code = br_flag_class m <<< 2 ||| any <<< 1 ||| br_negate m) ∧
        (i'.op0.cond_code ≤ 11 ∨ i'.op0.cond_code = 15) := by
  have hmem := parse_op_code_branch hm hty
  unfold branch_parse_instr at h
  obtain ⟨i1, t1, g1, is_all, j1, tok, hk, hc, hcc, hsuf⟩ := branch_parse_head_cond h
  have hi' : i'.op0.cond_code = branch_cond i.op0.code is_all := by
    rcases branch_parse_target_success hk with ⟨e, m', c, _, rfl⟩ | ⟨c, _, rfl⟩
    · exact hcc
    · exact hcc
  have hin : is_all ∈ [(-1 : Int), 0, 1] := by
    rcases hsuf with ⟨_, rfl⟩ | ⟨_, _, _, _, ⟨_, rfl⟩ | ⟨_, rfl⟩⟩ <;> simp
  obtain ⟨hval, hrange⟩ := branch_cond_table (m, i.op0.code) hmem is_all hin
  simp only at hval hrange
  refine ⟨i1, t1, g1, if is_all = 0 then 1 else 0, ?_, ?_, ?_, ?_, ?_⟩
  · split <;> simp
  · constructor
    · intro h1
      have h0 : is_all = 0 := by
        by_contra hne
        simp [hne] at h1
      rcases hsuf with ⟨_, rfl⟩ | ⟨hdot, i2, t2, g2, ⟨_, rfl⟩ | ⟨hany, _⟩⟩
      · simp at h0
      · simp at h0
      · exact ⟨hdot, i2, by rw [g2, hany]⟩
    · rintro ⟨hdot, i2, g2⟩
      rcases hsuf with ⟨hnd, _⟩ | ⟨_, i2', t2, g2', ⟨hall, _⟩ | ⟨_, rfl⟩⟩
      · exact absurd hdot hnd
      · rw [g2] at g2'
        simp only [Option.some.injEq, Prod.mk.injEq, true_and] at g2'
        rw [← g2'.2] at hall
        exact absurd hall (by decide)
      · simp
  · intro hb
    rw [hi', hval, if_pos hb]
  · intro hb
    rw [hi', hval, if_neg hb]
  · rw [hi']
    exact hrange

/-- C21 at a concrete input: the branch `bnz.any, r0, r1, L;`, condition 3. -/
theorem branch_parse_instr_cond_witness :
    ∃ i1 t1, get_next_token { bnz_any_tokens with signal := 15 } bnz_any_text =
        some (.ERR_SUCCESS, i1, t1) ∧
      ∃ any : Nat, (any = 0 ∨ any = 1) ∧
        (any = 1 ↔
          (t1 = "." ∧ ∃ i2, get_next_token i1 bnz_any_text = some (.ERR_SUCCESS, i2, "any"))) ∧
        ("bnz" = "b" → bnz_any_parsed.op0.cond_code = 15) ∧
        ("bnz" ≠ "b" → bnz_any_parsed.op0.cond_code =
          br_flag_class "bnz" <<< 2 ||| any <<< 1 ||| br_negate "bnz") ∧
        (bnz_any_parsed.op0.cond_code ≤ 11 ∨ bnz_any_parsed.op0.cond_code = 15) :=
  branch_parse_instr_cond bnz_any_tokens bnz_any_parsed bnz_any_text "bnz"
    { bnz_any_line.op0 with cond_code := CC_DEFAULT } (by decide) (by decide) (by decide)

/-- C22 (the code). For a semaphore record that `lisem_parse_instr` accepts, whatever the
immediate `imm` is: `lisem_resolve_instr` returns the record unchanged with `ERR_SUCCESS`
and `lisem_gen_code` encodes it, with the low word `imm mod 16` for semup and
`imm mod 16 + 16` for semdn. No step compares `imm` with 15. -/
theorem sem_index_not_checked (i i1 : instr) (buf : List Char)
    (ht : i.op0.type = .OP_TYPE_SEM)
    (hp : lisem_parse_instr i buf = some (.ERR_SUCCESS, i1)) :
    ∃ imm, i1.op0.src0 = .ST_IMM32 imm ∧
      lisem_resolve_instr i1 = some (.ERR_SUCCESS, i1) ∧
      ∃ j, lisem_gen_code i1 = some j ∧
        j.encoding0 = (if i.op0.code = OP_SEMDN then imm % 16 + 16 else imm % 16) := by
  unfold lisem_parse_instr at hp
  simp only [ht, reduceCtorEq, if_false] at hp
  obtain ⟨c, t, imm, _, rfl⟩ := sem_parse_instr_success hp
  refine ⟨imm, rfl, ?_, ?_⟩
  · unfold lisem_resolve_instr
    simp only [ht, if_true]
  · unfold lisem_gen_code
    simp only [ht, if_true]
    refine ⟨_, rfl, ?_⟩
    have e : imm &&& 0xf = imm % 16 := by
      have := Nat.and_pow_two_sub_one_eq_mod imm 4
      norm_num at this
      exact this
    simp only [e]
    split
    · rw [or_shl_eq_add 1 4 (by omega)]
      unfold u32
      omega
    · unfold u32
      omega

/-- C22 at a concrete input: the line `semup, 16;`, whose low word is 0. -/
theorem sem_index_not_checked_witness :
    ∃ imm, semup_16_parsed.op0.src0 = .ST_IMM32 imm ∧
      lisem_resolve_instr semup_16_parsed = some (.ERR_SUCCESS, semup_16_parsed) ∧
      ∃ j, lisem_gen_code semup_16_parsed = some j ∧
        j.encoding0 = (if semup_16_tokens.op0.code = OP_SEMDN then imm % 16 + 16 else imm % 16) :=
  sem_index_not_checked semup_16_tokens semup_16_parsed semup_16_text (by decide) (by decide)

/-- C23. Whenever `parse_instr` succeeds on a line whose mnemonic `m` is a load-immediate
or semaphore mnemonic, the `unpack` member of the record is 0 for `li`, 1 for `lis`, 3 for
`liu` and 4 for `semup` and `semdn`; this is the value that the `switch` of the earlier
revision's `parse_op_load_imm` assigns for the code that `g_op_info` gives the mnemonic. -/
theorem parse_instr_unpack (i0 i : instr) (buf : List Char)
    (h : parse_instr i0 buf = some (.ERR_SUCCESS, i)) :
    ∃ i1 m,
      get_next_token
        { i0 with
          unpack := 0
          signal := 1
          set_flag := 0
          write_swap := 0
          op0 := { i0.op0 with cond_code := CC_DEFAULT }
          op1 := { i0.op1 with cond_code := CC_DEFAULT } } buf = some (.ERR_SUCCESS, i1, m) ∧
      (m = "li" → i.unpack = 0) ∧ (m = "lis" → i.unpack = 1) ∧ (m = "liu" → i.unpack = 3) ∧
      (m = "semup" → i.unpack = 4) ∧ (m = "semdn" → i.unpack = 4) ∧
      (∀ e ∈ g_op_info_load, e.1 = m → parse_op_load_imm_unpack e.2 = some i.unpack) := by
  obtain ⟨i1, m, o0, g1, ho0, hli, hsem⟩ := parse_instr_lisem h
  have key : ∀ (name : String) (ty : op_code_type) (code : Nat),
      (∀ o : op, parse_op_code name o = some { o with type := ty, code := code }) →
      m = name → o0.type = ty ∧ o0.code = code := by
    intro name ty code hname hm
    rw [hm, hname] at ho0
    simp only [Option.some.injEq] at ho0
    subst ho0
    exact ⟨rfl, rfl⟩
  have k_li := key "li" .OP_TYPE_LI OP_LI (fun _ => rfl)
  have k_lis := key "lis" .OP_TYPE_LI OP_LIS (fun _ => rfl)
  have k_liu := key "liu" .OP_TYPE_LI OP_LIU (fun _ => rfl)
  have k_up := key "semup" .OP_TYPE_SEM OP_SEMUP (fun _ => rfl)
  have k_dn := key "semdn" .OP_TYPE_SEM OP_SEMDN (fun _ => rfl)
  have u_li : m = "li" → i.unpack = 0 := fun hm => by
    obtain ⟨ty, cd⟩ := k_li hm
    rw [hli ty, cd]
    decide
  have u_lis : m = "lis" → i.unpack = 1 := fun hm => by
    obtain ⟨ty, cd⟩ := k_lis hm
    rw [hli ty, cd]
    decide
  have u_liu : m = "liu" → i.unpack = 3 := fun hm => by
    obtain ⟨ty, cd⟩ := k_liu hm
    rw [hli ty, cd]
    decide
  have u_up : m = "semup" → i.unpack = 4 := fun hm => hsem (k_up hm).1
  have u_dn : m = "semdn" → i.unpack = 4 := fun hm => hsem (k_dn hm).1
  refine ⟨i1, m, g1, u_li, u_lis, u_liu, u_up, u_dn, ?_⟩
  intro e he hm
  simp only [g_op_info_load, List.mem_cons, List.mem_singleton, List.not_mem_nil,
    or_false] at he
  rcases he with rfl | rfl | rfl | rfl | rfl
  · rw [u_li hm.symm]; decide
  · rw [u_lis hm.symm]; decide
  · rw [u_liu hm.symm]; decide
  · rw [u_up hm.symm]; decide
  · rw [u_dn hm.symm]; decide

/-- C23 at a concrete input: the line `lis, r0, r1, 16;`. -/
theorem parse_instr_unpack_witness :
    ∃ i1 m,
      get_next_token
        { lis_16_line with
          unpack := 0
          signal := 1
          set_flag := 0
          write_swap := 0
          op0 := { lis_16_line.op0 with cond_code := CC_DEFAULT }
          op1 := { lis_16_line.op1 with cond_code := CC_DEFAULT } } lis_16_text =
        some (.ERR_SUCCESS, i1, m) ∧
      (m = "li" → lis_16_parsed.unpack = 0) ∧ (m = "lis" → lis_16_parsed.unpack = 1) ∧
      (m = "liu" → lis_16_parsed.unpack = 3) ∧
      (m = "semup" → lis_16_parsed.unpack = 4) ∧ (m = "semdn" → lis_16_parsed.unpack = 4) ∧
      (∀ e ∈ g_op_info_load, e.1 = m → parse_op_load_imm_unpack e.2 = some lis_16_parsed.unpack) :=
  parse_instr_unpack lis_16_line lis_16_parsed lis_16_text (by decide)

/-- C24. On a tokenized line whose first mnemonic is an add-slot opcode and
whose two slots parse (`alu_parse_instr` succeeds, leaving the record `i3`), let `ts` be
the tokens between the slots and the `;`. If `ts` contains `sf` twice or two signal names,
`parse_instr` returns `ERR_SYNTAX`. If `ts` consists of at most one `sf` and at most one
signal name, in either order, `parse_instr` succeeds, `set_flag` is 1 exactly when `sf` is
among them (and 0 otherwise), and `signal` is the number of the signal name in `g_signals`,
or 1 when there is none. -/
theorem parse_instr_flags (i0 i1 i3 : instr) (buf : List Char) (m : String) (o0 : op)
    (ts : List String) (hc : i0.curr_token = -1)
    (g : get_next_token
      { i0 with unpack := 0, signal := 1, set_flag := 0, write_swap := 0,
                op0 := { i0.op0 with cond_code := CC_DEFAULT },
                op1 := { i0.op1 with cond_code := CC_DEFAULT } } buf =
      some (.ERR_SUCCESS, i1, m))
    (ho : parse_op_code m i1.op0 = some o0) (hty : o0.type = .OP_TYPE_ADD)
    (hp : alu_parse_instr { i1 with op0 := o0 } buf = some (.ERR_SUCCESS, i3))
    (ht : trailing_tokens buf ts i3) :
    ((2 ≤ ts.count "sf" ∨ 2 ≤ (ts.filter is_signal).length) →
      ∃ i', parse_instr i0 buf = some (.ERR_SYNTAX, i')) ∧
    ((∀ t ∈ ts, t = "sf" ∨ is_signal t = true) → ts.count "sf" ≤ 1 →
      (ts.filter is_signal).length ≤ 1 →
      ∃ i', parse_instr i0 buf = some (.ERR_SUCCESS, i') ∧
        (i'.set_flag = 1 ↔ "sf" ∈ ts) ∧ (i'.set_flag = 0 ∨ i'.set_flag = 1) ∧
        (∀ t ∈ ts, ∀ e ∈ g_signals, e.1 = t → i'.signal = e.2) ∧
        ((∀ t ∈ ts, is_signal t = false) → i'.signal = 1)) := by
  have f1 := tok_frame_get g
  have f2 := tok_frame_trans (tok_frame_ops i1 o0 i1.op1) (alu_parse_instr_frame hp)
  obtain ⟨_, hnum, _⟩ := get_next_token_cursor g
  obtain ⟨a1, a2, a3, a4⟩ := tok_frame_trans f1 f2
  simp only at a1 a2 a3 a4 hnum
  have hcur : i3.curr_token < i3.num_tokens := a4 (by rw [hc]; omega)
  have hlen := trailing_tokens_length buf ts i3 ht hcur
  have hpi : parse_instr i0 buf =
      parse_flags .OP_TYPE_ADD ((i3.num_tokens - i3.curr_token).toNat + 1) i3 buf := by
    unfold parse_instr
    simp only [next_token_eq _ g, ho, hty, hp, reduceCtorEq, if_false]
  obtain ⟨p1, p2⟩ := parse_flags_trailing buf ts ((i3.num_tokens - i3.curr_token).toNat + 1) i3
    ht (by omega) (Or.inl a2)
  simp only [a1, a2, ne_eq, not_true_eq_false, if_false, Nat.add_zero] at p1 p2
  rw [hpi]
  refine ⟨p1, fun hall hsf hsg => ?_⟩
  obtain ⟨i', r1, r2, r3, r4, r5⟩ := p2 hall hsf hsg
  refine ⟨i', r1, ?_, r3, ?_, r5⟩
  · rw [r2]
    simp
  · intro t ht e he het
    have := (signals_not_one e he).2.2
    rw [het] at this
    exact r4 t ht e.2 this

/-- C24 at a concrete input: the line `add, r0, r1, r2 - sf ldtm0;`. -/
theorem parse_instr_flags_witness :
    ((2 ≤ ["sf", "ldtm0"].count "sf" ∨ 2 ≤ (["sf", "ldtm0"].filter is_signal).length) →
      ∃ i', parse_instr add_sf_ldtm0_line add_sf_ldtm0_text = some (.ERR_SYNTAX, i')) ∧
    ((∀ t ∈ ["sf", "ldtm0"], t = "sf" ∨ is_signal t = true) → ["sf", "ldtm0"].count "sf" ≤ 1 →
      (["sf", "ldtm0"].filter is_signal).length ≤ 1 →
      ∃ i', parse_instr add_sf_ldtm0_line add_sf_ldtm0_text = some (.ERR_SUCCESS, i') ∧
        (i'.set_flag = 1 ↔ "sf" ∈ ["sf", "ldtm0"]) ∧ (i'.set_flag = 0 ∨ i'.set_flag = 1) ∧
        (∀ t ∈ ["sf", "ldtm0"], ∀ e ∈ g_signals, e.1 = t → i'.signal = e.2) ∧
        ((∀ t ∈ ["sf", "ldtm0"], is_signal t = false) → i'.signal = 1)) :=
  parse_instr_flags add_sf_ldtm0_line
    { add_sf_ldtm0_line with
      op0 := { add_sf_ldtm0_line.op0 with cond_code := CC_DEFAULT },
      op1 := { add_sf_ldtm0_line.op1 with cond_code := CC_DEFAULT }, curr_token := 0 }
    add_sf_ldtm0_slots add_sf_ldtm0_text "add"
    { add_sf_ldtm0_line.op0 with type := .OP_TYPE_ADD, code := 12, cond_code := CC_DEFAULT }
    ["sf", "ldtm0"] (by decide) (by decide) (by decide) (by decide) (by decide)
    ⟨by decide, { add_sf_ldtm0_slots with curr_token := 8 }, by decide,
      by decide, { add_sf_ldtm0_slots with curr_token := 9 }, by decide,
      { add_sf_ldtm0_slots with curr_token := 10 }, by decide⟩

/-- C25 (as stated, refuted). The span `[0, 514)` of `many_commas_text` holds 514 commas
and no `;`, and `tokenize_instr` does not return `ERR_SYNTAX` on it: the
`assert(k < MAX_TOKENS_PER_LINE)` fails when the 513th token is closed. -/
theorem tokenize_instr_no_semicolon_abort :
    (∀ j, j < 514 → many_commas_text.getD j (Char.ofNat 0) ≠ ';') ∧
      tokenize_instr blank_line many_commas_text 0 514 = none := by
  refine ⟨fun j h => ?_, ?_⟩
  · rw [many_commas_getD j h]
    decide
  · exact tokenize_instr_scan_none _ _ _ _ (many_commas_scan (514 - 0) (by decide) _)

/-- C25 (amended). On a span `[pos, end_)`, `pos ≤ end_`, that contains no `;`, let `t`
be the number of tokens the loop closes over the span (`span_tokens`). If `t` is at most
`MAX_TOKENS_PER_LINE` = 512, `tokenize_instr` returns `ERR_SYNTAX`; if `t` is above 512,
an `assert(k < MAX_TOKENS_PER_LINE)` fails and nothing is returned. `t` is at most the
number of characters of the span, so every span of at most 512 characters returns
`ERR_SYNTAX`. -/
theorem tokenize_instr_no_semicolon (ins : instr) (buf : List Char) (pos end_ : Nat)
    (hpe : pos ≤ end_)
    (hs : ∀ j, pos ≤ j → j < end_ → buf.getD j (Char.ofNat 0) ≠ ';') :
    (span_tokens buf (end_ - pos) pos false ≤ MAX_TOKENS_PER_LINE →
      ∃ i', tokenize_instr ins buf pos end_ = some (.ERR_SYNTAX, i')) ∧
    (MAX_TOKENS_PER_LINE < span_tokens buf (end_ - pos) pos false →
      tokenize_instr ins buf pos end_ = none) ∧
    span_tokens buf (end_ - pos) pos false ≤ end_ - pos ∧
    (end_ - pos ≤ MAX_TOKENS_PER_LINE →
      ∃ i', tokenize_instr ins buf pos end_ = some (.ERR_SYNTAX, i')) := by
  obtain ⟨c1, c2⟩ := tokenize_scan_count buf (end_ - pos) pos none 0
    { ins with curr_token := -1 } (fun j a b => hs j a (by omega)) (Nat.zero_le _)
  simp only [Option.isSome_none, Nat.zero_add] at c1 c2
  have hle := span_tokens_le buf (end_ - pos) pos false
  simp only [Bool.false_eq_true, if_false, Nat.add_zero] at hle
  have key : span_tokens buf (end_ - pos) pos false ≤ MAX_TOKENS_PER_LINE →
      ∃ i', tokenize_instr ins buf pos end_ = some (.ERR_SYNTAX, i') := by
    intro hc
    obtain ⟨ins', hr⟩ := c1 hc
    exact ⟨ins', by simp [tokenize_instr, hr, hpe]⟩
  refine ⟨key, ?_, hle, fun hl => key (le_trans hle hl)⟩
  intro hc
  exact tokenize_instr_scan_none _ _ _ _ (c2 hc)

/-- C25 at two concrete inputs: the first four characters of `- - ;`, and a line of 600
letters, which is longer than 512 characters and closes no token. -/
theorem tokenize_instr_no_semicolon_witness :
    (∃ i', tokenize_instr blank_line nop_nop_spaced_text 0 4 = some (.ERR_SYNTAX, i')) ∧
    (∃ i', tokenize_instr blank_line long_word_text 0 600 = some (.ERR_SYNTAX, i')) :=
  ⟨(tokenize_instr_no_semicolon blank_line nop_nop_spaced_text 0 4 (by decide)
      (by intro j _ h; interval_cases j <;> decide)).2.2.2 (by decide),
   (tokenize_instr_no_semicolon blank_line long_word_text 0 600 (by decide)
      (by intro j _ h; rw [long_word_getD j h]; decide)).1
      (by rw [long_word_tokens]; decide)⟩

/-- C26 (the code diverges). The line `- - ;` contains a `;`, at index 4 and nowhere
before, and `tokenize_instr` returns `ERR_SYNTAX` on it: the `;` follows a blank, so the
loop takes it for the first character of a new token and reaches the end of the span. On
`- -;`, where the `;` follows a token character, it succeeds with the tokens `-`, `-`,
`;`. The `tokenize` of the earlier revision tests the delimiters at every character and
records the three tokens `[0,1)`, `[2,3)`, `[4,5)` on `- - ;`. -/
theorem tokenize_instr_semicolon_fails :
    nop_nop_spaced_text.getD 4 (Char.ofNat 0) = ';' ∧
    (∀ j, j < 4 → nop_nop_spaced_text.getD j (Char.ofNat 0) ≠ ';') ∧
    (tokenize_instr blank_line nop_nop_spaced_text 0 5).map (fun r => r.1) =
      some .ERR_SYNTAX ∧
    tokenize_instr blank_line nop_nop_text 0 4 = some (.ERR_SUCCESS, nop_nop_line) ∧
    Earlier.tokenize ⟨[], [], 0⟩ nop_nop_spaced_text 0 5 =
      some (Earlier.ESUCC, ⟨[0, 2, 4], [1, 3, 5], 3⟩) := by
  refine ⟨by decide, ?_, by decide, by decide, by decide⟩
  intro j h
  interval_cases j <;> decide

/-- C27 (as stated, refuted). The line `- -;` has three tokens. The fourth call of
`get_next_token` returns `ERR_SYNTAX` and leaves the cursor at `num_tokens`; the fifth
call, also a request past the end, moves the cursor beyond `num_tokens`, passes the
equality test and returns `ERR_SUCCESS` with the (empty) text of an unrecorded span. -/
theorem get_next_token_past_end_twice :
    nop_nop_line.num_tokens = 3 ∧
      (after_calls nop_nop_text 3 nop_nop_line).bind
        (fun i => (get_next_token i nop_nop_text).map fun r => (r.1, r.2.2)) =
        some (.ERR_SYNTAX, "") ∧
      (after_calls nop_nop_text 4 nop_nop_line).bind
        (fun i => (get_next_token i nop_nop_text).map fun r => (r.1, r.2.2)) =
        some (.ERR_SUCCESS, "") := by
  decide

/-- C27 (amended). On a tokenized record (cursor -1) with `n ≥ 1` tokens whose spans are
shorter than 512 characters, the `k`-th call of `get_next_token` (`1 ≤ k ≤ n`) succeeds,
returns the text of the `k`-th span and leaves the cursor on it, and the first call after
the `n`-th returns `ERR_SYNTAX`. -/
theorem get_next_token_calls (i : instr) (buf : List Char) (n : Nat)
    (hn : i.num_tokens = (n : Int)) (h1 : 1 ≤ n) (hc : i.curr_token = -1)
    (hs : ∀ j < n, i.token_start.getD j 0 ≤ i.token_end.getD j 0 ∧
      i.token_end.getD j 0 - i.token_start.getD j 0 < 512) :
    (∀ k, 1 ≤ k → k ≤ n → ∃ i1, after_calls buf (k - 1) i = some i1 ∧
      get_next_token i1 buf =
        some (.ERR_SUCCESS, { i with curr_token := (k : Int) - 1 }, token_text i buf (k - 1))) ∧
    (∃ i1, after_calls buf n i = some i1 ∧
      get_next_token i1 buf = some (.ERR_SYNTAX, { i with curr_token := (n : Int) }, "")) := by
  constructor
  · intro k hk1 hkn
    refine ⟨_, after_calls_spans buf i n hn hc hs (k - 1) (by omega), ?_⟩
    have h := get_next_token_next { i with curr_token := ((k - 1 : Nat) : Int) - 1 } buf (k - 1)
      (by simp) (by simp only [hn]; omega) (hs (k - 1) (by omega))
    rw [h]
    have e : ((k - 1 : Nat) : Int) = (k : Int) - 1 := by omega
    simp only [e]
    rfl
  · refine ⟨_, after_calls_spans buf i n hn hc hs n (le_refl n), ?_⟩
    have h := get_next_token_end { i with curr_token := (n : Int) - 1 } buf
      (by simp only [hn]; omega) (by simp only [hn]; omega)
    rw [h]
    simp only [hn]

/-- C27 at a concrete input: the three tokens of `- -;`. -/
theorem get_next_token_calls_witness :
    (∀ k, 1 ≤ k → k ≤ 3 → ∃ i1, after_calls nop_nop_text (k - 1) nop_nop_line = some i1 ∧
      get_next_token i1 nop_nop_text =
        some (.ERR_SUCCESS, { nop_nop_line with curr_token := (k : Int) - 1 },
          token_text nop_nop_line nop_nop_text (k - 1))) ∧
    (∃ i1, after_calls nop_nop_text 3 nop_nop_line = some i1 ∧
      get_next_token i1 nop_nop_text =
        some (.ERR_SYNTAX, { nop_nop_line with curr_token := ((3 : Nat) : Int) }, "")) :=
  get_next_token_calls nop_nop_line nop_nop_text 3 (by decide) (by decide) (by decide)
    (by decide)

/-- C28. `parse_dst_reg` and `alu_parse_src` return `ERR_SYNTAX` (`none`) exactly for the
strings that name no entry of their tables; for the name of an entry they return the
register file of the table that holds it and the number of the entry; a name occurs in one
table of a lookup only, and once; and the search gives the same result over every
reordering of the tables. -/
theorem operand_lookup (s : String) :
    (parse_dst_reg s = none ↔ ∀ p ∈ dst_tables, ∀ e ∈ p.2, e.1 ≠ s) ∧
    (alu_parse_src s = none ↔ ∀ p ∈ src_tables, ∀ e ∈ p.2, e.1 ≠ s) ∧
    (∀ p ∈ dst_tables, ∀ e ∈ p.2, e.1 = s → parse_dst_reg s = some { rf := p.1, num := e.2 }) ∧
    (∀ p ∈ src_tables, ∀ e ∈ p.2, e.1 = s →
      alu_parse_src s = some (.ST_REG { rf := p.1, num := e.2 })) ∧
    (∀ p ∈ dst_tables, ∀ q ∈ dst_tables, ∀ e ∈ p.2, ∀ e' ∈ q.2, e.1 = s → e'.1 = s →
      p = q ∧ e = e') ∧
    (∀ p ∈ src_tables, ∀ q ∈ src_tables, ∀ e ∈ p.2, ∀ e' ∈ q.2, e.1 = s → e'.1 = s →
      p = q ∧ e = e') ∧
    (∀ l, l.Perm dst_tables → lookup_tables l s = parse_dst_reg s) ∧
    (∀ l, l.Perm src_tables → (lookup_tables l s).map src.ST_REG = alu_parse_src s) := by
  have hd : ∀ p ∈ dst_tables, ∀ e ∈ p.2, e.1 = s →
      parse_dst_reg s = some { rf := p.1, num := e.2 } := by
    intro p hp e he hes
    rw [← hes]
    exact dst_tables_lookup p hp e he
  have hs : ∀ p ∈ src_tables, ∀ e ∈ p.2, e.1 = s →
      alu_parse_src s = some (.ST_REG { rf := p.1, num := e.2 }) := by
    intro p hp e he hes
    rw [← hes]
    exact src_tables_lookup p hp e he
  have dfile : ∀ p ∈ dst_tables, ∀ q ∈ dst_tables, p.1 = q.1 → p = q := by decide
  have sfile : ∀ p ∈ src_tables, ∀ q ∈ src_tables, p.1 = q.1 → p = q := by decide
  refine ⟨parse_dst_reg_none_iff s, alu_parse_src_none_iff s, hd, hs, ?_, ?_, ?_, ?_⟩
  · intro p hp q hq e he e' he' h1 h2
    have a := hd p hp e he h1
    have b := hd q hq e' he' h2
    rw [a] at b
    simp only [Option.some.injEq, reg.mk.injEq] at b
    refine ⟨dfile p hp q hq b.1, Prod.ext (h1.trans h2.symm) b.2⟩
  · intro p hp q hq e he e' he' h1 h2
    have a := hs p hp e he h1
    have b := hs q hq e' he' h2
    rw [a] at b
    simp only [Option.some.injEq, src.ST_REG.injEq, reg.mk.injEq] at b
    refine ⟨sfile p hp q hq b.1, Prod.ext (h1.trans h2.symm) b.2⟩
  · intro l hl
    cases h : lookup_tables l s with
    | none =>
      symm
      rw [parse_dst_reg_none_iff]
      intro p hp
      exact lookup_tables_none h p (hl.mem_iff.2 hp)
    | some r =>
      obtain ⟨p, hp, e, he, hes, hr⟩ := lookup_tables_some h
      rw [hd p (hl.mem_iff.1 hp) e he hes, hr]
  · intro l hl
    cases h : lookup_tables l s with
    | none =>
      symm
      simp only [Option.map_none']
      rw [alu_parse_src_none_iff]
      intro p hp
      exact lookup_tables_none h p (hl.mem_iff.2 hp)
    | some r =>
      obtain ⟨p, hp, e, he, hes, hr⟩ := lookup_tables_some h
      rw [hs p (hl.mem_iff.1 hp) e he hes, hr]
      rfl

/-- C29 (the code). The lines `add, r0, r1, rot1 fmul, r2, b1, r3;` and
`add, r0, r1, rot1 fmul, r2, a1, r3;` request a rotation (`rot1` is the small immediate
49); the first reads the file-B register `b1`, and in both the mul slot does not read two
accumulators. Both are tokenized and parsed, `alu_resolve_instr` accepts them with the
small-immediate signal 13, and `gen_code` encodes them. -/
theorem alu_resolve_instr_rotation_accepted :
    tokenize_instr blank_line rot_b_text 0 35 = some (.ERR_SUCCESS, rot_b_line) ∧
    parse_instr rot_b_line rot_b_text = some (.ERR_SUCCESS, rot_b_parsed) ∧
    (alu_resolve_instr rot_b_parsed).map (fun r => (r.1, r.2.signal)) =
      some (.ERR_SUCCESS, 13) ∧
    words (gen_code [] rot_b_parsed) = some (.ERR_SUCCESS, 738202619, 3489810466) ∧
    tokenize_instr blank_line rot_a_text 0 35 = some (.ERR_SUCCESS, rot_b_line) ∧
    parse_instr rot_b_line rot_a_text = some (.ERR_SUCCESS, rot_a_parsed) ∧
    (alu_resolve_instr rot_a_parsed).map (fun r => (r.1, r.2.signal)) =
      some (.ERR_SUCCESS, 13) ∧
    words (gen_code [] rot_a_parsed) = some (.ERR_SUCCESS, 738661363, 3489810466) := by
  decide

/-- C30 (as stated, refuted). The instruction `add, r0, a1, 3 - ldtm0;` reads the file-A
register `a1` and the small immediate 3, which can be packed into one A-port value and
one B-port value, and `alu_resolve_src_regfiles` rejects it: a small immediate is read
while the signal is not 1. -/
theorem alu_resolve_src_regfiles_rejects_packed :
    alu_srcs_parsed add_a1_3_ldtm0 ∧ reads_packed add_a1_3_ldtm0 ∧
      alu_resolve_src_regfiles add_a1_3_ldtm0 = some (.ERR_SYNTAX, add_a1_3_ldtm0) := by
  refine ⟨⟨⟨"a1", by decide⟩, ⟨"3", by decide⟩, ⟨"r0", by decide⟩, ⟨"r0", by decide⟩⟩,
    ⟨1, 0, ?_⟩, by decide⟩
  intro r hr
  have : r = ⟨.RF_A, 1⟩ ∨ r = ⟨.RF_SIMM, 3⟩ ∨ r = ⟨.RF_R, 0⟩ := by
    simpa [alu_srcs, add_a1_3_ldtm0, instr_of_ops, add_r0_a1_3, add_nop_slot, alu_op_nop]
      using hr
  rcases this with rfl | rfl | rfl <;> simp

/-- C30 (amended). On four read operands produced by `alu_parse_src`,
`alu_resolve_src_regfiles` returns success exactly when, with `a`, `b`, `ab` and `s` the
numbers of distinct register numbers among the file-A, file-B, AB-file and
small-immediate reads, `s ≤ 1`, `s = 1` implies `signal = 1`, `a ≤ 1`, `b ≤ 1`, and
`ab = 0` or `a + b + ab ≤ 2`; otherwise it returns `ERR_SYNTAX`. In particular it accepts
every instruction that meets the two small-immediate conditions and whose register reads
can be packed into one A-port value and one B-port value. -/
theorem alu_resolve_src_regfiles_iff (i : instr) (hp : alu_srcs_parsed i) :
    ((∃ i', alu_resolve_src_regfiles i = some (.ERR_SUCCESS, i')) ↔
      distinct_reads i .RF_SIMM ≤ 1 ∧ (distinct_reads i .RF_SIMM = 1 → i.signal = 1) ∧
      distinct_reads i .RF_A ≤ 1 ∧ distinct_reads i .RF_B ≤ 1 ∧
      (distinct_reads i .RF_AB = 0 ∨
        distinct_reads i .RF_A + distinct_reads i .RF_B + distinct_reads i .RF_AB ≤ 2)) ∧
    ((∃ i', alu_resolve_src_regfiles i = some (.ERR_SUCCESS, i')) ∨
      ∃ i', alu_resolve_src_regfiles i = some (.ERR_SYNTAX, i')) ∧
    (reads_packed i → distinct_reads i .RF_SIMM ≤ 1 →
      (distinct_reads i .RF_SIMM = 1 → i.signal = 1) →
      ∃ i', alu_resolve_src_regfiles i = some (.ERR_SUCCESS, i')) := by
  obtain ⟨M, hM⟩ := alu_src_masks_some (alu_srcs_parsed_reg hp)
  obtain ⟨hnum, _⟩ := parsed_masks hp
  have key : (∃ i', alu_resolve_src_regfiles i = some (.ERR_SUCCESS, i')) ↔
      distinct_reads i .RF_SIMM ≤ 1 ∧ (distinct_reads i .RF_SIMM = 1 → i.signal = 1) ∧
      distinct_reads i .RF_A ≤ 1 ∧ distinct_reads i .RF_B ≤ 1 ∧
      (distinct_reads i .RF_AB = 0 ∨
        distinct_reads i .RF_A + distinct_reads i .RF_B + distinct_reads i .RF_AB ≤ 2) := by
    rw [alu_resolve_src_regfiles_iff_masks hp hM]
    have tS := mask_two_iff i M hM hnum .RF_SIMM (by decide)
    have tA := mask_two_iff i M hM hnum .RF_A (by decide)
    have tB := mask_two_iff i M hM hnum .RF_B (by decide)
    have zS := mask_zero_iff i M hM hnum .RF_SIMM (by decide)
    have zX := mask_zero_iff i M hM hnum .RF_AB (by decide)
    constructor
    · rintro ⟨h1, h2, h3, h4, h5⟩
      have s1 : distinct_reads i .RF_SIMM ≤ 1 := by
        by_contra hc
        exact h1 (tS.2 (by omega))
      have a1 : distinct_reads i .RF_A ≤ 1 := by
        by_contra hc
        exact h3 (tA.2 (by omega))
      have b1 : distinct_reads i .RF_B ≤ 1 := by
        by_contra hc
        exact h4 (tB.2 (by omega))
      refine ⟨s1, fun hs => h2 (fun c => ?_), a1, b1, ?_⟩
      · have := zS.1 c
        omega
      · rcases h5 with h5 | h5
        · exact Or.inl (zX.1 h5)
        · by_cases hx : distinct_reads i .RF_AB = 0
          · exact Or.inl hx
          · exact Or.inr ((ab_loop_count hp hM a1 b1 hx).1 h5)
    · rintro ⟨s1, hs, a1, b1, h5⟩
      refine ⟨fun c => ?_, fun c => hs ?_, fun c => ?_, fun c => ?_, ?_⟩
      · have := tS.1 c
        omega
      · have : distinct_reads i .RF_SIMM ≠ 0 := fun e => c (zS.2 e)
        omega
      · have := tA.1 c
        omega
      · have := tB.1 c
        omega
      · by_cases hx : distinct_reads i .RF_AB = 0
        · exact Or.inl (zX.2 hx)
        · rcases h5 with h5 | h5
          · exact absurd h5 hx
          · exact Or.inr ((ab_loop_count hp hM a1 b1 hx).2 h5)
  refine ⟨key, ?_, fun hk s1 hs => ?_⟩
  · obtain ⟨e, i', h, he⟩ := alu_resolve_src_regfiles_returns hp
    rcases he with rfl | rfl
    · exact Or.inl ⟨i', h⟩
    · exact Or.inr ⟨i', h⟩
  · obtain ⟨a1, b1, h5⟩ := reads_packed_counts hp hk
    exact key.2 ⟨s1, hs, a1, b1, h5⟩

/-- C30 at a concrete input: `add r0, unif, vary  fmul r1, unif, r2`. -/
theorem alu_resolve_src_regfiles_iff_witness :
    ((∃ i', alu_resolve_src_regfiles unif_vary_unif = some (.ERR_SUCCESS, i')) ↔
      distinct_reads unif_vary_unif .RF_SIMM ≤ 1 ∧
      (distinct_reads unif_vary_unif .RF_SIMM = 1 → unif_vary_unif.signal = 1) ∧
      distinct_reads unif_vary_unif .RF_A ≤ 1 ∧ distinct_reads unif_vary_unif .RF_B ≤ 1 ∧
      (distinct_reads unif_vary_unif .RF_AB = 0 ∨
        distinct_reads unif_vary_unif .RF_A + distinct_reads unif_vary_unif .RF_B +
          distinct_reads unif_vary_unif .RF_AB ≤ 2)) ∧
    ((∃ i', alu_resolve_src_regfiles unif_vary_unif = some (.ERR_SUCCESS, i')) ∨
      ∃ i', alu_resolve_src_regfiles unif_vary_unif = some (.ERR_SYNTAX, i')) ∧
    (reads_packed unif_vary_unif → distinct_reads unif_vary_unif .RF_SIMM ≤ 1 →
      (distinct_reads unif_vary_unif .RF_SIMM = 1 → unif_vary_unif.signal = 1) →
      ∃ i', alu_resolve_src_regfiles unif_vary_unif = some (.ERR_SUCCESS, i')) :=
  alu_resolve_src_regfiles_iff unif_vary_unif
    ⟨⟨"unif", by decide⟩, ⟨"vary", by decide⟩, ⟨"unif", by decide⟩, ⟨"r2", by decide⟩⟩

/-- C31 (the code). The line `add, r0, b1, 3 -;` reads the file-B register `b1` and the
small immediate 3. It is tokenized and parsed, `alu_resolve_instr` accepts it with both
reads kept (signal 13), and `gen_code` encodes both reads with the mux selector 7 while
the field `raddr_b` holds 3 only: the words are those of `add, r0, 3, 3 -;`. Two file-B
registers of different numbers (`add, r0, b1, b2 -;`) are rejected. -/
theorem alu_gen_code_b_and_simm :
    tokenize_instr blank_line add_b1_3_text 0 17 = some (.ERR_SUCCESS, add_b1_3_line) ∧
    parse_instr add_b1_3_line add_b1_3_text = some (.ERR_SUCCESS, add_b1_3_parsed) ∧
    alu_resolve_instr add_b1_3_parsed = some (.ERR_SUCCESS, add_b1_3_resolved) ∧
    add_b1_3_resolved.op0.src0 = .ST_REG ⟨.RF_B, 1⟩ ∧
    add_b1_3_resolved.op0.src1 = .ST_REG ⟨.RF_SIMM, 3⟩ ∧
    words (gen_code [] add_b1_3_parsed) = some (.ERR_SUCCESS, 201342912, 3489794048) ∧
    bits_get 201342912 ADD_A = 7 ∧ bits_get 201342912 ADD_B = 7 ∧
    bits_get 201342912 RADDR_B = 3 ∧
    words (gen_code [] add_3_3_parsed) = some (.ERR_SUCCESS, 201342912, 3489794048) ∧
    alu_resolve_instr add_b1_b2_parsed = some (.ERR_SYNTAX, add_b1_b2_parsed) := by
  decide

/-- C32. For an ALU instruction whose four reads are registers of the source tables and
which has no explicit signal, and the earlier revision's record with the same four reads,
a mul opcode outside the rotate range, ALU conditions and no destination collision (so
that `verify_alu` reaches the read operands): `alu_resolve_src_regfiles` returns
`ERR_SYNTAX` exactly when `verify_alu` returns `-EINVAL`, it returns `ERR_SUCCESS`
exactly when `verify_alu` returns `ESUCC`, and on success each of the four reads is in
the same register file in both records. -/
theorem alu_resolve_src_regfiles_verify_alu (rotr5 rot15 : Nat) (i : instr)
    (e : Earlier.instr) (hp : alu_srcs_parsed i) (hsig : i.signal = 1)
    (hr : same_reads i e.op)
    (hrot : ¬ (rotr5 ≤ e.op.code1 ∧ e.op.code1 ≤ rot15))
    (hcc : e.op.cc0 < Earlier.CC_ALL_Z ∧ e.op.cc1 < Earlier.CC_ALL_Z)
    (hdst : ¬ (e.op.dst0.num = e.op.dst1.num ∧ e.op.dst0.num > 31 ∧ e.op.dst0.num ≠ 39)) :
    ((∃ i', alu_resolve_src_regfiles i = some (.ERR_SYNTAX, i')) ↔
      (Earlier.verify_alu rotr5 rot15 e).1 = -Earlier.EINVAL) ∧
    ((∃ i', alu_resolve_src_regfiles i = some (.ERR_SUCCESS, i')) ↔
      (Earlier.verify_alu rotr5 rot15 e).1 = Earlier.ESUCC) ∧
    (∀ i', alu_resolve_src_regfiles i = some (.ERR_SUCCESS, i') →
      same_reads i' (Earlier.verify_alu rotr5 rot15 e).2.op) := by
  obtain ⟨k0, k1, k2, k3, _⟩ := resolve_dst_regs_keeps e
  have hr1 : same_reads i (Earlier.resolve_dst_regs e).op := by
    obtain ⟨r0, r1, r2, r3, s0, s1, s2, s3, t0, t1, t2, t3⟩ := hr
    exact ⟨r0, r1, r2, r3, s0, s1, s2, s3, k0.trans t0, k1.trans t1, k2.trans t2, k3.trans t3⟩
  rw [verify_alu_non_rot rotr5 rot15 e hrot hcc hdst]
  generalize Earlier.resolve_dst_regs e = e1 at hr1 ⊢
  have hr2 := hr1
  obtain ⟨r0, r1, r2, r3, s0, s1, s2, s3, t0, t1, t2, t3⟩ := hr1
  obtain ⟨M, hM⟩ := alu_src_masks_some (alu_srcs_parsed_reg hp)
  obtain ⟨hnum, hdis⟩ := parsed_masks hp
  obtain ⟨_, hbit, hlt⟩ := alu_src_masks_spec hM
  have hL : alu_srcs i = [.ST_REG r0, .ST_REG r1, .ST_REG r2, .ST_REG r3] := by
    simp [alu_srcs, s0, s1, s2, s3]
  have q0 : src.ST_REG r0 ∈ alu_srcs i := by simp [hL]
  have q1 : src.ST_REG r1 ∈ alu_srcs i := by simp [hL]
  have q2 : src.ST_REG r2 ∈ alu_srcs i := by simp [hL]
  have q3 : src.ST_REG r3 ∈ alu_srcs i := by simp [hL]
  have mc := src_masks_conv hM hr2
  have mS : Earlier.src_masks e1.op .RF_SIMM = M .RF_SIMM := mc .RF_SIMM (by decide)
  have mA : Earlier.src_masks e1.op .RF_A = M .RF_A := mc .RF_A (by decide)
  have mB : Earlier.src_masks e1.op .RF_B = M .RF_B := mc .RF_B (by decide)
  obtain ⟨pk, pt, ps⟩ := verify_alu_srcs_plain e1 (Earlier.src_masks e1.op)
  have free : ∀ r : reg, src.ST_REG r ∈ alu_srcs i → earlier_rf r.rf = .RF_AB →
      Earlier.src_masks e1.op .RF_A &&& mask_of r.num = 0 ∧
      Earlier.src_masks e1.op .RF_B &&& mask_of r.num = 0 := by
    intro r hmem hrf
    have hab : r.rf = .RF_AB := earlier_rf_inj (f := r.rf) (g := .RF_AB) hrf
    rw [mA, mB]
    exact ab_bit_free hp hM r.num (by rw [← hab]; exact hmem)
  have hfold : Earlier.fold_ab (Earlier.src_masks e1.op, e1.op) =
      (Earlier.src_masks e1.op, e1.op) := by
    apply fold_ab_id
    intro k hk
    interval_cases k
    · have g : Earlier.get_src e1.op 0 = earlier_reg r0 := t0
      rw [g]
      exact free r0 q0
    · have g : Earlier.get_src e1.op 1 = earlier_reg r1 := t1
      rw [g]
      exact free r1 q1
    · have g : Earlier.get_src e1.op 2 = earlier_reg r2 := t2
      rw [g]
      exact free r2 q2
    · have g : Earlier.get_src e1.op 3 = earlier_reg r3 := t3
      rw [g]
      exact free r3 q3
  rw [hfold] at pk ps
  rw [mS, mA, mB, count_ones_two (hlt _), count_ones_two (hlt _), count_ones_two (hlt _)] at pk
  have L := alu_resolve_src_regfiles_iff_masks hp hM
  obtain ⟨e0, j0, hres, he0⟩ := alu_resolve_src_regfiles_returns hp
  have inv : ∀ f, f ≠ .RF_R → ¬ two_bits (M f) → (M f = 0 ∨ ∃ p < 64, M f = mask_of p) := by
    intro f hf h2
    by_cases h0 : M f = 0
    · exact Or.inl h0
    · obtain ⟨p, h64, e, _⟩ := mask_single i M hM hnum f hf h2 h0
      exact Or.inr ⟨p, h64, e⟩
  have sim := fun (a3 : ¬ two_bits (M .RF_A)) (a4 : ¬ two_bits (M .RF_B)) =>
    place_ab_sim M (Earlier.src_masks e1.op) e1.op r0 r1 r2 r3 t0 t1 t2 t3 mA mB
      (inv .RF_A (by decide) a3) (inv .RF_B (by decide) a4)
      (hnum _ q0) (hnum _ q1) (hnum _ q2) (hnum _ q3)
  have key : (∃ i', alu_resolve_src_regfiles i = some (.ERR_SUCCESS, i')) ↔
      (Earlier.verify_alu_srcs e1 false (Earlier.src_masks e1.op)).1 = Earlier.ESUCC := by
    rw [L, pk]
    constructor
    · rintro ⟨a1, _, a3, a4, a5⟩
      refine ⟨a1, a3, a4, ?_⟩
      rcases sim a3 a4 with ⟨hnone, _⟩ | ⟨m4, f0, f1, f2, f3, _, htrue, _⟩
      · exfalso
        rw [← hL] at hnone
        rcases a5 with hz | ⟨_, hsome⟩
        · have := ab_chain_run (ab_chain_refl hM hnum hz)
          rw [show [i.op0.src0, i.op0.src1, i.op1.src0, i.op1.src1] = alu_srcs i from rfl,
            hnone] at this
          simp at this
        · rw [hnone] at hsome
          simp at hsome
      · exact htrue
    · rintro ⟨a1, a3, a4, a5⟩
      have hsome : (ab_run M (alu_srcs i)).isSome := by
        rcases sim a3 a4 with ⟨_, hfalse⟩ | ⟨m4, f0, f1, f2, f3, hchain, _⟩
        · rw [hfalse] at a5
          simp at a5
        · rw [hL, ab_chain_run hchain]
          rfl
      refine ⟨a1, fun _ => hsig, a3, a4, ?_⟩
      by_cases hz : M .RF_AB = 0
      · exact Or.inl hz
      · exact Or.inr ⟨ab_run_both_full hp hM (inv .RF_A (by decide) a3)
          (inv .RF_B (by decide) a4) hsome hz, hsome⟩
  refine ⟨?_, key, ?_⟩
  · constructor
    · rintro ⟨i', h⟩
      rcases pt with p | p
      · obtain ⟨i'', h'⟩ := key.2 p
        rw [h] at h'
        simp at h'
      · exact p
    · intro h
      rcases he0 with rfl | rfl
      · have := key.1 ⟨j0, hres⟩
        rw [h] at this
        exact absurd this (by decide)
      · exact ⟨j0, hres⟩
  · intro i' h
    have hok := key.1 ⟨i', h⟩
    obtain ⟨p0, p1, p2, p3⟩ := ps hok
    obtain ⟨M', m4', b0, b1, b2, b3, hM', _, a3, a4, _, hchain', rfl⟩ :=
      alu_resolve_src_regfiles_success hnum h
    rw [hM] at hM'
    simp only [Option.some.injEq] at hM'
    subst hM'
    rw [s0, s1, s2, s3] at hchain'
    rcases sim a3 a4 with ⟨hnone, _⟩ | ⟨m4, f0, f1, f2, f3, hchain, _, g0, g1, g2, g3⟩
    · rw [ab_chain_run hchain'] at hnone
      simp at hnone
    · obtain ⟨rfl, rfl, rfl, rfl⟩ := ab_chain_unique hchain' hchain
      exact ⟨⟨f0, r0.num⟩, ⟨f1, r1.num⟩, ⟨f2, r2.num⟩, ⟨f3, r3.num⟩, rfl, rfl, rfl, rfl,
        p0.trans g0, p1.trans g1, p2.trans g2, p3.trans g3⟩

/-- C32 at a concrete input: `add r0, unif, vary  fmul r1, unif, r2` in both revisions,
with the rotate range at the places 58..73 of `enum op_code`. -/
theorem alu_resolve_src_regfiles_verify_alu_witness :
    ((∃ i', alu_resolve_src_regfiles unif_vary_unif = some (.ERR_SYNTAX, i')) ↔
      (Earlier.verify_alu 58 73 earlier_unif_vary_unif).1 = -Earlier.EINVAL) ∧
    ((∃ i', alu_resolve_src_regfiles unif_vary_unif = some (.ERR_SUCCESS, i')) ↔
      (Earlier.verify_alu 58 73 earlier_unif_vary_unif).1 = Earlier.ESUCC) ∧
    (∀ i', alu_resolve_src_regfiles unif_vary_unif = some (.ERR_SUCCESS, i') →
      same_reads i' (Earlier.verify_alu 58 73 earlier_unif_vary_unif).2.op) :=
  alu_resolve_src_regfiles_verify_alu 58 73 unif_vary_unif earlier_unif_vary_unif
    ⟨⟨"unif", by decide⟩, ⟨"vary", by decide⟩, ⟨"unif", by decide⟩, ⟨"r2", by decide⟩⟩ rfl
    ⟨⟨.RF_AB, 32⟩, ⟨.RF_AB, 35⟩, ⟨.RF_AB, 32⟩, ⟨.RF_R, 2⟩, rfl, rfl, rfl, rfl, rfl, rfl, rfl, rfl⟩
    (by decide) (by decide) (by decide)

/-- C33. For a mnemonic `m` of `g_op_codes_mul` with code `c`, and an ALU instruction
with parsed reads whose mul slot holds the code that `parse_op_code` stores for `m`
(30 for `v8adds` and 31 for `v8subs`, from the add table): whenever `alu_resolve_instr`
succeeds and leaves the mul slot executed (its condition is not Never, so it was not
reduced to a NOP), `alu_gen_code` returns and the field `mul_op` of the low word is
`c`. -/
theorem alu_gen_code_mul_op_table (m : String) (c : Nat) (o : op) (i i' : instr)
    (hm : (m, c) ∈ g_op_codes_mul)
    (hcode : (parse_op_code m o).map (fun x => x.code) = some i.op1.code)
    (hp : alu_srcs_parsed i)
    (h : alu_resolve_instr i = some (.ERR_SUCCESS, i'))
    (hn : i'.op1.cond_code ≠ CC_NEVER) :
    (m = "v8adds" → i.op1.code = 30) ∧ (m = "v8subs" → i.op1.code = 31) ∧
    ∃ j, alu_gen_code i' = some j ∧ bits_get j.encoding0 MUL_OP = c := by
  obtain ⟨t1, t2⟩ := mul_table_codes (m, c) hm
  simp only at t1 t2
  rw [parse_op_code_code m o mul_nop_slot, t1] at hcode
  simp only [Option.some.injEq] at hcode
  obtain ⟨M, m4, b0, b1, b2, b3, _, _, _, _, _, _, ⟨d1, e1⟩, _⟩ := alu_resolve_instr_shape hp h
  have hkeep : i'.op1.code = i.op1.code := by
    rw [e1] at hn ⊢
    exact alu_reduce_op_code _ hn
  obtain ⟨_, _, _, _, j, _, _, _, _, _, _, _, _, _, _, hj⟩ := alu_resolve_instr_gen hp h
  refine ⟨?_, ?_, j, hj, ?_⟩
  · intro e
    rw [← hcode, if_pos e]
  · intro e
    rw [← hcode, if_neg (by rw [e]; decide), if_pos e]
  · rw [alu_gen_code_mul_op hj, hkeep, ← hcode]
    exact t2

/-- C33 at a concrete input: the line `add, r0, r1, r2 v8adds, r3, r1, r2;`, whose mul
slot holds the code 30 and whose field `mul_op` is 6. -/
theorem alu_gen_code_mul_op_table_witness :
    parse_instr add_v8adds_line add_v8adds_text = some (.ERR_SUCCESS, add_v8adds_parsed) ∧
    ("v8adds" = "v8adds" → add_v8adds_parsed.op1.code = 30) ∧
    ("v8adds" = "v8subs" → add_v8adds_parsed.op1.code = 31) ∧
    ∃ j, alu_gen_code add_v8adds_resolved = some j ∧ bits_get j.encoding0 MUL_OP = 6 :=
  ⟨by decide,
    alu_gen_code_mul_op_table "v8adds" 6 mul_nop_slot add_v8adds_parsed add_v8adds_resolved
      (by decide) (by decide)
      ⟨⟨"r1", by decide⟩, ⟨"r2", by decide⟩, ⟨"r1", by decide⟩, ⟨"r2", by decide⟩⟩
      (by decide) (by decide)⟩

/-- C34 (the code). `alu_parse_instr` accepts the add-only mnemonic `add` in the mul-slot
position of `add, r0, r1, r2 add, r3, r1, r2;` and stores its add-table type and code 12
in the mul slot; `parse_instr` succeeds on the line, and `gen_code` encodes it with the
field `mul_op` equal to 12 mod 8 = 4, the code of `v8min` in `g_op_codes_mul`. It also
accepts the load-immediate mnemonic `li` in `add, r0, r1, r2 li;` and synthesizes the NOP
mul slot for it, as it does for every mnemonic with code 0 (`li`, `semup`, `b`). -/
theorem alu_parse_instr_mul_slot_unchecked :
    tokenize_instr blank_line add_add_text 0 32 = some (.ERR_SUCCESS, add_add_line) ∧
    alu_parse_instr add_add_tokens add_add_text = some (.ERR_SUCCESS, add_add_slots) ∧
    parse_instr add_add_line add_add_text =
      some (.ERR_SUCCESS, { add_add_slots with curr_token := 14 }) ∧
    find_name g_op_codes_mul "add" = none ∧
    words (gen_code [] { add_add_slots with curr_token := 14 }) =
      some (.ERR_SUCCESS, 2348810890, 268584995) ∧
    bits_get 2348810890 MUL_OP = 4 ∧ ("v8min", 4) ∈ g_op_codes_mul ∧
    tokenize_instr blank_line add_li_text 0 19 = some (.ERR_SUCCESS, add_li_line) ∧
    alu_parse_instr add_li_tokens add_li_text = some (.ERR_SUCCESS, add_li_slots) ∧
    parse_instr add_li_line add_li_text =
      some (.ERR_SUCCESS, { add_li_slots with curr_token := 8 }) ∧
    (∀ t ∈ ["li", "semup", "b"], ∀ o : op,
      (parse_op_code t o).map (fun x => x.code) = some 0 ∧
        find_name g_op_codes_mul t = none) := by
  refine ⟨by decide, by decide, by decide, by decide, by decide, by decide, by decide,
    by decide, by decide, by decide, ?_⟩
  intro t ht o
  rw [parse_op_code_code t o mul_nop_slot]
  revert t
  decide

/-- C35. For a label-form branch (first source the label `l`) whose destinations resolve,
and a program in which the instruction at index `k` carries `l` and no instruction at a
smaller index does (whatever the later instructions carry), `branch_resolve_instr`
succeeds and stores the displacement from the instruction at index `k`:
`pc_k - (pc + 32)` as a 32-bit value. -/
theorem branch_resolve_instr_first_label (instrs : List instr) (i i1 t : instr)
    (l : String) (k : Nat)
    (hd : resolve_dst_regfiles i = some (.ERR_SUCCESS, i1))
    (hl : i.op0.src0 = .ST_LABEL l)
    (hk : instrs[k]? = some t) (hkl : l ∈ t.labels)
    (hmin : ∀ j < k, ∀ t', instrs[j]? = some t' → l ∉ t'.labels) :
    branch_resolve_instr instrs i =
      some (.ERR_SUCCESS,
        { i1 with
          op0 := { i1.op0 with src0 := .ST_IMM32 ((t.pc - (i.pc + 4 * 8)) % 2 ^ 32).toNat } }) := by
  have hf := find_target_first l instrs k t hk hkl hmin
  have h1 : i1.op0.src0 = .ST_LABEL l ∧ i1.pc = i.pc := by
    rcases resolve_dst_regfiles_returns i with e | ⟨f0, f1, ws, e⟩
    · rw [e] at hd
      simp at hd
    · rw [e] at hd
      simp only [Option.some.injEq, Prod.mk.injEq, true_and] at hd
      subst hd
      exact ⟨hl, rfl⟩
  unfold branch_resolve_instr
  rw [hd]
  simp only [h1.1, hf, h1.2]

/-- C35 at a concrete input: `L` is carried by the instructions at indices 2 and 3, and
the displacement is taken from index 2 (address 16): 16 - 32 as a 32-bit value. -/
theorem branch_resolve_instr_first_label_witness :
    branch_resolve_instr twice_labelled_program
        (branch_to_label [] 0 ⟨.RF_AB, 32⟩ ⟨.RF_AB, 33⟩ "L") =
      some (.ERR_SUCCESS,
        { branch_to_label [] 0 ⟨.RF_A, 32⟩ ⟨.RF_B, 33⟩ "L" with
          op0 :=
            { (branch_to_label [] 0 ⟨.RF_A, 32⟩ ⟨.RF_B, 33⟩ "L").op0 with
              src0 := .ST_IMM32 (((nop_at ["K", "L"] 16).pc - (0 + 4 * 8)) % 2 ^ 32).toNat } }) :=
  branch_resolve_instr_first_label twice_labelled_program
    (branch_to_label [] 0 ⟨.RF_AB, 32⟩ ⟨.RF_AB, 33⟩ "L")
    (branch_to_label [] 0 ⟨.RF_A, 32⟩ ⟨.RF_B, 33⟩ "L") (nop_at ["K", "L"] 16) "L" 2
    (by decide) rfl rfl (by decide)
    (by
      intro j hj t' ht'
      interval_cases j
      · simp only [twice_labelled_program, List.getElem?_cons_zero, Option.some.injEq] at ht'
        subst ht'
        decide
      · simp only [twice_labelled_program, List.getElem?_cons_succ, List.getElem?_cons_zero,
          Option.some.injEq] at ht'
        subst ht'
        decide)

/-- C36. For a record `i` that a successful `parse_instr` produced from a load-immediate
line (type LI) and whose two conditions are Never, `lisem_resolve_instr` succeeds and
leaves the ALU NOP: both slots of type ADD with opcode 0, condition Never, sources `r0`,
destinations `(A, 0)` and `(B, 0)`, signal 1 and `write_swap` 0; and `gen_code` returns
with the low word 0 and the high word `0x10000000 | set_flag<<13`, whatever the immediate
and the `unpack` member. -/
theorem lisem_never_is_alu_nop (i0 i : instr) (buf : List Char) (instrs : List instr)
    (hp : parse_instr i0 buf = some (.ERR_SUCCESS, i)) (ht : i.op0.type = .OP_TYPE_LI)
    (hc0 : i.op0.cond_code = CC_NEVER) (hc1 : i.op1.cond_code = CC_NEVER) :
    ∃ i' j, lisem_resolve_instr i = some (.ERR_SUCCESS, i') ∧
      i'.op0 = alu_nop_slot .RF_A ∧ i'.op1 = alu_nop_slot .RF_B ∧
      i'.signal = 1 ∧ i'.write_swap = 0 ∧
      gen_code instrs i = some (.ERR_SUCCESS, j) ∧ j.op0.type = .OP_TYPE_ADD ∧
      j.encoding0 = 0 ∧ j.encoding1 = 0x10000000 ||| i.set_flag <<< 13 := by
  obtain ⟨hsf, d0, d1⟩ := parse_instr_li hp ht
  obtain ⟨hr, hg⟩ := lisem_never_words i instrs ht hc0 hc1 (d0 hc0) (d1 hc1) hsf
  exact ⟨_, _, hr, rfl, rfl, rfl, rfl, hg, rfl, rfl, rfl⟩

/-- C36 at a concrete input: the line `li.x.x, r0, r1, 16 sf;`, whose words are 0 and
0x10002000. -/
theorem lisem_never_is_alu_nop_witness :
    ∃ i' j, lisem_resolve_instr li_x_parsed = some (.ERR_SUCCESS, i') ∧
      i'.op0 = alu_nop_slot .RF_A ∧ i'.op1 = alu_nop_slot .RF_B ∧
      i'.signal = 1 ∧ i'.write_swap = 0 ∧
      gen_code [] li_x_parsed = some (.ERR_SUCCESS, j) ∧ j.op0.type = .OP_TYPE_ADD ∧
      j.encoding0 = 0 ∧ j.encoding1 = 0x10000000 ||| li_x_parsed.set_flag <<< 13 :=
  lisem_never_is_alu_nop li_x_line li_x_parsed li_x_text [] (by decide) rfl rfl rfl

/-- C37 (the code). `parse_imm32` accepts hexadecimal literals with the digits `A`..`F`
and returns a wrong value for them: `0xA` gives 0xFFFFFFEA and `0x1F` gives 0xFFFFFFFF,
while `0xa` gives 10 and `0x1f` gives 31. -/
theorem parse_imm32_upper_hex :
    parse_imm32 "0xA" = some 4294967274 ∧ parse_imm32 "0xa" = some 10 ∧
    parse_imm32 "0x1F" = some 4294967295 ∧ parse_imm32 "0x1f" = some 31 ∧
    ishexdigit 'A' = true := by
  decide

/-- C38. For every flag class (Z, N, C), polarity and lane mode, the condition that
`branch_parse_instr` synthesizes (`branch_cond`, with `is_all` 0 after `.any` and 1 after
`.all` or -1 without a suffix) is the value that the earlier revision's `encode_cond_br`
returns for the `enum cc` member of that class, polarity and lane mode; the value is
`class<<2 | any<<1 | negate`, at most 11; and the unconditional branch is 15 in both. -/
theorem branch_cond_encode_cond_br :
    (∀ (cls : Fin 3) (negate all : Bool), ∀ is_all ∈ [(-1 : Int), 0, 1],
      (all = true ↔ is_all ≠ 0) →
      ((branch_cond (later_br_code cls negate) is_all : Nat) : Int) =
          Earlier.encode_cond_br (earlier_br_cc cls negate all) ∧
        branch_cond (later_br_code cls negate) is_all =
          cls.val <<< 2 ||| (if all then 0 else 1) <<< 1 ||| (if negate then 1 else 0) ∧
        branch_cond (later_br_code cls negate) is_all ≤ 11) ∧
    (∀ is_all : Int, branch_cond OP_B is_all = 15) ∧
    Earlier.encode_cond_br Earlier.CC_ALWAYS = 15 := by
  refine ⟨by decide, fun _ => rfl, by decide⟩

/-- C38 at a concrete input: `bnz.any` is 3 in both revisions (`CC_NZ` in the earlier
one). -/
theorem branch_cond_encode_cond_br_witness :
    ((branch_cond OP_BNZ 0 : Nat) : Int) = Earlier.encode_cond_br Earlier.CC_NZ ∧
      branch_cond OP_BNZ 0 = (0 : Fin 3).val <<< 2 ||| (if false then 0 else 1) <<< 1 |||
        (if true then 1 else 0) ∧
      branch_cond OP_BNZ 0 ≤ 11 :=
  branch_cond_encode_cond_br.1 0 true false 0 (by decide) (by decide)

/-- C39. Applying `alu_reduce_op` to its own result changes nothing: the second
application returns the same operation (type, opcode, condition, destination and both
sources) and the same error code as the first, for every operation (in particular for
every operation with register-typed sources). -/
theorem alu_reduce_op_idempotent (o : op) :
    alu_reduce_op (alu_reduce_op o).2 = alu_reduce_op o := by
  apply Prod.ext
  · rw [alu_reduce_op_err, alu_reduce_op_err]
  · rw [alu_reduce_op_eq (alu_reduce_op o).2, alu_reduce_op_eq o]
    by_cases h : (if is_nop_read o.src0 then 1 else 0) +
        (if is_nop_read o.src1 then 1 else 0) = 2 ∨
        (o.dst.num = 39 ∧
          (if is_io_read o.src0 then 1 else 0) + (if is_io_read o.src1 then 1 else 0) = 0) ∨
        o.cond_code = CC_NEVER
    · simp only [if_pos h]
      simp
    · simp only [if_neg h]
      have h' := h
      simp only [not_or] at h'
      obtain ⟨_, hd, hc⟩ := h'
      have hc' : ¬ (if o.cond_code = CC_DEFAULT then CC_ALWAYS else o.cond_code) = CC_NEVER := by
        split
        · decide
        · exact hc
      have hc2 : ¬ (if o.cond_code = CC_DEFAULT then CC_ALWAYS else o.cond_code) =
          CC_DEFAULT := by
        split
        · decide
        · assumption
      simp only [nop_read_reduced, io_read_reduced, if_false, hc', hc2, hd, or_self, if_true,
        Nat.add_zero, OfNat.zero_ne_ofNat, false_or]

end Qas
